import Mathlib

/-!
# esp8266-httpd: a shallow embedding of `httpd.c`

The connection state machine of `src/httpd.c` (an lwIP raw-API HTTP server)
is transcribed function by function.  Pointers into C buffers are modelled
by the bytes they designate, machine integers by `Nat` with explicit
reduction modulo `2 ^ w` where the C type can wrap, and the lwIP transport,
the allocator and the `webfs` resource provider (none of which is part of
`httpd.c`) are parameters.  A function returns `none` where the C code has
undefined behaviour (a null pointer is dereferenced, or a write goes to a
string constant).

The configuration is the one fixed by the defaults of `httpd.c` itself:
`LWIP_HTTPD_SUPPORT_EXTSTATUS = 0`, `LWIP_HTTPD_SUPPORT_V09 = 1`,
`LWIP_HTTPD_SUPPORT_REQUESTLIST = 0`, with dynamic headers and POST support
compiled in (the code uses `hs->hdrs` and `hs->post_content_len_left`
unconditionally).
-/

namespace Httpd

/-! ## Basic types -/

/-- The lwIP error codes (`err_t`). -/
inductive err_t where
  | ERR_OK
  | ERR_MEM
  | ERR_BUF
  | ERR_TIMEOUT
  | ERR_RTE
  | ERR_INPROGRESS
  | ERR_VAL
  | ERR_WOULDBLOCK
  | ERR_USE
  | ERR_ISCONN
  | ERR_ABRT
  | ERR_RST
  | ERR_CLSD
  | ERR_CONN
  | ERR_ARG
  | ERR_IF
  deriving DecidableEq, Repr

open err_t

/-- The terminating byte of a C string. -/
def NUL : Char := Char.ofNat 0

/-- The range of a `u16_t`. -/
def U16 : Nat := 65536

/-- The range of a `u32_t`. -/
def U32 : Nat := 4294967296

/-- The lwIP services `httpd.c` calls, over an arbitrary state `σ` of the
stack.  `tcp_write` receives the bytes designated by `(ptr, len)` and the
length; `snd_buf`, `snd_queuelen` and `mss` are the fields read by the lwIP
macros `tcp_sndbuf`, `tcp_sndqueuelen` and `tcp_mss`; `mem_malloc` reports
whether the allocation succeeded; `TCP_SND_QUEUELEN` is the lwIP option of
that name. -/
structure Tcp (σ : Type) where
  tcp_write : σ → List Char → Nat → err_t × σ
  snd_buf : σ → Nat
  snd_queuelen : σ → Nat
  mss : σ → Nat
  tcp_close : σ → err_t × σ
  mem_malloc : σ → Nat → Bool × σ
  TCP_SND_QUEUELEN : Nat

/-- `tcp_sndbuf(pcb)`: the `u16_t` field `snd_buf`. -/
def tcp_sndbuf {σ : Type} (T : Tcp σ) (pcb : σ) : Nat := T.snd_buf pcb % U16

/-- `tcp_sndqueuelen(pcb)`: the `u16_t` field `snd_queuelen`. -/
def tcp_sndqueuelen {σ : Type} (T : Tcp σ) (pcb : σ) : Nat := T.snd_queuelen pcb % U16

/-- `tcp_mss(pcb)`: the `u16_t` field `mss`. -/
def tcp_mss {σ : Type} (T : Tcp σ) (pcb : σ) : Nat := T.mss pcb % U16

/-! ## C strings and buffers -/

/-- The C string stored at the start of a memory region: the bytes before the
first NUL. -/
def cstring (mem : List Char) : List Char := mem.takeWhile (fun c => c != NUL)

/-- `strncmp(s1, s2, n) == 0`.  `s1` is a memory region; `s2` is a C string
given by its bytes, the end of the list being its terminator. -/
def strncmp_eq : List Char → List Char → Nat → Bool
  | _, _, 0 => true
  | [], _, _ + 1 => false
  | c :: _, [], _ + 1 => c == NUL
  | c :: cs, t :: ts, n + 1 =>
    if c != t then false else if c == NUL then true else strncmp_eq cs ts n

/-- The `for` loop of `strnstr` (lines 358-362): `off` is `p - buffer` and `n`
is what is left of the bound, so that `p + tokenlen <= buffer + n` reads
`tokenlen <= n`. -/
def strnstr_loop (token : List Char) : List Char → Nat → Nat → Option Nat
  | [], _, _ => none
  | c :: rest, n, off =>
    if c != NUL && decide (token.length ≤ n) then
      if token.head? == some c && strncmp_eq (c :: rest) token token.length then some off
      else strnstr_loop token rest (n - 1) (off + 1)
    else none

/-- `strnstr(buffer, token, n)` (lines 350-364): the offset of the match, or
`none` for `NULL`. -/
def strnstr (buffer token : List Char) (n : Nat) : Option Nat :=
  if token.length = 0 then some 0 else strnstr_loop token buffer n 0

/-- `strchr(s, c)` on the bytes of a C string: the offset of the first `c`. -/
def strchr : List Char → Char → Option Nat
  | [], _ => none
  | x :: xs, c => if x == c then some 0 else (strchr xs c).map (fun i => i + 1)

/-- `strstr(s, token) != NULL` on the bytes of two C strings. -/
def strstr : List Char → List Char → Bool
  | [], token => token.isEmpty
  | x :: xs, token => token.isPrefixOf (x :: xs) || strstr xs token

/-- The `isspace` of the C locale. -/
def isspace (c : Char) : Bool :=
  c == ' ' || c == '\t' || c == '\n' || c == Char.ofNat 11 || c == Char.ofNat 12 || c == '\r'

/-- The value of the leading decimal digits of a string. -/
def atoi_digits : List Char → Int → Int
  | [], acc => acc
  | c :: cs, acc => if c.isDigit then atoi_digits cs (acc * 10 + (c.toNat - 48 : Nat)) else acc

/-- `atoi(s)`: optional white space, an optional sign, then decimal digits. -/
def atoi (s : List Char) : Int :=
  match s.dropWhile isspace with
  | '-' :: cs => - atoi_digits cs 0
  | '+' :: cs => atoi_digits cs 0
  | cs => atoi_digits cs 0

/-- `MEMCPY(dst + off, src, len(src))` on the content of `dst`. -/
def memcpy_at (dst : List Char) (off : Nat) (src : List Char) : List Char :=
  dst.take off ++ src ++ dst.drop (off + src.length)

/-- A received `struct pbuf *`: the payloads of the chained segments; `[]` is
`NULL`. -/
abbrev pbuf := List (List Char)

/-- `p->len`: the length of the first segment. -/
def pbuf_len (p : pbuf) : Nat := (p.headD []).length % U16

/-- `p->tot_len`: the length of the whole chain. -/
def pbuf_tot_len (p : pbuf) : Nat := (p.map List.length).sum % U16

/-- `pbuf_header(q, -off)`: hide the first `off` bytes of the first segment. -/
def pbuf_header_hide (q : pbuf) (off : Nat) : pbuf :=
  match q with
  | [] => []
  | seg :: rest => seg.drop off :: rest

/-! ## `http_write` -/

/-- What `http_write` leaves behind: its return value, the value stored in
`*length`, the transport state, and (for reasoning only) the lengths passed to
`tcp_write`, in call order. -/
structure WriteResult (σ : Type) where
  err : err_t
  len : Nat
  pcb : σ
  attempts : List Nat

/-- The length `http_write` continues with after an attempt of `len` bytes
failed with `ERR_MEM` (lines 444-450). -/
def http_write_next {σ : Type} (T : Tcp σ) (pcb : σ) (len : Nat) : Nat :=
  if tcp_sndbuf T pcb = 0 ∨ T.TCP_SND_QUEUELEN ≤ tcp_sndqueuelen T pcb then 1 else len / 2

/-- The `do ... while ((err == ERR_MEM) && (len > 1))` loop of `http_write`
(lines 439-454).  The first argument bounds the number of further iterations;
`http_write` passes `len`, which the loop never uses up because every further
iteration at least halves the length (`http_write_loop_fuel_add`). -/
def http_write_loop {σ : Type} (T : Tcp σ) : Nat → σ → List Char → Nat → WriteResult σ
  | fuel, pcb, ptr, len =>
    let r := T.tcp_write pcb (ptr.take len) len
    if r.1 = ERR_MEM then
      if 1 < http_write_next T r.2 len then
        match fuel with
        | 0 => { err := r.1, len := http_write_next T r.2 len, pcb := r.2, attempts := [len] }
        | f + 1 =>
          let w := http_write_loop T f r.2 ptr (http_write_next T r.2 len)
          { w with attempts := len :: w.attempts }
      else
        { err := r.1, len := http_write_next T r.2 len, pcb := r.2, attempts := [len] }
    else
      { err := r.1, len := len, pcb := r.2, attempts := [len] }

/-- `http_write` (lines 431-463): call `tcp_write` in a loop, trying smaller
and smaller lengths. -/
def http_write {σ : Type} (T : Tcp σ) (pcb : σ) (ptr : List Char) (len : Nat) :
    WriteResult σ :=
  http_write_loop T len pcb ptr len

/-! ## Connection state -/

/-- The memory regions a `char *` of the server can point into: the payload
of the request pbuf, the static `http_post_payload`, and the static
`http_post_response_filename`. -/
inductive Region where
  | req
  | payload
  | response_filename
  deriving DecidableEq, Repr

/-- A `char *` value. -/
inductive cptr where
  | null
  | mem (r : Region) (off : Nat)
  | lit (s : List Char)
  deriving DecidableEq, Repr

/-- `HTTPRequest` (`http_request.h`). -/
structure HTTPRequest where
  uri : cptr
  post_data : cptr
  is_post : Nat
  params : cptr
  deriving DecidableEq, Repr

/-- What a callee reading an `HTTPRequest *` sees: the C strings its pointers
designate at the time of the call (`none` for `NULL`). -/
structure RequestView where
  uri : Option (List Char)
  post_data : Option (List Char)
  is_post : Nat
  params : Option (List Char)
  deriving DecidableEq, Repr

/-- The fields of `struct webfs_file` that `httpd.c` reads (`data`, `len`,
`http_header_included`); `priv` stands for whatever else the provider keeps in
the object.  `data` is the bytes from the pointer on, `none` for `NULL`. -/
structure webfs_file where
  data : Option (List Char)
  len : Int
  http_header_included : Bool
  priv : Nat
  deriving DecidableEq, Repr

/-- The resource provider (`fs.h`, not part of `httpd.c`).  `webfs_open`
receives the name and the request object it is handed (`none` for `NULL`).
`webfs_read h count` returns `none` for a negative result and otherwise the
bytes stored into the buffer, whose number is the result. -/
structure WebFS where
  webfs_open : List Char → Option RequestView → Option webfs_file
  webfs_bytes_left : webfs_file → Int
  webfs_read : webfs_file → Nat → Option (List Char) × webfs_file

/-- The header tables of `httpd_structs.h` (not part of `src/`): the strings,
the extension table `g_psHTTPHeaders` as (extension, headerIndex) pairs, and
the indices used by `get_http_headers`. -/
structure HeaderTables where
  g_psHTTPHeaderStrings : Nat → List Char
  g_psHTTPHeaders : List (List Char × Nat)
  HTTP_HDR_OK : Nat
  HTTP_HDR_NOT_FOUND : Nat
  HTTP_HDR_BAD_REQUEST : Nat
  HTTP_HDR_NOT_IMPL : Nat
  HTTP_HDR_SERVER : Nat
  DEFAULT_404_HTML : Nat
  HTTP_HDR_JSON : Nat

/-- `NUM_FILE_HDR_STRINGS` (line 267). -/
def NUM_FILE_HDR_STRINGS : Nat := 3

/-- `MIN_REQ_LEN` (line 211). -/
def MIN_REQ_LEN : Nat := 7

/-- `CRLF` (line 213). -/
def CRLF : List Char := ['\r', '\n']

/-- `HTTPD_MAX_RETRIES` (line 117). -/
def HTTPD_MAX_RETRIES : Nat := 4

/-- `LWIP_HTTPD_POST_MAX_RESPONSE_URI_LEN` (line 186). -/
def LWIP_HTTPD_POST_MAX_RESPONSE_URI_LEN : Nat := 63

/-- `LWIP_HTTPD_POST_MAX_PAYLOAD_LEN` (line 1020). -/
def LWIP_HTTPD_POST_MAX_PAYLOAD_LEN : Nat := 512

/-- `struct http_state` (lines 270-323), without the unused `params` and
`param_vals`.  `file` and `buf` hold the bytes from the pointer on (`none`
for `NULL`); `hdrs` are the three header strings (`none` for `NULL`). -/
structure http_state where
  handle : Option webfs_file
  file : Option (List Char)
  buf : Option (List Char)
  buf_len : Int
  left : Nat
  retries : Nat
  hdrs0 : Option (List Char)
  hdrs1 : Option (List Char)
  hdrs2 : Option (List Char)
  hdr_pos : Nat
  hdr_index : Nat
  post_content_len_left : Nat
  req_info : HTTPRequest
  deriving DecidableEq, Repr

/-- `hs->hdrs[i]`. -/
def http_state.hdrs (hs : http_state) (i : Nat) : Option (List Char) :=
  match i with
  | 0 => hs.hdrs0
  | 1 => hs.hdrs1
  | 2 => hs.hdrs2
  | _ => none

/-- `http_state_alloc` (lines 368-386): all fields zero, `hdr_index` at
`NUM_FILE_HDR_STRINGS`. -/
def http_state_alloc : http_state where
  handle := none
  file := none
  buf := none
  buf_len := 0
  left := 0
  retries := 0
  hdrs0 := none
  hdrs1 := none
  hdrs2 := none
  hdr_pos := 0
  hdr_index := NUM_FILE_HDR_STRINGS
  post_content_len_left := 0
  req_info := { uri := cptr.null, post_data := cptr.null, is_post := 0, params := cptr.null }

/-- One connection together with everything its handlers touch.

* `pcb`: the state of the lwIP stack (transport and allocator);
* `hs`: the connection's `struct http_state`, meaningful while `freed = 0`;
* `arg`: whether the callback argument registered with `tcp_arg` is `hs`
  (`false` once `http_close_conn` has reset it to `NULL`);
* `req`: the payload memory of the pbuf that carried the request;
* `http_post_payload`, `http_post_payload_len`,
  `http_post_response_filename`: the three static variables of `httpd.c`.

The remaining fields only record what happened, for reasoning: `wire` is the
bytes `tcp_write` accepted, in order; `opened` the calls of `webfs_open`;
`post_finished` the response names `httpd_post_finished` was called with;
`post_rx` the number of bytes (`p->tot_len`) in the pbufs handed to
`httpd_post_receive_data`; `error_file` the arguments of `http_find_error_file`; `freed` the number of
calls of `http_state_free` on `hs`; `closes` the number of calls of
`tcp_close`; `callbacks` whether the recv, err and sent callbacks are
registered, `poll_cb` whether the poll callback is. -/
structure Conn (σ : Type) where
  pcb : σ
  hs : http_state
  arg : Bool
  req : List Char
  http_post_payload : List Char
  http_post_payload_len : Nat
  http_post_response_filename : List Char
  wire : List Char
  opened : List (List Char × Option RequestView)
  post_finished : List (List Char)
  post_rx : Nat
  error_file : List Nat
  freed : Nat
  closes : Nat
  callbacks : Bool
  poll_cb : Bool

/-- The memory of a region. -/
def Conn.region {σ : Type} (c : Conn σ) : Region → List Char
  | Region.req => c.req
  | Region.payload => c.http_post_payload
  | Region.response_filename => c.http_post_response_filename

/-- Store `mem` as the content of a region. -/
def Conn.setRegion {σ : Type} (c : Conn σ) (r : Region) (mem : List Char) : Conn σ :=
  match r with
  | Region.req => { c with req := mem }
  | Region.payload => { c with http_post_payload := mem }
  | Region.response_filename => { c with http_post_response_filename := mem }

/-- The C string a pointer designates; `none` for `NULL`. -/
def Conn.str {σ : Type} (c : Conn σ) : cptr → Option (List Char)
  | cptr.null => none
  | cptr.mem r off => some (cstring ((c.region r).drop off))
  | cptr.lit s => some s

/-- The request object as a callee sees it through `&hs->req_info`. -/
def Conn.view {σ : Type} (c : Conn σ) : RequestView where
  uri := c.str c.hs.req_info.uri
  post_data := c.str c.hs.req_info.post_data
  is_post := c.hs.req_info.is_post
  params := c.str c.hs.req_info.params

/-! ## Closing a connection -/

/-- `httpd_post_finished` (lines 1061-1066): it only prints; the call is
recorded with the response name it was handed. -/
def httpd_post_finished {σ : Type} (c : Conn σ) : Conn σ :=
  { c with post_finished := c.post_finished ++ [cstring c.http_post_response_filename] }

/-- `http_state_free` (lines 391-420) for a non-null `hs`. -/
def http_state_free {σ : Type} (c : Conn σ) : Conn σ :=
  { c with hs := { c.hs with handle := none, buf := none }, freed := c.freed + 1 }

/-- `http_close_conn(pcb, hs)` (lines 472-509); `has_hs` tells whether the
`hs` passed is non-null. -/
def http_close_conn {σ : Type} (T : Tcp σ) (c : Conn σ) (has_hs : Bool) : err_t × Conn σ :=
  let c1 :=
    if has_hs && c.hs.post_content_len_left != 0 then
      httpd_post_finished
        { c with http_post_response_filename := c.http_post_response_filename.set 0 NUL }
    else c
  let c2 := { c1 with arg := false, callbacks := false, poll_cb := false }
  let c3 := if has_hs then http_state_free c2 else c2
  let r := T.tcp_close c3.pcb
  (r.1, { c3 with pcb := r.2, closes := c3.closes + 1, poll_cb := decide (r.1 ≠ ERR_OK) })

/-! ## Response headers -/

/-- The text after the last `'.'` of a string, as found by the `strchr` loop of
lines 564-569; `none` when there is no `'.'`. -/
def file_ext : List Char → Option (List Char)
  | [] => none
  | c :: cs =>
    match file_ext cs with
    | some e => some e
    | none => if c == '.' then some cs else none

/-- The part of a URI before its first `'?'` (all of it when there is none). -/
def uri_path (s : List Char) : List Char :=
  match strchr s '?' with
  | some k => s.take k
  | none => s

/-- `get_http_headers` (lines 515-595); `pszURI` is the C string passed, `none`
for `NULL`.  The `'?'` is replaced by NUL while the extension is looked up and
put back afterwards, so the string itself is left as it was. -/
def get_http_headers (H : HeaderTables) (hs : http_state) (pszURI : Option (List Char)) :
    http_state :=
  let hs1 := { hs with hdrs1 := some (H.g_psHTTPHeaderStrings H.HTTP_HDR_SERVER) }
  match pszURI with
  | none =>
    { hs1 with
      hdrs0 := some (H.g_psHTTPHeaderStrings H.HTTP_HDR_NOT_FOUND)
      hdrs2 := some (H.g_psHTTPHeaderStrings H.DEFAULT_404_HTML)
      hdr_index := 0
      hdr_pos := 0 }
  | some uri =>
    let status :=
      if strstr uri "404".toList then H.HTTP_HDR_NOT_FOUND
      else if strstr uri "400".toList then H.HTTP_HDR_BAD_REQUEST
      else if strstr uri "501".toList then H.HTTP_HDR_NOT_IMPL
      else H.HTTP_HDR_OK
    let hs2 := { hs1 with hdrs0 := some (H.g_psHTTPHeaderStrings status) }
    let hs3 :=
      match file_ext (uri_path uri) with
      | some ext =>
        match H.g_psHTTPHeaders.find? (fun (e : List Char × Nat) => e.1 == ext) with
        | some e => { hs2 with hdrs2 := some (H.g_psHTTPHeaderStrings e.2) }
        | none => hs2
      | none => { hs2 with hdrs2 := some (H.g_psHTTPHeaderStrings H.HTTP_HDR_JSON) }
    { hs3 with hdr_index := 0, hdr_pos := 0 }

/-! ## `http_send_data` -/

/-- One pass through the body of the header loop (lines 635-666), from the
loop variable `len`: the connection, `len`, `sendlen` and `data_to_send`
afterwards.  `none`: `hs->hdrs[hs->hdr_index]` is `NULL`. -/
def http_send_hdr_step {σ : Type} (T : Tcp σ) (c : Conn σ) (len : Nat) (data_to_send : Bool) :
    Option (Conn σ × Nat × Nat × Bool) :=
  match c.hs.hdrs c.hs.hdr_index with
  | none => none
  | some hdr =>
    let hdrlen := hdr.length % U16
    let d : Int := (hdrlen : Int) - (c.hs.hdr_pos : Int)
    let sendlen := if (len : Int) < d then len else (d % (U16 : Int)).toNat
    let ptr := hdr.drop c.hs.hdr_pos
    let w := http_write T c.pcb ptr sendlen
    let data_to_send1 := if w.err = ERR_OK ∧ sendlen ≠ w.len then true else data_to_send
    let sendlen1 := if w.err = ERR_OK then w.len else 0
    let wire1 := if w.err = ERR_OK then c.wire ++ ptr.take w.len else c.wire
    let hdr_pos1 := (c.hs.hdr_pos + sendlen1) % U16
    let len1 := (len + U16 - sendlen1) % U16
    let hs1 :=
      if hdr_pos1 = hdrlen then
        { c.hs with hdr_index := (c.hs.hdr_index + 1) % U16, hdr_pos := 0 }
      else { c.hs with hdr_pos := hdr_pos1 }
    some ({ c with pcb := w.pcb, wire := wire1, hs := hs1 }, len1, sendlen1, data_to_send1)

/-- The header loop `while (len && (hs->hdr_index < NUM_FILE_HDR_STRINGS) &&
sendlen)` (lines 634-667).  The first argument bounds the number of passes;
`http_send_data` passes `len`, enough because every pass but the last
consumes at least one byte of `len`; `none` also when the bound is used up. -/
def http_send_hdr_loop {σ : Type} (T : Tcp σ) :
    Nat → Conn σ → Nat → Nat → Bool → Option (Conn σ × Bool)
  | fuel, c, len, sendlen, data_to_send =>
    if len ≠ 0 ∧ c.hs.hdr_index < NUM_FILE_HDR_STRINGS ∧ sendlen ≠ 0 then
      match fuel with
      | 0 => none
      | f + 1 =>
        match http_send_hdr_step T c len data_to_send with
        | none => none
        | some (c1, len1, sendlen1, dts1) => http_send_hdr_loop T f c1 len1 sendlen1 dts1
    else some (c, data_to_send)

/-- The allocation loop of lines 710-718: the size obtained (`none` when
every `mem_malloc` failed).  The first argument bounds the number of further
passes; `count` is enough, as each pass halves `count`. -/
def http_send_alloc {σ : Type} (T : Tcp σ) : Nat → σ → Nat → Option Nat × σ
  | fuel, pcb, count =>
    let r := T.mem_malloc pcb count
    if r.1 then (some count, r.2)
    else if 100 < count / 2 then
      match fuel with
      | 0 => (none, r.2)
      | f + 1 => http_send_alloc T f r.2 (count / 2)
    else (none, r.2)

/-- Lines 746-774 of `http_send_data`: write from `hs->file`, then close when
the file is exhausted.  `none`: `hs->handle` is `NULL` where
`webfs_bytes_left` is applied to it. -/
def http_send_file {σ : Type} (T : Tcp σ) (F : WebFS) (c : Conn σ) (data_to_send : Bool) :
    Option (Nat × Conn σ) :=
  let len0 := if tcp_sndbuf T c.pcb < c.hs.left then tcp_sndbuf T c.pcb else c.hs.left % U16
  let mss := tcp_mss T c.pcb
  let len := if 2 * mss < len0 then (2 * mss) % U16 else len0
  let ptr := c.hs.file.getD []
  let w := http_write T c.pcb ptr len
  let c1 : Conn σ :=
    if w.err = ERR_OK then
      { c with
        pcb := w.pcb
        wire := c.wire ++ ptr.take w.len
        hs := { c.hs with
                file := c.hs.file.map (fun f => f.drop w.len)
                left := (c.hs.left + U32 - w.len) % U32 } }
    else { c with pcb := w.pcb }
  let dts := if w.err = ERR_OK then true else data_to_send
  if c1.hs.left = 0 then
    match c1.hs.handle with
    | none => none
    | some h =>
      if F.webfs_bytes_left h ≤ 0 then some (0, (http_close_conn T c1 true).2)
      else some (dts.toNat, c1)
  else some (dts.toNat, c1)

/-- Lines 727-744 of `http_send_data`: read a block of at most `count` bytes
from the file `h` into `hs->buf` and go on with `http_send_file`. -/
def http_send_read {σ : Type} (T : Tcp σ) (F : WebFS) (c : Conn σ) (h : webfs_file)
    (count : Nat) (data_to_send : Bool) : Option (Nat × Conn σ) :=
  match F.webfs_read h count with
  | (none, h1) =>
    some (1, (http_close_conn T { c with hs := { c.hs with handle := some h1 } } true).2)
  | (some bytes, h1) =>
    let buf1 := memcpy_at (c.hs.buf.getD []) 0 bytes
    http_send_file T F
      { c with
        hs := { c.hs with
                handle := some h1
                buf := some buf1
                left := bytes.length % U32
                file := some buf1 } }
      data_to_send

/-- Lines 683-775 of `http_send_data`: when `hs->left == 0` close at the end
of the file or read the next block (allocating `hs->buf` first if there is
none), then write. -/
def http_send_body {σ : Type} (T : Tcp σ) (F : WebFS) (c : Conn σ) (data_to_send : Bool) :
    Option (Nat × Conn σ) :=
  if c.hs.left = 0 then
    match c.hs.handle with
    | none => some (0, (http_close_conn T c true).2)
    | some h =>
      if F.webfs_bytes_left h ≤ 0 then some (0, (http_close_conn T c true).2)
      else
        match c.hs.buf with
        | some _ => http_send_read T F c h c.hs.buf_len.toNat data_to_send
        | none =>
          let count := 2 * tcp_mss T c.pcb
          match http_send_alloc T count c.pcb count with
          | (some n, pcb1) =>
            http_send_read T F
              { c with
                pcb := pcb1
                hs := { c.hs with buf := some (List.replicate n NUL), buf_len := n } }
              h n data_to_send
          | (none, pcb1) => some (0, { c with pcb := pcb1 })
  else http_send_file T F c data_to_send

/-- `http_send_data` (lines 604-775).  The result is the `u8_t` returned and
the connection afterwards. -/
def http_send_data {σ : Type} (T : Tcp σ) (F : WebFS) (c : Conn σ) : Option (Nat × Conn σ) :=
  if !c.arg then some (0, c)
  else if c.hs.hdr_index < NUM_FILE_HDR_STRINGS then
    let len := tcp_sndbuf T c.pcb
    match http_send_hdr_loop T len c len len false with
    | none => none
    | some (c1, dts) =>
      if c1.hs.hdr_index < NUM_FILE_HDR_STRINGS ∨ c1.hs.file = none then some (1, c1)
      else http_send_body T F c1 dts
  else http_send_body T F c false

/-! ## Resource lookup -/

/-- `http_init_file` (lines 1335-1382); `uri` is the pointer passed on to
`get_http_headers`.  `none`: `file` is `NULL` (line 1339 reads `file->data`
before the test of line 1340), or `hs->file` is `NULL` where `strnstr`
reads it. -/
def http_init_file {σ : Type} (H : HeaderTables) (c : Conn σ) (file : Option webfs_file)
    (is_09 : Bool) (uri : cptr) : Option (err_t × Conn σ) :=
  match file with
  | none => none
  | some f =>
    let hs1 : http_state :=
      { c.hs with handle := some f, file := f.data, left := (f.len % (U32 : Int)).toNat, retries := 0 }
    let hs2 : Option http_state :=
      if f.http_header_included && is_09 then
        match hs1.file with
        | none => none
        | some bytes =>
          match strnstr bytes (CRLF ++ CRLF) hs1.left with
          | some k =>
            some { hs1 with file := some (bytes.drop (k + 4)), left := (hs1.left + U32 - (k + 4)) % U32 }
          | none => some hs1
      else some hs1
    match hs2 with
    | none => none
    | some hs2 =>
      if !f.http_header_included then
        some (ERR_OK, { c with hs := get_http_headers H hs2 (c.str uri) })
      else some (ERR_OK, { c with hs := hs2 })

/-- Record a call `webfs_open(name, req)` in `opened`. -/
def opened_log {σ : Type} (c : Conn σ) (name : List Char) (req : Option RequestView) : Conn σ :=
  { c with opened := c.opened ++ [(name, req)] }

/-- `http_get_404_file` (lines 826-852): the file and the value left in
`*uri`. -/
def http_get_404_file {σ : Type} (F : WebFS) (c : Conn σ) : Option webfs_file × cptr × Conn σ :=
  let c1 := opened_log c "/404.html".toList none
  match F.webfs_open "/404.html".toList none with
  | some f => (some f, cptr.lit "/404.html".toList, c1)
  | none =>
    let c2 := opened_log c1 "/404.htm".toList none
    match F.webfs_open "/404.htm".toList none with
    | some f => (some f, cptr.lit "/404.htm".toList, c2)
    | none =>
      let c3 := opened_log c2 "/404.shtml".toList none
      match F.webfs_open "/404.shtml".toList none with
      | some f => (some f, cptr.lit "/404.shtml".toList, c3)
      | none => (none, cptr.null, c3)

/-- Lines 1302-1309 of `http_find_file`: clear `req_info.params`, and when the
URI holds a `'?'` overwrite the first one by NUL and let `req_info.params`
point behind it.  `none`: `uri` is `NULL`, or it is a string constant holding
a `'?'` (which line 1306 would overwrite). -/
def http_find_file_params {σ : Type} (c : Conn σ) (uri : cptr) : Option (Conn σ) :=
  let c0 : Conn σ :=
    { c with hs := { c.hs with req_info := { c.hs.req_info with params := cptr.null } } }
  match c0.str uri with
  | none => none
  | some s =>
    match strchr s '?' with
    | none => some c0
    | some k =>
      match uri with
      | cptr.mem r off =>
        let c' := c0.setRegion r ((c0.region r).set (off + k) NUL)
        some { c' with
               hs := { c'.hs with
                       req_info := { c'.hs.req_info with params := cptr.mem r (off + k + 1) } } }
      | _ => none

/-- `http_find_file` (lines 1295-1323).  `none`: `http_find_file_params` or
`http_init_file` is undefined. -/
def http_find_file {σ : Type} (F : WebFS) (H : HeaderTables) (c : Conn σ) (uri : cptr)
    (is_09 : Bool) : Option (err_t × Conn σ) :=
  match http_find_file_params c uri with
  | none => none
  | some c1 =>
    let c2 := opened_log c1 ((c1.str uri).getD []) (some c1.view)
    match F.webfs_open ((c1.str uri).getD []) (some c1.view) with
    | some f => http_init_file H c2 (some f) is_09 uri
    | none =>
      http_init_file H (http_get_404_file F c2).2.2 (http_get_404_file F c2).1 is_09
        (http_get_404_file F c2).2.1

/-- `http_find_error_file(hs, error_nr)`: with `LWIP_HTTPD_SUPPORT_EXTSTATUS`
at its value 0 (line 148) this is the macro of line 816, `ERR_ARG`.  The
argument is recorded in `error_file`. -/
def http_find_error_file {σ : Type} (c : Conn σ) (error_nr : Nat) : err_t × Conn σ :=
  (ERR_ARG, { c with error_file := c.error_file ++ [error_nr] })

/-! ## POST -/

/-- `httpd_post_begin` (lines 1007-1018): `uri` is the pointer passed. -/
def httpd_post_begin {σ : Type} (c : Conn σ) (uri : cptr) : err_t :=
  match c.str uri with
  | none => ERR_ARG
  | some s => if s.isEmpty then ERR_ARG else ERR_OK

/-- `q->len` of a segment. -/
def seg_len (seg : List Char) : Nat := seg.length % U16

/-- The copy loop of `httpd_post_receive_data` (lines 1031-1042) over the
chain: the staging buffer, the staged length and the overflow flag
afterwards. -/
def post_copy_loop : pbuf → List Char → Nat → List Char × Nat × Bool
  | [], payload, n => (payload, n, false)
  | seg :: rest, payload, n =>
    if n + seg_len seg ≤ LWIP_HTTPD_POST_MAX_PAYLOAD_LEN then
      post_copy_loop rest (memcpy_at payload n (seg.take (seg_len seg))) ((n + seg_len seg) % U16)
    else (payload, n, true)

/-- `httpd_post_receive_data` (lines 1024-1058). -/
def httpd_post_receive_data {σ : Type} (c : Conn σ) (p : pbuf) : err_t × Conn σ :=
  match post_copy_loop p c.http_post_payload c.http_post_payload_len with
  | (payload, n, full) =>
    let c1 :=
      { c with
        http_post_payload := payload
        http_post_payload_len := n
        post_rx := c.post_rx + pbuf_tot_len p }
    if full then (ERR_OK, { c1 with http_post_payload_len := 0 })
    else if c1.hs.post_content_len_left = 0 then
      (ERR_OK,
        { c1 with
          hs := { c1.hs with req_info := { c1.hs.req_info with post_data := cptr.mem Region.payload 0 } }
          http_post_payload_len := 0 })
    else (ERR_OK, c1)

/-- `http_handle_post_finished` (lines 855-864). -/
def http_handle_post_finished {σ : Type} (F : WebFS) (H : HeaderTables) (c : Conn σ) :
    Option (err_t × Conn σ) :=
  let c1 := httpd_post_finished c
  http_find_file F H c1 c1.hs.req_info.uri false

/-- `http_post_rxpbuf` (lines 875-899). -/
def http_post_rxpbuf {σ : Type} (F : WebFS) (H : HeaderTables) (c : Conn σ) (p : pbuf) :
    Option (err_t × Conn σ) :=
  let left :=
    if c.hs.post_content_len_left < pbuf_tot_len p then 0
    else (c.hs.post_content_len_left + U32 - pbuf_tot_len p) % U32
  let r := httpd_post_receive_data { c with hs := { c.hs with post_content_len_left := left } } p
  if r.1 ≠ ERR_OK ∨ r.2.hs.post_content_len_left = 0 then http_handle_post_finished F H r.2
  else some (ERR_OK, r.2)

/-- The loop of lines 965-972: drop the segments that lie within the first
`start_offset` bytes; the remaining chain and offset. -/
def pbuf_skip : pbuf → Nat → pbuf × Nat
  | [], start_offset => ([], start_offset)
  | seg :: rest, start_offset =>
    if seg_len seg ≤ start_offset then pbuf_skip rest (start_offset - seg_len seg)
    else (seg :: rest, start_offset)

/-- `http_post_request` (lines 916-1005).  `data` is the memory `req` of the
connection, of which `next` is the rest of the pbuf chain; `uri` and
`uri_end` are offsets into it.  The result carries the value left in `*inp`. -/
def http_post_request {σ : Type} (F : WebFS) (H : HeaderTables) (c : Conn σ) (next : pbuf)
    (data_len uri uri_end : Nat) (inp : pbuf) : Option (err_t × pbuf × Conn σ) :=
  let base := uri_end + 1
  match strnstr (c.req.drop base) (CRLF ++ CRLF) (data_len - base) with
  | none => some (ERR_ARG, inp, c)
  | some cc =>
    match strnstr (c.req.drop base) "Content-Length: ".toList cc with
    | none => some (ERR_ARG, inp, c)
    | some sl =>
      let num := base + sl + 16
      match strnstr (c.req.drop num) CRLF 10 with
      | none => some (ERR_ARG, inp, c)
      | some se =>
        let c1 : Conn σ := { c with req := c.req.set (num + se) NUL }
        let content_len := atoi (cstring (c1.req.drop num))
        if 0 < content_len then
          let hdr_len := (min data_len (base + cc + 4)) % U16
          let c2 : Conn σ :=
            { c1 with
              http_post_response_filename := c1.http_post_response_filename.set 0 NUL
              hs := { c1.hs with req_info := { c1.hs.req_info with uri := cptr.mem Region.req uri } } }
          if httpd_post_begin c2 (cptr.mem Region.req uri) = ERR_OK then
            let c3 : Conn σ :=
              { c2 with hs := { c2.hs with post_content_len_left := (content_len % (U32 : Int)).toNat } }
            match pbuf_skip (c3.req :: next) hdr_len with
            | ([], _) => some (ERR_OK, [], c3)
            | (q, start_offset) =>
              (http_post_rxpbuf F H c3 (pbuf_header_hide q start_offset)).map
                (fun r => (r.1, [], r.2))
          else
            (http_find_file F H c2 (cptr.mem Region.response_filename 0) false).map
              (fun r => (r.1, inp, r.2))
        else some (ERR_ARG, inp, c1)

/-! ## Request parsing -/

/-- The label `badrequest` (lines 1278-1282). -/
def http_bad_request {σ : Type} (c : Conn σ) (inp : pbuf) : Option (err_t × pbuf × Conn σ) :=
  let r := http_find_error_file c 400
  some (r.1, inp, r.2)

/-- Lines 1214-1264 of `http_parse_request`, after the method has been
recognised: `sp1` is the offset of the space that ends the method. -/
def http_parse_uri {σ : Type} (F : WebFS) (H : HeaderTables) (c : Conn σ) (p : pbuf)
    (data_len : Nat) (is_post : Bool) (sp1 : Nat) : Option (err_t × pbuf × Conn σ) :=
  let left_len := (data_len + U16 - (sp1 + 1)) % U16
  let found : Option Nat × Bool :=
    match strnstr (c.req.drop (sp1 + 1)) [' '] left_len with
    | some k => (some k, false)
    | none => (strnstr (c.req.drop (sp1 + 1)) CRLF left_len, true)
  if found.2 && is_post then http_bad_request c p
  else
    match found.1 with
    | none => http_bad_request c p
    | some k =>
      let sp2 := sp1 + 1 + k
      let uri := sp1 + 1
      let c1 : Conn σ := { c with req := (c.req.set sp1 NUL).set sp2 NUL }
      if is_post then
        let c2 : Conn σ := { c1 with hs := { c1.hs with req_info := { c1.hs.req_info with is_post := 1 } } }
        match http_post_request F H c2 (p.drop 1) data_len uri sp2 p with
        | none => none
        | some (err, inp, c3) =>
          let c4 : Conn σ :=
            if err ≠ ERR_OK then { c3 with req := ((c3.req.set sp1 ' ').set sp2 ' ').set sp2 ' ' }
            else c3
          if err = ERR_ARG then http_bad_request c4 inp
          else some (err, inp, c4)
      else
        (http_find_file F H c1 (cptr.mem Region.req uri) found.2).map (fun r => (r.1, p, r.2))

/-- `http_parse_request` (lines 1125-1284); `p` is `*inp`, and the result
carries the value left in `*inp`. -/
def http_parse_request {σ : Type} (F : WebFS) (H : HeaderTables) (c : Conn σ) (p : pbuf) :
    Option (err_t × pbuf × Conn σ) :=
  let c0 : Conn σ := { c with hs := { c.hs with req_info := { c.hs.req_info with is_post := 0 } } }
  if c0.hs.handle ≠ none ∨ c0.hs.file ≠ none then some (ERR_USE, p, c0)
  else
    let c1 : Conn σ := { c0 with req := p.headD [] }
    let data_len := pbuf_len p
    if MIN_REQ_LEN ≤ data_len then
      match strnstr c1.req CRLF data_len with
      | some _ =>
        if strncmp_eq c1.req "GET ".toList 4 then http_parse_uri F H c1 p data_len false 3
        else if strncmp_eq c1.req "POST ".toList 5 then http_parse_uri F H c1 p data_len true 4
        else
          let r := http_find_error_file { c1 with req := c1.req.set 4 NUL } 501
          some (r.1, p, r.2)
      | none => http_bad_request c1 p
    else http_bad_request c1 p

/-! ## The receive callback -/

/-- `http_recv` (lines 1483-1563); `p` is the pbuf received (`[]` for `NULL`)
and `err` the error passed by the stack. -/
def http_recv {σ : Type} (T : Tcp σ) (F : WebFS) (H : HeaderTables) (c : Conn σ) (p : pbuf)
    (err : err_t) : Option (err_t × Conn σ) :=
  if err ≠ ERR_OK ∨ p = [] ∨ c.arg = false then
    some (ERR_OK, (http_close_conn T c c.arg).2)
  else if 0 < c.hs.post_content_len_left then
    match http_post_rxpbuf F H { c with hs := { c.hs with retries := 0 } } p with
    | none => none
    | some (_, c1) =>
      if c1.hs.post_content_len_left = 0 then (http_send_data T F c1).map (fun r => (ERR_OK, r.2))
      else some (ERR_OK, c1)
  else
    let parsed : Option (err_t × Conn σ) :=
      if c.hs.handle = none then (http_parse_request F H c p).map (fun r => (r.1, r.2.2))
      else some (ERR_ABRT, c)
    match parsed with
    | none => none
    | some (e, c1) =>
      if e = ERR_OK then
        if c1.hs.post_content_len_left = 0 then (http_send_data T F c1).map (fun r => (ERR_OK, r.2))
        else some (ERR_OK, c1)
      else if e = ERR_ARG then some (ERR_OK, (http_close_conn T c1 true).2)
      else some (ERR_OK, c1)

/-- A transport on which every `tcp_write` fails with `ERR_MEM` while the send
buffer is not empty and the send queue is not full. -/
def tcpAlwaysMem : Tcp Unit where
  tcp_write := fun _ _ _ => (ERR_MEM, ())
  snd_buf := fun _ => 1024
  snd_queuelen := fun _ => 0
  mss := fun _ => 536
  tcp_close := fun _ => (ERR_OK, ())
  mem_malloc := fun _ _ => (true, ())
  TCP_SND_QUEUELEN := 8

/-- The transport of claim C1: every `tcp_write` fails with `ERR_MEM`, the
send buffer is never empty and the send queue never full. -/
def AlwaysMem {σ : Type} (T : Tcp σ) : Prop :=
  (∀ s d n, (T.tcp_write s d n).1 = ERR_MEM) ∧
  (∀ s, tcp_sndbuf T s ≠ 0 ∧ tcp_sndqueuelen T s < T.TCP_SND_QUEUELEN)

/-- A sequence of receive events on one connection: `http_recv` is called
with each pbuf in turn (with `err = ERR_OK`). -/
def http_recv_seq {σ : Type} (T : Tcp σ) (F : WebFS) (H : HeaderTables) :
    List pbuf → Conn σ → Option (Conn σ)
  | [], c => some c
  | p :: rest, c =>
    match http_recv T F H c p ERR_OK with
    | none => none
    | some (_, c1) => http_recv_seq T F H rest c1

/-- The total length of a list of received pbufs. -/
def pbufs_len (ps : List pbuf) : Nat := (ps.map pbuf_tot_len).sum

/-! ## The response stream -/

/-- The header strings `hs->hdrs[i]`, `hs->hdrs[i + 1]`, ... one after the
other. -/
def hdr_from (hs : http_state) : Nat → List Char
  | 0 => hs.hdrs0.getD [] ++ (hs.hdrs1.getD [] ++ hs.hdrs2.getD [])
  | 1 => hs.hdrs1.getD [] ++ hs.hdrs2.getD []
  | 2 => hs.hdrs2.getD []
  | _ => []

/-- The header bytes the header cursor `(hdr_index, hdr_pos)` has not passed
yet. -/
def hdr_pending (hs : http_state) : List Char :=
  if hs.hdr_index < NUM_FILE_HDR_STRINGS then
    ((hs.hdrs hs.hdr_index).getD []).drop hs.hdr_pos ++ hdr_from hs (hs.hdr_index + 1)
  else []

/-- The body bytes the body cursor `(hs->file, hs->left)` designates. -/
def body_pending (hs : http_state) : List Char := (hs.file.getD []).take hs.left

/-- A header slot holds a string whose length fits the `u16_t` cast of line
638. -/
def hdr_ok : Option (List Char) → Prop
  | some s => s.length < U16
  | none => False

/-- What `http_send_data` relies on: the header strings still to be sent are
set, the header position lies within the current string, `left` is a `u32_t`,
and bytes are left only while a file is open. -/
def SendWF (hs : http_state) : Prop :=
  (hs.hdr_index ≤ 0 → hdr_ok hs.hdrs0) ∧
  (hs.hdr_index ≤ 1 → hdr_ok hs.hdrs1) ∧
  (hs.hdr_index ≤ 2 → hdr_ok hs.hdrs2) ∧
  (hs.hdr_index < NUM_FILE_HDR_STRINGS →
    hs.hdr_pos ≤ ((hs.hdrs hs.hdr_index).getD []).length) ∧
  hs.left < U32 ∧
  (hs.handle = none → hs.left = 0)

/-- A sequence of `http_send_data` calls on one connection; the list gives
the state of the lwIP stack found at each call. -/
def http_send_data_seq {σ : Type} (T : Tcp σ) (F : WebFS) : List σ → Conn σ → Option (Conn σ)
  | [], c => some c
  | s :: rest, c =>
    match http_send_data T F { c with pcb := s } with
    | none => none
    | some (_, c1) => http_send_data_seq T F rest c1

/-- The header cursor after `k` more bytes of the current string `hdr`. -/
def hdr_advance (hs : http_state) (hdr : List Char) (k : Nat) : http_state :=
  if hs.hdr_pos + k = hdr.length then
    { hs with hdr_index := hs.hdr_index + 1, hdr_pos := 0 }
  else { hs with hdr_pos := hs.hdr_pos + k }

/-- Two states with the same header strings and header cursor. -/
def SameHdr (a b : http_state) : Prop :=
  a.hdrs0 = b.hdrs0 ∧ a.hdrs1 = b.hdrs1 ∧ a.hdrs2 = b.hdrs2 ∧
  a.hdr_index = b.hdr_index ∧ a.hdr_pos = b.hdr_pos

/-- The bytes still to be accepted: the rest of the header block, then the
bytes staged at `hs->file`. -/
def pending (hs : http_state) : List Char := hdr_pending hs ++ body_pending hs

/-- The part of a connection the POST code works on and the sender leaves
alone. -/
def Conn.post_part {σ : Type} (c : Conn σ) :
    Nat × Nat × List Char × Nat × HTTPRequest × List Char :=
  (c.hs.post_content_len_left, c.post_rx, c.http_post_payload, c.http_post_payload_len,
    c.hs.req_info, c.req)

/-- The connection `http_parse_request` works on once it has found the
connection idle: `is_post` cleared, `req` the payload of the first pbuf. -/
def parse_start {σ : Type} (c : Conn σ) (data : List Char) : Conn σ :=
  { c with hs := { c.hs with req_info := { c.hs.req_info with is_post := 0 } }, req := data }

/-! ## The other callbacks -/

/-- `http_err` (lines 1388-1400): the pcb is already deallocated by the
stack; the state is freed when the callback argument is not `NULL`. -/
def http_err {σ : Type} (c : Conn σ) : Conn σ :=
  if c.arg then http_state_free c else c

/-- `http_sent` (lines 1406-1425). -/
def http_sent {σ : Type} (T : Tcp σ) (F : WebFS) (c : Conn σ) : Option (err_t × Conn σ) :=
  if !c.arg then some (ERR_OK, c)
  else
    (http_send_data T F { c with hs := { c.hs with retries := 0 } }).map (fun r => (ERR_OK, r.2))

/-- `http_poll` (lines 1434-1475); `retries` is a `u8_t`. -/
def http_poll {σ : Type} (T : Tcp σ) (F : WebFS) (c : Conn σ) : Option (err_t × Conn σ) :=
  if !c.arg then some (ERR_OK, (http_close_conn T c false).2)
  else
    let c1 : Conn σ := { c with hs := { c.hs with retries := (c.hs.retries + 1) % 256 } }
    if c1.hs.retries = HTTPD_MAX_RETRIES then some (ERR_OK, (http_close_conn T c1 true).2)
    else if c1.hs.handle ≠ none then (http_send_data T F c1).map (fun r => (ERR_OK, r.2))
    else some (ERR_OK, c1)

/-- The events the stack delivers to the callbacks of one connection. -/
inductive Event where
  | recv (p : pbuf) (err : err_t)
  | sent
  | poll
  | err
  deriving DecidableEq, Repr

/-- A sequence of events on one connection, each handled by its callback.
With an `err` event the stack has deallocated the pcb (comment of lines
1384-1387), so no event follows it: what stands behind it is not delivered. -/
def http_events {σ : Type} (T : Tcp σ) (F : WebFS) (H : HeaderTables) :
    List Event → Conn σ → Option (Conn σ)
  | [], c => some c
  | Event.err :: _, c => some (http_err c)
  | Event.recv p e :: rest, c =>
    match http_recv T F H c p e with
    | none => none
    | some (_, c1) => http_events T F H rest c1
  | Event.sent :: rest, c =>
    match http_sent T F c with
    | none => none
    | some (_, c1) => http_events T F H rest c1
  | Event.poll :: rest, c =>
    match http_poll T F c with
    | none => none
    | some (_, c1) => http_events T F H rest c1

/-- The connection after `n` successive poll events. -/
def http_poll_seq {σ : Type} (T : Tcp σ) (F : WebFS) : Nat → Conn σ → Option (Conn σ)
  | 0, c => some c
  | n + 1, c =>
    match http_poll T F c with
    | none => none
    | some (_, c1) => http_poll_seq T F n c1

/-- What ties a connection to the stack: the pcb, the callback argument and
callbacks, and the records of frees, closes and bytes written. -/
def Conn.transport_part {σ : Type} (c : Conn σ) : σ × Bool × Nat × Nat × List Char × Bool × Bool :=
  (c.pcb, c.arg, c.freed, c.closes, c.wire, c.callbacks, c.poll_cb)

/-- The life of a connection: callback argument, frees, closes and the idle
counter. -/
def Conn.life_part {σ : Type} (c : Conn σ) : Bool × Nat × Nat × Nat :=
  (c.arg, c.freed, c.closes, c.hs.retries)

/-! ## Concrete scenarios -/

/-- A transport that follows a script: each `tcp_write` returns the next
outcome of the list (`ERR_OK` once the list is used up); the send buffer holds
`sndbuf` bytes. -/
def tcpScript (sndbuf : Nat) : Tcp (List err_t) where
  tcp_write := fun s _ _ =>
    match s with
    | [] => (ERR_OK, [])
    | e :: rest => (e, rest)
  snd_buf := fun _ => sndbuf
  snd_queuelen := fun _ => 0
  mss := fun _ => 536
  tcp_close := fun s => (ERR_OK, s)
  mem_malloc := fun s _ => (true, s)
  TCP_SND_QUEUELEN := 8

/-- A header table for the scenarios, in the layout of lwIP's
`httpd_structs.h` with the JSON entry this server adds. -/
def demoTables : HeaderTables where
  g_psHTTPHeaderStrings := fun i =>
    match i with
    | 0 => "HTTP/1.0 200 OK\r\n".toList
    | 1 => "HTTP/1.0 404 File not found\r\n".toList
    | 2 => "HTTP/1.0 400 Bad Request\r\n".toList
    | 3 => "HTTP/1.0 501 Not Implemented\r\n".toList
    | 4 => "Server: lwIP/1.3.1\r\n".toList
    | 5 => "Content-type: text/html\r\n\r\n".toList
    | 6 => "Content-type: application/json\r\n\r\n".toList
    | _ => "\r\n<html><body><h2>404</h2></body></html>\r\n".toList
  g_psHTTPHeaders := [("html".toList, 5), ("htm".toList, 5), ("json".toList, 6)]
  HTTP_HDR_OK := 0
  HTTP_HDR_NOT_FOUND := 1
  HTTP_HDR_BAD_REQUEST := 2
  HTTP_HDR_NOT_IMPL := 3
  HTTP_HDR_SERVER := 4
  DEFAULT_404_HTML := 7
  HTTP_HDR_JSON := 6

/-- A resource provider for the scenarios.  `/` is a page without a header,
`/old.html` a page stored with its header, `/ssid` answers with the POST data
it is shown, `/404.html`, `/501.html` and `/400.html` are error pages; nothing
else exists.  Every
resource is wholly in `data`, so nothing is left to read. -/
def demoFS : WebFS where
  webfs_open := fun name req =>
    if name = "/".toList then
      some { data := some "index".toList, len := 5, http_header_included := false, priv := 0 }
    else if name = "/old.html".toList then
      some { data := some "HTTP/1.0 200 OK\r\n\r\nold".toList, len := 22,
             http_header_included := true, priv := 0 }
    else if name = "/ssid".toList then
      let body := (req.bind (fun r => r.post_data)).getD []
      some { data := some body, len := body.length, http_header_included := false, priv := 0 }
    else if name = "/404.html".toList then
      some { data := some "404 Not Found".toList, len := 13, http_header_included := false,
             priv := 0 }
    else if name = "/501.html".toList then
      some { data := some "501 Not Implemented".toList, len := 19,
             http_header_included := false, priv := 0 }
    else if name = "/400.html".toList then
      some { data := some "400 Bad Request".toList, len := 15, http_header_included := false,
             priv := 0 }
    else none
  webfs_bytes_left := fun _ => 0
  webfs_read := fun h _ => (none, h)

/-- The file `/old.html` of `demoFS`, stored with its header. -/
def old_html : webfs_file :=
  { data := some "HTTP/1.0 200 OK\r\n\r\nold".toList, len := 22, http_header_included := true,
    priv := 0 }

/-- A connection as `http_accept` (lines 1568-1600) leaves it, the static
buffers of `httpd.c` still zero. -/
def conn_accepted {σ : Type} (pcb : σ) : Conn σ where
  pcb := pcb
  hs := http_state_alloc
  arg := true
  req := []
  http_post_payload := List.replicate LWIP_HTTPD_POST_MAX_PAYLOAD_LEN NUL
  http_post_payload_len := 0
  http_post_response_filename := List.replicate (LWIP_HTTPD_POST_MAX_RESPONSE_URI_LEN + 1) NUL
  wire := []
  opened := []
  post_finished := []
  post_rx := 0
  error_file := []
  freed := 0
  closes := 0
  callbacks := true
  poll_cb := true

/-- A connection about to send the page `/` of `demoFS` behind a generated
header block, on a transport whose first and third `tcp_write` fail. -/
def conn_sending : Conn (List err_t) :=
  { conn_accepted [ERR_MEM, ERR_OK, ERR_MEM] with
    hs := { http_state_alloc with
            handle := some { data := some "index".toList, len := 5,
                             http_header_included := false, priv := 0 }
            file := some "index".toList
            left := 5
            hdrs0 := some (demoTables.g_psHTTPHeaderStrings 0)
            hdrs1 := some (demoTables.g_psHTTPHeaderStrings 4)
            hdrs2 := some (demoTables.g_psHTTPHeaderStrings 5)
            hdr_index := 0
            hdr_pos := 0 } }

/-- A connection on which a POST for `/ssid` has been accepted and `n` body
bytes are awaited (the state `http_post_request` leaves when the request
pbuf held no body byte). -/
def conn_awaiting (n : Nat) : Conn (List err_t) :=
  { conn_accepted [] with
    req := ("POST".toList ++ [NUL] ++ "/ssid".toList ++ [NUL] ++ "HTTP/1.0\r\n\r\n".toList)
    hs := { http_state_alloc with
            post_content_len_left := n
            req_info := { uri := cptr.mem Region.req 5, post_data := cptr.null, is_post := 1,
                          params := cptr.null } } }

/-- A connection accepted after `prev` has been served: a fresh
`struct http_state`, the static variables of `httpd.c` as `prev` left them. -/
def conn_accepted_after {σ : Type} (prev : Conn σ) (pcb : σ) : Conn σ :=
  { conn_accepted pcb with
    http_post_payload := prev.http_post_payload
    http_post_payload_len := prev.http_post_payload_len
    http_post_response_filename := prev.http_post_response_filename }

/-- The connection as `http_parse_request` hands it to `http_post_request`
for a first pbuf `POST /ssid HTTP/1.0` CRLF `rest`: the method and the URI
are NUL-terminated in `req` (the URI is at offset 5 and ends at offset 10). -/
def conn_post_ssid (rest : List Char) : Conn (List err_t) :=
  { conn_accepted [] with
    req := "POST".toList ++ NUL :: ("/ssid".toList ++ NUL :: ("HTTP/1.0\r\n".toList ++ rest))
    hs := { http_state_alloc with
            req_info := { uri := cptr.null, post_data := cptr.null, is_post := 1,
                          params := cptr.null } } }

/-- An earlier request: a POST to `/ssid` with a body of 30 bytes `A`, in one
pbuf. -/
def post_ssid_30 : pbuf :=
  ["POST /ssid HTTP/1.0\r\nContent-Length: 30\r\n\r\n".toList ++ List.replicate 30 'A']

/-- The request of the scenario of claim C6: a POST to `/ssid` with
`Content-Length: 26`, the body arriving as 10 bytes behind the header and 16
bytes in a second event. -/
def post_ssid_26 : List pbuf :=
  [["POST /ssid HTTP/1.0\r\nContent-Length: 26\r\n\r\nssid=Foo&p".toList],
   ["assword=Bar12345".toList]]

/-- The request memory of `GET /ssid?a=1?b=2 HTTP/1.0` once the parser has
NUL-terminated the method and the URI (the URI is at offset 4). -/
def get_query_req : List Char :=
  "GET".toList ++ NUL :: ("/ssid?a=1?b=2".toList ++ NUL :: "HTTP/1.0\r\n\r\n".toList)

/-- A provider that holds no resource at all. -/
def emptyFS : WebFS where
  webfs_open := fun _ _ => none
  webfs_bytes_left := fun _ => 0
  webfs_read := fun h _ => (none, h)

/-- The request memory of `GET /missing.html HTTP/1.0` once the parser has
NUL-terminated the method and the URI (the URI is at offset 4). -/
def get_missing_req : List Char :=
  "GET".toList ++ NUL :: ("/missing.html".toList ++ NUL :: "HTTP/1.0\r\n\r\n".toList)

/-- A run of events: a GET for `/` that is answered and closed at once, then a
sent event, a poll, an empty receive and an error event on the same pcb. -/
def events_get_then_more : List Event :=
  [Event.recv ["GET / HTTP/1.0\r\n\r\n".toList] ERR_OK, Event.sent, Event.poll,
   Event.recv [] ERR_OK, Event.err]

/-- The first pbuf of a POST to `/ssid` with `Content-Length: 9`, carrying 5
of the 9 body bytes. -/
def post_ssid_9_first : pbuf :=
  ["POST /ssid HTTP/1.0\r\nContent-Length: 9\r\n\r\nhello".toList]

/-- Lines 759-774 of `http_send_data`, from the result `w` of the body
`http_write`: advance the cursor by an accepted write, then close when the
file is exhausted.  `none`: `hs->handle` is `NULL` where `webfs_bytes_left`
is applied to it. -/
def http_send_file_done {σ : Type} (T : Tcp σ) (F : WebFS) (c : Conn σ) (data_to_send : Bool)
    (w : WriteResult σ) : Option (Nat × Conn σ) :=
  let ptr := c.hs.file.getD []
  let c1 : Conn σ :=
    if w.err = ERR_OK then
      { c with
        pcb := w.pcb
        wire := c.wire ++ ptr.take w.len
        hs := { c.hs with
                file := c.hs.file.map (fun f => f.drop w.len)
                left := (c.hs.left + U32 - w.len) % U32 } }
    else { c with pcb := w.pcb }
  let dts := if w.err = ERR_OK then true else data_to_send
  if c1.hs.left = 0 then
    match c1.hs.handle with
    | none => none
    | some h =>
      if F.webfs_bytes_left h ≤ 0 then some (0, (http_close_conn T c1 true).2)
      else some (dts.toNat, c1)
  else some (dts.toNat, c1)

/-- A close made by `http_send_data`, seen from its result `(r, c1)`: `c1` is
what `http_close_conn` made of a connection `cpre` with `hs->left == 0`, and
either the call returned 0 and `cpre` had no file open or its file reported
no bytes left (lines 688-699 and 765-772), or the call returned 1 after
`webfs_read` failed on a file that reported bytes left (lines 730-736). -/
def SendClose {σ : Type} (T : Tcp σ) (F : WebFS) (r : Nat) (c1 : Conn σ) : Prop :=
  ∃ cpre : Conn σ, c1 = (http_close_conn T cpre true).2 ∧ cpre.hs.left = 0 ∧
    ((r = 0 ∧ (cpre.hs.handle = none ∨
        ∃ hd, cpre.hs.handle = some hd ∧ F.webfs_bytes_left hd ≤ 0)) ∨
      (r = 1 ∧ ∃ hd count, (F.webfs_read hd count).1 = none ∧ 0 < F.webfs_bytes_left hd))

/-- A connection in the body phase: the file `index` of 5 bytes is open, the
header block has been sent. -/
def conn_body : Conn (List err_t) :=
  { conn_accepted [] with
    hs := { http_state_alloc with
            handle := some { data := some "index".toList, len := 5,
                             http_header_included := false, priv := 0 }
            file := some "index".toList
            left := 5 } }

/-- A provider whose only resource is `/x.foo`, a page without a header whose
extension is in no entry of `demoTables.g_psHTTPHeaders`. -/
def unknownExtFS : WebFS where
  webfs_open := fun name _ =>
    if name = "/x.foo".toList then
      some { data := some "foo".toList, len := 3, http_header_included := false, priv := 0 }
    else none
  webfs_bytes_left := fun _ => 0
  webfs_read := fun h _ => (none, h)

/-! ## `extract_params` (`api.c`) -/

/-- `MAX_PARAM` (`api_struct.h`, line 5). -/
def MAX_PARAM : Nat := 40

/-- `strsep(&p, delim)` for a one-character `delim`, on the bytes of the C
string `p` points to (`none` for `NULL`): the token returned and the new
value of `p`. -/
def strsep (p : Option (List Char)) (delim : Char) : Option (List Char) × Option (List Char) :=
  match p with
  | none => (none, none)
  | some s =>
    match strchr s delim with
    | none => (some s, none)
    | some k => (some (s.take k), some (s.drop (k + 1)))

/-- The inner loop of `extract_params` (`api.c`, lines 26-32): tokens are taken
with `strsep(&p, "&")` until one is not empty or `strsep` returns `NULL`; the
value of `key_point` and of `p` afterwards.  The first argument bounds the
number of tokens taken. -/
def extract_params_key : Nat → Option (List Char) → Option (Option (List Char) × Option (List Char))
  | 0, _ => none
  | fuel + 1, p =>
    match strsep p '&' with
    | (none, p1) => some (none, p1)
    | (some key_point, p1) =>
      if key_point.isEmpty then extract_params_key fuel p1 else some (some key_point, p1)

/-- The loop `while(p)` of `extract_params` (`api.c`, lines 21-40): `count`
and the entries written so far, `para[0]`, `para[1]`, ... in order, each a
key and a value; the entry written in a pass is `para[count]`.  `none`:
`key_point` is `NULL` where `strchr` reads it (line 34), or `idx` is `NULL`
where line 35 writes through it.  The first argument bounds the number of
passes. -/
def extract_params_loop :
    Nat → Option (List Char) → Nat → List (List Char × List Char) →
      Option (Nat × List (List Char × List Char))
  | _, none, count, para => some (count, para)
  | 0, some _, _, _ => none
  | fuel + 1, some s, count, para =>
    if MAX_PARAM < count then some (count, para)
    else
      match extract_params_key (s.length + 2) (some s) with
      | none => none
      | some (none, _) => none
      | some (some key_point, p1) =>
        match strchr key_point '=' with
        | none => none
        | some idx =>
          extract_params_loop fuel p1 ((count + 1) % 256)
            (para ++ [(key_point.take idx, key_point.drop (idx + 1))])

/-- `extract_params` (`api.c`, lines 12-42): the value returned and the
entries written to `para`, from `para[0]` on. -/
def extract_params (args : Option (List Char)) : Option (Nat × List (List Char × List Char)) :=
  match args with
  | none => some (0, [])
  | some s => extract_params_loop (s.length + 1) (some s) 0 []

/-- The text `key=value`. -/
def param_pair (kv : List Char × List Char) : List Char := kv.1 ++ '=' :: kv.2

/-- A parameter string: the pairs `key=value` joined by `'&'`, the pair of
an item `(g, key, value)` preceded by `g` further `'&'`. -/
def join_params : List (Nat × List Char × List Char) → List Char
  | [] => []
  | [it] => List.replicate it.1 '&' ++ param_pair it.2
  | it :: more :: rest =>
    List.replicate it.1 '&' ++ param_pair it.2 ++ '&' :: join_params (more :: rest)

/-- The text behind a token: nothing when the token ends the string (`none`),
else `'&'` and the rest. -/
def amp_tail : Option (List Char) → List Char
  | none => []
  | some r => '&' :: r

/-- A transport whose state counts the `mem_malloc` calls that will still
fail; every `tcp_write` succeeds and the segment size is `mss`. -/
def tcpMalloc (mss : Nat) : Tcp Nat where
  tcp_write := fun s _ _ => (ERR_OK, s)
  snd_buf := fun _ => 2000
  snd_queuelen := fun _ => 0
  mss := fun _ => mss
  tcp_close := fun s => (ERR_OK, s)
  mem_malloc := fun s _ => if s = 0 then (true, 0) else (false, s - 1)
  TCP_SND_QUEUELEN := 8

/-- A provider of resources that are read block by block: `priv` is the
number of bytes left, `webfs_read` delivers bytes `x`. -/
def streamFS : WebFS where
  webfs_open := fun _ _ => none
  webfs_bytes_left := fun h => h.priv
  webfs_read := fun h count =>
    (some (List.replicate (min count h.priv) 'x'), { h with priv := h.priv - min count h.priv })

/-- A connection past its header block, with a resource of 300 bytes still
to be read and no read buffer yet; `fails` allocations will fail. -/
def conn_streaming (fails : Nat) : Conn Nat :=
  { conn_accepted fails with
    hs := { http_state_alloc with
            handle := some { data := none, len := 0, http_header_included := false, priv := 300 } } }

/-- The read buffer of a connection and its recorded size. -/
def Conn.buf_part {σ : Type} (c : Conn σ) : Option (List Char) × Int := (c.hs.buf, c.hs.buf_len)

/-- Where `strnstr` finds a token: the token starts at offset `i` within the
first `n` bytes, starts at no smaller offset, and no NUL byte precedes it. -/
def StrnstrAt (buffer token : List Char) (n i : Nat) : Prop :=
  token <+: buffer.drop i ∧ i + token.length ≤ n ∧
  (∀ j, j < i → ¬ token <+: buffer.drop j) ∧ ∀ c ∈ buffer.take i, c ≠ NUL

/-- A sequence of calls of `httpd_post_receive_data` on the static staging
buffer: each call comes with its pbuf chain and with the value
`post_content_len_left` has at the call. -/
def httpd_post_receive_data_seq {σ : Type} : List (pbuf × Nat) → Conn σ → Conn σ
  | [], c => c
  | (p, left) :: rest, c =>
    httpd_post_receive_data_seq rest
      (httpd_post_receive_data { c with hs := { c.hs with post_content_len_left := left } } p).2

/-- The size of the staging buffer and the staged length. -/
def Conn.staging_part {σ : Type} (c : Conn σ) : Nat × Nat :=
  (c.http_post_payload.length, c.http_post_payload_len)

/-- The staging buffer keeps its size and the staged length stays within
it. -/
def StagingOK {σ : Type} (c : Conn σ) : Prop :=
  c.http_post_payload.length = LWIP_HTTPD_POST_MAX_PAYLOAD_LEN ∧
  c.http_post_payload_len ≤ LWIP_HTTPD_POST_MAX_PAYLOAD_LEN



/-- Whether `http_poll` reaches its call of `tcp_output` (lines 1466-1473):
it does when the connection has its state, the idle limit is not reached, a
file is open and `http_send_data` returns non-zero.  `none`:
`http_send_data` is undefined. -/
def http_poll_tcp_output {σ : Type} (T : Tcp σ) (F : WebFS) (c : Conn σ) : Option Bool :=
  if !c.arg then some false
  else
    let c1 : Conn σ := { c with hs := { c.hs with retries := (c.hs.retries + 1) % 256 } }
    if c1.hs.retries = HTTPD_MAX_RETRIES then some false
    else if c1.hs.handle ≠ none then (http_send_data T F c1).map (fun r => decide (r.1 ≠ 0))
    else some false

/-- A provider whose resources report `priv` bytes left and whose reads
fail: `webfs_read` returns a negative count. -/
def failedReadFS : WebFS where
  webfs_open := fun _ _ => none
  webfs_bytes_left := fun h => h.priv
  webfs_read := fun h _ => (none, h)

/-- A connection past its header block, with a resource that reports 300
bytes left and a read buffer of 268 bytes. -/
def conn_reading : Conn Nat :=
  { conn_accepted 0 with
    hs := { http_state_alloc with
            handle := some { data := none, len := 0, http_header_included := false, priv := 300 }
            buf := some (List.replicate 268 NUL)
            buf_len := 268 } }



/-- A close made by the call `http_send_data(pcb, hs)` on the connection `c`,
seen from `c` as it stands at the call and from the value `r` returned.
With no file open the close is that of lines 688-693 (`hs->left == 0`,
returns 0).  With the file `hd` open, either the provider reports no bytes
left for `hd` and the call returns 0 (lines 695-700 and 764-772), or
`hs->left == 0`, the provider reports bytes left and `webfs_read` is called
on `hd` with the size `count` of the read buffer: the call returns 1 when
the read fails (lines 732-738), and it returns 0 when the provider reports
no bytes left for the file as the read leaves it (lines 764-772). -/
def SendCloseAt {σ : Type} (T : Tcp σ) (F : WebFS) (c : Conn σ) (r : Nat) : Prop :=
  (c.hs.handle = none ∧ r = 0 ∧ c.hs.left = 0) ∨
  ∃ hd, c.hs.handle = some hd ∧
    ((r = 0 ∧ F.webfs_bytes_left hd ≤ 0) ∨
      (c.hs.left = 0 ∧ 0 < F.webfs_bytes_left hd ∧
        ∃ count : Nat,
          (c.hs.buf ≠ none → count = c.hs.buf_len.toNat) ∧
          (c.hs.buf = none → ∃ pcb,
            (http_send_alloc T (2 * tcp_mss T pcb) pcb (2 * tcp_mss T pcb)).1 = some count) ∧
          (((F.webfs_read hd count).1 = none ∧ r = 1) ∨
            (∃ bytes, (F.webfs_read hd count).1 = some bytes ∧ r = 0 ∧
              F.webfs_bytes_left (F.webfs_read hd count).2 ≤ 0))))

/-- The amount of data `http_write` has sent when it returns: the number of
bytes handed to a `tcp_write` that returned `ERR_OK`, over the same loop as
`http_write_loop` (lines 439-454).  Only the last `tcp_write` of the loop
can be accepted, since the loop goes on only after `ERR_MEM`. -/
def http_write_sent {σ : Type} (T : Tcp σ) : Nat → σ → List Char → Nat → Nat
  | fuel, pcb, ptr, len =>
    let r := T.tcp_write pcb (ptr.take len) len
    if r.1 = ERR_MEM then
      if 1 < http_write_next T r.2 len then
        match fuel with
        | 0 => 0
        | f + 1 => http_write_sent T f r.2 ptr (http_write_next T r.2 len)
      else 0
    else if r.1 = ERR_OK then len else 0



/-! # Theorems -/

/-! ## `http_write` -/

theorem http_write_next_of_alwaysMem {σ : Type} (T : Tcp σ) (hT : AlwaysMem T) (pcb : σ)
    (len : Nat) : http_write_next T pcb len = len / 2 := by
  have h := hT.2 pcb
  unfold http_write_next
  rw [if_neg]
  intro hc
  rcases hc with hc | hc
  · exact h.1 hc
  · omega

theorem tcpAlwaysMem_alwaysMem : AlwaysMem tcpAlwaysMem := by
  refine ⟨fun _ _ _ => rfl, fun _ => ?_⟩
  simp [tcpAlwaysMem, tcp_sndbuf, tcp_sndqueuelen, U16]

/-- Under constant transient failure the loop tries `len`, `len / 2`, ... as
long as the length is at least 2 (a lone 1 when it starts at 1), and leaves
`ERR_MEM`. -/
theorem http_write_loop_alwaysMem {σ : Type} (T : Tcp σ) (hT : AlwaysMem T) (ptr : List Char) :
    ∀ (len : Nat), 1 ≤ len → ∀ (fuel : Nat) (pcb : σ), len ≤ fuel →
      (http_write_loop T fuel pcb ptr len).attempts
          = (List.range (max 1 (Nat.log 2 len))).map (fun i => len / 2 ^ i) ∧
      (http_write_loop T fuel pcb ptr len).err = ERR_MEM ∧
      (http_write_loop T fuel pcb ptr len).len = min 1 (len / 2) := by
  intro len
  induction len using Nat.strong_induction_on with
  | _ len ih =>
    intro hlen fuel pcb hfuel
    have hw : (T.tcp_write pcb (ptr.take len) len).1 = ERR_MEM := hT.1 _ _ _
    have hn : http_write_next T (T.tcp_write pcb (ptr.take len) len).2 len = len / 2 :=
      http_write_next_of_alwaysMem T hT _ _
    by_cases h4 : 1 < len / 2
    · obtain ⟨f, rfl⟩ : ∃ f, fuel = f + 1 := ⟨fuel - 1, by omega⟩
      have hrec := ih (len / 2) (by omega) (by omega) f
        (T.tcp_write pcb (ptr.take len) len).2 (by omega)
      have hlog : Nat.log 2 len = Nat.log 2 (len / 2) + 1 :=
        Nat.log_of_one_lt_of_le (by norm_num) (by omega)
      have hpos : 1 ≤ Nat.log 2 (len / 2) := Nat.log_pos (by norm_num) (by omega)
      unfold http_write_loop
      simp only [hw, hn, h4, if_true]
      refine ⟨?_, hrec.2.1, ?_⟩
      · rw [hrec.1, hlog, max_eq_right hpos, max_eq_right (by omega), List.range_succ_eq_map]
        simp only [List.map_cons, pow_zero, Nat.div_one, List.map_map, List.cons.injEq, true_and]
        apply List.map_congr_left
        intro i _
        simp only [Function.comp, pow_succ, Nat.div_div_eq_div_mul]
        rw [Nat.mul_comm]
      · rw [hrec.2.2]
        omega
    · have hlog : max 1 (Nat.log 2 len) = 1 := by
        have : Nat.log 2 len ≤ 1 := by
          have h3 : len < 2 ^ 2 := by omega
          have := Nat.log_lt_of_lt_pow (by omega) h3
          omega
        omega
      unfold http_write_loop
      simp only [hw, hn, h4, if_true, if_false, hlog]
      refine ⟨?_, trivial, by omega⟩
      rw [show List.range 1 = [0] from rfl]
      simp


/-- C1 (amended): under constant transient failure (`ERR_MEM`, send buffer
not empty, send queue not full) `http_write` called with `L >= 1` attempts
exactly the lengths `L / 2 ^ i` that are at least 2 (the single length 1 when
`L = 1`): after `L` it tries `L / 2`, `L / 4`, ... and stops once the halved
length is 1 or less, without attempting it.  It returns `ERR_MEM` with
`*length = 1` for `L >= 2` (0 for `L = 1`). -/
theorem http_write_backpressure_attempts {σ : Type} (T : Tcp σ) (pcb : σ) (ptr : List Char)
    (L : Nat) (hT : AlwaysMem T) (hL : 1 ≤ L) :
    (http_write T pcb ptr L).attempts
        = (List.range (max 1 (Nat.log 2 L))).map (fun i => L / 2 ^ i) ∧
    (http_write T pcb ptr L).err = ERR_MEM ∧
    (http_write T pcb ptr L).len = min 1 (L / 2) ∧
    (2 ≤ L → ∀ a ∈ (http_write T pcb ptr L).attempts, 2 ≤ a) := by
  have h := http_write_loop_alwaysMem T hT ptr L hL L pcb (le_refl L)
  unfold http_write
  refine ⟨h.1, h.2.1, h.2.2, ?_⟩
  intro h2 a ha
  rw [h.1] at ha
  have hlog : 1 ≤ Nat.log 2 L := Nat.log_pos (by norm_num) h2
  rw [max_eq_right hlog] at ha
  obtain ⟨i, hi, rfl⟩ := List.mem_map.mp ha
  have hi' : i + 1 ≤ Nat.log 2 L := by
    have := List.mem_range.mp hi
    omega
  have hp : 2 ^ (i + 1) ≤ L :=
    le_trans (Nat.pow_le_pow_right (by norm_num) hi') (Nat.pow_log_le_self 2 (by omega))
  rw [Nat.le_div_iff_mul_le (by positivity)]
  rw [pow_succ] at hp
  omega

/-- C1, witness: the theorem applied to a 512-byte request on `tcpAlwaysMem`. -/
theorem http_write_backpressure_attempts_witness :
    AlwaysMem tcpAlwaysMem ∧ 1 ≤ 512 ∧
    ((http_write tcpAlwaysMem () [] 512).attempts
        = (List.range (max 1 (Nat.log 2 512))).map (fun i => 512 / 2 ^ i) ∧
     (http_write tcpAlwaysMem () [] 512).err = ERR_MEM ∧
     (http_write tcpAlwaysMem () [] 512).len = min 1 (512 / 2) ∧
     (2 ≤ 512 → ∀ a ∈ (http_write tcpAlwaysMem () [] 512).attempts, 2 ≤ a)) :=
  ⟨tcpAlwaysMem_alwaysMem, by decide,
    http_write_backpressure_attempts tcpAlwaysMem () [] 512 tcpAlwaysMem_alwaysMem (by decide)⟩

/-- C1, counterexample: a 512-byte write on which every `tcp_write` fails with
`ERR_MEM` is retried at 256, 128, ..., 2 bytes and not at 1 byte. -/
theorem http_write_512_skips_one_byte :
    AlwaysMem tcpAlwaysMem ∧
    (http_write tcpAlwaysMem () [] 512).attempts = [512, 256, 128, 64, 32, 16, 8, 4, 2] ∧
    1 ∉ (http_write tcpAlwaysMem () [] 512).attempts :=
  ⟨tcpAlwaysMem_alwaysMem, by decide, by decide⟩


/-! ## The send cursor -/

theorem http_write_next_le {σ : Type} (T : Tcp σ) (pcb : σ) (len : Nat)
    (h : 1 < http_write_next T pcb len) : http_write_next T pcb len ≤ len := by
  unfold http_write_next at *
  split_ifs at * <;> omega

/-- An accepted write is no longer than what was requested. -/
theorem http_write_loop_ok_le {σ : Type} (T : Tcp σ) (ptr : List Char) :
    ∀ (fuel : Nat) (pcb : σ) (len : Nat),
      (http_write_loop T fuel pcb ptr len).err = ERR_OK →
      (http_write_loop T fuel pcb ptr len).len ≤ len := by
  intro fuel
  induction fuel with
  | zero =>
    intro pcb len
    unfold http_write_loop
    simp only
    split_ifs with h1 h2
    · intro h; rw [h1] at h; exact absurd h (by simp)
    · intro h; rw [h1] at h; exact absurd h (by simp)
    · intro _; exact le_refl _
  | succ f ih =>
    intro pcb len
    unfold http_write_loop
    simp only
    split_ifs with h1 h2
    · intro h
      exact le_trans (ih _ _ h) (http_write_next_le T _ _ h2)
    · intro h; rw [h1] at h; exact absurd h (by simp)
    · intro _; exact le_refl _

theorem http_write_ok_le {σ : Type} (T : Tcp σ) (pcb : σ) (ptr : List Char) (len : Nat)
    (h : (http_write T pcb ptr len).err = ERR_OK) : (http_write T pcb ptr len).len ≤ len :=
  http_write_loop_ok_le T ptr len pcb len h

theorem hdr_from_step (hs : http_state) (i : Nat) (h : i < NUM_FILE_HDR_STRINGS) :
    hdr_from hs i = (hs.hdrs i).getD [] ++ hdr_from hs (i + 1) := by
  unfold NUM_FILE_HDR_STRINGS at h
  interval_cases i <;> simp [hdr_from, http_state.hdrs]

theorem SendWF.hdr {hs : http_state} (hwf : SendWF hs) (h : hs.hdr_index < NUM_FILE_HDR_STRINGS) :
    ∃ hdr, hs.hdrs hs.hdr_index = some hdr ∧ hdr.length < U16 ∧ hs.hdr_pos ≤ hdr.length := by
  obtain ⟨h0, h1, h2, hp, -, -⟩ := hwf
  have hp := hp h
  unfold NUM_FILE_HDR_STRINGS at h
  have hc : hs.hdr_index = 0 ∨ hs.hdr_index = 1 ∨ hs.hdr_index = 2 := by omega
  rcases hc with hc | hc | hc
  · have := h0 (by omega)
    rw [hc] at hp ⊢
    simp only [http_state.hdrs] at hp ⊢
    cases hx : hs.hdrs0 with
    | none => rw [hx] at this; exact absurd this (by simp [hdr_ok])
    | some s => rw [hx] at this hp; exact ⟨s, rfl, this, by simpa using hp⟩
  · have := h1 (by omega)
    rw [hc] at hp ⊢
    simp only [http_state.hdrs] at hp ⊢
    cases hx : hs.hdrs1 with
    | none => rw [hx] at this; exact absurd this (by simp [hdr_ok])
    | some s => rw [hx] at this hp; exact ⟨s, rfl, this, by simpa using hp⟩
  · have := h2 (by omega)
    rw [hc] at hp ⊢
    simp only [http_state.hdrs] at hp ⊢
    cases hx : hs.hdrs2 with
    | none => rw [hx] at this; exact absurd this (by simp [hdr_ok])
    | some s => rw [hx] at this hp; exact ⟨s, rfl, this, by simpa using hp⟩

theorem hdr_sendlen_eq (n pos len : Nat) (hn : n < U16) (hp : pos ≤ n) :
    (if (len : Int) < ((n % U16 : Nat) : Int) - (pos : Int) then len
      else ((((n % U16 : Nat) : Int) - (pos : Int)) % (U16 : Int)).toNat) = min len (n - pos) := by
  unfold U16 at *
  rw [Nat.mod_eq_of_lt hn]
  split_ifs with h
  · omega
  · have : ((n : Int) - (pos : Int)) % ((65536 : Nat) : Int) = (n : Int) - pos := by
      apply Int.emod_eq_of_lt <;> omega
    rw [this]
    omega

theorem hdr_advance_pending (hs : http_state) (hdr : List Char) (k : Nat)
    (hidx : hs.hdr_index < NUM_FILE_HDR_STRINGS) (hh : hs.hdrs hs.hdr_index = some hdr) :
    (hdr.drop hs.hdr_pos).take k ++ hdr_pending (hdr_advance hs hdr k) = hdr_pending hs := by
  have e1 : hdr_pending hs = hdr.drop hs.hdr_pos ++ hdr_from hs (hs.hdr_index + 1) := by
    simp [hdr_pending, hidx, hh]
  rw [e1]
  unfold hdr_advance
  split_ifs with h
  · have hfull : (hdr.drop hs.hdr_pos).take k = hdr.drop hs.hdr_pos := by
      apply List.take_of_length_le
      simp; omega
    rw [hfull]
    congr 1
    by_cases h3 : hs.hdr_index + 1 < NUM_FILE_HDR_STRINGS
    · have := hdr_from_step hs (hs.hdr_index + 1) h3
      simp only [hdr_pending, h3, if_true, List.drop_zero]
      rw [this]
      simp [hdr_from, http_state.hdrs]
    · simp only [hdr_pending, h3, if_false]
      unfold NUM_FILE_HDR_STRINGS at h3 hidx
      have : hs.hdr_index = 2 := by omega
      rw [this]
      rfl
  · have : hdr_pending { hs with hdr_pos := hs.hdr_pos + k }
        = hdr.drop (hs.hdr_pos + k) ++ hdr_from hs (hs.hdr_index + 1) := by
      simp only [hdr_pending, hidx, if_true]
      have e2 : ({ hs with hdr_pos := hs.hdr_pos + k } : http_state).hdrs hs.hdr_index
          = hs.hdrs hs.hdr_index := by
        unfold http_state.hdrs; rfl
      rw [e2, hh]
      rfl
    rw [this, ← List.append_assoc]
    congr 1
    rw [← List.drop_drop]
    exact List.take_append_drop k _


theorem http_send_hdr_step_eq {σ : Type} (T : Tcp σ) (c : Conn σ) (len : Nat) (dts : Bool)
    (hdr : List Char) (hh : c.hs.hdrs c.hs.hdr_index = some hdr) (hl : hdr.length < U16)
    (hp : c.hs.hdr_pos ≤ hdr.length) (hidx : c.hs.hdr_index < NUM_FILE_HDR_STRINGS)
    (hlen : len < U16) :
    ∃ (pcb1 : σ) (k : Nat) (dts1 : Bool), k ≤ len ∧ c.hs.hdr_pos + k ≤ hdr.length ∧
      http_send_hdr_step T c len dts
        = some ({ c with
                  pcb := pcb1
                  wire := c.wire ++ (hdr.drop c.hs.hdr_pos).take k
                  hs := hdr_advance c.hs hdr k }, len - k, k, dts1) := by
  unfold http_send_hdr_step
  rw [hh]
  simp only [hdr_sendlen_eq hdr.length c.hs.hdr_pos len hl hp]
  have hmod : hdr.length % U16 = hdr.length := Nat.mod_eq_of_lt hl
  have hidx' : (c.hs.hdr_index + 1) % U16 = c.hs.hdr_index + 1 := by
    apply Nat.mod_eq_of_lt
    unfold NUM_FILE_HDR_STRINGS at hidx; unfold U16; omega
  generalize hw : http_write T c.pcb (List.drop c.hs.hdr_pos hdr)
    (min len (hdr.length - c.hs.hdr_pos)) = w
  by_cases hok : w.err = ERR_OK
  · have hle : w.len ≤ min len (hdr.length - c.hs.hdr_pos) := by
      have := http_write_ok_le T c.pcb (List.drop c.hs.hdr_pos hdr)
        (min len (hdr.length - c.hs.hdr_pos))
      rw [hw] at this
      exact this hok
    have h1 : w.len ≤ len := le_trans hle (min_le_left _ _)
    have h2 : c.hs.hdr_pos + w.len ≤ hdr.length := by
      have := le_trans hle (min_le_right _ _)
      omega
    have hpos : (c.hs.hdr_pos + w.len) % U16 = c.hs.hdr_pos + w.len := by
      apply Nat.mod_eq_of_lt; omega
    have hlen1 : (len + U16 - w.len) % U16 = len - w.len := by
      have : len + U16 - w.len = (len - w.len) + U16 := by omega
      rw [this, Nat.add_mod_right]
      apply Nat.mod_eq_of_lt; omega
    refine ⟨w.pcb, w.len, (if w.err = ERR_OK ∧ min len (hdr.length - c.hs.hdr_pos) ≠ w.len then true else dts), h1, h2, ?_⟩
    simp only [hok, if_true, hmod, hidx', hpos, hlen1, true_and]
    unfold hdr_advance
    split_ifs <;> rfl
  · refine ⟨w.pcb, 0, dts, Nat.zero_le _, by omega, ?_⟩
    have hz : (len + U16 - 0) % U16 = len - 0 := by
      simp; exact Nat.mod_eq_of_lt hlen
    have hpz : (c.hs.hdr_pos + 0) % U16 = c.hs.hdr_pos + 0 := by
      apply Nat.mod_eq_of_lt; omega
    simp only [hok, if_false, hmod, hidx', hpz, hz, false_and, List.take_zero, List.append_nil]
    unfold hdr_advance
    split_ifs <;> rfl


theorem SendWF_hdr_advance (hs : http_state) (hdr : List Char) (k : Nat) (hwf : SendWF hs)
    (hh : hs.hdrs hs.hdr_index = some hdr)
    (hk : hs.hdr_pos + k ≤ hdr.length) : SendWF (hdr_advance hs hdr k) := by
  obtain ⟨h0, h1, h2, hp, hl, hn⟩ := hwf
  unfold hdr_advance
  split_ifs with h
  · refine ⟨fun hi => h0 ?_, fun hi => h1 ?_, fun hi => h2 ?_, fun _ => Nat.zero_le _, hl, hn⟩ <;>
      simp only [] at hi <;> omega
  · refine ⟨h0, h1, h2, fun _ => ?_, hl, hn⟩
    have e2 : ({ hs with hdr_pos := hs.hdr_pos + k } : http_state).hdrs hs.hdr_index
        = hs.hdrs hs.hdr_index := by
      unfold http_state.hdrs; rfl
    show hs.hdr_pos + k ≤ _
    rw [e2, hh]
    exact hk

/-- The header loop returns, moves only the header cursor, and the bytes it
got accepted are the ones the cursor passed. -/
theorem http_send_hdr_loop_spec {σ : Type} (T : Tcp σ) :
    ∀ (fuel : Nat) (c : Conn σ) (len sendlen : Nat) (dts : Bool),
      SendWF c.hs → len < U16 → (len ≠ 0 → sendlen ≠ 0 → len ≤ fuel) →
      ∃ (c1 : Conn σ) (dts1 : Bool) (acc : List Char),
        http_send_hdr_loop T fuel c len sendlen dts = some (c1, dts1) ∧
        c1 = { c with
               pcb := c1.pcb
               wire := c.wire ++ acc
               hs := { c.hs with hdr_index := c1.hs.hdr_index, hdr_pos := c1.hs.hdr_pos } } ∧
        acc ++ hdr_pending c1.hs = hdr_pending c.hs ∧ SendWF c1.hs := by
  intro fuel
  induction fuel with
  | zero =>
    intro c len sendlen dts hwf hlen hfuel
    unfold http_send_hdr_loop
    by_cases hc : len ≠ 0 ∧ c.hs.hdr_index < NUM_FILE_HDR_STRINGS ∧ sendlen ≠ 0
    · have := hfuel hc.1 hc.2.2
      omega
    · rw [if_neg hc]
      exact ⟨c, dts, [], rfl, by simp, by simp, hwf⟩
  | succ f ih =>
    intro c len sendlen dts hwf hlen hfuel
    unfold http_send_hdr_loop
    by_cases hc : len ≠ 0 ∧ c.hs.hdr_index < NUM_FILE_HDR_STRINGS ∧ sendlen ≠ 0
    · rw [if_pos hc]
      obtain ⟨hdr, hh, hl, hp⟩ := hwf.hdr hc.2.1
      obtain ⟨pcb1, k, dts1, hk1, hk2, hstep⟩ :=
        http_send_hdr_step_eq T c len dts hdr hh hl hp hc.2.1 hlen
      simp only [hstep]
      have hwf1 := SendWF_hdr_advance c.hs hdr k hwf hh hk2
      have hfuel1 : len - k ≠ 0 → k ≠ 0 → len - k ≤ f := by
        intro _ hk0
        have := hfuel hc.1 hc.2.2
        omega
      obtain ⟨c2, dts2, acc2, hloop, hframe, hpend, hwf2⟩ :=
        ih { c with
             pcb := pcb1
             wire := c.wire ++ (hdr.drop c.hs.hdr_pos).take k
             hs := hdr_advance c.hs hdr k } (len - k) k dts1 hwf1 (by omega) hfuel1
      refine ⟨c2, dts2, (hdr.drop c.hs.hdr_pos).take k ++ acc2, hloop, ?_, ?_, hwf2⟩
      · rw [hframe]
        simp only [List.append_assoc]
        unfold hdr_advance
        split_ifs <;> rfl
      · rw [List.append_assoc, hpend]
        exact hdr_advance_pending c.hs hdr k hc.2.1 hh
    · rw [if_neg hc]
      exact ⟨c, dts, [], rfl, by simp, by simp, hwf⟩


theorem SameHdr.pending {a b : http_state} (h : SameHdr a b) : hdr_pending a = hdr_pending b := by
  obtain ⟨h0, h1, h2, hi, hp⟩ := h
  have hf : ∀ i, hdr_from a i = hdr_from b i := by
    intro i
    unfold hdr_from
    rw [h0, h1, h2]
  have hh : ∀ i, a.hdrs i = b.hdrs i := by
    intro i
    unfold http_state.hdrs
    rw [h0, h1, h2]
  unfold hdr_pending
  rw [hi, hp, hf, hh]

theorem http_close_conn_hs {σ : Type} (T : Tcp σ) (c : Conn σ) :
    (http_close_conn T c true).2.hs = { c.hs with handle := none, buf := none } ∧
    (http_close_conn T c true).2.wire = c.wire ∧
    (http_close_conn T c true).2.arg = false := by
  unfold http_close_conn http_state_free httpd_post_finished
  simp only [Bool.true_and, if_true]
  split_ifs <;> simp

theorem http_send_file_spec {σ : Type} (T : Tcp σ) (F : WebFS) (c : Conn σ) (dts : Bool)
    (hwf : SendWF c.hs) (hh : c.hs.handle ≠ none) :
    ∃ (ret : Nat) (c1 : Conn σ) (acc : List Char),
      http_send_file T F c dts = some (ret, c1) ∧ c1.wire = c.wire ++ acc ∧
      acc ++ body_pending c1.hs = body_pending c.hs ∧ SameHdr c1.hs c.hs ∧ SendWF c1.hs := by
  obtain ⟨h0, h1, h2, hp, hl, hn⟩ := hwf
  obtain ⟨h, hhandle⟩ : ∃ h, c.hs.handle = some h := by
    cases hx : c.hs.handle with
    | none => exact absurd hx hh
    | some h => exact ⟨h, rfl⟩
  unfold http_send_file
  simp only []
  generalize hlen : (if 2 * tcp_mss T c.pcb <
      (if tcp_sndbuf T c.pcb < c.hs.left then tcp_sndbuf T c.pcb else c.hs.left % U16)
    then 2 * tcp_mss T c.pcb % U16
    else if tcp_sndbuf T c.pcb < c.hs.left then tcp_sndbuf T c.pcb else c.hs.left % U16) = len
  have hlenle : len ≤ c.hs.left := by
    have hs16 : tcp_sndbuf T c.pcb < U16 := Nat.mod_lt _ (by unfold U16; omega)
    have hm16 := Nat.mod_le (2 * tcp_mss T c.pcb) U16
    have hl16 := Nat.mod_le c.hs.left U16
    rw [← hlen]
    split_ifs <;> omega
  generalize hw : http_write T c.pcb (c.hs.file.getD []) len = w
  by_cases hok : w.err = ERR_OK
  · have hle : w.len ≤ len := by
      have := http_write_ok_le T c.pcb (c.hs.file.getD []) len
      rw [hw] at this
      exact this hok
    have hsub : (c.hs.left + U32 - w.len) % U32 = c.hs.left - w.len := by
      have : c.hs.left + U32 - w.len = (c.hs.left - w.len) + U32 := by omega
      rw [this, Nat.add_mod_right]
      apply Nat.mod_eq_of_lt; omega
    simp only [hok, if_true, hsub, hhandle]
    have hpend : List.take w.len (c.hs.file.getD []) ++
        body_pending { c.hs with file := c.hs.file.map (fun f => f.drop w.len),
                                 left := c.hs.left - w.len } = body_pending c.hs := by
      unfold body_pending
      simp only []
      have e : (Option.map (fun f => List.drop w.len f) c.hs.file).getD []
          = List.drop w.len (c.hs.file.getD []) := by
        cases c.hs.file <;> simp
      rw [e]
      have e2 : c.hs.left = w.len + (c.hs.left - w.len) := by omega
      conv_rhs => rw [e2, List.take_add]
    split_ifs with hz hb
    · refine ⟨_, _, List.take w.len (c.hs.file.getD []), rfl, ?_, ?_, ?_, ?_⟩
      · rw [(http_close_conn_hs T _).2.1]
      · rw [(http_close_conn_hs T _).1]
        exact hpend
      · rw [(http_close_conn_hs T _).1]
        exact ⟨rfl, rfl, rfl, rfl, rfl⟩
      · rw [(http_close_conn_hs T _).1]
        exact ⟨h0, h1, h2, hp, by simp only []; omega, fun _ => hz⟩
    · refine ⟨_, _, List.take w.len (c.hs.file.getD []), rfl, rfl, hpend,
        ⟨rfl, rfl, rfl, rfl, rfl⟩, ?_⟩
      exact ⟨h0, h1, h2, hp, by simp only []; omega, fun hx => by simp [hhandle] at hx⟩
    · refine ⟨_, _, List.take w.len (c.hs.file.getD []), rfl, rfl, hpend,
        ⟨rfl, rfl, rfl, rfl, rfl⟩, ?_⟩
      exact ⟨h0, h1, h2, hp, by simp only []; omega, fun hx => by simp [hhandle] at hx⟩
  · simp only [hok, if_false, hhandle]
    split_ifs with hz hb
    · refine ⟨_, _, [], rfl, ?_, ?_, ?_, ?_⟩
      · rw [(http_close_conn_hs T _).2.1]; simp
      · rw [(http_close_conn_hs T _).1]; rfl
      · rw [(http_close_conn_hs T _).1]
        exact ⟨rfl, rfl, rfl, rfl, rfl⟩
      · rw [(http_close_conn_hs T _).1]
        exact ⟨h0, h1, h2, hp, hl, fun _ => hz⟩
    · exact ⟨_, _, [], rfl, by simp, rfl, ⟨rfl, rfl, rfl, rfl, rfl⟩, ⟨h0, h1, h2, hp, hl, hn⟩⟩
    · exact ⟨_, _, [], rfl, by simp, rfl, ⟨rfl, rfl, rfl, rfl, rfl⟩, ⟨h0, h1, h2, hp, hl, hn⟩⟩


theorem http_send_read_spec {σ : Type} (T : Tcp σ) (F : WebFS) (c : Conn σ) (h : webfs_file)
    (count : Nat) (dts : Bool) (hwf : SendWF c.hs) (hz : c.hs.left = 0) :
    ∃ (ret : Nat) (c1 : Conn σ) (acc block : List Char),
      http_send_read T F c h count dts = some (ret, c1) ∧ c1.wire = c.wire ++ acc ∧
      acc ++ body_pending c1.hs = body_pending c.hs ++ block ∧ SameHdr c1.hs c.hs ∧
      SendWF c1.hs := by
  obtain ⟨h0, h1, h2, hp, hl, hn⟩ := hwf
  have hbp : body_pending c.hs = [] := by
    unfold body_pending; rw [hz]; simp
  unfold http_send_read
  cases hr : F.webfs_read h count with
  | mk res h1' =>
    cases res with
    | none =>
      simp only []
      refine ⟨_, _, [], [], rfl, ?_, ?_, ?_, ?_⟩
      · rw [(http_close_conn_hs T _).2.1]; simp
      · rw [(http_close_conn_hs T _).1, hbp]
        unfold body_pending
        simp only [hz]
        simp
      · rw [(http_close_conn_hs T _).1]
        exact ⟨rfl, rfl, rfl, rfl, rfl⟩
      · rw [(http_close_conn_hs T _).1]
        exact ⟨h0, h1, h2, hp, hl, fun _ => hz⟩
    | some bytes =>
      simp only []
      have hwf2 : SendWF ({ c.hs with
          handle := some h1'
          buf := some (memcpy_at (c.hs.buf.getD []) 0 bytes)
          left := bytes.length % U32
          file := some (memcpy_at (c.hs.buf.getD []) 0 bytes) } : http_state) :=
        ⟨h0, h1, h2, hp, Nat.mod_lt _ (by unfold U32; omega), fun hx => by simp at hx⟩
      obtain ⟨ret, c1, acc, hf, hw, hpend, hsame, hwf1⟩ :=
        http_send_file_spec T F
          { c with hs := { c.hs with
              handle := some h1'
              buf := some (memcpy_at (c.hs.buf.getD []) 0 bytes)
              left := bytes.length % U32
              file := some (memcpy_at (c.hs.buf.getD []) 0 bytes) } } dts hwf2 (by simp)
      refine ⟨ret, c1, acc, body_pending ({ c.hs with
          handle := some h1'
          buf := some (memcpy_at (c.hs.buf.getD []) 0 bytes)
          left := bytes.length % U32
          file := some (memcpy_at (c.hs.buf.getD []) 0 bytes) } : http_state),
        hf, hw, ?_, ?_, hwf1⟩
      · rw [hpend, hbp]; rfl
      · exact ⟨hsame.1, hsame.2.1, hsame.2.2.1, hsame.2.2.2.1, hsame.2.2.2.2⟩

theorem http_send_body_spec {σ : Type} (T : Tcp σ) (F : WebFS) (c : Conn σ) (dts : Bool)
    (hwf : SendWF c.hs) :
    ∃ (ret : Nat) (c1 : Conn σ) (acc block : List Char),
      http_send_body T F c dts = some (ret, c1) ∧ c1.wire = c.wire ++ acc ∧
      acc ++ body_pending c1.hs = body_pending c.hs ++ block ∧ SameHdr c1.hs c.hs ∧
      SendWF c1.hs := by
  have hwf' := hwf
  obtain ⟨h0, h1, h2, hp, hl, hn⟩ := hwf
  unfold http_send_body
  by_cases hz : c.hs.left = 0
  · rw [if_pos hz]
    have hclosed : ∃ (ret : Nat) (c1 : Conn σ) (acc block : List Char),
        (some (0, (http_close_conn T c true).2) : Option (Nat × Conn σ)) = some (ret, c1) ∧
        c1.wire = c.wire ++ acc ∧
        acc ++ body_pending c1.hs = body_pending c.hs ++ block ∧ SameHdr c1.hs c.hs ∧
        SendWF c1.hs := by
      refine ⟨_, _, [], [], rfl, ?_, ?_, ?_, ?_⟩
      · rw [(http_close_conn_hs T _).2.1]; simp
      · rw [(http_close_conn_hs T _).1]; simp [body_pending]
      · rw [(http_close_conn_hs T _).1]
        exact ⟨rfl, rfl, rfl, rfl, rfl⟩
      · rw [(http_close_conn_hs T _).1]
        exact ⟨h0, h1, h2, hp, hl, fun _ => hz⟩
    cases hh : c.hs.handle with
    | none => exact hclosed
    | some h =>
      simp only []
      split_ifs with hb
      · exact hclosed
      · cases hbuf : c.hs.buf with
        | some b =>
          simp only []
          exact http_send_read_spec T F c h _ dts hwf' hz
        | none =>
          simp only []
          cases ha : http_send_alloc T (2 * tcp_mss T c.pcb) c.pcb (2 * tcp_mss T c.pcb) with
          | mk res pcb1 =>
            cases res with
            | none =>
              simp only []
              exact ⟨_, _, [], [], rfl, by simp, by simp, ⟨rfl, rfl, rfl, rfl, rfl⟩, hwf'⟩
            | some n =>
              simp only []
              obtain ⟨ret, c1, acc, block, hf, hw, hpend, hsame, hwf1⟩ :=
                http_send_read_spec T F
                  { c with
                    pcb := pcb1
                    hs := { c.hs with buf := some (List.replicate n NUL), buf_len := n } }
                  h n dts ⟨h0, h1, h2, hp, hl, hn⟩ hz
              exact ⟨ret, c1, acc, block, hf, hw, hpend, hsame, hwf1⟩
  · rw [if_neg hz]
    obtain ⟨ret, c1, acc, hf, hw, hpend, hsame, hwf1⟩ :=
      http_send_file_spec T F c dts hwf' (fun hx => hz (hn hx))
    exact ⟨ret, c1, acc, [], hf, hw, by simpa using hpend, hsame, hwf1⟩


/-- One call of `http_send_data` returns; the bytes it gets accepted are first
the header bytes the header cursor passes, then the body bytes the body cursor
passes, `block` being what the call read from the file. -/
theorem http_send_data_spec {σ : Type} (T : Tcp σ) (F : WebFS) (c : Conn σ)
    (hwf : SendWF c.hs) :
    ∃ (ret : Nat) (c1 : Conn σ) (hacc bacc block : List Char),
      http_send_data T F c = some (ret, c1) ∧
      c1.wire = c.wire ++ (hacc ++ bacc) ∧
      hacc ++ hdr_pending c1.hs = hdr_pending c.hs ∧
      bacc ++ body_pending c1.hs = body_pending c.hs ++ block ∧
      (c1.hs.hdr_index < NUM_FILE_HDR_STRINGS → bacc = [] ∧ block = []) ∧
      (NUM_FILE_HDR_STRINGS ≤ c.hs.hdr_index → c1.hs.hdr_index = c.hs.hdr_index) ∧
      (c1.hs.hdrs0 = c.hs.hdrs0 ∧ c1.hs.hdrs1 = c.hs.hdrs1 ∧ c1.hs.hdrs2 = c.hs.hdrs2) ∧
      SendWF c1.hs := by
  unfold http_send_data
  cases harg : c.arg with
  | false =>
    simp only [Bool.not_false, if_true]
    exact ⟨0, c, [], [], [], rfl, by simp, by simp, by simp, fun _ => ⟨rfl, rfl⟩,
      fun _ => rfl, ⟨rfl, rfl, rfl⟩, hwf⟩
  | true =>
    simp only [Bool.not_true, Bool.false_eq_true, if_false]
    by_cases hidx : c.hs.hdr_index < NUM_FILE_HDR_STRINGS
    · rw [if_pos hidx]
      have hs16 : tcp_sndbuf T c.pcb < U16 := Nat.mod_lt _ (by unfold U16; omega)
      obtain ⟨c1, dts1, acc, hloop, hframe, hpend, hwf1⟩ :=
        http_send_hdr_loop_spec T (tcp_sndbuf T c.pcb) c (tcp_sndbuf T c.pcb)
          (tcp_sndbuf T c.pcb) false hwf hs16 (fun _ _ => le_refl _)
      have hfile : c1.hs.file = c.hs.file := by rw [hframe]
      have hleft : c1.hs.left = c.hs.left := by rw [hframe]
      have hwire : c1.wire = c.wire ++ acc := by rw [hframe]
      have hd0 : c1.hs.hdrs0 = c.hs.hdrs0 := by rw [hframe]
      have hd1 : c1.hs.hdrs1 = c.hs.hdrs1 := by rw [hframe]
      have hd2 : c1.hs.hdrs2 = c.hs.hdrs2 := by rw [hframe]
      have hbody : body_pending c1.hs = body_pending c.hs := by
        unfold body_pending; rw [hfile, hleft]
      simp only [hloop]
      split_ifs with hc
      · exact ⟨1, c1, acc, [], [], rfl, by simpa using hwire, hpend, by simpa using hbody,
          fun _ => ⟨rfl, rfl⟩, fun h => absurd hidx (by omega), ⟨hd0, hd1, hd2⟩, hwf1⟩
      · obtain ⟨ret, c2, bacc, block, hf, hw2, hpend2, hsame, hwf2⟩ :=
          http_send_body_spec T F c1 dts1 hwf1
        refine ⟨ret, c2, acc, bacc, block, hf, ?_, ?_, ?_, ?_, fun h => absurd hidx (by omega),
          ⟨hsame.1.trans hd0, hsame.2.1.trans hd1, hsame.2.2.1.trans hd2⟩, hwf2⟩
        · rw [hw2, hwire, List.append_assoc]
        · rw [hsame.pending]; exact hpend
        · rw [hpend2, hbody]
        · intro h
          rw [hsame.2.2.2.1] at h
          exact absurd (Or.inl h) hc
    · rw [if_neg hidx]
      obtain ⟨ret, c2, bacc, block, hf, hw2, hpend2, hsame, hwf2⟩ :=
        http_send_body_spec T F c false hwf
      refine ⟨ret, c2, [], bacc, block, hf, by simpa using hw2, ?_, hpend2, ?_,
        fun _ => hsame.2.2.2.1, ⟨hsame.1, hsame.2.1, hsame.2.2.1⟩, hwf2⟩
      · rw [hsame.pending]; rfl
      · intro h
        rw [hsame.2.2.2.1] at h
        exact absurd h hidx


theorem hdr_pending_nil_of_le (hs : http_state) (h : NUM_FILE_HDR_STRINGS ≤ hs.hdr_index) :
    hdr_pending hs = [] := by
  unfold hdr_pending
  rw [if_neg (by omega)]

/-- Any sequence of `http_send_data` calls returns; header bytes are accepted
first, body bytes after the header cursor is exhausted, each in cursor order. -/
theorem http_send_data_seq_spec {σ : Type} (T : Tcp σ) (F : WebFS) :
    ∀ (pcbs : List σ) (c : Conn σ), SendWF c.hs →
    ∃ (c1 : Conn σ) (hacc bacc blocks : List Char),
      http_send_data_seq T F pcbs c = some c1 ∧
      c1.wire = c.wire ++ (hacc ++ bacc) ∧
      hacc ++ hdr_pending c1.hs = hdr_pending c.hs ∧
      bacc ++ body_pending c1.hs = body_pending c.hs ++ blocks ∧
      (c1.hs.hdr_index < NUM_FILE_HDR_STRINGS → bacc = [] ∧ blocks = []) ∧
      (NUM_FILE_HDR_STRINGS ≤ c.hs.hdr_index → c1.hs.hdr_index = c.hs.hdr_index) ∧
      (c1.hs.hdrs0 = c.hs.hdrs0 ∧ c1.hs.hdrs1 = c.hs.hdrs1 ∧ c1.hs.hdrs2 = c.hs.hdrs2) ∧
      SendWF c1.hs := by
  intro pcbs
  induction pcbs with
  | nil =>
    intro c hwf
    exact ⟨c, [], [], [], rfl, by simp, by simp, by simp, fun _ => ⟨rfl, rfl⟩, fun _ => rfl,
      ⟨rfl, rfl, rfl⟩, hwf⟩
  | cons s rest ih =>
    intro c hwf
    obtain ⟨ret, c1, hacc1, bacc1, block1, hcall, hw1, hh1, hb1, hi1, hm1, hd1, hwf1⟩ :=
      http_send_data_spec T F { c with pcb := s } hwf
    obtain ⟨c2, hacc2, bacc2, blocks2, hseq, hw2, hh2, hb2, hi2, hm2, hd2, hwf2⟩ := ih c1 hwf1
    have hrun : http_send_data_seq T F (s :: rest) c = some c2 := by
      simp only [http_send_data_seq, hcall, hseq]
    have hd : c2.hs.hdrs0 = c.hs.hdrs0 ∧ c2.hs.hdrs1 = c.hs.hdrs1 ∧ c2.hs.hdrs2 = c.hs.hdrs2 :=
      ⟨hd2.1.trans hd1.1, hd2.2.1.trans hd1.2.1, hd2.2.2.trans hd1.2.2⟩
    by_cases h3 : c1.hs.hdr_index < NUM_FILE_HDR_STRINGS
    · obtain ⟨hb0, hk0⟩ := hi1 h3
      subst hb0 hk0
      refine ⟨c2, hacc1 ++ hacc2, bacc2, blocks2, hrun, ?_, ?_, ?_, hi2, ?_, hd, hwf2⟩
      · rw [hw2, hw1]; simp
      · rw [List.append_assoc, hh2]; exact hh1
      · rw [hb2]
        have : body_pending c1.hs = body_pending c.hs := by simpa using hb1
        rw [this]
      · intro h
        have := hm1 h
        simp only [] at this
        omega
    · have h3' : NUM_FILE_HDR_STRINGS ≤ c1.hs.hdr_index := by omega
      have hidx2 := hm2 h3'
      have hp1 : hdr_pending c1.hs = [] := hdr_pending_nil_of_le _ h3'
      have hp2 : hdr_pending c2.hs = [] := hdr_pending_nil_of_le _ (by omega)
      have hacc2nil : hacc2 = [] := by
        rw [hp1, hp2] at hh2
        simpa using hh2
      subst hacc2nil
      refine ⟨c2, hacc1, bacc1 ++ bacc2, block1 ++ blocks2, hrun, ?_, ?_, ?_, ?_, ?_, hd, hwf2⟩
      · rw [hw2, hw1]; simp
      · rw [hp2, ← hp1]; exact hh1
      · rw [List.append_assoc, hb2, ← List.append_assoc, hb1]
        simp
      · intro h; omega
      · intro h
        rw [hidx2]
        exact hm1 h



theorem conn_sending_wf : SendWF conn_sending.hs := by
  simp [SendWF, hdr_ok, conn_sending, conn_accepted, http_state_alloc, demoTables, U16, U32,
    NUM_FILE_HDR_STRINGS, http_state.hdrs]

/-- C2: over any sequence of `http_send_data` calls, whatever the transport
answers, the bytes accepted (`acc`) followed by the bytes the send cursor still
designates (rest of the header block, then `hs->left` bytes at `hs->file`) are
exactly the bytes the cursor designated at the start followed by the blocks
read from the file meanwhile.  So the cursor advances by exactly what was
accepted, stays where it is when nothing was, never moves back, and no
accepted byte is sent again. -/
theorem http_send_data_never_resends {σ : Type} (T : Tcp σ) (F : WebFS) (pcbs : List σ)
    (c : Conn σ) (hwf : SendWF c.hs) :
    ∃ (c1 : Conn σ) (acc blocks : List Char),
      http_send_data_seq T F pcbs c = some c1 ∧
      c1.wire = c.wire ++ acc ∧
      acc ++ pending c1.hs = pending c.hs ++ blocks := by
  obtain ⟨c1, hacc, bacc, blocks, hseq, hw, hh, hb, hi, -, -, -⟩ :=
    http_send_data_seq_spec T F pcbs c hwf
  refine ⟨c1, hacc ++ bacc, blocks, hseq, hw, ?_⟩
  unfold pending
  by_cases h3 : c1.hs.hdr_index < NUM_FILE_HDR_STRINGS
  · obtain ⟨hb0, hk0⟩ := hi h3
    subst hb0 hk0
    have hbody : body_pending c1.hs = body_pending c.hs := by simpa using hb
    rw [hbody, ← hh]
    simp
  · have hp1 : hdr_pending c1.hs = [] := hdr_pending_nil_of_le _ (by omega)
    rw [hp1] at hh ⊢
    rw [← hh, List.append_nil, List.nil_append, List.append_assoc, hb, List.append_assoc]

/-- C2, witness: three calls on `conn_sending`. -/
theorem http_send_data_never_resends_witness :
    SendWF conn_sending.hs ∧
    ∃ (c1 : Conn (List err_t)) (acc blocks : List Char),
      http_send_data_seq (tcpScript 20) demoFS [[ERR_MEM], [], [ERR_MEM, ERR_MEM]] conn_sending
        = some c1 ∧
      c1.wire = conn_sending.wire ++ acc ∧
      acc ++ pending c1.hs = pending conn_sending.hs ++ blocks :=
  ⟨conn_sending_wf,
    http_send_data_never_resends (tcpScript 20) demoFS [[ERR_MEM], [], [ERR_MEM, ERR_MEM]]
      conn_sending conn_sending_wf⟩

/-- C3: when the header cursor has been reset to the start of three header
strings, then after any sequence of `http_send_data` calls, whatever the
transport answers, the accepted bytes are header bytes `hacc` followed by body
bytes `bacc`, where `hacc` with the header bytes still pending is exactly
`hdrs[0] ++ hdrs[1] ++ hdrs[2]`, and body bytes have been accepted only if
`hacc` is that whole block. -/
theorem http_send_data_header_block_once {σ : Type} (T : Tcp σ) (F : WebFS) (pcbs : List σ)
    (c : Conn σ) (h0 h1 h2 : List Char)
    (hd0 : c.hs.hdrs0 = some h0) (hd1 : c.hs.hdrs1 = some h1) (hd2 : c.hs.hdrs2 = some h2)
    (hl0 : h0.length < U16) (hl1 : h1.length < U16) (hl2 : h2.length < U16)
    (hidx : c.hs.hdr_index = 0) (hpos : c.hs.hdr_pos = 0)
    (hleft : c.hs.left < U32) (hhandle : c.hs.handle = none → c.hs.left = 0) :
    ∃ (c1 : Conn σ) (hacc bacc blocks : List Char),
      http_send_data_seq T F pcbs c = some c1 ∧
      c1.wire = c.wire ++ (hacc ++ bacc) ∧
      hacc ++ hdr_pending c1.hs = h0 ++ (h1 ++ h2) ∧
      (bacc ≠ [] → hacc = h0 ++ (h1 ++ h2)) ∧
      (NUM_FILE_HDR_STRINGS ≤ c1.hs.hdr_index → hacc = h0 ++ (h1 ++ h2)) ∧
      bacc ++ body_pending c1.hs = body_pending c.hs ++ blocks := by
  have hwf : SendWF c.hs := by
    refine ⟨fun _ => ?_, fun _ => ?_, fun _ => ?_, fun _ => ?_, hleft, hhandle⟩
    · rw [hd0]; exact hl0
    · rw [hd1]; exact hl1
    · rw [hd2]; exact hl2
    · rw [hpos]; exact Nat.zero_le _
  have hstart : hdr_pending c.hs = h0 ++ (h1 ++ h2) := by
    simp [hdr_pending, hidx, hpos, NUM_FILE_HDR_STRINGS, http_state.hdrs, hd0, hd1, hd2, hdr_from]
  obtain ⟨c1, hacc, bacc, blocks, hseq, hw, hh, hb, hi, -, -, -⟩ :=
    http_send_data_seq_spec T F pcbs c hwf
  have hfull : NUM_FILE_HDR_STRINGS ≤ c1.hs.hdr_index → hacc = h0 ++ (h1 ++ h2) := by
    intro h3
    have hp1 : hdr_pending c1.hs = [] := hdr_pending_nil_of_le _ h3
    rw [hp1, List.append_nil, hstart] at hh
    exact hh
  refine ⟨c1, hacc, bacc, blocks, hseq, hw, by rw [hh, hstart], ?_, hfull, hb⟩
  intro hne
  by_cases h3 : c1.hs.hdr_index < NUM_FILE_HDR_STRINGS
  · exact absurd (hi h3).1 hne
  · exact hfull (by omega)

/-- C3, witness: three calls on `conn_sending`. -/
theorem http_send_data_header_block_once_witness :
    conn_sending.hs.hdrs0 = some "HTTP/1.0 200 OK\r\n".toList ∧
    conn_sending.hs.hdrs1 = some "Server: lwIP/1.3.1\r\n".toList ∧
    conn_sending.hs.hdrs2 = some "Content-type: text/html\r\n\r\n".toList ∧
    "HTTP/1.0 200 OK\r\n".toList.length < U16 ∧
    "Server: lwIP/1.3.1\r\n".toList.length < U16 ∧
    "Content-type: text/html\r\n\r\n".toList.length < U16 ∧
    conn_sending.hs.hdr_index = 0 ∧ conn_sending.hs.hdr_pos = 0 ∧
    conn_sending.hs.left < U32 ∧ (conn_sending.hs.handle = none → conn_sending.hs.left = 0) ∧
    ∃ (c1 : Conn (List err_t)) (hacc bacc blocks : List Char),
      http_send_data_seq (tcpScript 20) demoFS [[ERR_MEM], [], [ERR_MEM, ERR_MEM]] conn_sending
        = some c1 ∧
      c1.wire = conn_sending.wire ++ (hacc ++ bacc) ∧
      hacc ++ hdr_pending c1.hs
        = "HTTP/1.0 200 OK\r\n".toList
          ++ ("Server: lwIP/1.3.1\r\n".toList ++ "Content-type: text/html\r\n\r\n".toList) ∧
      (bacc ≠ [] → hacc = "HTTP/1.0 200 OK\r\n".toList
          ++ ("Server: lwIP/1.3.1\r\n".toList ++ "Content-type: text/html\r\n\r\n".toList)) ∧
      (NUM_FILE_HDR_STRINGS ≤ c1.hs.hdr_index → hacc = "HTTP/1.0 200 OK\r\n".toList
          ++ ("Server: lwIP/1.3.1\r\n".toList ++ "Content-type: text/html\r\n\r\n".toList)) ∧
      bacc ++ body_pending c1.hs = body_pending conn_sending.hs ++ blocks :=
  ⟨rfl, rfl, rfl, by decide, by decide, by decide, rfl, rfl, by decide, by decide,
    http_send_data_header_block_once (tcpScript 20) demoFS [[ERR_MEM], [], [ERR_MEM, ERR_MEM]]
      conn_sending _ _ _ rfl rfl rfl (by decide) (by decide) (by decide) rfl rfl
      (by decide) (by decide)⟩


/-! ## POST body accounting -/

theorem http_close_conn_post_part {σ : Type} (T : Tcp σ) (c : Conn σ) (b : Bool) :
    (http_close_conn T c b).2.post_part = c.post_part ∧
    (http_close_conn T c b).2.arg = false := by
  unfold http_close_conn http_state_free httpd_post_finished Conn.post_part
  cases b <;> simp only [Bool.true_and, Bool.false_and, if_true, if_false] <;>
    split_ifs <;> simp

theorem http_send_hdr_step_frame {σ : Type} (T : Tcp σ) (c c1 : Conn σ) (len len1 sl1 : Nat)
    (d d1 : Bool) (h : http_send_hdr_step T c len d = some (c1, len1, sl1, d1)) :
    c1.post_part = c.post_part ∧ c1.hs.handle = c.hs.handle ∧ c1.arg = c.arg := by
  unfold http_send_hdr_step at h
  cases hh : c.hs.hdrs c.hs.hdr_index with
  | none => rw [hh] at h; simp at h
  | some hdr =>
    rw [hh] at h
    simp only [Option.some.injEq, Prod.mk.injEq] at h
    obtain ⟨hc, -⟩ := h
    subst hc
    unfold Conn.post_part
    simp only []
    split_ifs <;> simp

theorem http_send_hdr_loop_frame {σ : Type} (T : Tcp σ) :
    ∀ (fuel : Nat) (c c1 : Conn σ) (len sl : Nat) (d d1 : Bool),
      http_send_hdr_loop T fuel c len sl d = some (c1, d1) →
      c1.post_part = c.post_part ∧ c1.hs.handle = c.hs.handle ∧ c1.arg = c.arg := by
  intro fuel
  induction fuel with
  | zero =>
    intro c c1 len sl d d1 h
    unfold http_send_hdr_loop at h
    split_ifs at h
    simp only [Option.some.injEq, Prod.mk.injEq] at h
    obtain ⟨hc, -⟩ := h
    subst hc
    exact ⟨rfl, rfl, rfl⟩
  | succ f ih =>
    intro c c1 len sl d d1 h
    unfold http_send_hdr_loop at h
    split_ifs at h
    · cases hs : http_send_hdr_step T c len d with
      | none => rw [hs] at h; simp at h
      | some r =>
        obtain ⟨c2, len2, sl2, d2⟩ := r
        rw [hs] at h
        simp only [] at h
        obtain ⟨e1, e2, e3⟩ := http_send_hdr_step_frame T c c2 len len2 sl2 d d2 hs
        obtain ⟨f1, f2, f3⟩ := ih c2 c1 len2 sl2 d2 d1 h
        exact ⟨f1.trans e1, f2.trans e2, f3.trans e3⟩
    · simp only [Option.some.injEq, Prod.mk.injEq] at h
      obtain ⟨hc, -⟩ := h
      subst hc
      exact ⟨rfl, rfl, rfl⟩

theorem http_send_file_frame {σ : Type} (T : Tcp σ) (F : WebFS) (c c1 : Conn σ) (d : Bool)
    (r : Nat) (h : http_send_file T F c d = some (r, c1)) :
    c1.post_part = c.post_part ∧ (c1.arg = false ∨ c1.hs.handle = c.hs.handle) ∧
    (c1.arg = false ∨ c1.arg = c.arg) := by
  unfold http_send_file at h
  simp only [] at h
  generalize hw : http_write T c.pcb (c.hs.file.getD []) _ = w at h
  by_cases hok : w.err = ERR_OK
  · simp only [hok, if_true] at h
    cases hh : c.hs.handle with
    | none =>
      simp only [hh] at h
      split_ifs at h
      simp only [Option.some.injEq, Prod.mk.injEq] at h
      obtain ⟨-, hc⟩ := h
      subst hc
      exact ⟨rfl, Or.inr rfl, Or.inr rfl⟩
    | some hd =>
      simp only [hh] at h
      split_ifs at h
      · simp only [Option.some.injEq, Prod.mk.injEq] at h
        obtain ⟨-, hc⟩ := h
        subst hc
        exact ⟨(http_close_conn_post_part T _ true).1,
          Or.inl (http_close_conn_post_part T _ true).2,
          Or.inl (http_close_conn_post_part T _ true).2⟩
      · simp only [Option.some.injEq, Prod.mk.injEq] at h
        obtain ⟨-, hc⟩ := h
        subst hc
        exact ⟨rfl, Or.inr rfl, Or.inr rfl⟩
      · simp only [Option.some.injEq, Prod.mk.injEq] at h
        obtain ⟨-, hc⟩ := h
        subst hc
        exact ⟨rfl, Or.inr rfl, Or.inr rfl⟩
  · simp only [hok, if_false] at h
    cases hh : c.hs.handle with
    | none =>
      simp only [hh] at h
      split_ifs at h
      simp only [Option.some.injEq, Prod.mk.injEq] at h
      obtain ⟨-, hc⟩ := h
      subst hc
      exact ⟨rfl, Or.inr hh, Or.inr rfl⟩
    | some hd =>
      simp only [hh] at h
      split_ifs at h
      · simp only [Option.some.injEq, Prod.mk.injEq] at h
        obtain ⟨-, hc⟩ := h
        subst hc
        exact ⟨(http_close_conn_post_part T _ true).1,
          Or.inl (http_close_conn_post_part T _ true).2,
          Or.inl (http_close_conn_post_part T _ true).2⟩
      · simp only [Option.some.injEq, Prod.mk.injEq] at h
        obtain ⟨-, hc⟩ := h
        subst hc
        exact ⟨rfl, Or.inr hh, Or.inr rfl⟩
      · simp only [Option.some.injEq, Prod.mk.injEq] at h
        obtain ⟨-, hc⟩ := h
        subst hc
        exact ⟨rfl, Or.inr hh, Or.inr rfl⟩


theorem http_send_read_frame {σ : Type} (T : Tcp σ) (F : WebFS) (c c1 : Conn σ)
    (hd : webfs_file) (count : Nat) (d : Bool) (r : Nat)
    (h : http_send_read T F c hd count d = some (r, c1)) :
    c1.post_part = c.post_part ∧ (c1.arg = false ∨ c1.hs.handle ≠ none) ∧
    (c1.arg = false ∨ c1.arg = c.arg) := by
  unfold http_send_read at h
  cases hr : F.webfs_read hd count with
  | mk res h1 =>
    rw [hr] at h
    cases res with
    | none =>
      simp only [Option.some.injEq, Prod.mk.injEq] at h
      obtain ⟨-, hc⟩ := h
      subst hc
      exact ⟨(http_close_conn_post_part T _ true).1,
        Or.inl (http_close_conn_post_part T _ true).2,
        Or.inl (http_close_conn_post_part T _ true).2⟩
    | some bytes =>
      simp only [] at h
      obtain ⟨e1, e2, e3⟩ := http_send_file_frame T F _ c1 d r h
      refine ⟨e1, ?_, e3⟩
      rcases e2 with e2 | e2
      · exact Or.inl e2
      · right; rw [e2]; simp

theorem http_send_body_frame {σ : Type} (T : Tcp σ) (F : WebFS) (c c1 : Conn σ) (d : Bool)
    (r : Nat) (h : http_send_body T F c d = some (r, c1)) :
    c1.post_part = c.post_part ∧ (c.hs.handle ≠ none → c1.arg = false ∨ c1.hs.handle ≠ none) ∧
    (c1.arg = false ∨ c1.arg = c.arg) := by
  unfold http_send_body at h
  split_ifs at h with hz
  · cases hh : c.hs.handle with
    | none =>
      rw [hh] at h
      simp only [Option.some.injEq, Prod.mk.injEq] at h
      obtain ⟨-, hc⟩ := h
      subst hc
      exact ⟨(http_close_conn_post_part T _ true).1,
        fun _ => Or.inl (http_close_conn_post_part T _ true).2,
        Or.inl (http_close_conn_post_part T _ true).2⟩
    | some hd =>
      rw [hh] at h
      simp only [] at h
      split_ifs at h
      · simp only [Option.some.injEq, Prod.mk.injEq] at h
        obtain ⟨-, hc⟩ := h
        subst hc
        exact ⟨(http_close_conn_post_part T _ true).1,
          fun _ => Or.inl (http_close_conn_post_part T _ true).2,
          Or.inl (http_close_conn_post_part T _ true).2⟩
      · cases hb : c.hs.buf with
        | some b =>
          rw [hb] at h
          simp only [] at h
          obtain ⟨e1, e2, e3⟩ := http_send_read_frame T F _ c1 hd _ d r h
          exact ⟨e1, fun _ => e2, e3⟩
        | none =>
          rw [hb] at h
          simp only [] at h
          cases ha : http_send_alloc T (2 * tcp_mss T c.pcb) c.pcb (2 * tcp_mss T c.pcb) with
          | mk res pcb1 =>
            rw [ha] at h
            cases res with
            | none =>
              simp only [Option.some.injEq, Prod.mk.injEq] at h
              obtain ⟨-, hc⟩ := h
              subst hc
              exact ⟨rfl, fun _ => Or.inr (by simp [hh]), Or.inr rfl⟩
            | some n =>
              simp only [] at h
              obtain ⟨e1, e2, e3⟩ := http_send_read_frame T F _ c1 hd _ d r h
              exact ⟨e1, fun _ => e2, e3⟩
  · obtain ⟨e1, e2, e3⟩ := http_send_file_frame T F c c1 d r h
    refine ⟨e1, fun hn => ?_, e3⟩
    rcases e2 with e2 | e2
    · exact Or.inl e2
    · right; rw [e2]; exact hn

/-- `http_send_data` leaves the POST side of the connection alone, and a
connection that had a file open still has one unless it was closed. -/
theorem http_send_data_frame {σ : Type} (T : Tcp σ) (F : WebFS) (c c1 : Conn σ) (r : Nat)
    (h : http_send_data T F c = some (r, c1)) :
    c1.post_part = c.post_part ∧ (c.hs.handle ≠ none → c1.arg = false ∨ c1.hs.handle ≠ none) ∧
    (c1.arg = false ∨ c1.arg = c.arg) := by
  unfold http_send_data at h
  split_ifs at h with ha hi
  · simp only [Option.some.injEq, Prod.mk.injEq] at h
    obtain ⟨-, hc⟩ := h
    subst hc
    exact ⟨rfl, fun hn => Or.inr hn, Or.inr rfl⟩
  · simp only [] at h
    cases hl : http_send_hdr_loop T (tcp_sndbuf T c.pcb) c (tcp_sndbuf T c.pcb)
        (tcp_sndbuf T c.pcb) false with
    | none => rw [hl] at h; simp at h
    | some res =>
      obtain ⟨c2, d2⟩ := res
      rw [hl] at h
      simp only [] at h
      obtain ⟨f1, f2, f3⟩ := http_send_hdr_loop_frame T _ c c2 _ _ _ d2 hl
      split_ifs at h
      · simp only [Option.some.injEq, Prod.mk.injEq] at h
        obtain ⟨-, hc⟩ := h
        subst hc
        exact ⟨f1, fun hn => Or.inr (by rw [f2]; exact hn), Or.inr f3⟩
      · obtain ⟨e1, e2, e3⟩ := http_send_body_frame T F c2 c1 d2 r h
        refine ⟨e1.trans f1, fun hn => e2 (by rw [f2]; exact hn), ?_⟩
        rcases e3 with e3 | e3
        · exact Or.inl e3
        · exact Or.inr (e3.trans f3)
  · exact http_send_body_frame T F c c1 false r h

theorem get_http_headers_frame (H : HeaderTables) (hs : http_state) (u : Option (List Char)) :
    (get_http_headers H hs u).post_content_len_left = hs.post_content_len_left ∧
    (get_http_headers H hs u).handle = hs.handle ∧
    (get_http_headers H hs u).file = hs.file ∧
    (get_http_headers H hs u).left = hs.left ∧
    (get_http_headers H hs u).req_info = hs.req_info ∧
    (get_http_headers H hs u).hdr_index = 0 ∧
    (get_http_headers H hs u).hdr_pos = 0 := by
  unfold get_http_headers
  cases u with
  | none => exact ⟨rfl, rfl, rfl, rfl, rfl, rfl, rfl⟩
  | some uri =>
    simp only []
    split
    · split <;> simp
    · simp

theorem http_init_file_frame {σ : Type} (H : HeaderTables) (c c1 : Conn σ)
    (file : Option webfs_file) (is_09 : Bool) (uri : cptr) (e : err_t)
    (h : http_init_file H c file is_09 uri = some (e, c1)) :
    e = ERR_OK ∧ c1.hs.handle ≠ none ∧ file ≠ none ∧
    c1.hs.post_content_len_left = c.hs.post_content_len_left ∧
    c1.post_rx = c.post_rx ∧ c1.arg = c.arg := by
  unfold http_init_file at h
  cases file with
  | none => simp at h
  | some f =>
    simp only [] at h
    split at h
    · simp at h
    · rename_i hs2 heq
      have hfr : hs2.handle = some f ∧ hs2.post_content_len_left = c.hs.post_content_len_left := by
        split_ifs at heq with hc
        · split at heq
          · simp at heq
          · split at heq
            · simp only [Option.some.injEq] at heq
              subst heq
              exact ⟨rfl, rfl⟩
            · simp only [Option.some.injEq] at heq
              subst heq
              exact ⟨rfl, rfl⟩
        · simp only [Option.some.injEq] at heq
          subst heq
          exact ⟨rfl, rfl⟩
      split_ifs at h
      · simp only [Option.some.injEq, Prod.mk.injEq] at h
        obtain ⟨he, hc⟩ := h
        subst hc
        obtain ⟨g1, g2, -⟩ := get_http_headers_frame H hs2 (c.str uri)
        refine ⟨he.symm, ?_, by simp, ?_, rfl, rfl⟩
        · show (get_http_headers H hs2 (c.str uri)).handle ≠ none
          rw [g2, hfr.1]; simp
        · show (get_http_headers H hs2 (c.str uri)).post_content_len_left = _
          rw [g1, hfr.2]
      · simp only [Option.some.injEq, Prod.mk.injEq] at h
        obtain ⟨he, hc⟩ := h
        subst hc
        exact ⟨he.symm, by show hs2.handle ≠ none; rw [hfr.1]; simp, by simp, hfr.2, rfl, rfl⟩


theorem http_get_404_file_frame {σ : Type} (F : WebFS) (c : Conn σ) :
    (http_get_404_file F c).2.2 = { c with opened := (http_get_404_file F c).2.2.opened } := by
  unfold http_get_404_file opened_log
  simp only []
  split
  · rfl
  · split
    · rfl
    · split <;> rfl

theorem http_find_file_params_frame {σ : Type} (c c1 : Conn σ) (uri : cptr)
    (h : http_find_file_params c uri = some c1) :
    c1.hs = { c.hs with req_info := { c.hs.req_info with params := c1.hs.req_info.params } } ∧
    c1.post_rx = c.post_rx ∧ c1.arg = c.arg ∧ c1.wire = c.wire ∧ c1.pcb = c.pcb ∧
    c1.opened = c.opened ∧ c1.error_file = c.error_file := by
  unfold http_find_file_params at h
  simp only [] at h
  split at h
  · simp at h
  · split at h
    · simp only [Option.some.injEq] at h
      subst h
      exact ⟨rfl, rfl, rfl, rfl, rfl, rfl, rfl⟩
    · split at h
      · simp only [Option.some.injEq] at h
        subst h
        cases ‹Region› <;> exact ⟨rfl, rfl, rfl, rfl, rfl, rfl, rfl⟩
      · simp at h

theorem http_find_file_frame {σ : Type} (F : WebFS) (H : HeaderTables) (c c1 : Conn σ)
    (uri : cptr) (is_09 : Bool) (e : err_t)
    (h : http_find_file F H c uri is_09 = some (e, c1)) :
    e = ERR_OK ∧ c1.hs.handle ≠ none ∧
    c1.hs.post_content_len_left = c.hs.post_content_len_left ∧
    c1.post_rx = c.post_rx ∧ c1.arg = c.arg := by
  unfold http_find_file at h
  split at h
  · simp at h
  · rename_i cq hq
    obtain ⟨q1, q2, q3, -⟩ := http_find_file_params_frame c cq uri hq
    have q1' : cq.hs.post_content_len_left = c.hs.post_content_len_left := by rw [q1]
    simp only [] at h
    split at h
    · obtain ⟨g1, g2, -, g4, g5, g6⟩ := http_init_file_frame H _ c1 _ _ _ e h
      exact ⟨g1, g2, g4.trans q1', g5.trans q2, g6.trans q3⟩
    · obtain ⟨g1, g2, -, g4, g5, g6⟩ := http_init_file_frame H _ c1 _ _ _ e h
      rw [http_get_404_file_frame] at g4 g5 g6
      exact ⟨g1, g2, g4.trans q1', g5.trans q2, g6.trans q3⟩

theorem Conn.post_part_fields {σ : Type} {a b : Conn σ} (h : a.post_part = b.post_part) :
    a.hs.post_content_len_left = b.hs.post_content_len_left ∧ a.post_rx = b.post_rx := by
  unfold Conn.post_part at h
  simp only [Prod.mk.injEq] at h
  exact ⟨h.1, h.2.1⟩

theorem httpd_post_receive_data_frame {σ : Type} (c : Conn σ) (p : pbuf) :
    (httpd_post_receive_data c p).1 = ERR_OK ∧
    (httpd_post_receive_data c p).2.hs.post_content_len_left = c.hs.post_content_len_left ∧
    (httpd_post_receive_data c p).2.post_rx = c.post_rx + pbuf_tot_len p ∧
    (httpd_post_receive_data c p).2.arg = c.arg := by
  unfold httpd_post_receive_data
  split
  simp only []
  split_ifs <;> exact ⟨rfl, rfl, rfl, rfl⟩

/-- The remaining length `http_post_rxpbuf` computes from `r = left` and the
chunk length (lines 882-886). -/
theorem post_left_eq (r t : Nat) (hr : r < U32) :
    (if r < t then 0 else (r + U32 - t) % U32) = r - min t r := by
  split_ifs with h
  · omega
  · have : r + U32 - t = (r - t) + U32 := by omega
    rw [this, Nat.add_mod_right, Nat.mod_eq_of_lt (by omega)]
    omega

theorem http_post_rxpbuf_spec {σ : Type} (F : WebFS) (H : HeaderTables) (c c1 : Conn σ)
    (p : pbuf) (e : err_t) (hr : c.hs.post_content_len_left < U32)
    (h : http_post_rxpbuf F H c p = some (e, c1)) :
    c1.hs.post_content_len_left
      = c.hs.post_content_len_left - min (pbuf_tot_len p) c.hs.post_content_len_left ∧
    c1.post_rx = c.post_rx + pbuf_tot_len p ∧ c1.arg = c.arg ∧
    (c1.hs.post_content_len_left = 0 → c1.hs.handle ≠ none) := by
  unfold http_post_rxpbuf at h
  simp only [post_left_eq _ _ hr] at h
  obtain ⟨r1, r2, r3, r4⟩ := httpd_post_receive_data_frame
    { c with hs := { c.hs with post_content_len_left :=
        c.hs.post_content_len_left - min (pbuf_tot_len p) c.hs.post_content_len_left } } p
  simp only [] at r2 r3 r4
  split_ifs at h with hc
  · unfold http_handle_post_finished httpd_post_finished at h
    obtain ⟨g1, g2, g3, g4, g5⟩ := http_find_file_frame F H _ c1 _ _ e h
    simp only [] at g3 g4 g5
    exact ⟨g3.trans r2, g4.trans r3, g5.trans r4, fun _ => g2⟩
  · simp only [Option.some.injEq, Prod.mk.injEq] at h
    obtain ⟨-, hc1⟩ := h
    subst hc1
    refine ⟨r2, r3, r4, fun h0 => ?_⟩
    exact absurd (Or.inr h0) hc

theorem http_post_rxpbuf_defined {σ : Type} (F : WebFS) (H : HeaderTables) (c : Conn σ)
    (p : pbuf) (hr : c.hs.post_content_len_left < U32)
    (hpos : pbuf_tot_len p < c.hs.post_content_len_left) :
    ∃ c1, http_post_rxpbuf F H c p = some (ERR_OK, c1) := by
  unfold http_post_rxpbuf
  simp only [post_left_eq _ _ hr]
  obtain ⟨r1, r2, r3, r4⟩ := httpd_post_receive_data_frame
    { c with hs := { c.hs with post_content_len_left :=
        c.hs.post_content_len_left - min (pbuf_tot_len p) c.hs.post_content_len_left } } p
  simp only [] at r2
  rw [if_neg]
  · exact ⟨_, rfl⟩
  · rw [r1, r2]
    intro hc
    rcases hc with hc | hc
    · exact hc rfl
    · omega


/-- A receive event while a POST body is awaited: the pbuf is forwarded whole,
and when it completes the body a file is open or the connection closed. -/
theorem http_recv_post_step {σ : Type} (T : Tcp σ) (F : WebFS) (H : HeaderTables)
    (c c1 : Conn σ) (p : pbuf) (e : err_t) (harg : c.arg = true) (hp : p ≠ [])
    (hpos : 0 < c.hs.post_content_len_left) (hr : c.hs.post_content_len_left < U32)
    (h : http_recv T F H c p ERR_OK = some (e, c1)) :
    c1.hs.post_content_len_left
      = c.hs.post_content_len_left - min (pbuf_tot_len p) c.hs.post_content_len_left ∧
    c1.post_rx = c.post_rx + pbuf_tot_len p ∧
    (c1.hs.post_content_len_left ≠ 0 → c1.arg = true) ∧
    (c1.hs.post_content_len_left = 0 → c1.arg = false ∨ c1.hs.handle ≠ none) := by
  unfold http_recv at h
  rw [if_neg (by simp [hp, harg]), if_pos hpos] at h
  cases hx : http_post_rxpbuf F H { c with hs := { c.hs with retries := 0 } } p with
  | none => rw [hx] at h; simp at h
  | some res =>
    obtain ⟨e2, c2⟩ := res
    rw [hx] at h
    simp only [] at h
    obtain ⟨q1, q2, q3, q4⟩ := http_post_rxpbuf_spec F H
      { c with hs := { c.hs with retries := 0 } } c2 p e2 hr hx
    simp only [] at q1 q2 q3
    split_ifs at h with hz
    · cases hsd : http_send_data T F c2 with
      | none => rw [hsd] at h; simp at h
      | some r =>
        rw [hsd] at h
        simp only [Option.map_some', Option.some.injEq, Prod.mk.injEq] at h
        obtain ⟨-, hc1⟩ := h
        obtain ⟨f1, f2, f3⟩ := http_send_data_frame T F c2 r.2 r.1 hsd
        rw [hc1] at f1 f2 f3
        obtain ⟨p1, p2⟩ := Conn.post_part_fields f1
        refine ⟨p1.trans q1, p2.trans q2, fun hne => ?_, fun _ => f2 (q4 hz)⟩
        exact absurd (p1.trans hz) hne
    · simp only [Option.some.injEq, Prod.mk.injEq] at h
      obtain ⟨-, hc1⟩ := h
      subst hc1
      exact ⟨q1, q2, fun _ => q3.trans harg, fun h0 => absurd h0 hz⟩

/-- A receive event after the POST body is complete forwards nothing. -/
theorem http_recv_done_step {σ : Type} (T : Tcp σ) (F : WebFS) (H : HeaderTables)
    (c c1 : Conn σ) (p : pbuf) (e : err_t) (hp : p ≠ [])
    (hz : c.hs.post_content_len_left = 0) (hd : c.arg = false ∨ c.hs.handle ≠ none)
    (h : http_recv T F H c p ERR_OK = some (e, c1)) :
    c1.hs.post_content_len_left = 0 ∧ c1.post_rx = c.post_rx ∧
    (c1.arg = false ∨ c1.hs.handle ≠ none) := by
  unfold http_recv at h
  cases harg : c.arg with
  | false =>
    rw [if_pos (by simp [harg])] at h
    simp only [Option.some.injEq, Prod.mk.injEq] at h
    obtain ⟨-, hc1⟩ := h
    subst hc1
    obtain ⟨f1, f2⟩ := http_close_conn_post_part T c c.arg
    obtain ⟨p1, p2⟩ := Conn.post_part_fields f1
    exact ⟨p1.trans hz, p2, Or.inl f2⟩
  | true =>
    have hh : c.hs.handle ≠ none := by
      rcases hd with hd | hd
      · rw [harg] at hd; exact absurd hd (by decide)
      · exact hd
    rw [if_neg (by simp [hp, harg]), if_neg (by omega), if_neg hh] at h
    simp only [] at h
    rw [if_neg (by decide), if_neg (by decide)] at h
    simp only [Option.some.injEq, Prod.mk.injEq] at h
    obtain ⟨-, hc1⟩ := h
    subst hc1
    exact ⟨hz, rfl, Or.inr hh⟩

theorem http_recv_seq_done {σ : Type} (T : Tcp σ) (F : WebFS) (H : HeaderTables) :
    ∀ (ps : List pbuf) (c c1 : Conn σ), (∀ p ∈ ps, p ≠ []) →
      c.hs.post_content_len_left = 0 → (c.arg = false ∨ c.hs.handle ≠ none) →
      http_recv_seq T F H ps c = some c1 →
      c1.hs.post_content_len_left = 0 ∧ c1.post_rx = c.post_rx := by
  intro ps
  induction ps with
  | nil =>
    intro c c1 _ hz _ h
    simp only [http_recv_seq, Option.some.injEq] at h
    subst h
    exact ⟨hz, rfl⟩
  | cons p rest ih =>
    intro c c1 hps hz hd h
    unfold http_recv_seq at h
    cases hx : http_recv T F H c p ERR_OK with
    | none => rw [hx] at h; simp at h
    | some r =>
      obtain ⟨e, c2⟩ := r
      rw [hx] at h
      simp only [] at h
      obtain ⟨s1, s2, s3⟩ := http_recv_done_step T F H c c2 p e
        (hps p (List.mem_cons_self _ _)) hz hd hx
      obtain ⟨t1, t2⟩ := ih c2 c1 (fun q hq => hps q (List.mem_cons_of_mem _ hq)) s1 s3 h
      exact ⟨t1, t2.trans s2⟩

theorem pbufs_len_cons (p : pbuf) (ps : List pbuf) :
    pbufs_len (p :: ps) = pbuf_tot_len p + pbufs_len ps := by
  simp [pbufs_len]

theorem pbufs_len_take_le (ps : List pbuf) (k : Nat) : pbufs_len (ps.take k) ≤ pbufs_len ps := by
  induction ps generalizing k with
  | nil => simp [pbufs_len]
  | cons p rest ih =>
    cases k with
    | zero => simp [pbufs_len]
    | succ k =>
      rw [List.take_succ_cons, pbufs_len_cons, pbufs_len_cons]
      have := ih k
      omega

/-- Receive events while a POST body of `N` bytes is awaited: the pbufs of the
first `k` events are forwarded whole, `k` being the first event at which the
received total reaches `N` (or all of them). -/
theorem http_recv_seq_post {σ : Type} (T : Tcp σ) (F : WebFS) (H : HeaderTables) :
    ∀ (ps : List pbuf) (c c1 : Conn σ), (∀ p ∈ ps, p ≠ []) → c.arg = true →
      0 < c.hs.post_content_len_left → c.hs.post_content_len_left < U32 →
      http_recv_seq T F H ps c = some c1 →
      ∃ k, k ≤ ps.length ∧
        c1.post_rx = c.post_rx + pbufs_len (ps.take k) ∧
        (∀ j, j < k → pbufs_len (ps.take j) < c.hs.post_content_len_left) ∧
        (k < ps.length → c.hs.post_content_len_left ≤ pbufs_len (ps.take k)) ∧
        c1.hs.post_content_len_left
          = c.hs.post_content_len_left - min c.hs.post_content_len_left (pbufs_len ps) := by
  intro ps
  induction ps with
  | nil =>
    intro c c1 _ _ hpos _ h
    simp only [http_recv_seq, Option.some.injEq] at h
    subst h
    exact ⟨0, le_refl _, by simp [pbufs_len], fun j hj => absurd hj (by omega),
      fun hk => absurd hk (by simp), by simp [pbufs_len]⟩
  | cons p rest ih =>
    intro c c1 hps harg hpos hr h
    unfold http_recv_seq at h
    cases hx : http_recv T F H c p ERR_OK with
    | none => rw [hx] at h; simp at h
    | some r =>
      obtain ⟨e, c2⟩ := r
      rw [hx] at h
      simp only [] at h
      obtain ⟨s1, s2, s3, s4⟩ := http_recv_post_step T F H c c2 p e harg
        (hps p (List.mem_cons_self _ _)) hpos hr hx
      have hrest : ∀ q ∈ rest, q ≠ [] := fun q hq => hps q (List.mem_cons_of_mem _ hq)
      by_cases hz : c2.hs.post_content_len_left = 0
      · obtain ⟨t1, t2⟩ := http_recv_seq_done T F H rest c2 c1 hrest hz (s4 hz) h
        have hge : c.hs.post_content_len_left ≤ pbuf_tot_len p := by omega
        refine ⟨1, by simp, ?_, ?_, ?_, ?_⟩
        · rw [t2, s2]; simp [pbufs_len]
        · intro j hj
          have : j = 0 := by omega
          subst this
          simpa [pbufs_len] using hpos
        · intro _
          simp only [List.take_succ_cons, List.take_zero, pbufs_len_cons]
          simp only [pbufs_len, List.map_nil, List.sum_nil]
          omega
        · rw [t1, pbufs_len_cons]
          omega
      · have hlt : pbuf_tot_len p < c.hs.post_content_len_left := by omega
        obtain ⟨k, hk, u1, u2, u3, u4⟩ := ih c2 c1 hrest (s3 hz) (by omega) (by omega) h
        refine ⟨k + 1, by simp; omega, ?_, ?_, ?_, ?_⟩
        · rw [u1, s2, List.take_succ_cons, pbufs_len_cons]; omega
        · intro j hj
          cases j with
          | zero => simpa [pbufs_len] using hpos
          | succ j =>
            rw [List.take_succ_cons, pbufs_len_cons]
            have := u2 j (by omega)
            omega
        · intro hk2
          rw [List.take_succ_cons, pbufs_len_cons]
          have := u3 (by simpa using hk2)
          omega
        · rw [u4, s1, pbufs_len_cons]
          omega

/-- C5: `http_post_rxpbuf` leaves `post_content_len_left = r - min(c, r)` for
the previous value `r` and the chunk length `c = p->tot_len`; the `u32_t`
subtraction of line 885 does not wrap, and the value does not increase. -/
theorem http_post_rxpbuf_remaining {σ : Type} (F : WebFS) (H : HeaderTables) (c : Conn σ)
    (p : pbuf) (hr : c.hs.post_content_len_left < U32)
    (hdef : (http_post_rxpbuf F H c p).isSome = true) :
    ∃ (e : err_t) (c1 : Conn σ), http_post_rxpbuf F H c p = some (e, c1) ∧
      c1.hs.post_content_len_left
        = c.hs.post_content_len_left - min (pbuf_tot_len p) c.hs.post_content_len_left ∧
      c1.hs.post_content_len_left ≤ c.hs.post_content_len_left ∧
      (pbuf_tot_len p ≤ c.hs.post_content_len_left →
        (c.hs.post_content_len_left + U32 - pbuf_tot_len p) % U32
          = c.hs.post_content_len_left - pbuf_tot_len p) := by
  obtain ⟨r, hx⟩ := Option.isSome_iff_exists.mp hdef
  obtain ⟨e, c1⟩ := r
  obtain ⟨q1, -, -, -⟩ := http_post_rxpbuf_spec F H c c1 p e hr hx
  refine ⟨e, c1, hx, q1, by omega, fun hle => ?_⟩
  have := post_left_eq c.hs.post_content_len_left (pbuf_tot_len p) hr
  rw [if_neg (by omega)] at this
  rw [this]
  omega

/-- C5, witness: 10 bytes arrive while 26 are awaited. -/
theorem http_post_rxpbuf_remaining_witness :
    (conn_awaiting 26).hs.post_content_len_left < U32 ∧
    (http_post_rxpbuf demoFS demoTables (conn_awaiting 26) ["ssid=Foo&p".toList]).isSome = true ∧
    ∃ (e : err_t) (c1 : Conn (List err_t)),
      http_post_rxpbuf demoFS demoTables (conn_awaiting 26) ["ssid=Foo&p".toList]
        = some (e, c1) ∧
      c1.hs.post_content_len_left
        = (conn_awaiting 26).hs.post_content_len_left
          - min (pbuf_tot_len ["ssid=Foo&p".toList]) (conn_awaiting 26).hs.post_content_len_left ∧
      c1.hs.post_content_len_left ≤ (conn_awaiting 26).hs.post_content_len_left ∧
      (pbuf_tot_len ["ssid=Foo&p".toList] ≤ (conn_awaiting 26).hs.post_content_len_left →
        ((conn_awaiting 26).hs.post_content_len_left + U32 - pbuf_tot_len ["ssid=Foo&p".toList])
            % U32
          = (conn_awaiting 26).hs.post_content_len_left - pbuf_tot_len ["ssid=Foo&p".toList]) :=
  ⟨by decide, by decide!,
    http_post_rxpbuf_remaining demoFS demoTables (conn_awaiting 26) ["ssid=Foo&p".toList]
      (by decide) (by decide!)⟩

/-- C4 (amended): while a POST body of `N = post_content_len_left` bytes is
awaited, every receive event hands its whole pbuf to
`httpd_post_receive_data`, up to and including the first event at which the
bytes received reach `N`; later events forward nothing.  So the number of
bytes forwarded is the total length of the first `k` pbufs, where every
proper prefix of them is shorter than `N` and, unless all events were used,
their total is at least `N` (more than `N` when the last pbuf overshoots).
`post_content_len_left` is `N - min(N, bytes received)`: it is 0 exactly from
the event at which the bytes received reach `N`. -/
theorem http_recv_post_forwarding {σ : Type} (T : Tcp σ) (F : WebFS) (H : HeaderTables)
    (ps : List pbuf) (c : Conn σ) (hps : ∀ p ∈ ps, p ≠ []) (harg : c.arg = true)
    (hpos : 0 < c.hs.post_content_len_left) (hr : c.hs.post_content_len_left < U32)
    (hdef : (http_recv_seq T F H ps c).isSome = true) :
    ∃ (c1 : Conn σ) (k : Nat), http_recv_seq T F H ps c = some c1 ∧ k ≤ ps.length ∧
      c1.post_rx = c.post_rx + pbufs_len (ps.take k) ∧
      (∀ j, j < k → pbufs_len (ps.take j) < c.hs.post_content_len_left) ∧
      (k < ps.length → c.hs.post_content_len_left ≤ pbufs_len (ps.take k)) ∧
      c1.hs.post_content_len_left
        = c.hs.post_content_len_left - min c.hs.post_content_len_left (pbufs_len ps) := by
  obtain ⟨c1, hx⟩ := Option.isSome_iff_exists.mp hdef
  obtain ⟨k, hk, u1, u2, u3, u4⟩ := http_recv_seq_post T F H ps c c1 hps harg hpos hr hx
  exact ⟨c1, k, hx, hk, u1, u2, u3, u4⟩


/-- C4, witness: 26 bytes awaited, delivered as 10 and 16 bytes. -/
theorem http_recv_post_forwarding_witness :
    (∀ p ∈ [["ssid=Foo&p".toList], ["assword=Bar12345".toList]], p ≠ ([] : pbuf)) ∧
    (conn_awaiting 26).arg = true ∧
    0 < (conn_awaiting 26).hs.post_content_len_left ∧
    (conn_awaiting 26).hs.post_content_len_left < U32 ∧
    (http_recv_seq (tcpScript 2000) demoFS demoTables
      [["ssid=Foo&p".toList], ["assword=Bar12345".toList]] (conn_awaiting 26)).isSome = true ∧
    ∃ (c1 : Conn (List err_t)) (k : Nat),
      http_recv_seq (tcpScript 2000) demoFS demoTables
        [["ssid=Foo&p".toList], ["assword=Bar12345".toList]] (conn_awaiting 26) = some c1 ∧
      k ≤ [["ssid=Foo&p".toList], ["assword=Bar12345".toList]].length ∧
      c1.post_rx = (conn_awaiting 26).post_rx
        + pbufs_len ([["ssid=Foo&p".toList], ["assword=Bar12345".toList]].take k) ∧
      (∀ j, j < k → pbufs_len ([["ssid=Foo&p".toList], ["assword=Bar12345".toList]].take j)
        < (conn_awaiting 26).hs.post_content_len_left) ∧
      (k < [["ssid=Foo&p".toList], ["assword=Bar12345".toList]].length →
        (conn_awaiting 26).hs.post_content_len_left
          ≤ pbufs_len ([["ssid=Foo&p".toList], ["assword=Bar12345".toList]].take k)) ∧
      c1.hs.post_content_len_left
        = (conn_awaiting 26).hs.post_content_len_left
          - min (conn_awaiting 26).hs.post_content_len_left
              (pbufs_len [["ssid=Foo&p".toList], ["assword=Bar12345".toList]]) :=
  ⟨by decide, by decide, by decide, by decide, by decide!,
    http_recv_post_forwarding (tcpScript 2000) demoFS demoTables
      [["ssid=Foo&p".toList], ["assword=Bar12345".toList]] (conn_awaiting 26)
      (by decide) (by decide) (by decide) (by decide) (by decide!)⟩

/-- C4, counterexample: a POST with `Content-Length: 5` whose body arrives as
one pbuf of 8 bytes.  After the header event 5 bytes are awaited and nothing
has been forwarded; the body event forwards all 8 bytes, not `min(5, 8) = 5`. -/
theorem http_recv_forwards_past_content_length :
    (http_recv_seq (tcpScript 2000) demoFS demoTables
        ["POST /ssid HTTP/1.0\r\nContent-Length: 5\r\n\r\n".toList :: []]
        (conn_accepted [])).map (fun c => (c.hs.post_content_len_left, c.post_rx))
      = some (5, 0) ∧
    (http_recv_seq (tcpScript 2000) demoFS demoTables
        ["POST /ssid HTTP/1.0\r\nContent-Length: 5\r\n\r\n".toList :: [],
         "helloXYZ".toList :: []]
        (conn_accepted [])).map (fun c => (c.hs.post_content_len_left, c.post_rx))
      = some (0, 8) ∧
    min 5 (pbufs_len ["helloXYZ".toList :: []]) = 5 := by
  refine ⟨by decide!, by decide!, by decide⟩


/-! ## The staged POST payload -/

/-- C6 (defect): the 26-byte POST of the scenario, served after a POST with a
30-byte body.  The completion step runs once and the lookup is made once, but
the handler is shown `post_data` = the 26 bytes received followed by the last
4 bytes of the earlier body: `httpd_post_receive_data` copies the chunks to the
start of the static buffer and never terminates them.  On a connection not
preceded by a longer POST the same request exposes exactly the 26 bytes. -/
theorem post_data_keeps_stale_bytes :
    ((http_recv_seq (tcpScript 2000) demoFS demoTables [post_ssid_30] (conn_accepted [])).bind
        (fun prev => http_recv_seq (tcpScript 2000) demoFS demoTables post_ssid_26
          (conn_accepted_after prev []))).map
        (fun c => (c.opened, c.post_finished.length))
      = some ([("/ssid".toList,
                some { uri := some "/ssid".toList
                       post_data := some "ssid=Foo&password=Bar12345AAAA".toList
                       is_post := 1
                       params := none })], 1) ∧
    (http_recv_seq (tcpScript 2000) demoFS demoTables post_ssid_26 (conn_accepted [])).map
        (fun c => (c.opened, c.post_finished.length))
      = some ([("/ssid".toList,
                some { uri := some "/ssid".toList
                       post_data := some "ssid=Foo&password=Bar12345".toList
                       is_post := 1
                       params := none })], 1) := by
  constructor <;> decide!


/-! ## `strnstr` -/

/-- `strncmp` over the whole of a NUL-free token is the prefix test. -/
theorem strncmp_eq_iff_starts (tok : List Char) (htok : ∀ c ∈ tok, c ≠ NUL) :
    ∀ (buf : List Char), strncmp_eq buf tok tok.length = true ↔ tok <+: buf := by
  induction tok with
  | nil => intro buf; simp [strncmp_eq]
  | cons t ts ih =>
    intro buf
    have ht : t ≠ NUL := htok t (List.mem_cons_self _ _)
    have hts : ∀ c ∈ ts, c ≠ NUL := fun c hc => htok c (List.mem_cons_of_mem _ hc)
    cases buf with
    | nil => simp [strncmp_eq]
    | cons b bs =>
      simp only [List.length_cons, strncmp_eq]
      by_cases hbt : b = t
      · subst hbt
        simp only [bne_self_eq_false, Bool.false_eq_true, if_false, beq_iff_eq, ht, ih hts bs]
        constructor
        · intro h; exact (List.prefix_cons_inj b).mpr h
        · intro h; exact (List.prefix_cons_inj b).mp h
      · have : (b != t) = true := by simpa using hbt
        simp only [this, if_true]
        constructor
        · intro h; exact absurd h (by simp)
        · intro h
          have := List.cons_prefix_cons.mp h
          exact absurd this.1.symm hbt

theorem strnstr_loop_cons (tok : List Char) (c : Char) (rest : List Char) (n off : Nat) :
    strnstr_loop tok (c :: rest) n off =
      if c != NUL && decide (tok.length ≤ n) then
        if tok.head? == some c && strncmp_eq (c :: rest) tok tok.length then some off
        else strnstr_loop tok rest (n - 1) (off + 1)
      else none := by
  rw [strnstr_loop]

theorem strnstr_loop_hit (tok : List Char) (htok : ∀ c ∈ tok, c ≠ NUL) (hne : tok ≠ [])
    (buf : List Char) (n off : Nat) (hpre : tok <+: buf) (hn : tok.length ≤ n) :
    strnstr_loop tok buf n off = some off := by
  cases tok with
  | nil => exact absurd rfl hne
  | cons t ts =>
    cases buf with
    | nil => exact absurd (List.prefix_nil.mp hpre) (by simp)
    | cons b bs =>
      have hb : b = t := (List.cons_prefix_cons.mp hpre).1.symm
      subst hb
      have hbn : b ≠ NUL := htok b (List.mem_cons_self _ _)
      have hcmp := (strncmp_eq_iff_starts (b :: ts) htok (b :: bs)).mpr hpre
      simp only [List.length_cons] at hn hcmp
      rw [strnstr_loop_cons]
      simp [hbn, hn, hcmp]

/-- Skipping a NUL-free stretch in which the token does not start. -/
theorem strnstr_loop_skip (tok : List Char) (htok : ∀ c ∈ tok, c ≠ NUL) :
    ∀ (u w : List Char) (n off : Nat), (∀ c ∈ u, c ≠ NUL) →
      (∀ j, j < u.length → ¬ tok <+: (u ++ w).drop j) → u.length + tok.length ≤ n →
      strnstr_loop tok (u ++ w) n off = strnstr_loop tok w (n - u.length) (off + u.length) := by
  intro u
  induction u with
  | nil => intro w n off _ _ _; simp
  | cons a u ih =>
    intro w n off hnul hno hn
    have ha : a ≠ NUL := hnul a (List.mem_cons_self _ _)
    have h0 : ¬ tok <+: (a :: u ++ w) := by
      have := hno 0 (by simp)
      simpa using this
    have hcmp : strncmp_eq (a :: (u ++ w)) tok tok.length = false := by
      have := (strncmp_eq_iff_starts tok htok (a :: (u ++ w))).not.mpr (by simpa using h0)
      simpa using this
    simp only [List.length_cons] at hn
    rw [List.cons_append, strnstr_loop_cons]
    have hle : tok.length ≤ n := by omega
    simp only [hcmp, ha, hle, Bool.and_false, Bool.false_eq_true, if_false, ne_eq,
      not_false_eq_true, bne_iff_ne, decide_True, Bool.and_self, if_true]
    rw [ih w (n - 1) (off + 1) (fun c hc => hnul c (List.mem_cons_of_mem _ hc))
      (fun j hj => by
        have := hno (j + 1) (by simp; omega)
        simpa using this) (by omega)]
    simp only [List.length_cons]
    have e1 : n - 1 - u.length = n - (u.length + 1) := by omega
    have e2 : off + 1 + u.length = off + (u.length + 1) := by omega
    rw [e1, e2]
    simp [ha]

/-- A token that starts nowhere in the buffer is not found. -/
theorem strnstr_loop_none (tok : List Char) (htok : ∀ c ∈ tok, c ≠ NUL) :
    ∀ (buf : List Char) (n off : Nat), (∀ j, ¬ tok <+: buf.drop j) →
      strnstr_loop tok buf n off = none := by
  intro buf
  induction buf with
  | nil => intro n off _; rfl
  | cons b bs ih =>
    intro n off hno
    have h0 : ¬ tok <+: (b :: bs) := by simpa using hno 0
    have hcmp : strncmp_eq (b :: bs) tok tok.length = false := by
      have := (strncmp_eq_iff_starts tok htok (b :: bs)).not.mpr h0
      simpa using this
    rw [strnstr_loop_cons]
    simp only [hcmp, Bool.and_false, Bool.false_eq_true, if_false]
    rw [ih (n - 1) (off + 1) (fun j => by simpa using hno (j + 1))]
    simp

/-! ## Request parsing -/

theorem space_ne_NUL : ∀ c ∈ [' '], c ≠ NUL := by decide
theorem CRLF_ne_NUL : ∀ c ∈ CRLF, c ≠ NUL := by decide
theorem GET_ne_NUL : ∀ c ∈ "GET ".toList, c ≠ NUL := by decide
theorem POST_ne_NUL : ∀ c ∈ "POST ".toList, c ≠ NUL := by decide

/-- A byte that does not occur is not found. -/
theorem strnstr_char_none (buf : List Char) (ch : Char) (hch : ch ≠ NUL) (n : Nat)
    (h : ch ∉ buf) : strnstr buf [ch] n = none := by
  unfold strnstr
  simp only [List.length_singleton, one_ne_zero, if_false]
  apply strnstr_loop_none [ch] (by simpa using hch)
  intro j hpre
  apply h
  have hm : ch ∈ buf.drop j := hpre.subset (List.mem_singleton_self ch)
  exact List.mem_of_mem_drop hm

theorem strncmp_GET (data : List Char) :
    strncmp_eq data "GET ".toList 4 = true ↔ "GET ".toList <+: data :=
  strncmp_eq_iff_starts "GET ".toList GET_ne_NUL data

theorem strncmp_POST (data : List Char) :
    strncmp_eq data "POST ".toList 5 = true ↔ "POST ".toList <+: data :=
  strncmp_eq_iff_starts "POST ".toList POST_ne_NUL data

theorem not_GET_of_POST (data : List Char) (h : "POST ".toList <+: data) :
    ¬ "GET ".toList <+: data := by
  intro hg
  obtain ⟨t1, rfl⟩ := h
  obtain ⟨t2, h2⟩ := hg
  simp at h2

/-- A POST with no space behind the method token is a bad request. -/
theorem http_parse_request_post_no_space {σ : Type} (F : WebFS) (H : HeaderTables) (c : Conn σ)
    (data : List Char) (next : pbuf) (hh : c.hs.handle = none) (hf : c.hs.file = none)
    (hpost : "POST ".toList <+: data) (hsp : ' ' ∉ data.drop 5) :
    http_parse_request F H c (data :: next)
      = some (ERR_ARG, data :: next,
          { parse_start c data with error_file := c.error_file ++ [400] }) := by
  have hg : strncmp_eq data "GET ".toList 4 = false := by
    have := (strncmp_GET data).not.mpr (not_GET_of_POST data hpost)
    simpa using this
  have hp : strncmp_eq data "POST ".toList 5 = true := (strncmp_POST data).mpr hpost
  have hidle : ¬ (c.hs.handle ≠ none ∨ c.hs.file ≠ none) := by simp [hh, hf]
  unfold http_parse_request
  simp only [List.headD_cons]
  rw [if_neg hidle]
  by_cases hlen : MIN_REQ_LEN ≤ pbuf_len (data :: next)
  · rw [if_pos hlen]
    cases hs : strnstr data CRLF (pbuf_len (data :: next)) with
    | none => rfl
    | some k =>
      simp only [hg, hp, Bool.false_eq_true, if_false, if_true]
      unfold http_parse_uri
      simp only []
      rw [strnstr_char_none _ ' ' (by decide) _ hsp]
      simp only [Bool.and_self, if_true]
      rfl
  · rw [if_neg hlen]
    rfl


/-- A token preceded only by non-NUL bytes is found (at that place or before). -/
theorem strnstr_loop_some (tok : List Char) (htok : ∀ c ∈ tok, c ≠ NUL) (hne : tok ≠ []) :
    ∀ (pre w : List Char) (n off : Nat), (∀ c ∈ pre, c ≠ NUL) → tok <+: w →
      pre.length + tok.length ≤ n → ∃ i, strnstr_loop tok (pre ++ w) n off = some i := by
  intro pre
  induction pre with
  | nil =>
    intro w n off _ hw hn
    exact ⟨off, strnstr_loop_hit tok htok hne w n off hw (by simpa using hn)⟩
  | cons a pre ih =>
    intro w n off hnul hw hn
    have ha : a ≠ NUL := hnul a (List.mem_cons_self _ _)
    simp only [List.length_cons] at hn
    rw [List.cons_append, strnstr_loop_cons]
    have hle : tok.length ≤ n := by omega
    have hcond : (a != NUL && decide (tok.length ≤ n)) = true := by simp [ha, hle]
    rw [if_pos hcond]
    split_ifs
    · exact ⟨off, rfl⟩
    · exact ih w (n - 1) (off + 1) (fun c hc => hnul c (List.mem_cons_of_mem _ hc)) hw
        (by omega)

theorem strnstr_CRLF_some (pre post : List Char) (hpre : ∀ c ∈ pre, c ≠ NUL) (n : Nat)
    (hn : pre.length + 2 ≤ n) : ∃ i, strnstr (pre ++ CRLF ++ post) CRLF n = some i := by
  unfold strnstr
  rw [if_neg (by decide), List.append_assoc]
  exact strnstr_loop_some CRLF CRLF_ne_NUL (by decide) pre (CRLF ++ post) n 0 hpre
    (List.prefix_append _ _) hn

theorem pbuf_len_cons (data : List Char) (next : pbuf) (h : data.length < U16) :
    pbuf_len (data :: next) = data.length := by
  unfold pbuf_len
  simp only [List.headD_cons]
  exact Nat.mod_eq_of_lt h

/-- The method test of `http_parse_request` on a buffer in which `strnstr`
finds a CRLF. -/
theorem http_parse_request_method_eq {σ : Type} (F : WebFS) (H : HeaderTables) (c : Conn σ)
    (data pre post : List Char) (next : pbuf) (hh : c.hs.handle = none) (hf : c.hs.file = none)
    (hlen7 : 7 ≤ data.length) (hlen : data.length < U16)
    (hdata : data = pre ++ CRLF ++ post) (hpre : ∀ ch ∈ pre, ch ≠ NUL) :
    http_parse_request F H c (data :: next) =
      if "GET ".toList <+: data then
        http_parse_uri F H (parse_start c data) (data :: next) data.length false 3
      else if "POST ".toList <+: data then
        http_parse_uri F H (parse_start c data) (data :: next) data.length true 4
      else
        some (ERR_ARG, data :: next,
          { parse_start c (data.set 4 NUL) with error_file := c.error_file ++ [501] }) := by
  have hidle : ¬ (c.hs.handle ≠ none ∨ c.hs.file ≠ none) := by simp [hh, hf]
  obtain ⟨i, hi⟩ : ∃ i, strnstr data CRLF data.length = some i := by
    rw [hdata]
    apply strnstr_CRLF_some pre post hpre
    simp [CRLF]
  unfold http_parse_request
  simp only [List.headD_cons]
  rw [if_neg hidle, pbuf_len_cons data next hlen, if_pos (by unfold MIN_REQ_LEN; exact hlen7), hi]
  simp only []
  by_cases hg : "GET ".toList <+: data
  · rw [if_pos hg, if_pos ((strncmp_GET data).mpr hg)]
    rfl
  · rw [if_neg hg, if_neg (by rw [strncmp_GET]; exact hg)]
    by_cases hp : "POST ".toList <+: data
    · rw [if_pos hp, if_pos ((strncmp_POST data).mpr hp)]
      rfl
    · rw [if_neg hp, if_neg (by rw [strncmp_POST]; exact hp)]
      rfl


theorem cstring_append_NUL (u w : List Char) (hu : ∀ c ∈ u, c ≠ NUL) :
    cstring (u ++ NUL :: w) = u := by
  induction u with
  | nil => simp [cstring]
  | cons a u ih =>
    have ha : a ≠ NUL := hu a (List.mem_cons_self _ _)
    have := ih (fun c hc => hu c (List.mem_cons_of_mem _ hc))
    unfold cstring at this ⊢
    simp only [List.cons_append, List.takeWhile_cons, bne_iff_ne, ne_eq, ha, not_false_eq_true,
      if_true, this, decide_True]

/-- No CRLF starts inside `u` when none lies in `u` and `u` is followed by CR. -/
theorem no_CRLF_start (u rest : List Char) (hcrlf : ¬ CRLF <:+: u) (j : Nat)
    (hj : j < u.length) : ¬ CRLF <+: (u ++ (CRLF ++ rest)).drop j := by
  intro hpre
  rw [List.drop_append_of_le_length (le_of_lt hj)] at hpre
  have hsplit : u = u.take j ++ u.drop j := (List.take_append_drop j u).symm
  cases hv : u.drop j with
  | nil =>
    have : (u.drop j).length = u.length - j := List.length_drop j u
    rw [hv] at this
    simp at this
    omega
  | cons a t =>
    rw [hv] at hpre
    cases t with
    | nil =>
      simp only [CRLF, List.cons_append, List.nil_append] at hpre
      have h1 := List.cons_prefix_cons.mp hpre
      have h2 := List.cons_prefix_cons.mp h1.2
      exact absurd h2.1 (by decide)
    | cons b t =>
      apply hcrlf
      simp only [CRLF, List.cons_append] at hpre
      have h1 := List.cons_prefix_cons.mp hpre
      have h2 := List.cons_prefix_cons.mp h1.2
      refine ⟨u.take j, t, ?_⟩
      conv_rhs => rw [hsplit, hv, ← h1.1, ← h2.1]
      simp [CRLF]

theorem strnstr_CRLF_first (u rest : List Char) (hu : ∀ c ∈ u, c ≠ NUL)
    (hcrlf : ¬ CRLF <:+: u) (n : Nat) (hn : u.length + 2 ≤ n) :
    strnstr (u ++ (CRLF ++ rest)) CRLF n = some u.length := by
  unfold strnstr
  rw [if_neg (by decide),
    strnstr_loop_skip CRLF CRLF_ne_NUL u (CRLF ++ rest) n 0 hu
      (fun j hj => no_CRLF_start u rest hcrlf j hj) hn,
    strnstr_loop_hit CRLF CRLF_ne_NUL (by decide) _ _ _ (List.prefix_append _ _)
      (by simp [CRLF]; omega)]
  simp

/-- The request line `GET <u>` CRLF, no space in the buffer behind `GET `: the
request is handed to `http_find_file` as HTTP/0.9, with `<u>` as its URI. -/
theorem http_parse_request_legacy_eq {σ : Type} (F : WebFS) (H : HeaderTables) (c : Conn σ)
    (u rest : List Char) (next : pbuf) (hh : c.hs.handle = none) (hf : c.hs.file = none)
    (hu : ∀ ch ∈ u, ch ≠ NUL) (husp : ' ' ∉ u) (hrsp : ' ' ∉ rest) (hcrlf : ¬ CRLF <:+: u)
    (hmin : 1 ≤ u.length + rest.length) (hlen : 6 + u.length + rest.length < U16) :
    http_parse_request F H c (("GET ".toList ++ u ++ CRLF ++ rest) :: next) =
      (http_find_file F H
        (parse_start c ("GET".toList ++ NUL :: (u ++ NUL :: '\n' :: rest)))
        (cptr.mem Region.req 4) true).map
        (fun r => (r.1, ("GET ".toList ++ u ++ CRLF ++ rest) :: next, r.2)) := by
  have hdl : ("GET ".toList ++ u ++ CRLF ++ rest).length = 6 + u.length + rest.length := by
    simp [CRLF]; omega
  have hpreNUL : ∀ ch ∈ "GET ".toList ++ u, ch ≠ NUL := by
    intro ch hch
    rcases List.mem_append.mp hch with h | h
    · exact GET_ne_NUL ch h
    · exact hu ch h
  rw [http_parse_request_method_eq F H c _ ("GET ".toList ++ u) rest next hh hf
    (by rw [hdl]; omega) (by rw [hdl]; exact hlen) rfl hpreNUL]
  rw [if_pos (by simp [List.append_assoc])]
  unfold http_parse_uri
  have hdrop : (parse_start c ("GET ".toList ++ u ++ CRLF ++ rest)).req.drop (3 + 1)
      = u ++ (CRLF ++ rest) := by
    simp [parse_start]
  have hll : (("GET ".toList ++ u ++ CRLF ++ rest).length + U16 - (3 + 1)) % U16
      = 2 + u.length + rest.length := by
    rw [hdl]
    have : 6 + u.length + rest.length + U16 - (3 + 1) = (2 + u.length + rest.length) + U16 := by
      omega
    rw [this, Nat.add_mod_right]
    exact Nat.mod_eq_of_lt (by omega)
  simp only []
  rw [hdrop, hll,
    strnstr_char_none _ ' ' (by decide) _ (by simp [husp, hrsp, CRLF]),
    strnstr_CRLF_first u rest hu hcrlf _ (by omega)]
  simp only [Bool.and_false, Bool.false_eq_true, if_false]
  have hreq : ((parse_start c ("GET ".toList ++ u ++ CRLF ++ rest)).req.set 3 NUL).set
      (3 + 1 + u.length) NUL = "GET".toList ++ NUL :: (u ++ NUL :: '\n' :: rest) := by
    have hset : (u ++ '\r' :: '\n' :: rest).set u.length NUL = u ++ NUL :: '\n' :: rest := by
      rw [List.set_append]
      simp
    have e : 3 + 1 + u.length = u.length + 1 + 1 + 1 + 1 := by omega
    show (('G' :: 'E' :: 'T' :: ' ' :: ([] ++ u) ++ ['\r', '\n'] ++ rest).set 3 NUL).set
      (3 + 1 + u.length) NUL = 'G' :: 'E' :: 'T' :: ([] ++ NUL :: (u ++ NUL :: '\n' :: rest))
    rw [e]
    simp only [List.cons_append, List.nil_append, List.append_assoc, List.set_cons_succ,
      List.set_cons_zero, hset]
  rw [hreq]
  rfl

/-! ## Lookup of a file stored with its header -/

theorem strchr_some_lt (s : List Char) (ch : Char) :
    ∀ (k : Nat), strchr s ch = some k → k < s.length := by
  induction s with
  | nil => intro k h; simp [strchr] at h
  | cons x xs ih =>
    intro k h
    unfold strchr at h
    split_ifs at h
    · simp only [Option.some.injEq] at h
      subst h
      simp
    · cases hx : strchr xs ch with
      | none => rw [hx] at h; simp at h
      | some i =>
        rw [hx] at h
        simp only [Option.map_some', Option.some.injEq] at h
        subst h
        have := ih i hx
        simp
        omega

theorem cstring_cons (x : Char) (l : List Char) :
    cstring (x :: l) = if x != NUL then x :: cstring l else [] := by
  unfold cstring
  rw [List.takeWhile_cons]

/-- Writing a NUL inside a C string cuts it there. -/
theorem cstring_set (l : List Char) :
    ∀ (k : Nat), k < (cstring l).length → cstring (l.set k NUL) = (cstring l).take k := by
  induction l with
  | nil => intro k hk; simp [cstring] at hk
  | cons x xs ih =>
    intro k hk
    rw [cstring_cons] at hk ⊢
    by_cases hx : (x != NUL) = true
    · rw [if_pos hx] at hk ⊢
      cases k with
      | zero =>
        simp only [List.set_cons_zero, List.take_zero]
        rw [cstring_cons, if_neg (by simp)]
      | succ k =>
        simp only [List.length_cons] at hk
        simp only [List.set_cons_succ, List.take_succ_cons]
        rw [cstring_cons, if_pos hx, ih k (by omega)]
    · rw [if_neg hx] at hk
      simp at hk

theorem drop_set_add (l : List Char) (off k : Nat) (x : Char) :
    (l.set (off + k) x).drop off = (l.drop off).set k x := by
  induction off generalizing l with
  | zero => simp
  | succ n ih =>
    cases l with
    | nil => simp
    | cons a t =>
      have : n + 1 + k = (n + k) + 1 := by omega
      rw [this]
      simp only [List.set_cons_succ, List.drop_succ_cons]
      exact ih t

theorem Conn.region_setRegion {σ : Type} (c : Conn σ) (r : Region) (m : List Char) :
    (c.setRegion r m).region r = m := by
  cases r <;> rfl

theorem Conn.setRegion_frame {σ : Type} (c : Conn σ) (r : Region) (m : List Char) :
    (c.setRegion r m).hs = c.hs ∧ (c.setRegion r m).wire = c.wire ∧
    (c.setRegion r m).arg = c.arg ∧ (c.setRegion r m).pcb = c.pcb := by
  cases r <;> exact ⟨rfl, rfl, rfl, rfl⟩


theorem file_len_lt (f : webfs_file) : (f.len % (U32 : Int)).toNat < U32 := by
  have h1 : (0 : Int) ≤ f.len % (U32 : Int) := Int.emod_nonneg _ (by unfold U32; decide)
  have h2 : f.len % (U32 : Int) < (U32 : Int) := Int.emod_lt_of_pos _ (by unfold U32; decide)
  omega

/-- `http_init_file` for an HTTP/0.9 request on a file stored with its header:
the header cursor is left alone and the file's own header is skipped. -/
theorem http_init_file_included {σ : Type} (H : HeaderTables) (c : Conn σ) (f : webfs_file)
    (bytes : List Char) (uri : cptr) (hinc : f.http_header_included = true)
    (hdata : f.data = some bytes) :
    ∃ c', http_init_file H c (some f) true uri = some (ERR_OK, c') ∧
      c' = { c with hs := c'.hs } ∧
      c'.hs = { c.hs with handle := some f, file := c'.hs.file, left := c'.hs.left,
                          retries := 0 } ∧
      c'.hs.left < U32 ∧
      (∀ k, strnstr bytes (CRLF ++ CRLF) (f.len % (U32 : Int)).toNat = some k →
        c'.hs.file = some (bytes.drop (k + 4)) ∧
        c'.hs.left = ((f.len % (U32 : Int)).toNat + U32 - (k + 4)) % U32) ∧
      (strnstr bytes (CRLF ++ CRLF) (f.len % (U32 : Int)).toNat = none →
        c'.hs.file = some bytes ∧ c'.hs.left = (f.len % (U32 : Int)).toNat) := by
  unfold http_init_file
  simp only [hinc, hdata, Bool.and_self, if_true, Bool.not_true, Bool.false_eq_true, if_false]
  cases hs : strnstr bytes (CRLF ++ CRLF) (f.len % (U32 : Int)).toNat with
  | none =>
    exact ⟨_, rfl, rfl, rfl, file_len_lt f, fun k hk => by simp at hk, fun _ => ⟨rfl, rfl⟩⟩
  | some k =>
    refine ⟨_, rfl, rfl, rfl, Nat.mod_lt _ (by unfold U32; omega), fun k' hk' => ?_,
      fun h => by simp at h⟩
    simp only [Option.some.injEq] at hk'
    subst hk'
    exact ⟨rfl, rfl⟩


/-- The params step on a URI in memory is defined, and leaves the path
(the URI up to its first `'?'`) as the string at `uri`. -/
theorem http_find_file_params_mem {σ : Type} (c : Conn σ) (r : Region) (off : Nat) :
    ∃ c1, http_find_file_params c (cptr.mem r off) = some c1 ∧
      c1.str (cptr.mem r off) = some (uri_path (cstring ((c.region r).drop off))) := by
  unfold http_find_file_params
  simp only [Conn.str]
  have hreg : ({ c with hs := { c.hs with req_info :=
      { c.hs.req_info with params := cptr.null } } } : Conn σ).region r = c.region r := by
    cases r <;> rfl
  rw [hreg]
  cases hq : strchr (cstring ((c.region r).drop off)) '?' with
  | none =>
    refine ⟨_, rfl, ?_⟩
    rw [hreg]
    unfold uri_path
    rw [hq]
  | some k =>
    have hk := strchr_some_lt _ _ k hq
    refine ⟨_, rfl, ?_⟩
    have : Conn.region
        ({ (({ c with hs := { c.hs with req_info :=
            { c.hs.req_info with params := cptr.null } } } : Conn σ).setRegion r
            ((c.region r).set (off + k) NUL)) with
          hs := { (({ c with hs := { c.hs with req_info :=
            { c.hs.req_info with params := cptr.null } } } : Conn σ).setRegion r
            ((c.region r).set (off + k) NUL)).hs with
            req_info := { (({ c with hs := { c.hs with req_info :=
              { c.hs.req_info with params := cptr.null } } } : Conn σ).setRegion r
              ((c.region r).set (off + k) NUL)).hs.req_info with
              params := cptr.mem r (off + k + 1) } } } : Conn σ) r
        = (c.region r).set (off + k) NUL := by
      cases r <;> rfl
    rw [this, drop_set_add, cstring_set _ k hk]
    unfold uri_path
    rw [hq]

/-- `http_find_file` for an HTTP/0.9 request whose path names a file stored
with its header. -/
theorem http_find_file_included {σ : Type} (F : WebFS) (H : HeaderTables) (c : Conn σ)
    (r : Region) (off : Nat) (f : webfs_file) (bytes : List Char)
    (hopen : ∀ v, F.webfs_open (uri_path (cstring ((c.region r).drop off))) v = some f)
    (hinc : f.http_header_included = true) (hdata : f.data = some bytes) :
    ∃ c', http_find_file F H c (cptr.mem r off) true = some (ERR_OK, c') ∧
      c'.hs.handle = some f ∧ c'.hs.hdr_index = c.hs.hdr_index ∧
      c'.hs.hdr_pos = c.hs.hdr_pos ∧ c'.hs.hdrs0 = c.hs.hdrs0 ∧ c'.hs.hdrs1 = c.hs.hdrs1 ∧
      c'.hs.hdrs2 = c.hs.hdrs2 ∧ c'.wire = c.wire ∧ c'.arg = c.arg ∧ c'.pcb = c.pcb ∧
      c'.hs.left < U32 ∧
      (∀ k, strnstr bytes (CRLF ++ CRLF) (f.len % (U32 : Int)).toNat = some k →
        c'.hs.file = some (bytes.drop (k + 4)) ∧
        c'.hs.left = ((f.len % (U32 : Int)).toNat + U32 - (k + 4)) % U32) ∧
      (strnstr bytes (CRLF ++ CRLF) (f.len % (U32 : Int)).toNat = none →
        c'.hs.file = some bytes ∧ c'.hs.left = (f.len % (U32 : Int)).toNat) := by
  obtain ⟨c1, hp, hname⟩ := http_find_file_params_mem c r off
  obtain ⟨q1, -, q3, q4, q5, -⟩ := http_find_file_params_frame c c1 _ hp
  unfold http_find_file
  rw [hp]
  simp only [hname, Option.getD_some, hopen]
  obtain ⟨c', h1, h2, h3, h4, h5, h6⟩ := http_init_file_included H
    (opened_log c1 (uri_path (cstring ((c.region r).drop off))) (some c1.view))
    f bytes (cptr.mem r off) hinc hdata
  have e2 : c'.wire = c1.wire ∧ c'.arg = c1.arg ∧ c'.pcb = c1.pcb := by
    rw [h2]; exact ⟨rfl, rfl, rfl⟩
  have e3 : c'.hs.handle = some f ∧ c'.hs.hdr_index = c1.hs.hdr_index ∧
      c'.hs.hdr_pos = c1.hs.hdr_pos ∧ c'.hs.hdrs0 = c1.hs.hdrs0 ∧
      c'.hs.hdrs1 = c1.hs.hdrs1 ∧ c'.hs.hdrs2 = c1.hs.hdrs2 := by
    rw [h3]; exact ⟨rfl, rfl, rfl, rfl, rfl, rfl⟩
  have e4 : c1.hs.hdr_index = c.hs.hdr_index ∧ c1.hs.hdr_pos = c.hs.hdr_pos ∧
      c1.hs.hdrs0 = c.hs.hdrs0 ∧ c1.hs.hdrs1 = c.hs.hdrs1 ∧ c1.hs.hdrs2 = c.hs.hdrs2 := by
    rw [q1]; exact ⟨rfl, rfl, rfl, rfl, rfl⟩
  exact ⟨c', h1, e3.1, e3.2.1.trans e4.1, e3.2.2.1.trans e4.2.1, e3.2.2.2.1.trans e4.2.2.1,
    e3.2.2.2.2.1.trans e4.2.2.2.1, e3.2.2.2.2.2.trans e4.2.2.2.2, e2.1.trans q4,
    e2.2.1.trans q3, e2.2.2.trans q5, h4, h5, h6⟩

/-! ## Claims on request parsing -/

/-- C7 (amended): a GET whose buffer holds no space behind `GET ` and whose
path names a file stored with its header is answered as HTTP/0.9: the parse
succeeds, `get_http_headers` is not applied (the header cursor stays at
`NUM_FILE_HDR_STRINGS`, the header strings are untouched), the body cursor is
put behind the first CRLF CRLF of the stored data, and every later sequence
of `http_send_data` calls puts only bytes of that body on the wire. -/
theorem http_parse_request_legacy_body_only {σ : Type} (T : Tcp σ) (F : WebFS)
    (H : HeaderTables) (c : Conn σ) (u rest : List Char) (next : pbuf) (f : webfs_file)
    (bytes : List Char) (pcbs : List σ)
    (hh : c.hs.handle = none) (hf : c.hs.file = none)
    (hidx : c.hs.hdr_index = NUM_FILE_HDR_STRINGS)
    (hu : ∀ ch ∈ u, ch ≠ NUL) (husp : ' ' ∉ u) (hrsp : ' ' ∉ rest) (hcrlf : ¬ CRLF <:+: u)
    (hmin : 1 ≤ u.length + rest.length) (hlen : 6 + u.length + rest.length < U16)
    (hopen : ∀ v, F.webfs_open (uri_path u) v = some f)
    (hinc : f.http_header_included = true) (hdata : f.data = some bytes) :
    ∃ c1, http_parse_request F H c (("GET ".toList ++ u ++ CRLF ++ rest) :: next)
        = some (ERR_OK, ("GET ".toList ++ u ++ CRLF ++ rest) :: next, c1) ∧
      c1.hs.hdr_index = NUM_FILE_HDR_STRINGS ∧
      (c1.hs.hdrs0 = c.hs.hdrs0 ∧ c1.hs.hdrs1 = c.hs.hdrs1 ∧ c1.hs.hdrs2 = c.hs.hdrs2) ∧
      c1.wire = c.wire ∧
      body_pending c1.hs =
        (match strnstr bytes (CRLF ++ CRLF) (f.len % (U32 : Int)).toNat with
         | some k =>
           (bytes.drop (k + 4)).take (((f.len % (U32 : Int)).toNat + U32 - (k + 4)) % U32)
         | none => bytes.take (f.len % (U32 : Int)).toNat) ∧
      ∃ (c2 : Conn σ) (sent blocks : List Char),
        http_send_data_seq T F pcbs c1 = some c2 ∧
        c2.wire = c.wire ++ sent ∧
        sent ++ body_pending c2.hs = body_pending c1.hs ++ blocks ∧
        c2.hs.hdr_index = NUM_FILE_HDR_STRINGS := by
  have hreg : cstring (((parse_start c ("GET".toList ++ NUL :: (u ++ NUL :: '\n' :: rest))).region
      Region.req).drop 4) = u := by
    show cstring ((("GET".toList ++ NUL :: (u ++ NUL :: '\n' :: rest))).drop 4) = u
    exact cstring_append_NUL u _ hu
  obtain ⟨c1, h1, hhandle, hix, hpos, h0, h1s, h2s, hwire, harg, hpcb, hleft, hsome, hnone⟩ :=
    http_find_file_included F H
      (parse_start c ("GET".toList ++ NUL :: (u ++ NUL :: '\n' :: rest))) Region.req 4 f bytes
      (by rw [hreg]; exact hopen) hinc hdata
  have hix1 : c1.hs.hdr_index = NUM_FILE_HDR_STRINGS := hix.trans hidx
  have hwf : SendWF c1.hs := by
    refine ⟨?_, ?_, ?_, ?_, hleft, ?_⟩
    · intro h; rw [hix1] at h; exact absurd h (by decide)
    · intro h; rw [hix1] at h; exact absurd h (by decide)
    · intro h; rw [hix1] at h; exact absurd h (by decide)
    · intro h; rw [hix1] at h; exact absurd h (by decide)
    · intro h; rw [hhandle] at h; exact absurd h (by simp)
  obtain ⟨c2, hacc, bacc, blocks, hseq, hw, hhd, hbd, -, hkeep, -, -⟩ :=
    http_send_data_seq_spec T F pcbs c1 hwf
  have hpend : hdr_pending c1.hs = [] := by
    unfold hdr_pending
    rw [if_neg (by rw [hix1]; decide)]
  have hacc0 : hacc = [] := by
    rw [hpend] at hhd
    exact (List.append_eq_nil.mp hhd).1
  refine ⟨c1, ?_, hix1, ⟨h0, h1s, h2s⟩, hwire, ?_, c2, bacc, blocks, hseq, ?_, hbd, ?_⟩
  · rw [http_parse_request_legacy_eq F H c u rest next hh hf hu husp hrsp hcrlf hmin hlen, h1]
    rfl
  · cases hk : strnstr bytes (CRLF ++ CRLF) (f.len % (U32 : Int)).toNat with
    | none =>
      obtain ⟨e1, e2⟩ := hnone hk
      simp only [body_pending, e1, e2, Option.getD_some]
    | some k =>
      obtain ⟨e1, e2⟩ := hsome k hk
      simp only [body_pending, e1, e2, Option.getD_some]
  · rw [hw, hwire, hacc0]; rfl
  · rw [hkeep (by rw [hix1]), hix1]


/-- C7, witness: `GET /old.html` CRLF on a fresh connection; `/old.html` is
stored with its header. -/
theorem http_parse_request_legacy_body_only_witness :
    (∀ v, demoFS.webfs_open (uri_path "/old.html".toList) v = some old_html) ∧
    (∃ c1, http_parse_request demoFS demoTables (conn_accepted ([] : List err_t))
          [("GET ".toList ++ "/old.html".toList ++ CRLF ++ [])]
        = some (ERR_OK, [("GET ".toList ++ "/old.html".toList ++ CRLF ++ [])], c1) ∧
      c1.hs.hdr_index = NUM_FILE_HDR_STRINGS ∧
      (c1.hs.hdrs0 = (conn_accepted ([] : List err_t)).hs.hdrs0 ∧
        c1.hs.hdrs1 = (conn_accepted ([] : List err_t)).hs.hdrs1 ∧
        c1.hs.hdrs2 = (conn_accepted ([] : List err_t)).hs.hdrs2) ∧
      c1.wire = (conn_accepted ([] : List err_t)).wire ∧
      body_pending c1.hs =
        (match strnstr "HTTP/1.0 200 OK\r\n\r\nold".toList (CRLF ++ CRLF)
            (old_html.len % (U32 : Int)).toNat with
         | some k =>
           ("HTTP/1.0 200 OK\r\n\r\nold".toList.drop (k + 4)).take
             (((old_html.len % (U32 : Int)).toNat + U32 - (k + 4)) % U32)
         | none => "HTTP/1.0 200 OK\r\n\r\nold".toList.take (old_html.len % (U32 : Int)).toNat) ∧
      ∃ (c2 : Conn (List err_t)) (sent blocks : List Char),
        http_send_data_seq (tcpScript 2000) demoFS [[]] c1 = some c2 ∧
        c2.wire = (conn_accepted ([] : List err_t)).wire ++ sent ∧
        sent ++ body_pending c2.hs = body_pending c1.hs ++ blocks ∧
        c2.hs.hdr_index = NUM_FILE_HDR_STRINGS) ∧
    (http_recv (tcpScript 2000) demoFS demoTables (conn_accepted [])
        ["GET /old.html\r\n".toList] ERR_OK).map (fun r => r.2.wire) = some "old".toList :=
  ⟨fun _ => rfl,
    http_parse_request_legacy_body_only (tcpScript 2000) demoFS demoTables (conn_accepted [])
      "/old.html".toList [] [] old_html "HTTP/1.0 200 OK\r\n\r\nold".toList [[]]
      rfl rfl rfl (by decide) (by decide) (by decide) (by decide) (by decide) (by decide)
      (fun _ => rfl) rfl rfl,
    by decide!⟩

/-- C7, counterexample: the request `GET / ` CRLF of the claim is not treated
as HTTP/0.9.  The space behind the URI is found, `get_http_headers` is applied
(`hdr_index` is 0 after the parse) and the answer starts with the generated
header block; for `/old.html`, stored with its header, the stored header is
sent too.  With no space (`GET /` CRLF) the request is taken as HTTP/0.9,
and `hdr_index` is 0 after the parse all the same: `/` is not stored with a
header and line 1374 of `http_init_file` does not look at `is_09`. -/
theorem http_recv_get_slash_space_sends_header :
    (http_parse_request demoFS demoTables (conn_accepted ([] : List err_t))
        ["GET / \r\n".toList]).map (fun r => (r.1, r.2.2.hs.hdr_index))
      = some (ERR_OK, 0) ∧
    (http_recv (tcpScript 2000) demoFS demoTables (conn_accepted []) ["GET / \r\n".toList]
        ERR_OK).map (fun r => r.2.wire)
      = some ("HTTP/1.0 200 OK\r\nServer: lwIP/1.3.1\r\n".toList
          ++ "Content-type: application/json\r\n\r\nindex".toList) ∧
    (http_recv (tcpScript 2000) demoFS demoTables (conn_accepted [])
        ["GET /old.html \r\n".toList] ERR_OK).map (fun r => r.2.wire)
      = some "HTTP/1.0 200 OK\r\n\r\nold".toList ∧
    (http_parse_request demoFS demoTables (conn_accepted ([] : List err_t))
        ["GET /\r\n".toList]).map (fun r => (r.1, r.2.2.hs.hdr_index))
      = some (ERR_OK, 0) := by
  refine ⟨?_, ?_, ?_, ?_⟩ <;> decide!

/-- C8 (amended): a buffer that begins with `POST ` and holds no space at all
behind the method token (in the request line or in anything that follows it)
ends in the bad-request failure: `http_parse_request` returns `ERR_ARG` with
status 400 passed to `http_find_error_file`; `httpd_post_begin` is not
reached, so nothing is opened, no body byte is forwarded and
`post_content_len_left` is left as it was. -/
theorem http_parse_request_post_without_space {σ : Type} (F : WebFS) (H : HeaderTables)
    (c : Conn σ) (data : List Char) (next : pbuf)
    (hh : c.hs.handle = none) (hf : c.hs.file = none)
    (hpost : "POST ".toList <+: data) (hsp : ' ' ∉ data.drop 5) :
    ∃ c1, http_parse_request F H c (data :: next) = some (ERR_ARG, data :: next, c1) ∧
      c1.error_file = c.error_file ++ [400] ∧
      c1.hs.post_content_len_left = c.hs.post_content_len_left ∧
      c1.post_rx = c.post_rx ∧ c1.opened = c.opened ∧ c1.wire = c.wire ∧
      c1.hs.handle = none ∧ c1.req = data :=
  ⟨{ parse_start c data with error_file := c.error_file ++ [400] },
    http_parse_request_post_no_space F H c data next hh hf hpost hsp,
    rfl, rfl, rfl, rfl, rfl, hh, rfl⟩

/-- C8, witness: `POST /ssid` CRLF CRLF on a fresh connection. -/
theorem http_parse_request_post_without_space_witness :
    "POST ".toList <+: "POST /ssid\r\n\r\n".toList ∧
    ' ' ∉ "POST /ssid\r\n\r\n".toList.drop 5 ∧
    ∃ c1, http_parse_request demoFS demoTables (conn_accepted ([] : List err_t))
        ["POST /ssid\r\n\r\n".toList] = some (ERR_ARG, ["POST /ssid\r\n\r\n".toList], c1) ∧
      c1.error_file = (conn_accepted ([] : List err_t)).error_file ++ [400] ∧
      c1.hs.post_content_len_left = (conn_accepted ([] : List err_t)).hs.post_content_len_left ∧
      c1.post_rx = (conn_accepted ([] : List err_t)).post_rx ∧
      c1.opened = (conn_accepted ([] : List err_t)).opened ∧
      c1.wire = (conn_accepted ([] : List err_t)).wire ∧
      c1.hs.handle = none ∧ c1.req = "POST /ssid\r\n\r\n".toList :=
  ⟨by decide, by decide,
    http_parse_request_post_without_space demoFS demoTables (conn_accepted [])
      "POST /ssid\r\n\r\n".toList [] rfl rfl (by decide) (by decide)⟩

/-- C8, counterexample: the request line `POST /ssid` holds no space behind
the URI, yet the POST is accepted.  The space of the header line `Host: x` is
taken for the end of the URI, `httpd_post_begin` is reached with
`Content-Length` 9, the 5 body bytes of the buffer are forwarded and 4 more
are awaited; no error status is raised. -/
theorem http_parse_request_accepts_post_without_version :
    "POST ".toList <+: "POST /ssid\r\nHost: x\r\nContent-Length: 9\r\n\r\nhello".toList ∧
    ' ' ∉ "/ssid".toList ∧
    (http_parse_request demoFS demoTables (conn_accepted ([] : List err_t))
        ["POST /ssid\r\nHost: x\r\nContent-Length: 9\r\n\r\nhello".toList]).map
        (fun r => (r.1, r.2.2.hs.post_content_len_left, r.2.2.post_rx))
      = some (ERR_OK, 4, 5) ∧
    (http_parse_request demoFS demoTables (conn_accepted ([] : List err_t))
        ["POST /ssid\r\nHost: x\r\nContent-Length: 9\r\n\r\nhello".toList]).map
        (fun r => (r.2.2.error_file, r.2.2.view.uri))
      = some ([], some "/ssid\r\nHost:".toList) := by
  refine ⟨?_, ?_, ?_, ?_⟩ <;> decide!

/-- C9 (amended): for a buffer `GET <u>` CRLF `<rest>` with no space behind
`GET ` anywhere in the buffer (neither in `<u>` nor in `<rest>`) and no CRLF
inside `<u>`, the parser falls back to the line terminator: the request is
handed to `http_find_file` with `is_09` set and with a URI pointer whose
string is exactly `<u>`, the bytes between `GET ` and the first CRLF. -/
theorem http_parse_request_get_falls_back_to_crlf {σ : Type} (F : WebFS) (H : HeaderTables)
    (c : Conn σ) (u rest : List Char) (next : pbuf)
    (hh : c.hs.handle = none) (hf : c.hs.file = none)
    (hu : ∀ ch ∈ u, ch ≠ NUL) (husp : ' ' ∉ u) (hrsp : ' ' ∉ rest) (hcrlf : ¬ CRLF <:+: u)
    (hmin : 1 ≤ u.length + rest.length) (hlen : 6 + u.length + rest.length < U16) :
    (parse_start c ("GET".toList ++ NUL :: (u ++ NUL :: '\n' :: rest))).str
        (cptr.mem Region.req 4) = some u ∧
    http_parse_request F H c (("GET ".toList ++ u ++ CRLF ++ rest) :: next) =
      (http_find_file F H
        (parse_start c ("GET".toList ++ NUL :: (u ++ NUL :: '\n' :: rest)))
        (cptr.mem Region.req 4) true).map
        (fun r => (r.1, ("GET ".toList ++ u ++ CRLF ++ rest) :: next, r.2)) := by
  refine ⟨?_, http_parse_request_legacy_eq F H c u rest next hh hf hu husp hrsp hcrlf hmin hlen⟩
  show some (cstring ((("GET".toList ++ NUL :: (u ++ NUL :: '\n' :: rest))).drop 4)) = some u
  exact congrArg some (cstring_append_NUL u _ hu)


/-- C9, witness: `GET /old.html` CRLF followed by a header line without a
space. -/
theorem http_parse_request_get_falls_back_to_crlf_witness :
    ' ' ∉ "/old.html".toList ∧ ' ' ∉ "Host:x\r\n\r\n".toList ∧ ¬ CRLF <:+: "/old.html".toList ∧
    (parse_start (conn_accepted ([] : List err_t))
        ("GET".toList ++ NUL :: ("/old.html".toList ++ NUL :: '\n' :: "Host:x\r\n\r\n".toList))).str
        (cptr.mem Region.req 4) = some "/old.html".toList ∧
    http_parse_request demoFS demoTables (conn_accepted ([] : List err_t))
        [("GET ".toList ++ "/old.html".toList ++ CRLF ++ "Host:x\r\n\r\n".toList)] =
      (http_find_file demoFS demoTables
        (parse_start (conn_accepted ([] : List err_t))
          ("GET".toList ++ NUL :: ("/old.html".toList ++ NUL :: '\n' :: "Host:x\r\n\r\n".toList)))
        (cptr.mem Region.req 4) true).map
        (fun r => (r.1,
          [("GET ".toList ++ "/old.html".toList ++ CRLF ++ "Host:x\r\n\r\n".toList)], r.2)) :=
  ⟨by decide, by decide, by decide,
    http_parse_request_get_falls_back_to_crlf demoFS demoTables (conn_accepted [])
      "/old.html".toList "Host:x\r\n\r\n".toList [] rfl rfl (by decide) (by decide) (by decide)
      (by decide) (by decide) (by decide)⟩

/-- C9, counterexample: the first line `GET /old.html` holds no space behind
the URI, but the header line `Host: x` that follows does.  That space is taken
for the end of the URI: the name looked up is `/old.html` CRLF `Host:`, which
contains CR and LF, the request is not marked legacy, and the stored
`/old.html` is not served (the 404 page with a generated header block is). -/
theorem http_parse_request_uri_runs_past_crlf :
    ' ' ∉ "/old.html".toList ∧
    (http_parse_request demoFS demoTables (conn_accepted ([] : List err_t))
        ["GET /old.html\r\nHost: x\r\n\r\n".toList]).map
        (fun r => (r.1, r.2.2.opened.map Prod.fst))
      = some (ERR_OK, ["/old.html\r\nHost:".toList, "/404.html".toList]) ∧
    (http_recv (tcpScript 2000) demoFS demoTables (conn_accepted [])
        ["GET /old.html\r\nHost: x\r\n\r\n".toList] ERR_OK).map (fun r => r.2.wire)
      = some ("HTTP/1.0 404 File not found\r\nServer: lwIP/1.3.1\r\n".toList
          ++ "Content-type: text/html\r\n\r\n404 Not Found".toList) ∧
    (http_recv (tcpScript 2000) demoFS demoTables (conn_accepted [])
        ["GET /old.html\r\nHost:x\r\n\r\n".toList] ERR_OK).map (fun r => r.2.wire)
      = some "old".toList := by
  refine ⟨?_, ?_, ?_, ?_⟩ <;> decide!

/-- C10 (amended): for a buffer of at least 7 bytes (shorter than 2^16) in
which a CRLF is found before any NUL byte, the method is recognised exactly
when the buffer starts with `GET ` or with `POST `: then the URI is parsed
(lines 1214-1264).  For every other leading token `http_parse_request` puts
a NUL at `data[4]` and returns `ERR_ARG` with status 501 passed to
`http_find_error_file`; no resource is opened, no response file is set and
nothing is written. -/
theorem http_parse_request_recognises_method {σ : Type} (F : WebFS) (H : HeaderTables) (c : Conn σ)
    (data pre post : List Char) (next : pbuf) (hh : c.hs.handle = none) (hf : c.hs.file = none)
    (hlen7 : 7 ≤ data.length) (hlen : data.length < U16)
    (hdata : data = pre ++ CRLF ++ post) (hpre : ∀ ch ∈ pre, ch ≠ NUL) :
    ("GET ".toList <+: data → http_parse_request F H c (data :: next)
        = http_parse_uri F H (parse_start c data) (data :: next) data.length false 3) ∧
    ("POST ".toList <+: data → http_parse_request F H c (data :: next)
        = http_parse_uri F H (parse_start c data) (data :: next) data.length true 4) ∧
    (¬ "GET ".toList <+: data → ¬ "POST ".toList <+: data →
      ∃ c1, http_parse_request F H c (data :: next) = some (ERR_ARG, data :: next, c1) ∧
        c1.error_file = c.error_file ++ [501] ∧ c1.opened = c.opened ∧
        c1.hs.handle = none ∧ c1.hs.file = none ∧ c1.wire = c.wire ∧
        c1.req = data.set 4 NUL) := by
  have h := http_parse_request_method_eq F H c data pre post next hh hf hlen7 hlen hdata hpre
  refine ⟨fun hg => ?_, fun hp => ?_, fun hg hp => ?_⟩
  · rw [h, if_pos hg]
  · rw [h, if_neg (not_GET_of_POST data hp), if_pos hp]
  · rw [h, if_neg hg, if_neg hp]
    exact ⟨_, rfl, rfl, rfl, hh, hf, rfl, rfl⟩

/-- C10, witness: `PUT / HTTP/1.0` CRLF CRLF on a fresh connection. -/
theorem http_parse_request_recognises_method_witness :
    ¬ "GET ".toList <+: "PUT / HTTP/1.0\r\n\r\n".toList ∧
    ¬ "POST ".toList <+: "PUT / HTTP/1.0\r\n\r\n".toList ∧
    ∃ c1, http_parse_request demoFS demoTables (conn_accepted ([] : List err_t))
        ["PUT / HTTP/1.0\r\n\r\n".toList]
          = some (ERR_ARG, ["PUT / HTTP/1.0\r\n\r\n".toList], c1) ∧
      c1.error_file = (conn_accepted ([] : List err_t)).error_file ++ [501] ∧
      c1.opened = (conn_accepted ([] : List err_t)).opened ∧
      c1.hs.handle = none ∧ c1.hs.file = none ∧
      c1.wire = (conn_accepted ([] : List err_t)).wire ∧
      c1.req = "PUT / HTTP/1.0\r\n\r\n".toList.set 4 NUL :=
  ⟨by decide, by decide,
    (http_parse_request_recognises_method demoFS demoTables (conn_accepted [])
      "PUT / HTTP/1.0\r\n\r\n".toList "PUT / HTTP/1.0".toList CRLF [] rfl rfl (by decide)
      (by decide) (by decide) (by decide)).2.2 (by decide) (by decide)⟩

/-- C10, counterexample: `PUT / HTTP/1.0` CRLF CRLF with a provider that
holds `/501.html`.  `http_parse_request` returns `ERR_ARG`, not `ERR_OK`, and
opens nothing; `http_recv` then closes the connection with no byte
written. -/
theorem http_recv_unsupported_method_sends_nothing :
    (demoFS.webfs_open "/501.html".toList none).isSome = true ∧
    (http_parse_request demoFS demoTables (conn_accepted ([] : List err_t))
        ["PUT / HTTP/1.0\r\n\r\n".toList]).map
        (fun r => (r.1, r.2.2.opened.map Prod.fst, r.2.2.hs.handle.isSome))
      = some (ERR_ARG, [], false) ∧
    (http_recv (tcpScript 2000) demoFS demoTables (conn_accepted [])
        ["PUT / HTTP/1.0\r\n\r\n".toList] ERR_OK).map
        (fun r => (r.1, r.2.wire, r.2.closes, r.2.opened.map Prod.fst))
      = some (ERR_OK, [], 1, []) := by
  refine ⟨?_, ?_, ?_⟩ <;> decide!

/-! ## What the parser leaves alone -/

theorem http_init_file_transport {σ : Type} (H : HeaderTables) (c c1 : Conn σ)
    (file : Option webfs_file) (is_09 : Bool) (uri : cptr) (e : err_t)
    (h : http_init_file H c file is_09 uri = some (e, c1)) :
    c1 = { c with hs := c1.hs } := by
  unfold http_init_file at h
  cases file with
  | none => simp at h
  | some f =>
    simp only [] at h
    split at h
    · simp at h
    · split_ifs at h <;>
      · simp only [Option.some.injEq, Prod.mk.injEq] at h
        obtain ⟨-, hc⟩ := h
        subst hc
        rfl

theorem http_find_file_params_transport {σ : Type} (c c1 : Conn σ) (uri : cptr)
    (h : http_find_file_params c uri = some c1) :
    c1.transport_part = c.transport_part ∧ c1.post_finished = c.post_finished := by
  unfold http_find_file_params at h
  simp only [] at h
  split at h
  · simp at h
  · split at h
    · simp only [Option.some.injEq] at h
      subst h
      exact ⟨rfl, rfl⟩
    · split at h
      · simp only [Option.some.injEq] at h
        subst h
        cases ‹Region› <;> exact ⟨rfl, rfl⟩
      · simp at h

/-- `http_find_file` only opens files and sets up `hs`. -/
theorem http_find_file_transport {σ : Type} (F : WebFS) (H : HeaderTables) (c c1 : Conn σ)
    (uri : cptr) (is_09 : Bool) (e : err_t)
    (h : http_find_file F H c uri is_09 = some (e, c1)) :
    c1.transport_part = c.transport_part ∧ c1.post_finished = c.post_finished := by
  unfold http_find_file at h
  split at h
  · simp at h
  · rename_i cq hq
    obtain ⟨q1, q2⟩ := http_find_file_params_transport c cq uri hq
    simp only [] at h
    split at h
    · have g := http_init_file_transport H _ c1 _ _ _ e h
      rw [g]
      exact ⟨q1, q2⟩
    · have g := http_init_file_transport H _ c1 _ _ _ e h
      rw [g, http_get_404_file_frame]
      exact ⟨q1, q2⟩

theorem httpd_post_receive_data_transport {σ : Type} (c : Conn σ) (p : pbuf) :
    (httpd_post_receive_data c p).2.transport_part = c.transport_part ∧
    (httpd_post_receive_data c p).2.post_finished = c.post_finished ∧
    (httpd_post_receive_data c p).2.opened = c.opened ∧
    (httpd_post_receive_data c p).2.error_file = c.error_file := by
  unfold httpd_post_receive_data
  split
  simp only []
  split_ifs <;> exact ⟨rfl, rfl, rfl, rfl⟩

/-- `http_post_rxpbuf` returns `ERR_OK` whenever it returns, and leaves the
transport side alone. -/
theorem http_post_rxpbuf_transport {σ : Type} (F : WebFS) (H : HeaderTables) (c c1 : Conn σ)
    (p : pbuf) (e : err_t) (h : http_post_rxpbuf F H c p = some (e, c1)) :
    e = ERR_OK ∧ c1.transport_part = c.transport_part := by
  unfold http_post_rxpbuf at h
  simp only [] at h
  generalize hleft : (if c.hs.post_content_len_left < pbuf_tot_len p then 0
      else (c.hs.post_content_len_left + U32 - pbuf_tot_len p) % U32) = left at h
  obtain ⟨r1, -, -, -⟩ := httpd_post_receive_data_transport
    { c with hs := { c.hs with post_content_len_left := left } } p
  split_ifs at h with hc
  · unfold http_handle_post_finished httpd_post_finished at h
    simp only [] at h
    obtain ⟨g1, -⟩ := http_find_file_transport F H _ c1 _ _ e h
    exact ⟨(http_find_file_frame F H _ c1 _ _ e h).1, g1.trans r1⟩
  · simp only [Option.some.injEq, Prod.mk.injEq] at h
    obtain ⟨he, hc1⟩ := h
    subst hc1
    exact ⟨he.symm, r1⟩


/-- What `http_post_request` can return: `ERR_OK`, or `ERR_ARG` with nothing
but the request memory touched. -/
theorem http_post_request_cases {σ : Type} (F : WebFS) (H : HeaderTables) (c c1 : Conn σ)
    (next inp inp1 : pbuf) (data_len uri uri_end : Nat) (e : err_t)
    (h : http_post_request F H c next data_len uri uri_end inp = some (e, inp1, c1)) :
    c1.transport_part = c.transport_part ∧
    (e = ERR_OK ∨ (e = ERR_ARG ∧ inp1 = inp ∧ c1 = { c with req := c1.req })) := by
  unfold http_post_request at h
  simp only [] at h
  split at h
  · simp only [Option.some.injEq, Prod.mk.injEq] at h
    obtain ⟨he, hi, hc⟩ := h
    subst hc
    exact ⟨rfl, Or.inr ⟨he.symm, hi.symm, rfl⟩⟩
  · split at h
    · simp only [Option.some.injEq, Prod.mk.injEq] at h
      obtain ⟨he, hi, hc⟩ := h
      subst hc
      exact ⟨rfl, Or.inr ⟨he.symm, hi.symm, rfl⟩⟩
    · split at h
      · simp only [Option.some.injEq, Prod.mk.injEq] at h
        obtain ⟨he, hi, hc⟩ := h
        subst hc
        exact ⟨rfl, Or.inr ⟨he.symm, hi.symm, rfl⟩⟩
      · split_ifs at h with hpos hbegin
        · split at h
          · simp only [Option.some.injEq, Prod.mk.injEq] at h
            obtain ⟨he, -, hc⟩ := h
            subst hc
            exact ⟨rfl, Or.inl he.symm⟩
          · cases hx : http_post_rxpbuf F H _ (pbuf_header_hide ‹pbuf› ‹Nat›) with
            | none => rw [hx] at h; simp at h
            | some res =>
              obtain ⟨e2, c2⟩ := res
              rw [hx] at h
              simp only [Option.map_some', Option.some.injEq, Prod.mk.injEq] at h
              obtain ⟨he, -, hc⟩ := h
              subst hc
              subst he
              obtain ⟨g1, g2⟩ := http_post_rxpbuf_transport F H _ c2 _ e2 hx
              exact ⟨g2, Or.inl g1⟩
        · cases hx : http_find_file F H _ (cptr.mem Region.response_filename 0) false with
          | none => rw [hx] at h; simp at h
          | some res =>
            obtain ⟨e2, c2⟩ := res
            rw [hx] at h
            simp only [Option.map_some', Option.some.injEq, Prod.mk.injEq] at h
            obtain ⟨he, -, hc⟩ := h
            subst hc
            subst he
            obtain ⟨g1, -⟩ := http_find_file_transport F H _ c2 _ _ e2 hx
            exact ⟨g1, Or.inl (http_find_file_frame F H _ c2 _ _ e2 hx).1⟩
        · simp only [Option.some.injEq, Prod.mk.injEq] at h
          obtain ⟨he, hi, hc⟩ := h
          subst hc
          exact ⟨rfl, Or.inr ⟨he.symm, hi.symm, rfl⟩⟩


/-- What the URI part of `http_parse_request` can return: `ERR_OK`, or
`ERR_ARG` after status 400 was passed to `http_find_error_file`, with nothing
opened. -/
theorem http_parse_uri_cases {σ : Type} (F : WebFS) (H : HeaderTables) (c c1 : Conn σ)
    (p p1 : pbuf) (data_len : Nat) ( is_post : Bool) (sp1 : Nat) (e : err_t)
    (h : http_parse_uri F H c p data_len is_post sp1 = some (e, p1, c1)) :
    c1.transport_part = c.transport_part ∧
    (e = ERR_OK ∨
      (e = ERR_ARG ∧
        c1 = { c with
               req := c1.req
               hs := { c.hs with
                       req_info := { c.hs.req_info with is_post := c1.hs.req_info.is_post } }
               error_file := c.error_file ++ [400] })) := by
  unfold http_parse_uri at h
  simp only [] at h
  split_ifs at h with hbad hpost
  · unfold http_bad_request http_find_error_file at h
    simp only [Option.some.injEq, Prod.mk.injEq] at h
    obtain ⟨he, -, hc⟩ := h
    subst hc
    exact ⟨rfl, Or.inr ⟨he.symm, rfl⟩⟩
  · split at h
    · unfold http_bad_request http_find_error_file at h
      simp only [Option.some.injEq, Prod.mk.injEq] at h
      obtain ⟨he, -, hc⟩ := h
      subst hc
      exact ⟨rfl, Or.inr ⟨he.symm, rfl⟩⟩
    · split at h
      · simp at h
      · rename_i err inp c3 hx
        obtain ⟨g1, g2⟩ := http_post_request_cases F H _ c3 _ _ inp _ _ _ err hx
        rcases g2 with g2 | ⟨g2, -, g3⟩
        · subst g2
          rw [if_neg (by decide), if_neg (by simp)] at h
          simp only [Option.some.injEq, Prod.mk.injEq] at h
          obtain ⟨he, -, hc⟩ := h
          subst hc
          exact ⟨g1, Or.inl he.symm⟩
        · subst g2
          rw [if_pos rfl, if_pos (by decide)] at h
          unfold http_bad_request http_find_error_file at h
          simp only [Option.some.injEq, Prod.mk.injEq] at h
          obtain ⟨he, -, hc⟩ := h
          subst hc
          refine ⟨g1, Or.inr ⟨he.symm, ?_⟩⟩
          rw [g3]
  · split at h
    · unfold http_bad_request http_find_error_file at h
      simp only [Option.some.injEq, Prod.mk.injEq] at h
      obtain ⟨he, -, hc⟩ := h
      subst hc
      exact ⟨rfl, Or.inr ⟨he.symm, rfl⟩⟩
    · cases hx : http_find_file F H _ (cptr.mem Region.req (sp1 + 1)) _ with
      | none => rw [hx] at h; simp at h
      | some res =>
        obtain ⟨e2, c2⟩ := res
        rw [hx] at h
        simp only [Option.map_some', Option.some.injEq, Prod.mk.injEq] at h
        obtain ⟨he, -, hc⟩ := h
        subst hc
        subst he
        obtain ⟨g1, -⟩ := http_find_file_transport F H _ c2 _ _ e2 hx
        exact ⟨g1, Or.inl (http_find_file_frame F H _ c2 _ _ e2 hx).1⟩


/-- What `http_parse_request` can return.  It never touches the transport;
its result is `ERR_OK`, `ERR_USE`, or `ERR_ARG` after status 400 or 501 was
passed to `http_find_error_file`, and then nothing was opened and `hs` is as
it was but for `is_post`. -/
theorem http_parse_request_cases {σ : Type} (F : WebFS) (H : HeaderTables) (c c1 : Conn σ)
    (p p1 : pbuf) (e : err_t) (h : http_parse_request F H c p = some (e, p1, c1)) :
    c1.transport_part = c.transport_part ∧
    (e = ERR_OK ∨ e = ERR_USE ∨
      (e = ERR_ARG ∧
        c1 = { c with
               req := c1.req
               hs := { c.hs with
                       req_info := { c.hs.req_info with is_post := c1.hs.req_info.is_post } }
               error_file := c1.error_file } ∧
        (c1.error_file = c.error_file ++ [400] ∨ c1.error_file = c.error_file ++ [501]))) := by
  unfold http_parse_request at h
  simp only [] at h
  split_ifs at h with huse hmin hget hpost
  · simp only [Option.some.injEq, Prod.mk.injEq] at h
    obtain ⟨he, -, hc⟩ := h
    subst hc
    exact ⟨rfl, Or.inr (Or.inl he.symm)⟩
  · split at h
    · obtain ⟨g1, g2⟩ := http_parse_uri_cases F H _ c1 p p1 _ _ _ e h
      refine ⟨g1, ?_⟩
      rcases g2 with g2 | ⟨g2, g3⟩
      · exact Or.inl g2
      · refine Or.inr (Or.inr ⟨g2, ?_, Or.inl ?_⟩)
        · rw [g3]
        · rw [g3]
    · unfold http_bad_request http_find_error_file at h
      simp only [Option.some.injEq, Prod.mk.injEq] at h
      obtain ⟨he, -, hc⟩ := h
      subst hc
      exact ⟨rfl, Or.inr (Or.inr ⟨he.symm, rfl, Or.inl rfl⟩)⟩
  · split at h
    · obtain ⟨g1, g2⟩ := http_parse_uri_cases F H _ c1 p p1 _ _ _ e h
      refine ⟨g1, ?_⟩
      rcases g2 with g2 | ⟨g2, g3⟩
      · exact Or.inl g2
      · refine Or.inr (Or.inr ⟨g2, ?_, Or.inl ?_⟩)
        · rw [g3]
        · rw [g3]
    · unfold http_bad_request http_find_error_file at h
      simp only [Option.some.injEq, Prod.mk.injEq] at h
      obtain ⟨he, -, hc⟩ := h
      subst hc
      exact ⟨rfl, Or.inr (Or.inr ⟨he.symm, rfl, Or.inl rfl⟩)⟩
  · split at h
    · unfold http_find_error_file at h
      simp only [Option.some.injEq, Prod.mk.injEq] at h
      obtain ⟨he, -, hc⟩ := h
      subst hc
      exact ⟨rfl, Or.inr (Or.inr ⟨he.symm, rfl, Or.inr rfl⟩)⟩
    · unfold http_bad_request http_find_error_file at h
      simp only [Option.some.injEq, Prod.mk.injEq] at h
      obtain ⟨he, -, hc⟩ := h
      subst hc
      exact ⟨rfl, Or.inr (Or.inr ⟨he.symm, rfl, Or.inl rfl⟩)⟩
  · unfold http_bad_request http_find_error_file at h
    simp only [Option.some.injEq, Prod.mk.injEq] at h
    obtain ⟨he, -, hc⟩ := h
    subst hc
    exact ⟨rfl, Or.inr (Or.inr ⟨he.symm, rfl, Or.inl rfl⟩)⟩

/-! ## Claims on failed requests -/

/-- `http_close_conn(pcb, hs)` with a non-null `hs`: the callback argument is
reset, the state freed once and `tcp_close` called once; nothing is
written. -/
theorem http_close_conn_fields {σ : Type} (T : Tcp σ) (c : Conn σ) :
    (http_close_conn T c true).2.arg = false ∧
    (http_close_conn T c true).2.freed = c.freed + 1 ∧
    (http_close_conn T c true).2.closes = c.closes + 1 ∧
    (http_close_conn T c true).2.hs.retries = c.hs.retries ∧
    (http_close_conn T c true).2.wire = c.wire ∧
    (http_close_conn T c true).2.opened = c.opened ∧
    (http_close_conn T c true).2.error_file = c.error_file := by
  unfold http_close_conn http_state_free httpd_post_finished
  simp only [Bool.true_and, if_true]
  split_ifs <;> simp

/-- `http_close_conn(pcb, NULL)`: nothing is freed. -/
theorem http_close_conn_null_fields {σ : Type} (T : Tcp σ) (c : Conn σ) :
    (http_close_conn T c false).2.arg = false ∧
    (http_close_conn T c false).2.freed = c.freed ∧
    (http_close_conn T c false).2.closes = c.closes + 1 ∧
    (http_close_conn T c false).2.post_finished = c.post_finished ∧
    (http_close_conn T c false).2.wire = c.wire := by
  unfold http_close_conn
  simp only [Bool.false_and, if_false]
  exact ⟨rfl, rfl, rfl, rfl, rfl⟩

/-- `http_recv` on an idle connection whose request the parser rejects with
`ERR_ARG`. -/
theorem http_recv_of_parse_err_arg {σ : Type} (T : Tcp σ) (F : WebFS) (H : HeaderTables)
    (c c1 : Conn σ) (p p1 : pbuf) (harg : c.arg = true) (hp : p ≠ [])
    (hpost : c.hs.post_content_len_left = 0) (hh : c.hs.handle = none)
    (hparse : http_parse_request F H c p = some (ERR_ARG, p1, c1)) :
    http_recv T F H c p ERR_OK = some (ERR_OK, (http_close_conn T c1 true).2) := by
  unfold http_recv
  rw [if_neg (by simp [hp, harg]), if_neg (by omega)]
  simp only [hh, if_true, hparse, Option.map_some']
  rfl

/-- C11 (amended): on a receive event for which the parser reports a
malformed or unsupported request (`http_parse_request` returns `ERR_ARG`,
having passed 400 or 501 to `http_find_error_file`), `http_recv` does not
invoke the sender: it calls `http_close_conn` on the state the parser left.
No resource is opened, no byte is written, the state is freed and `tcp_close`
is called once. -/
theorem http_recv_parse_failure_closes_without_response {σ : Type} (T : Tcp σ) (F : WebFS)
    (H : HeaderTables) (c c1 : Conn σ) (p p1 : pbuf) (harg : c.arg = true) (hp : p ≠ [])
    (hpost : c.hs.post_content_len_left = 0) (hh : c.hs.handle = none)
    (hparse : http_parse_request F H c p = some (ERR_ARG, p1, c1)) :
    (c1.error_file = c.error_file ++ [400] ∨ c1.error_file = c.error_file ++ [501]) ∧
    c1.hs.handle = none ∧
    ∃ c2, http_recv T F H c p ERR_OK = some (ERR_OK, c2) ∧
      c2 = (http_close_conn T c1 true).2 ∧
      c2.wire = c.wire ∧ c2.opened = c.opened ∧ c2.arg = false ∧
      c2.closes = c.closes + 1 ∧ c2.freed = c.freed + 1 := by
  obtain ⟨-, g⟩ := http_parse_request_cases F H c c1 p p1 ERR_ARG hparse
  rcases g with g | g | ⟨-, g1, g2⟩
  · exact absurd g (by decide)
  · exact absurd g (by decide)
  · obtain ⟨f1, f2, f3, -, f5, f6, -⟩ := http_close_conn_fields T c1
    have e1 : c1.wire = c.wire ∧ c1.opened = c.opened ∧ c1.closes = c.closes ∧
        c1.freed = c.freed ∧ c1.hs.handle = c.hs.handle := by
      rw [g1]; exact ⟨rfl, rfl, rfl, rfl, rfl⟩
    refine ⟨g2, e1.2.2.2.2.trans hh, _,
      http_recv_of_parse_err_arg T F H c c1 p p1 harg hp hpost hh hparse, rfl, ?_, ?_, f1, ?_, ?_⟩
    · rw [f5, e1.1]
    · rw [f6, e1.2.1]
    · rw [f3, e1.2.2.1]
    · rw [f2, e1.2.2.2.1]

/-- C11, witness: `BAD` CRLF, too short for a request, on a fresh
connection. -/
theorem http_recv_parse_failure_closes_without_response_witness :
    ∃ c1, http_parse_request demoFS demoTables (conn_accepted ([] : List err_t))
        ["BAD\r\n".toList] = some (ERR_ARG, ["BAD\r\n".toList], c1) ∧
      (c1.error_file = (conn_accepted ([] : List err_t)).error_file ++ [400] ∨
        c1.error_file = (conn_accepted ([] : List err_t)).error_file ++ [501]) ∧
      c1.hs.handle = none ∧
      ∃ c2, http_recv (tcpScript 2000) demoFS demoTables (conn_accepted [])
          ["BAD\r\n".toList] ERR_OK = some (ERR_OK, c2) ∧
        c2 = (http_close_conn (tcpScript 2000) c1 true).2 ∧
        c2.wire = (conn_accepted ([] : List err_t)).wire ∧
        c2.opened = (conn_accepted ([] : List err_t)).opened ∧ c2.arg = false ∧
        c2.closes = (conn_accepted ([] : List err_t)).closes + 1 ∧
        c2.freed = (conn_accepted ([] : List err_t)).freed + 1 :=
  ⟨_, rfl,
    http_recv_parse_failure_closes_without_response (tcpScript 2000) demoFS demoTables
      (conn_accepted []) _ ["BAD\r\n".toList] ["BAD\r\n".toList] rfl (by decide) rfl rfl rfl⟩

/-- C11, counterexample: a provider that holds `/400.html` and `/501.html`.
The malformed `BAD` CRLF and the unsupported `DELETE /x HTTP/1.0` are both
answered by closing the connection: no byte is written and neither page is
opened. -/
theorem http_recv_closes_without_error_body :
    (demoFS.webfs_open "/400.html".toList none).isSome = true ∧
    (demoFS.webfs_open "/501.html".toList none).isSome = true ∧
    (http_recv (tcpScript 2000) demoFS demoTables (conn_accepted []) ["BAD\r\n".toList]
        ERR_OK).map (fun r => (r.2.wire, r.2.closes, r.2.opened.map Prod.fst, r.2.error_file))
      = some ([], 1, [], [400]) ∧
    (http_recv (tcpScript 2000) demoFS demoTables (conn_accepted [])
        ["DELETE /x HTTP/1.0\r\n\r\n".toList] ERR_OK).map
        (fun r => (r.2.wire, r.2.closes, r.2.opened.map Prod.fst, r.2.error_file))
      = some ([], 1, [], [501]) := by
  refine ⟨?_, ?_, ?_, ?_⟩ <;> decide!

/-- No CRLF among the bytes: `strnstr` finds none. -/
theorem strnstr_CRLF_none (data : List Char) (n : Nat) (h : ¬ CRLF <:+: data) :
    strnstr data CRLF n = none := by
  unfold strnstr
  rw [if_neg (by decide)]
  apply strnstr_loop_none CRLF CRLF_ne_NUL
  intro j hpre
  apply h
  obtain ⟨t, ht⟩ := hpre
  refine ⟨data.take j, t, ?_⟩
  rw [List.append_assoc, ht, List.take_append_drop]

/-- C12 (amended): a first pbuf shorter than `MIN_REQ_LEN` (7) bytes, or with
no CRLF among its bytes, is a bad request at once, whatever its length:
`http_parse_request` passes 400 to `http_find_error_file` and returns
`ERR_ARG`, and `http_recv` closes the connection.  No need-more-data outcome
exists: whatever the request, `http_parse_request` returns `ERR_OK`, `ERR_USE`
or `ERR_ARG`, never `ERR_INPROGRESS`. -/
theorem http_parse_request_no_crlf_is_bad_request {σ : Type} (T : Tcp σ) (F : WebFS)
    (H : HeaderTables) (c : Conn σ) (data : List Char) (next : pbuf)
    (harg : c.arg = true) (hpost : c.hs.post_content_len_left = 0)
    (hh : c.hs.handle = none) (hf : c.hs.file = none)
    (hno : data.length < MIN_REQ_LEN ∨ ¬ CRLF <:+: data) :
    http_parse_request F H c (data :: next)
      = some (ERR_ARG, data :: next,
          { parse_start c data with error_file := c.error_file ++ [400] }) ∧
    (∃ c2, http_recv T F H c (data :: next) ERR_OK = some (ERR_OK, c2) ∧
      c2.arg = false ∧ c2.closes = c.closes + 1 ∧ c2.freed = c.freed + 1 ∧ c2.wire = c.wire) ∧
    (∀ (c0 c1 : Conn σ) (p p1 : pbuf) (e : err_t),
      http_parse_request F H c0 p = some (e, p1, c1) → e ≠ ERR_INPROGRESS) := by
  have hidle : ¬ (c.hs.handle ≠ none ∨ c.hs.file ≠ none) := by simp [hh, hf]
  have hparse : http_parse_request F H c (data :: next)
      = some (ERR_ARG, data :: next,
          { parse_start c data with error_file := c.error_file ++ [400] }) := by
    unfold http_parse_request
    simp only []
    rw [if_neg hidle]
    by_cases hmin : MIN_REQ_LEN ≤ pbuf_len (data :: next)
    · rw [if_pos hmin]
      have hcr : ¬ CRLF <:+: data := by
        rcases hno with hno | hno
        · exfalso
          have : pbuf_len (data :: next) ≤ data.length := by
            unfold pbuf_len
            simp only [List.headD_cons]
            exact Nat.mod_le _ _
          omega
        · exact hno
      simp only [List.headD_cons, strnstr_CRLF_none data _ hcr]
      rfl
    · rw [if_neg hmin]
      rfl
  refine ⟨hparse, ?_, ?_⟩
  · obtain ⟨f1, f2, f3, -, f5, -, -⟩ := http_close_conn_fields T
      { parse_start c data with error_file := c.error_file ++ [400] }
    exact ⟨_, http_recv_of_parse_err_arg T F H c _ (data :: next) (data :: next) harg
      (by simp) hpost hh hparse, f1, f3, f2, f5⟩
  · intro c0 c1 p p1 e h
    obtain ⟨-, g⟩ := http_parse_request_cases F H c0 c1 p p1 e h
    rcases g with g | g | ⟨g, -, -⟩ <;> rw [g] <;> decide

/-- C12, witness: the five bytes `GET /`, no CRLF, on a fresh connection. -/
theorem http_parse_request_no_crlf_is_bad_request_witness :
    ("GET /".toList.length < MIN_REQ_LEN ∨ ¬ CRLF <:+: "GET /".toList) ∧
    http_parse_request demoFS demoTables (conn_accepted ([] : List err_t)) ["GET /".toList]
      = some (ERR_ARG, ["GET /".toList],
          { parse_start (conn_accepted ([] : List err_t)) "GET /".toList with
            error_file := (conn_accepted ([] : List err_t)).error_file ++ [400] }) ∧
    (∃ c2, http_recv (tcpScript 2000) demoFS demoTables (conn_accepted []) ["GET /".toList]
        ERR_OK = some (ERR_OK, c2) ∧
      c2.arg = false ∧ c2.closes = (conn_accepted ([] : List err_t)).closes + 1 ∧
      c2.freed = (conn_accepted ([] : List err_t)).freed + 1 ∧
      c2.wire = (conn_accepted ([] : List err_t)).wire) ∧
    (∀ (c0 c1 : Conn (List err_t)) (p p1 : pbuf) (e : err_t),
      http_parse_request demoFS demoTables c0 p = some (e, p1, c1) → e ≠ ERR_INPROGRESS) :=
  ⟨Or.inl (by decide),
    http_parse_request_no_crlf_is_bad_request (tcpScript 2000) demoFS demoTables
      (conn_accepted []) "GET /".toList [] rfl rfl rfl rfl (Or.inl (by decide))⟩

/-- C12, counterexample: the first bytes of a request, `GET /index.html HTTP/1.0`
without the line terminator (24 bytes, far below any cap).  The parser
returns `ERR_ARG`, not `ERR_INPROGRESS`, and `http_recv` closes the
connection instead of waiting for more bytes. -/
theorem http_recv_closes_on_missing_crlf :
    ¬ CRLF <:+: "GET /index.html HTTP/1.0".toList ∧
    (http_parse_request demoFS demoTables (conn_accepted ([] : List err_t))
        ["GET /index.html HTTP/1.0".toList]).map (fun r => (r.1, r.2.2.error_file))
      = some (ERR_ARG, [400]) ∧
    (http_recv (tcpScript 2000) demoFS demoTables (conn_accepted [])
        ["GET /index.html HTTP/1.0".toList] ERR_OK).map
        (fun r => (r.2.arg, r.2.closes, r.2.freed, r.2.wire))
      = some (false, 1, 1, []) := by
  refine ⟨?_, ?_, ?_⟩ <;> decide!

theorem marker_ne_NUL : ∀ ch ∈ CRLF ++ CRLF, ch ≠ NUL := by decide

/-- No blank-line marker among the bytes: `strnstr` finds none. -/
theorem strnstr_marker_none (data : List Char) (n : Nat)
    (h : ∀ j, ¬ (CRLF ++ CRLF) <+: data.drop j) : strnstr data (CRLF ++ CRLF) n = none := by
  unfold strnstr
  rw [if_neg (by decide)]
  exact strnstr_loop_none (CRLF ++ CRLF) marker_ne_NUL data n 0 h

theorem not_prefix_drop_of_not_infix (tok data : List Char) (h : ¬ tok <:+: data) (j : Nat) :
    ¬ tok <+: data.drop j := by
  intro hpre
  apply h
  obtain ⟨t, ht⟩ := hpre
  refine ⟨data.take j, t, ?_⟩
  rw [List.append_assoc, ht, List.take_append_drop]

/-- `http_post_request` when no blank-line marker is found behind the URI
(lines 923, 999-1004). -/
theorem http_post_request_no_marker {σ : Type} (F : WebFS) (H : HeaderTables) (c : Conn σ)
    (next inp : pbuf) (data_len uri uri_end : Nat)
    (h : strnstr (c.req.drop (uri_end + 1)) (CRLF ++ CRLF) (data_len - (uri_end + 1)) = none) :
    http_post_request F H c next data_len uri uri_end inp = some (ERR_ARG, inp, c) := by
  unfold http_post_request
  simp only [h]

theorem drop_set_of_lt_two (l : List Char) (i j n : Nat) (x y : Char) (hi : i < n) (hj : j < n) :
    ((l.set i x).set j y).drop n = l.drop n := by
  rw [List.drop_set_of_lt _ _ hj, List.drop_set_of_lt _ _ hi]

/-- The URI part of the parser for a POST with no blank-line marker behind
the method: the request is a bad request. -/
theorem http_parse_uri_post_no_marker {σ : Type} (F : WebFS) (H : HeaderTables) (c : Conn σ)
    (p : pbuf) (data_len sp1 : Nat)
    (h : ¬ (CRLF ++ CRLF) <:+: c.req.drop (sp1 + 1)) :
    ∃ c1, http_parse_uri F H c p data_len true sp1 = some (ERR_ARG, p, c1) := by
  unfold http_parse_uri
  simp only []
  cases hsp : strnstr (c.req.drop (sp1 + 1)) [' '] ((data_len + U16 - (sp1 + 1)) % U16) with
  | none =>
    simp only [Bool.and_self, if_true]
    exact ⟨_, rfl⟩
  | some k =>
    simp only [Bool.false_and, Bool.false_eq_true, if_false, if_true]
    rw [http_post_request_no_marker]
    · simp only [if_true]
      exact ⟨_, rfl⟩
    · apply strnstr_marker_none
      intro j
      show ¬ (CRLF ++ CRLF) <+: (((c.req.set sp1 NUL).set (sp1 + 1 + k) NUL).drop
        (sp1 + 1 + k + 1)).drop j
      rw [drop_set_of_lt_two _ _ _ _ _ _ (by omega) (by omega)]
      have : (c.req.drop (sp1 + 1 + k + 1)).drop j = (c.req.drop (sp1 + 1)).drop (k + 1 + j) := by
        rw [List.drop_drop, List.drop_drop]
        congr 1
        omega
      rw [this]
      exact not_prefix_drop_of_not_infix _ _ h _


/-- The parser on a buffer that begins with `POST ` and holds no blank-line
marker behind the method. -/
theorem http_parse_request_post_no_marker {σ : Type} (F : WebFS) (H : HeaderTables)
    (c : Conn σ) (data : List Char) (next : pbuf)
    (hh : c.hs.handle = none) (hf : c.hs.file = none)
    (hmethod : "POST ".toList <+: data) (hno : ¬ (CRLF ++ CRLF) <:+: data.drop 5) :
    ∃ c1, http_parse_request F H c (data :: next) = some (ERR_ARG, data :: next, c1) ∧
      c1.error_file = c.error_file ++ [400] := by
  have hidle : ¬ (c.hs.handle ≠ none ∨ c.hs.file ≠ none) := by simp [hh, hf]
  have hg : strncmp_eq data "GET ".toList 4 = false := by
    have := (strncmp_GET data).not.mpr (not_GET_of_POST data hmethod)
    simpa using this
  have hp : strncmp_eq data "POST ".toList 5 = true := (strncmp_POST data).mpr hmethod
  unfold http_parse_request
  simp only []
  rw [if_neg hidle]
  by_cases hmin : MIN_REQ_LEN ≤ pbuf_len (data :: next)
  · rw [if_pos hmin]
    simp only [List.headD_cons]
    cases hcr : strnstr data CRLF (pbuf_len (data :: next)) with
    | none => exact ⟨_, rfl, rfl⟩
    | some i =>
      simp only [hg, hp, Bool.false_eq_true, if_false, if_true]
      obtain ⟨c1, h1⟩ := http_parse_uri_post_no_marker F H
        ({ c with hs := { c.hs with req_info := { c.hs.req_info with is_post := 0 } },
                  req := data } : Conn σ) (data :: next) (pbuf_len (data :: next)) 4 hno
      obtain ⟨-, g⟩ := http_parse_uri_cases F H _ c1 _ _ _ _ _ _ h1
      rcases g with g | ⟨-, g⟩
      · exact absurd g (by decide)
      · refine ⟨c1, h1, ?_⟩
        rw [g]
  · rw [if_neg hmin]
    exact ⟨_, rfl, rfl⟩

/-- C13 (amended): `LWIP_HTTPD_SUPPORT_REQUESTLIST` is 0, so a POST whose
bytes behind the URI hold no blank-line marker CRLF CRLF is not "not yet
complete": `http_post_request` returns `ERR_ARG` at once, whatever the size.
For every first pbuf that begins with `POST ` and holds no CRLF CRLF behind
the method, `http_parse_request` ends in the bad-request failure (400 passed
to `http_find_error_file`, `ERR_ARG`), nothing is opened, no POST is begun,
and `http_recv` closes the connection. -/
theorem http_post_without_marker_is_bad_request {σ : Type} (T : Tcp σ) (F : WebFS)
    (H : HeaderTables) (c : Conn σ) (data : List Char) (next : pbuf)
    (harg : c.arg = true) (hpost : c.hs.post_content_len_left = 0)
    (hh : c.hs.handle = none) (hf : c.hs.file = none)
    (hmethod : "POST ".toList <+: data) (hno : ¬ (CRLF ++ CRLF) <:+: data.drop 5) :
    (∀ (c0 : Conn σ) (nx inp : pbuf) (data_len uri uri_end : Nat),
      strnstr (c0.req.drop (uri_end + 1)) (CRLF ++ CRLF) (data_len - (uri_end + 1)) = none →
      http_post_request F H c0 nx data_len uri uri_end inp = some (ERR_ARG, inp, c0)) ∧
    ∃ c1, http_parse_request F H c (data :: next) = some (ERR_ARG, data :: next, c1) ∧
      c1.error_file = c.error_file ++ [400] ∧ c1.opened = c.opened ∧
      c1.hs.post_content_len_left = 0 ∧ c1.post_rx = c.post_rx ∧
      ∃ c2, http_recv T F H c (data :: next) ERR_OK = some (ERR_OK, c2) ∧
        c2.arg = false ∧ c2.closes = c.closes + 1 ∧ c2.freed = c.freed + 1 ∧
        c2.wire = c.wire := by
  refine ⟨fun c0 nx inp data_len uri uri_end h =>
    http_post_request_no_marker F H c0 nx inp data_len uri uri_end h, ?_⟩
  obtain ⟨c1, h1, h2⟩ := http_parse_request_post_no_marker F H c data next hh hf hmethod hno
  obtain ⟨-, g⟩ := http_parse_request_cases F H c c1 _ _ _ h1
  rcases g with g | g | ⟨-, g1, -⟩
  · exact absurd g (by decide)
  · exact absurd g (by decide)
  · have e1 : c1.wire = c.wire ∧ c1.opened = c.opened ∧ c1.closes = c.closes ∧
        c1.freed = c.freed ∧ c1.hs.post_content_len_left = c.hs.post_content_len_left ∧
        c1.post_rx = c.post_rx := by
      rw [g1]; exact ⟨rfl, rfl, rfl, rfl, rfl, rfl⟩
    obtain ⟨f1, f2, f3, -, f5, -, -⟩ := http_close_conn_fields T c1
    refine ⟨c1, h1, h2, e1.2.1, e1.2.2.2.2.1.trans hpost, e1.2.2.2.2.2, _,
      http_recv_of_parse_err_arg T F H c c1 _ _ harg (by simp) hpost hh h1, f1, ?_, ?_, ?_⟩
    · rw [f3, e1.2.2.1]
    · rw [f2, e1.2.2.2.1]
    · rw [f5, e1.1]

/-- C13, witness: a POST header still without its blank line. -/
theorem http_post_without_marker_is_bad_request_witness :
    "POST ".toList <+: "POST /ssid HTTP/1.0\r\nContent-Length: 5\r\n".toList ∧
    ¬ (CRLF ++ CRLF) <:+: "POST /ssid HTTP/1.0\r\nContent-Length: 5\r\n".toList.drop 5 ∧
    (∀ (c0 : Conn (List err_t)) (nx inp : pbuf) (data_len uri uri_end : Nat),
      strnstr (c0.req.drop (uri_end + 1)) (CRLF ++ CRLF) (data_len - (uri_end + 1)) = none →
      http_post_request demoFS demoTables c0 nx data_len uri uri_end inp
        = some (ERR_ARG, inp, c0)) ∧
    ∃ c1, http_parse_request demoFS demoTables (conn_accepted ([] : List err_t))
        ["POST /ssid HTTP/1.0\r\nContent-Length: 5\r\n".toList]
          = some (ERR_ARG, ["POST /ssid HTTP/1.0\r\nContent-Length: 5\r\n".toList], c1) ∧
      c1.error_file = (conn_accepted ([] : List err_t)).error_file ++ [400] ∧
      c1.opened = (conn_accepted ([] : List err_t)).opened ∧
      c1.hs.post_content_len_left = 0 ∧
      c1.post_rx = (conn_accepted ([] : List err_t)).post_rx ∧
      ∃ c2, http_recv (tcpScript 2000) demoFS demoTables (conn_accepted [])
          ["POST /ssid HTTP/1.0\r\nContent-Length: 5\r\n".toList] ERR_OK = some (ERR_OK, c2) ∧
        c2.arg = false ∧ c2.closes = (conn_accepted ([] : List err_t)).closes + 1 ∧
        c2.freed = (conn_accepted ([] : List err_t)).freed + 1 ∧
        c2.wire = (conn_accepted ([] : List err_t)).wire :=
  ⟨by decide, by decide,
    http_post_without_marker_is_bad_request (tcpScript 2000) demoFS demoTables
      (conn_accepted []) "POST /ssid HTTP/1.0\r\nContent-Length: 5\r\n".toList [] rfl rfl rfl rfl
      (by decide) (by decide)⟩

/-- C13, counterexample: the header of a POST arrives without its blank line
(41 bytes).  The outcome is `ERR_ARG` with status 400, not `ERR_INPROGRESS`,
and `http_recv` closes the connection. -/
theorem http_recv_closes_incomplete_post :
    (http_parse_request demoFS demoTables (conn_accepted ([] : List err_t))
        ["POST /ssid HTTP/1.0\r\nContent-Length: 5\r\n".toList]).map
        (fun r => (r.1, r.2.2.error_file))
      = some (ERR_ARG, [400]) ∧
    (http_recv (tcpScript 2000) demoFS demoTables (conn_accepted [])
        ["POST /ssid HTTP/1.0\r\nContent-Length: 5\r\n".toList] ERR_OK).map
        (fun r => (r.2.arg, r.2.closes, r.2.freed, r.2.wire))
      = some (false, 1, 1, []) := by
  refine ⟨?_, ?_⟩ <;> decide!

/-- C14: once the blank-line marker is found, `http_post_request` returns
`ERR_ARG` when no `Content-Length: ` field is found between the URI and the
marker, and also when the field is found and the value `atoi` reads from it
(after the NUL written at its CRLF) is 0 or negative.  Nothing but the
request memory is touched: `post_content_len_left` stays as it was, the
response file name is not reset and `req_info.uri` is not set, which is done
only on the way to `httpd_post_begin`; no file is opened. -/
theorem http_post_request_rejects_bad_content_length {σ : Type} (F : WebFS) (H : HeaderTables)
    (c : Conn σ) (next inp : pbuf) (data_len uri uri_end cc : Nat)
    (hmarker : strnstr (c.req.drop (uri_end + 1)) (CRLF ++ CRLF) (data_len - (uri_end + 1))
      = some cc)
    (hbad : strnstr (c.req.drop (uri_end + 1)) "Content-Length: ".toList cc = none ∨
      ∃ sl se, strnstr (c.req.drop (uri_end + 1)) "Content-Length: ".toList cc = some sl ∧
        strnstr (c.req.drop (uri_end + 1 + sl + 16)) CRLF 10 = some se ∧
        atoi (cstring ((c.req.set (uri_end + 1 + sl + 16 + se) NUL).drop
          (uri_end + 1 + sl + 16))) ≤ 0) :
    ∃ c1, http_post_request F H c next data_len uri uri_end inp = some (ERR_ARG, inp, c1) ∧
      c1 = { c with req := c1.req } ∧
      c1.hs.post_content_len_left = c.hs.post_content_len_left ∧
      c1.hs.req_info = c.hs.req_info ∧
      c1.http_post_response_filename = c.http_post_response_filename ∧
      c1.opened = c.opened ∧ c1.post_rx = c.post_rx ∧ c1.post_finished = c.post_finished := by
  unfold http_post_request
  simp only [hmarker]
  rcases hbad with hnone | ⟨sl, se, hsl, hse, hval⟩
  · simp only [hnone]
    exact ⟨c, rfl, rfl, rfl, rfl, rfl, rfl, rfl, rfl⟩
  · simp only [hsl, hse]
    rw [if_neg (by omega)]
    exact ⟨_, rfl, rfl, rfl, rfl, rfl, rfl, rfl, rfl⟩


/-- C14, witness: `POST /ssid HTTP/1.0` with `Content-Length: 0`.  The last
three parts show the same outcome from `http_parse_request` for the values 0
and -5 and for a header without the field. -/
theorem http_post_request_rejects_bad_content_length_witness :
    strnstr ((conn_post_ssid "Content-Length: 0\r\n\r\n".toList).req.drop (10 + 1)) (CRLF ++ CRLF)
      (42 - (10 + 1)) = some 27 ∧
    (∃ c1, http_post_request demoFS demoTables (conn_post_ssid "Content-Length: 0\r\n\r\n".toList)
        [] 42 5 10 ["POST /ssid HTTP/1.0\r\nContent-Length: 0\r\n\r\n".toList]
          = some (ERR_ARG, ["POST /ssid HTTP/1.0\r\nContent-Length: 0\r\n\r\n".toList], c1) ∧
      c1 = { conn_post_ssid "Content-Length: 0\r\n\r\n".toList with req := c1.req } ∧
      c1.hs.post_content_len_left
        = (conn_post_ssid "Content-Length: 0\r\n\r\n".toList).hs.post_content_len_left ∧
      c1.hs.req_info = (conn_post_ssid "Content-Length: 0\r\n\r\n".toList).hs.req_info ∧
      c1.http_post_response_filename
        = (conn_post_ssid "Content-Length: 0\r\n\r\n".toList).http_post_response_filename ∧
      c1.opened = (conn_post_ssid "Content-Length: 0\r\n\r\n".toList).opened ∧
      c1.post_rx = (conn_post_ssid "Content-Length: 0\r\n\r\n".toList).post_rx ∧
      c1.post_finished = (conn_post_ssid "Content-Length: 0\r\n\r\n".toList).post_finished) ∧
    (http_parse_request demoFS demoTables (conn_accepted ([] : List err_t))
        ["POST /ssid HTTP/1.0\r\nContent-Length: 0\r\n\r\n".toList]).map
        (fun r => (r.1, r.2.2.error_file, r.2.2.hs.post_content_len_left))
      = some (ERR_ARG, [400], 0) ∧
    (http_parse_request demoFS demoTables (conn_accepted ([] : List err_t))
        ["POST /ssid HTTP/1.0\r\nContent-Length: -5\r\n\r\nhello".toList]).map
        (fun r => (r.1, r.2.2.error_file, r.2.2.hs.post_content_len_left))
      = some (ERR_ARG, [400], 0) ∧
    (http_parse_request demoFS demoTables (conn_accepted ([] : List err_t))
        ["POST /ssid HTTP/1.0\r\nHost: esp\r\n\r\nhello".toList]).map
        (fun r => (r.1, r.2.2.error_file, r.2.2.hs.post_content_len_left))
      = some (ERR_ARG, [400], 0) :=
  ⟨by decide!,
    http_post_request_rejects_bad_content_length demoFS demoTables
      (conn_post_ssid "Content-Length: 0\r\n\r\n".toList) []
      ["POST /ssid HTTP/1.0\r\nContent-Length: 0\r\n\r\n".toList] 42 5 10 27 (by decide!)
      (Or.inr ⟨10, 1, by decide!, by decide!, by decide!⟩),
    by decide!, by decide!, by decide!⟩

/-! ## Claims on the resource lookup -/

theorem strchr_some_split (ch : Char) :
    ∀ (s : List Char) (k : Nat), strchr s ch = some k →
      s.take k = s.takeWhile (fun x => x != ch) ∧
      s.drop (k + 1) = (s.dropWhile (fun x => x != ch)).drop 1 ∧ ch ∈ s := by
  intro s
  induction s with
  | nil => intro k h; simp [strchr] at h
  | cons x xs ih =>
    intro k h
    unfold strchr at h
    by_cases hx : (x == ch) = true
    · rw [if_pos hx] at h
      simp only [Option.some.injEq] at h
      subst h
      have hxe : x = ch := by simpa using hx
      subst hxe
      simp
    · rw [if_neg hx] at h
      cases hr : strchr xs ch with
      | none => rw [hr] at h; simp at h
      | some j =>
        rw [hr] at h
        simp only [Option.map_some', Option.some.injEq] at h
        subst h
        obtain ⟨i1, i2, i3⟩ := ih j hr
        have hne : (x != ch) = true := by simpa using hx
        refine ⟨?_, ?_, List.mem_cons_of_mem _ i3⟩
        · rw [List.take_succ_cons, List.takeWhile_cons, if_pos hne, i1]
        · rw [List.drop_succ_cons, List.dropWhile_cons, if_pos hne, i2]

theorem strchr_none_split (ch : Char) :
    ∀ (s : List Char), strchr s ch = none →
      s.takeWhile (fun x => x != ch) = s ∧ ch ∉ s := by
  intro s
  induction s with
  | nil => intro _; simp
  | cons x xs ih =>
    intro h
    unfold strchr at h
    by_cases hx : (x == ch) = true
    · rw [if_pos hx] at h; simp at h
    · rw [if_neg hx] at h
      cases hr : strchr xs ch with
      | some j => rw [hr] at h; simp at h
      | none =>
        obtain ⟨i1, i2⟩ := ih hr
        have hne : (x != ch) = true := by simpa using hx
        have hxc : ¬ ch = x := by
          intro e; apply hx; simp [e]
        refine ⟨?_, ?_⟩
        · rw [List.takeWhile_cons, if_pos hne, i1]
        · simp [hxc, i2]

/-- The C string that starts `k` bytes into a C string. -/
theorem cstring_drop (l : List Char) :
    ∀ (k : Nat), k ≤ (cstring l).length → cstring (l.drop k) = (cstring l).drop k := by
  induction l with
  | nil => intro k _; simp [cstring]
  | cons x xs ih =>
    intro k hk
    cases k with
    | zero => simp
    | succ j =>
      rw [cstring_cons] at hk ⊢
      by_cases hx : (x != NUL) = true
      · rw [if_pos hx] at hk ⊢
        simp only [List.length_cons, Nat.add_le_add_iff_right] at hk
        simp only [List.drop_succ_cons]
        exact ih j hk
      · rw [if_neg hx] at hk
        simp at hk


/-- Lines 1302-1309 on a URI in memory: the name left for the lookup and the
string `req_info.params` then designates. -/
theorem http_find_file_params_split {σ : Type} (c : Conn σ) (r : Region) (off : Nat) :
    ∃ c1, http_find_file_params c (cptr.mem r off) = some c1 ∧
      c1.str (cptr.mem r off)
        = some ((cstring ((c.region r).drop off)).takeWhile (fun x => x != '?')) ∧
      c1.view.params
        = (if '?' ∈ cstring ((c.region r).drop off) then
            some (((cstring ((c.region r).drop off)).dropWhile (fun x => x != '?')).drop 1)
          else none) ∧
      ('?' ∉ cstring ((c.region r).drop off) → c1.hs.req_info.params = cptr.null) := by
  unfold http_find_file_params
  simp only [Conn.str]
  have hreg : ({ c with hs := { c.hs with req_info :=
      { c.hs.req_info with params := cptr.null } } } : Conn σ).region r = c.region r := by
    cases r <;> rfl
  rw [hreg]
  cases hq : strchr (cstring ((c.region r).drop off)) '?' with
  | none =>
    obtain ⟨i1, i2⟩ := strchr_none_split '?' _ hq
    refine ⟨_, rfl, ?_, ?_, fun _ => rfl⟩
    · rw [hreg, i1]
    · rw [if_neg i2]
      rfl
  | some k =>
    have hk := strchr_some_lt _ _ k hq
    obtain ⟨i1, i2, i3⟩ := strchr_some_split '?' _ k hq
    have hregion : Conn.region
        ({ (({ c with hs := { c.hs with req_info :=
            { c.hs.req_info with params := cptr.null } } } : Conn σ).setRegion r
            ((c.region r).set (off + k) NUL)) with
          hs := { (({ c with hs := { c.hs with req_info :=
            { c.hs.req_info with params := cptr.null } } } : Conn σ).setRegion r
            ((c.region r).set (off + k) NUL)).hs with
            req_info := { (({ c with hs := { c.hs with req_info :=
              { c.hs.req_info with params := cptr.null } } } : Conn σ).setRegion r
              ((c.region r).set (off + k) NUL)).hs.req_info with
              params := cptr.mem r (off + k + 1) } } } : Conn σ) r
        = (c.region r).set (off + k) NUL := by
      cases r <;> rfl
    refine ⟨_, rfl, ?_, ?_, fun hn => absurd i3 hn⟩
    · rw [hregion, drop_set_add, cstring_set _ k hk, i1]
    · rw [if_pos i3, ← i2]
      unfold Conn.view
      simp only []
      show Conn.str _ (cptr.mem r (off + k + 1)) = _
      unfold Conn.str
      simp only []
      rw [hregion, List.drop_set_of_lt _ _ (by omega),
        show off + k + 1 = off + (k + 1) by omega, ← List.drop_drop,
        cstring_drop _ (k + 1) (by omega)]


theorem Conn.str_congr {σ : Type} (a b : Conn σ) (h1 : a.req = b.req)
    (h2 : a.http_post_payload = b.http_post_payload)
    (h3 : a.http_post_response_filename = b.http_post_response_filename) (p : cptr) :
    a.str p = b.str p := by
  cases p with
  | null => rfl
  | lit s => rfl
  | mem r off =>
    unfold Conn.str Conn.region
    cases r <;> simp only [h1, h2, h3]

theorem http_get_404_file_opened {σ : Type} (F : WebFS) (c : Conn σ) :
    ∃ more, (http_get_404_file F c).2.2.opened = c.opened ++ more := by
  unfold http_get_404_file opened_log
  simp only []
  split
  · exact ⟨_, rfl⟩
  · split
    · exact ⟨_, List.append_assoc _ _ _⟩
    · split <;>
        exact ⟨[("/404.html".toList, none), ("/404.htm".toList, none),
          ("/404.shtml".toList, none)], by simp⟩

theorem http_init_file_req_info {σ : Type} (H : HeaderTables) (c c1 : Conn σ)
    (file : Option webfs_file) (is_09 : Bool) (uri : cptr) (e : err_t)
    (h : http_init_file H c file is_09 uri = some (e, c1)) :
    c1.hs.req_info = c.hs.req_info ∧ c1.hs.handle = file := by
  unfold http_init_file at h
  cases file with
  | none => simp at h
  | some f =>
    simp only [] at h
    split at h
    · simp at h
    · rename_i hs2 heq
      have hfr : hs2.req_info = c.hs.req_info ∧ hs2.handle = some f := by
        split_ifs at heq with hc
        · split at heq
          · simp at heq
          · split at heq <;>
            · simp only [Option.some.injEq] at heq
              subst heq
              exact ⟨rfl, rfl⟩
        · simp only [Option.some.injEq] at heq
          subst heq
          exact ⟨rfl, rfl⟩
      split_ifs at h
      · simp only [Option.some.injEq, Prod.mk.injEq] at h
        obtain ⟨-, hc⟩ := h
        subst hc
        obtain ⟨-, g2, -, -, g5, -⟩ := get_http_headers_frame H hs2 (c.str uri)
        exact ⟨g5.trans hfr.1, g2.trans hfr.2⟩
      · simp only [Option.some.injEq, Prod.mk.injEq] at h
        obtain ⟨-, hc⟩ := h
        subst hc
        exact hfr

/-- `http_init_file` returns for every file but one stored with its header,
without data, asked for as HTTP/0.9. -/
theorem http_init_file_defined {σ : Type} (H : HeaderTables) (c : Conn σ) (f : webfs_file)
    (is_09 : Bool) (uri : cptr)
    (h : ¬ (f.http_header_included = true ∧ is_09 = true ∧ f.data = none)) :
    ∃ c1, http_init_file H c (some f) is_09 uri = some (ERR_OK, c1) := by
  unfold http_init_file
  simp only []
  by_cases hc : (f.http_header_included && is_09) = true
  · rw [if_pos hc]
    cases hd : f.data with
    | none =>
      exfalso
      simp only [Bool.and_eq_true] at hc
      exact h ⟨hc.1, hc.2, hd⟩
    | some bytes =>
      simp only []
      cases strnstr bytes (CRLF ++ CRLF) (f.len % (U32 : Int)).toNat with
      | none => simp only []; split_ifs <;> exact ⟨_, rfl⟩
      | some k => simp only []; split_ifs <;> exact ⟨_, rfl⟩
  · rw [if_neg hc]
    simp only []
    split_ifs <;> exact ⟨_, rfl⟩


/-- What `http_find_file` leaves behind, from the connection `c1` that lines
1302-1309 produce: the first file opened is the one named by the URI, and the
strings of the request are as those lines left them. -/
theorem http_find_file_first_open {σ : Type} (F : WebFS) (H : HeaderTables) (c c1 c2 : Conn σ)
    (uri : cptr) (is_09 : Bool) (e : err_t) (name : List Char)
    (hp : http_find_file_params c uri = some c1) (hname : c1.str uri = some name)
    (h : http_find_file F H c uri is_09 = some (e, c2)) :
    (∃ more, c2.opened = c.opened ++ (name, some c1.view) :: more) ∧
    c2.hs.req_info = c1.hs.req_info ∧ c2.view = c1.view := by
  obtain ⟨-, -, -, -, -, q6, -⟩ := http_find_file_params_frame c c1 uri hp
  unfold http_find_file at h
  rw [hp] at h
  simp only [hname, Option.getD_some] at h
  have key : ∀ (cx : Conn σ) (file : Option webfs_file) (u : cptr),
      cx = { c1 with opened := cx.opened } →
      http_init_file H cx file is_09 u = some (e, c2) →
      c2.opened = cx.opened ∧ c2.hs.req_info = c1.hs.req_info ∧ c2.view = c1.view := by
    intro cx file u hcx hi
    have g := http_init_file_transport H cx c2 file is_09 u e hi
    obtain ⟨g2, -⟩ := http_init_file_req_info H cx c2 file is_09 u e hi
    have g3 : c2.hs.req_info = c1.hs.req_info := by rw [g2, hcx]
    have g4 : c2.req = c1.req ∧ c2.http_post_payload = c1.http_post_payload ∧
        c2.http_post_response_filename = c1.http_post_response_filename := by
      rw [g, hcx]; exact ⟨rfl, rfl, rfl⟩
    refine ⟨by rw [g], g3, ?_⟩
    unfold Conn.view
    rw [g3, Conn.str_congr c2 c1 g4.1 g4.2.1 g4.2.2, Conn.str_congr c2 c1 g4.1 g4.2.1 g4.2.2,
      Conn.str_congr c2 c1 g4.1 g4.2.1 g4.2.2]
  split at h
  · obtain ⟨k1, k2, k3⟩ := key _ _ _ rfl h
    refine ⟨⟨[], ?_⟩, k2, k3⟩
    rw [k1]
    show c1.opened ++ [(name, some c1.view)] = _
    rw [q6]
  · obtain ⟨more, hm⟩ := http_get_404_file_opened F (opened_log c1 name (some c1.view))
    have hcx : (http_get_404_file F (opened_log c1 name (some c1.view))).2.2
        = { c1 with opened :=
              (http_get_404_file F (opened_log c1 name (some c1.view))).2.2.opened } := by
      rw [http_get_404_file_frame]
      rfl
    obtain ⟨k1, k2, k3⟩ := key _ _ _ hcx h
    refine ⟨⟨more, ?_⟩, k2, k3⟩
    rw [k1, hm]
    show c1.opened ++ [(name, some c1.view)] ++ more = _
    rw [q6]
    simp

/-- C15: `http_find_file` on a URI `s` in memory splits it at the first
`'?'`.  The name passed to `webfs_open`, the first file opened, is the part
of `s` before the first `'?'` (all of `s` when there is none);
`req_info.params` is the whole rest of `s` behind that first `'?'`, later
`'?'` included, and `NULL` when `s` holds no `'?'`.  The lookup returns
whenever the file is found (and is not a file without data asked for
without its header). -/
theorem http_find_file_splits_at_first_query_mark {σ : Type} (F : WebFS) (H : HeaderTables)
    (c : Conn σ) (r : Region) (off : Nat) (is_09 : Bool) (s : List Char)
    (hs : s = cstring ((c.region r).drop off)) :
    ∃ c1, http_find_file_params c (cptr.mem r off) = some c1 ∧
      c1.str (cptr.mem r off) = some (s.takeWhile (fun x => x != '?')) ∧
      c1.view.params
        = (if '?' ∈ s then some ((s.dropWhile (fun x => x != '?')).drop 1) else none) ∧
      ('?' ∉ s → c1.hs.req_info.params = cptr.null) ∧
      (∀ e c2, http_find_file F H c (cptr.mem r off) is_09 = some (e, c2) →
        (∃ more, c2.opened
          = c.opened ++ (s.takeWhile (fun x => x != '?'), some c1.view) :: more) ∧
        c2.hs.req_info.params = c1.hs.req_info.params ∧ c2.view.params = c1.view.params) ∧
      (∀ f, F.webfs_open (s.takeWhile (fun x => x != '?')) (some c1.view) = some f →
        ¬ (f.http_header_included = true ∧ is_09 = true ∧ f.data = none) →
        ∃ c2, http_find_file F H c (cptr.mem r off) is_09 = some (ERR_OK, c2) ∧
          c2.hs.handle = some f) := by
  subst hs
  obtain ⟨c1, h1, h2, h3, h4⟩ := http_find_file_params_split c r off
  refine ⟨c1, h1, h2, h3, h4, ?_, ?_⟩
  · intro e c2 h
    obtain ⟨k1, k2, k3⟩ := http_find_file_first_open F H c c1 c2 _ is_09 e _ h1 h2 h
    exact ⟨k1, by rw [k2], by rw [k3]⟩
  · intro f hopen hdef
    obtain ⟨c2, hc2⟩ := http_init_file_defined H
      (opened_log c1 ((cstring ((c.region r).drop off)).takeWhile (fun x => x != '?'))
        (some c1.view)) f is_09 (cptr.mem r off) hdef
    refine ⟨c2, ?_, (http_init_file_req_info H _ c2 _ _ _ _ hc2).2⟩
    unfold http_find_file
    rw [h1]
    simp only [h2, Option.getD_some, hopen]
    exact hc2


/-- C15, witness: the URI `/ssid?a=1?b=2` of a GET, in the request memory at
offset 4.  The last part is the same request through `http_parse_request`:
`/ssid` is opened and the handler sees the parameters `a=1?b=2`. -/
theorem http_find_file_splits_at_first_query_mark_witness :
    "/ssid?a=1?b=2".toList = cstring (((parse_start (conn_accepted ([] : List err_t)) get_query_req).region Region.req).drop 4) ∧
    (∃ c1, http_find_file_params (parse_start (conn_accepted ([] : List err_t)) get_query_req) (cptr.mem Region.req 4) = some c1 ∧
      c1.str (cptr.mem Region.req 4)
        = some ("/ssid?a=1?b=2".toList.takeWhile (fun x => x != '?')) ∧
      c1.view.params
        = (if '?' ∈ "/ssid?a=1?b=2".toList then
            some (("/ssid?a=1?b=2".toList.dropWhile (fun x => x != '?')).drop 1)
          else none) ∧
      ('?' ∉ "/ssid?a=1?b=2".toList → c1.hs.req_info.params = cptr.null) ∧
      (∀ e c2, http_find_file demoFS demoTables (parse_start (conn_accepted ([] : List err_t)) get_query_req) (cptr.mem Region.req 4) false
          = some (e, c2) →
        (∃ more, c2.opened
          = (parse_start (conn_accepted ([] : List err_t)) get_query_req).opened
            ++ ("/ssid?a=1?b=2".toList.takeWhile (fun x => x != '?'), some c1.view) :: more) ∧
        c2.hs.req_info.params = c1.hs.req_info.params ∧ c2.view.params = c1.view.params) ∧
      (∀ f, demoFS.webfs_open ("/ssid?a=1?b=2".toList.takeWhile (fun x => x != '?'))
          (some c1.view) = some f →
        ¬ (f.http_header_included = true ∧ false = true ∧ f.data = none) →
        ∃ c2, http_find_file demoFS demoTables (parse_start (conn_accepted ([] : List err_t)) get_query_req) (cptr.mem Region.req 4) false
            = some (ERR_OK, c2) ∧
          c2.hs.handle = some f)) ∧
    (http_parse_request demoFS demoTables (conn_accepted ([] : List err_t))
        ["GET /ssid?a=1?b=2 HTTP/1.0\r\n\r\n".toList]).map
        (fun r => (r.1, r.2.2.opened.map (fun o => (o.1, o.2.bind (fun v => v.params)))))
      = some (ERR_OK, [("/ssid".toList, some "a=1?b=2".toList)]) :=
  ⟨by decide!,
    http_find_file_splits_at_first_query_mark demoFS demoTables (parse_start (conn_accepted ([] : List err_t)) get_query_req) Region.req 4 false
      "/ssid?a=1?b=2".toList (by decide!),
    by decide!⟩

/-- The status line and the server line `get_http_headers` sets for a file
name. -/
theorem get_http_headers_status (H : HeaderTables) (hs : http_state) (uri : List Char) :
    (get_http_headers H hs (some uri)).hdrs0
      = some (H.g_psHTTPHeaderStrings
          (if strstr uri "404".toList then H.HTTP_HDR_NOT_FOUND
           else if strstr uri "400".toList then H.HTTP_HDR_BAD_REQUEST
           else if strstr uri "501".toList then H.HTTP_HDR_NOT_IMPL
           else H.HTTP_HDR_OK)) ∧
    (get_http_headers H hs (some uri)).hdrs1
      = some (H.g_psHTTPHeaderStrings H.HTTP_HDR_SERVER) := by
  unfold get_http_headers
  simp only []
  split
  · split <;> exact ⟨rfl, rfl⟩
  · exact ⟨rfl, rfl⟩

/-- `http_get_404_file` when none of the three pages exists: they are tried in
order and `NULL` is returned, as file and as URI. -/
theorem http_get_404_file_none {σ : Type} (F : WebFS) (c : Conn σ)
    (h1 : F.webfs_open "/404.html".toList none = none)
    (h2 : F.webfs_open "/404.htm".toList none = none)
    (h3 : F.webfs_open "/404.shtml".toList none = none) :
    http_get_404_file F c
      = (none, cptr.null,
          { c with opened := c.opened ++ [("/404.html".toList, none)]
              ++ [("/404.htm".toList, none)] ++ [("/404.shtml".toList, none)] }) := by
  unfold http_get_404_file opened_log
  simp only [h1, h2, h3]

/-- C17: when the requested resource and `/404.html`, `/404.htm`,
`/404.shtml` (tried in that order) all fail to open, `http_find_file` calls
`http_init_file` with `file == NULL`, and line 1339 reads `file->data` before
the test of line 1340: the behaviour is undefined.  The state the claim
describes is never set up. -/
theorem http_find_file_without_404_page_undefined {σ : Type} (F : WebFS) (H : HeaderTables)
    (c : Conn σ) (r : Region) (off : Nat) (is_09 : Bool)
    (hfail : ∀ v, F.webfs_open ((cstring ((c.region r).drop off)).takeWhile
      (fun x => x != '?')) v = none)
    (h1 : F.webfs_open "/404.html".toList none = none)
    (h2 : F.webfs_open "/404.htm".toList none = none)
    (h3 : F.webfs_open "/404.shtml".toList none = none) :
    (∀ (c0 : Conn σ), (http_get_404_file F c0).1 = none ∧
      (http_get_404_file F c0).2.1 = cptr.null ∧
      (http_get_404_file F c0).2.2.opened
        = c0.opened ++ [("/404.html".toList, none), ("/404.htm".toList, none),
            ("/404.shtml".toList, none)]) ∧
    (∀ (c0 : Conn σ) (u : cptr), http_init_file H c0 none is_09 u = none) ∧
    http_find_file F H c (cptr.mem r off) is_09 = none := by
  refine ⟨fun c0 => ?_, fun c0 u => rfl, ?_⟩
  · rw [http_get_404_file_none F c0 h1 h2 h3]
    exact ⟨rfl, rfl, by simp⟩
  · obtain ⟨c1, k1, k2, -, -⟩ := http_find_file_params_split c r off
    unfold http_find_file
    rw [k1]
    simp only [k2, Option.getD_some, hfail]
    rw [http_get_404_file_none F _ h1 h2 h3]
    rfl

/-- C17, witness: `GET /missing.html` on a provider that holds nothing; the
last part is the same request through `http_recv`. -/
theorem http_find_file_without_404_page_undefined_witness :
    (∀ (c0 : Conn (List err_t)), (http_get_404_file emptyFS c0).1 = none ∧
      (http_get_404_file emptyFS c0).2.1 = cptr.null ∧
      (http_get_404_file emptyFS c0).2.2.opened
        = c0.opened ++ [("/404.html".toList, none), ("/404.htm".toList, none),
            ("/404.shtml".toList, none)]) ∧
    (∀ (c0 : Conn (List err_t)) (u : cptr), http_init_file demoTables c0 none false u = none) ∧
    http_find_file emptyFS demoTables (parse_start (conn_accepted ([] : List err_t)) get_missing_req) (cptr.mem Region.req 4) false = none ∧
    (http_recv (tcpScript 2000) emptyFS demoTables (conn_accepted [])
      ["GET /missing.html HTTP/1.0\r\n\r\n".toList] ERR_OK).isSome = false :=
  ⟨(http_find_file_without_404_page_undefined emptyFS demoTables (parse_start (conn_accepted ([] : List err_t)) get_missing_req) Region.req 4 false
      (fun _ => rfl) rfl rfl rfl).1,
    (http_find_file_without_404_page_undefined emptyFS demoTables (parse_start (conn_accepted ([] : List err_t)) get_missing_req) Region.req 4 false
      (fun _ => rfl) rfl rfl rfl).2.1,
    (http_find_file_without_404_page_undefined emptyFS demoTables (parse_start (conn_accepted ([] : List err_t)) get_missing_req) Region.req 4 false
      (fun _ => rfl) rfl rfl rfl).2.2,
    by decide!⟩

/-! ## The life of a connection -/

theorem http_close_conn_life {σ : Type} (T : Tcp σ) (c : Conn σ) :
    (http_close_conn T c true).2.life_part = (false, c.freed + 1, c.closes + 1, c.hs.retries) := by
  obtain ⟨f1, f2, f3, f4, -⟩ := http_close_conn_fields T c
  unfold Conn.life_part
  rw [f1, f2, f3, f4]

theorem http_send_hdr_step_life {σ : Type} (T : Tcp σ) (c c1 : Conn σ) (len len1 sl1 : Nat)
    (d d1 : Bool) (h : http_send_hdr_step T c len d = some (c1, len1, sl1, d1)) :
    c1.life_part = c.life_part := by
  unfold http_send_hdr_step at h
  cases hh : c.hs.hdrs c.hs.hdr_index with
  | none => rw [hh] at h; simp at h
  | some hdr =>
    rw [hh] at h
    simp only [Option.some.injEq, Prod.mk.injEq] at h
    obtain ⟨hc, -⟩ := h
    subst hc
    unfold Conn.life_part
    simp only []
    split_ifs <;> rfl

theorem http_send_hdr_loop_life {σ : Type} (T : Tcp σ) :
    ∀ (fuel : Nat) (c c1 : Conn σ) (len sl : Nat) (d d1 : Bool),
      http_send_hdr_loop T fuel c len sl d = some (c1, d1) → c1.life_part = c.life_part := by
  intro fuel
  induction fuel with
  | zero =>
    intro c c1 len sl d d1 h
    unfold http_send_hdr_loop at h
    split_ifs at h
    simp only [Option.some.injEq, Prod.mk.injEq] at h
    obtain ⟨hc, -⟩ := h
    subst hc
    rfl
  | succ f ih =>
    intro c c1 len sl d d1 h
    unfold http_send_hdr_loop at h
    split_ifs at h
    · cases hs : http_send_hdr_step T c len d with
      | none => rw [hs] at h; simp at h
      | some r =>
        obtain ⟨c2, len2, sl2, d2⟩ := r
        rw [hs] at h
        simp only [] at h
        exact (ih c2 c1 len2 sl2 d2 d1 h).trans (http_send_hdr_step_life T c c2 len len2 sl2 d d2 hs)
    · simp only [Option.some.injEq, Prod.mk.injEq] at h
      obtain ⟨hc, -⟩ := h
      subst hc
      rfl

theorem http_send_file_life {σ : Type} (T : Tcp σ) (F : WebFS) (c c1 : Conn σ) (d : Bool)
    (r : Nat) (h : http_send_file T F c d = some (r, c1)) :
    c1.life_part = c.life_part ∨
    c1.life_part = (false, c.freed + 1, c.closes + 1, c.hs.retries) := by
  unfold http_send_file at h
  simp only [] at h
  generalize hw : http_write T c.pcb (c.hs.file.getD []) _ = w at h
  by_cases hok : w.err = ERR_OK
  · simp only [hok, if_true] at h
    split_ifs at h
    · split at h
      · simp at h
      · split_ifs at h
        · simp only [Option.some.injEq, Prod.mk.injEq] at h
          obtain ⟨-, hc⟩ := h
          subst hc
          exact Or.inr (http_close_conn_life T _)
        · simp only [Option.some.injEq, Prod.mk.injEq] at h
          obtain ⟨-, hc⟩ := h
          subst hc
          exact Or.inl rfl
    · simp only [Option.some.injEq, Prod.mk.injEq] at h
      obtain ⟨-, hc⟩ := h
      subst hc
      exact Or.inl rfl
  · simp only [hok, if_false] at h
    split_ifs at h
    · split at h
      · simp at h
      · split_ifs at h
        · simp only [Option.some.injEq, Prod.mk.injEq] at h
          obtain ⟨-, hc⟩ := h
          subst hc
          exact Or.inr (http_close_conn_life T _)
        · simp only [Option.some.injEq, Prod.mk.injEq] at h
          obtain ⟨-, hc⟩ := h
          subst hc
          exact Or.inl rfl
    · simp only [Option.some.injEq, Prod.mk.injEq] at h
      obtain ⟨-, hc⟩ := h
      subst hc
      exact Or.inl rfl


theorem http_send_read_life {σ : Type} (T : Tcp σ) (F : WebFS) (c c1 : Conn σ)
    (hd : webfs_file) (count : Nat) (d : Bool) (r : Nat)
    (h : http_send_read T F c hd count d = some (r, c1)) :
    c1.life_part = c.life_part ∨
    c1.life_part = (false, c.freed + 1, c.closes + 1, c.hs.retries) := by
  unfold http_send_read at h
  cases hr : F.webfs_read hd count with
  | mk res h1 =>
    rw [hr] at h
    cases res with
    | none =>
      simp only [Option.some.injEq, Prod.mk.injEq] at h
      obtain ⟨-, hc⟩ := h
      subst hc
      exact Or.inr (http_close_conn_life T _)
    | some bytes =>
      simp only [] at h
      have e := http_send_file_life T F _ c1 d r h
      exact e

theorem http_send_body_life {σ : Type} (T : Tcp σ) (F : WebFS) (c c1 : Conn σ) (d : Bool)
    (r : Nat) (h : http_send_body T F c d = some (r, c1)) :
    c1.life_part = c.life_part ∨
    c1.life_part = (false, c.freed + 1, c.closes + 1, c.hs.retries) := by
  unfold http_send_body at h
  split_ifs at h with hz
  · cases hh : c.hs.handle with
    | none =>
      rw [hh] at h
      simp only [Option.some.injEq, Prod.mk.injEq] at h
      obtain ⟨-, hc⟩ := h
      subst hc
      exact Or.inr (http_close_conn_life T _)
    | some hd =>
      rw [hh] at h
      simp only [] at h
      split_ifs at h
      · simp only [Option.some.injEq, Prod.mk.injEq] at h
        obtain ⟨-, hc⟩ := h
        subst hc
        exact Or.inr (http_close_conn_life T _)
      · cases hb : c.hs.buf with
        | some b =>
          rw [hb] at h
          simp only [] at h
          have e := http_send_read_life T F _ c1 hd _ d r h
          exact e
        | none =>
          rw [hb] at h
          simp only [] at h
          cases ha : http_send_alloc T (2 * tcp_mss T c.pcb) c.pcb (2 * tcp_mss T c.pcb) with
          | mk res pcb1 =>
            rw [ha] at h
            cases res with
            | none =>
              simp only [Option.some.injEq, Prod.mk.injEq] at h
              obtain ⟨-, hc⟩ := h
              subst hc
              exact Or.inl rfl
            | some n =>
              simp only [] at h
              have e := http_send_read_life T F _ c1 hd _ d r h
              exact e
  · exact http_send_file_life T F c c1 d r h

/-- `http_send_data` either leaves the callback argument, the counts of
frees and closes and the idle counter as they are, or it has closed the
connection: argument reset, one more free, one more `tcp_close`. -/
theorem http_send_data_life {σ : Type} (T : Tcp σ) (F : WebFS) (c c1 : Conn σ) (r : Nat)
    (h : http_send_data T F c = some (r, c1)) :
    c1.life_part = c.life_part ∨
    c1.life_part = (false, c.freed + 1, c.closes + 1, c.hs.retries) := by
  unfold http_send_data at h
  split_ifs at h with ha hi
  · simp only [Option.some.injEq, Prod.mk.injEq] at h
    obtain ⟨-, hc⟩ := h
    subst hc
    exact Or.inl rfl
  · simp only [] at h
    cases hl : http_send_hdr_loop T (tcp_sndbuf T c.pcb) c (tcp_sndbuf T c.pcb)
        (tcp_sndbuf T c.pcb) false with
    | none => rw [hl] at h; simp at h
    | some res =>
      obtain ⟨c2, d2⟩ := res
      rw [hl] at h
      simp only [] at h
      have f := http_send_hdr_loop_life T _ c c2 _ _ _ d2 hl
      have f' : c2.freed = c.freed ∧ c2.closes = c.closes ∧ c2.hs.retries = c.hs.retries := by
        unfold Conn.life_part at f
        simp only [Prod.mk.injEq] at f
        exact ⟨f.2.1, f.2.2.1, f.2.2.2⟩
      split_ifs at h
      · simp only [Option.some.injEq, Prod.mk.injEq] at h
        obtain ⟨-, hc⟩ := h
        subst hc
        exact Or.inl f
      · rcases http_send_body_life T F c2 c1 d2 r h with e | e
        · exact Or.inl (e.trans f)
        · right
          rw [e, f'.1, f'.2.1, f'.2.2]
  · exact http_send_body_life T F c c1 false r h

/-! ## Claims on the idle timeout -/

theorem Conn.life_part_fields {σ : Type} {a : Conn σ} {x : Bool} {f k r : Nat}
    (h : a.life_part = (x, f, k, r)) :
    a.arg = x ∧ a.freed = f ∧ a.closes = k ∧ a.hs.retries = r := by
  unfold Conn.life_part at h
  simp only [Prod.mk.injEq] at h
  exact h

/-- A poll event on a connection whose callback argument is `NULL`. -/
theorem http_poll_null {σ : Type} (T : Tcp σ) (F : WebFS) (c : Conn σ) (harg : c.arg = false) :
    http_poll T F c = some (ERR_OK, (http_close_conn T c false).2) := by
  unfold http_poll
  rw [if_pos (by simp [harg])]

/-- A poll event on a live connection: the counter is incremented; at
`HTTPD_MAX_RETRIES` the connection is closed, otherwise it stays as it is
unless the sender, invoked when a file is open, closes it. -/
theorem http_poll_step {σ : Type} (T : Tcp σ) (F : WebFS) (c c1 : Conn σ) (e : err_t)
    (harg : c.arg = true) (h : http_poll T F c = some (e, c1)) :
    ((c.hs.retries + 1) % 256 = HTTPD_MAX_RETRIES →
      c1.life_part = (false, c.freed + 1, c.closes + 1, (c.hs.retries + 1) % 256)) ∧
    ((c.hs.retries + 1) % 256 ≠ HTTPD_MAX_RETRIES →
      c1.life_part = (true, c.freed, c.closes, (c.hs.retries + 1) % 256) ∨
      (c.hs.handle ≠ none ∧
        c1.life_part = (false, c.freed + 1, c.closes + 1, (c.hs.retries + 1) % 256))) := by
  unfold http_poll at h
  rw [if_neg (by simp [harg])] at h
  simp only [] at h
  split_ifs at h with hmax hh
  · simp only [Option.some.injEq, Prod.mk.injEq] at h
    obtain ⟨-, hc⟩ := h
    subst hc
    exact ⟨fun _ => http_close_conn_life T _, fun hn => absurd hmax hn⟩
  · refine ⟨fun hm => absurd hm hmax, fun _ => ?_⟩
    cases hx : http_send_data T F
        { c with hs := { c.hs with retries := (c.hs.retries + 1) % 256 } } with
    | none => rw [hx] at h; simp at h
    | some res =>
      obtain ⟨r, c2⟩ := res
      rw [hx] at h
      simp only [Option.map_some', Option.some.injEq, Prod.mk.injEq] at h
      obtain ⟨-, hc⟩ := h
      subst hc
      rcases http_send_data_life T F _ c2 r hx with g | g
      · left
        rw [g]
        unfold Conn.life_part
        simp only [harg]
      · right
        exact ⟨hh, g⟩
  · refine ⟨fun hm => absurd hm hmax, fun _ => Or.inl ?_⟩
    simp only [Option.some.injEq, Prod.mk.injEq] at h
    obtain ⟨-, hc⟩ := h
    subst hc
    unfold Conn.life_part
    simp only [harg]

/-- Once the callback argument is `NULL` it stays so under poll events. -/
theorem http_poll_seq_null {σ : Type} (T : Tcp σ) (F : WebFS) :
    ∀ (n : Nat) (c cn : Conn σ), c.arg = false → http_poll_seq T F n c = some cn →
      cn.arg = false := by
  intro n
  induction n with
  | zero =>
    intro c cn harg h
    unfold http_poll_seq at h
    simp only [Option.some.injEq] at h
    subst h
    exact harg
  | succ n ih =>
    intro c cn harg h
    unfold http_poll_seq at h
    rw [http_poll_null T F c harg] at h
    simp only [] at h
    exact ih _ cn (http_close_conn_null_fields T c).1 h

/-- Poll events below the threshold: a connection still live afterwards has
only had its counter incremented. -/
theorem http_poll_seq_open {σ : Type} (T : Tcp σ) (F : WebFS) :
    ∀ (n : Nat) (c cn : Conn σ), c.arg = true → c.hs.retries + n < HTTPD_MAX_RETRIES →
      http_poll_seq T F n c = some cn → cn.arg = true →
      cn.hs.retries = c.hs.retries + n ∧ cn.closes = c.closes ∧ cn.freed = c.freed := by
  intro n
  induction n with
  | zero =>
    intro c cn _ _ h _
    unfold http_poll_seq at h
    simp only [Option.some.injEq] at h
    subst h
    exact ⟨rfl, rfl, rfl⟩
  | succ n ih =>
    intro c cn harg hlt h hopen
    unfold http_poll_seq at h
    cases hp : http_poll T F c with
    | none => rw [hp] at h; simp at h
    | some res =>
      obtain ⟨e, c1⟩ := res
      rw [hp] at h
      simp only [] at h
      unfold HTTPD_MAX_RETRIES at hlt
      have hmod : (c.hs.retries + 1) % 256 = c.hs.retries + 1 := Nat.mod_eq_of_lt (by omega)
      obtain ⟨-, g⟩ := http_poll_step T F c c1 e harg hp
      have g' := g (by rw [hmod]; unfold HTTPD_MAX_RETRIES; omega)
      rcases g' with g' | ⟨-, g'⟩
      · obtain ⟨a1, a2, a3, a4⟩ := Conn.life_part_fields g'
        obtain ⟨i1, i2, i3⟩ := ih c1 cn a1
          (by rw [a4, hmod]; unfold HTTPD_MAX_RETRIES; omega) h hopen
        refine ⟨?_, i2.trans a3, i3.trans a2⟩
        rw [i1, a4, hmod]
        omega
      · obtain ⟨a1, -, -, -⟩ := Conn.life_part_fields g'
        have := http_poll_seq_null T F n c1 cn a1 h
        rw [this] at hopen
        exact absurd hopen (by decide)

theorem http_poll_seq_succ {σ : Type} (T : Tcp σ) (F : WebFS) :
    ∀ (n : Nat) (c : Conn σ),
      http_poll_seq T F (n + 1) c
        = (http_poll_seq T F n c).bind (fun cn => (http_poll T F cn).map (fun r => r.2)) := by
  intro n
  induction n with
  | zero =>
    intro c
    rw [http_poll_seq, http_poll_seq]
    cases hp : http_poll T F c with
    | none => simp [hp]
    | some res => obtain ⟨e, c1⟩ := res; simp [http_poll_seq, hp]
  | succ n ih =>
    intro c
    rw [http_poll_seq]
    cases hp : http_poll T F c with
    | none => simp only []; rw [http_poll_seq, hp]; rfl
    | some res =>
      obtain ⟨e, c1⟩ := res
      simp only []
      rw [ih c1]
      conv_rhs => rw [http_poll_seq, hp]


/-- A poll event on a live connection with no file open, below the
threshold: only the counter changes. -/
theorem http_poll_idle {σ : Type} (T : Tcp σ) (F : WebFS) (c : Conn σ) (harg : c.arg = true)
    (hh : c.hs.handle = none) (hlt : c.hs.retries + 1 < HTTPD_MAX_RETRIES) :
    http_poll T F c
      = some (ERR_OK, { c with hs := { c.hs with retries := c.hs.retries + 1 } }) := by
  unfold HTTPD_MAX_RETRIES at hlt
  have hmod : (c.hs.retries + 1) % 256 = c.hs.retries + 1 := Nat.mod_eq_of_lt (by omega)
  unfold http_poll
  rw [if_neg (by simp [harg])]
  simp only [hmod]
  rw [if_neg (by unfold HTTPD_MAX_RETRIES; omega), if_neg (by simp [hh])]

theorem http_poll_seq_idle {σ : Type} (T : Tcp σ) (F : WebFS) :
    ∀ (n : Nat) (c : Conn σ), c.arg = true → c.hs.handle = none →
      c.hs.retries + n < HTTPD_MAX_RETRIES →
      ∃ cn, http_poll_seq T F n c = some cn ∧ cn.arg = true ∧
        cn.hs.retries = c.hs.retries + n := by
  intro n
  induction n with
  | zero => intro c harg _ _; exact ⟨c, rfl, harg, rfl⟩
  | succ n ih =>
    intro c harg hh hlt
    rw [http_poll_seq, http_poll_idle T F c harg hh (by omega)]
    simp only []
    obtain ⟨cn, h1, h2, h3⟩ := ih { c with hs := { c.hs with retries := c.hs.retries + 1 } }
      harg hh (by show c.hs.retries + 1 + n < HTTPD_MAX_RETRIES; omega)
    refine ⟨cn, h1, h2, ?_⟩
    rw [h3]
    show c.hs.retries + 1 + n = _
    omega

/-- A sent event leaves the idle counter at 0. -/
theorem http_sent_retries {σ : Type} (T : Tcp σ) (F : WebFS) (c c1 : Conn σ) (e : err_t)
    (harg : c.arg = true) (h : http_sent T F c = some (e, c1)) : c1.hs.retries = 0 := by
  unfold http_sent at h
  rw [if_neg (by simp [harg])] at h
  cases hx : http_send_data T F { c with hs := { c.hs with retries := 0 } } with
  | none => rw [hx] at h; simp at h
  | some res =>
    obtain ⟨r, c2⟩ := res
    rw [hx] at h
    simp only [Option.map_some', Option.some.injEq, Prod.mk.injEq] at h
    obtain ⟨-, hc⟩ := h
    subst hc
    rcases http_send_data_life T F _ c2 r hx with g | g
    · exact (Conn.life_part_fields g).2.2.2
    · exact (Conn.life_part_fields g).2.2.2

/-- C18: a sent event leaves the retry counter at 0.  A poll event
increments it and closes the connection exactly when the incremented counter
is `HTTPD_MAX_RETRIES` (4); otherwise the connection stays open unless the
sender, invoked when a file is open, completes and closes it.  Hence, from
counter 0, a connection that is still live after `k < 4` poll events has
counter `k` and was never closed, and one still live after three polls is
closed by the fourth; a connection with no file open is live after three
polls. -/
theorem http_poll_closes_at_max_retries {σ : Type} (T : Tcp σ) (F : WebFS) (c : Conn σ)
    (harg : c.arg = true) :
    (∀ e c1, http_sent T F c = some (e, c1) → c1.hs.retries = 0) ∧
    (∀ e c1, http_poll T F c = some (e, c1) →
      c1.hs.retries = (c.hs.retries + 1) % 256 ∧
      ((c.hs.retries + 1) % 256 = HTTPD_MAX_RETRIES →
        c1.arg = false ∧ c1.closes = c.closes + 1 ∧ c1.freed = c.freed + 1) ∧
      ((c.hs.retries + 1) % 256 ≠ HTTPD_MAX_RETRIES →
        (c1.arg = true ∧ c1.closes = c.closes ∧ c1.freed = c.freed) ∨
        (c.hs.handle ≠ none ∧ c1.arg = false))) ∧
    (c.hs.retries = 0 →
      (∀ k ck, k < HTTPD_MAX_RETRIES → http_poll_seq T F k c = some ck → ck.arg = true →
        ck.hs.retries = k ∧ ck.closes = c.closes ∧ ck.freed = c.freed) ∧
      (∀ c3, http_poll_seq T F 3 c = some c3 → c3.arg = true →
        ∃ c4, http_poll_seq T F 4 c = some c4 ∧ c4.arg = false ∧
          c4.closes = c.closes + 1 ∧ c4.freed = c.freed + 1) ∧
      (c.hs.handle = none →
        ∃ c3, http_poll_seq T F 3 c = some c3 ∧ c3.arg = true ∧ c3.hs.retries = 3)) := by
  refine ⟨fun e c1 h => http_sent_retries T F c c1 e harg h, fun e c1 h => ?_, fun hz => ?_⟩
  · obtain ⟨g1, g2⟩ := http_poll_step T F c c1 e harg h
    by_cases hm : (c.hs.retries + 1) % 256 = HTTPD_MAX_RETRIES
    · obtain ⟨a1, a2, a3, a4⟩ := Conn.life_part_fields (g1 hm)
      exact ⟨a4, fun _ => ⟨a1, a3, a2⟩, fun hn => absurd hm hn⟩
    · rcases g2 hm with g | ⟨hh, g⟩
      · obtain ⟨a1, a2, a3, a4⟩ := Conn.life_part_fields g
        exact ⟨a4, fun hq => absurd hq hm, fun _ => Or.inl ⟨a1, a3, a2⟩⟩
      · obtain ⟨a1, a2, a3, a4⟩ := Conn.life_part_fields g
        exact ⟨a4, fun hq => absurd hq hm, fun _ => Or.inr ⟨hh, a1⟩⟩
  · refine ⟨fun k ck hk hseq hopen => ?_, fun c3 hseq hopen => ?_, fun hh => ?_⟩
    · obtain ⟨i1, i2, i3⟩ := http_poll_seq_open T F k c ck harg (by rw [hz]; omega) hseq hopen
      exact ⟨by rw [i1, hz]; omega, i2, i3⟩
    · obtain ⟨i1, i2, i3⟩ := http_poll_seq_open T F 3 c c3 harg
        (by rw [hz]; decide) hseq hopen
      rw [hz] at i1
      have hp : http_poll T F c3
          = some (ERR_OK, (http_close_conn T
              { c3 with hs := { c3.hs with retries := (c3.hs.retries + 1) % 256 } } true).2) := by
        unfold http_poll
        rw [if_neg (by simp [hopen])]
        simp only []
        rw [if_pos (by rw [i1]; decide)]
      obtain ⟨f1, f2, f3, -⟩ := http_close_conn_fields T
        { c3 with hs := { c3.hs with retries := (c3.hs.retries + 1) % 256 } }
      refine ⟨_, ?_, f1, ?_, ?_⟩
      · rw [http_poll_seq_succ, hseq]
        simp only [Option.some_bind, hp, Option.map_some']
      · rw [f3]; show c3.closes + 1 = _; rw [i2]
      · rw [f2]; show c3.freed + 1 = _; rw [i3]
    · obtain ⟨c3, h1, h2, h3⟩ := http_poll_seq_idle T F 3 c harg hh (by rw [hz]; decide)
      exact ⟨c3, h1, h2, by rw [h3, hz]⟩

/-- C18, witness: a freshly accepted connection that sees only poll
events. -/
theorem http_poll_closes_at_max_retries_witness :
    (conn_accepted ([] : List err_t)).arg = true ∧
    (conn_accepted ([] : List err_t)).hs.retries = 0 ∧
    (conn_accepted ([] : List err_t)).hs.handle = none ∧
    (∃ c3, http_poll_seq (tcpScript 2000) demoFS 3 (conn_accepted []) = some c3 ∧
      c3.arg = true ∧ c3.hs.retries = 3) ∧
    (http_poll_seq (tcpScript 2000) demoFS 3 (conn_accepted [])).map
        (fun r => (r.arg, r.closes, r.freed, r.hs.retries)) = some (true, 0, 0, 3) ∧
    (http_poll_seq (tcpScript 2000) demoFS 4 (conn_accepted [])).map
        (fun r => (r.arg, r.closes, r.freed, r.hs.retries)) = some (false, 1, 1, 4) :=
  ⟨rfl, rfl, rfl,
    (http_poll_closes_at_max_retries (tcpScript 2000) demoFS (conn_accepted []) rfl).2.2 rfl
      |>.2.2 rfl,
    by decide!, by decide!⟩

/-! ## Claims on the release of the state -/

theorem Conn.transport_part_fields {σ : Type} {a b : Conn σ}
    (h : a.transport_part = b.transport_part) :
    a.arg = b.arg ∧ a.freed = b.freed ∧ a.closes = b.closes ∧ a.wire = b.wire := by
  unfold Conn.transport_part at h
  simp only [Prod.mk.injEq] at h
  exact ⟨h.2.1, h.2.2.1, h.2.2.2.1, h.2.2.2.2.1⟩

/-- After `http_send_data` on a live connection: still live with nothing
freed, or closed with the state freed once. -/
theorem http_send_data_free {σ : Type} (T : Tcp σ) (F : WebFS) (c c1 : Conn σ) (r : Nat)
    (harg : c.arg = true) (h : http_send_data T F c = some (r, c1)) :
    (c1.arg = true ∧ c1.freed = c.freed) ∨ (c1.arg = false ∧ c1.freed = c.freed + 1) := by
  rcases http_send_data_life T F c c1 r h with g | g
  · unfold Conn.life_part at g
    simp only [Prod.mk.injEq] at g
    exact Or.inl ⟨g.1.trans harg, g.2.1⟩
  · obtain ⟨a1, a2, -, -⟩ := Conn.life_part_fields g
    exact Or.inr ⟨a1, a2⟩

theorem http_recv_tail_free {σ : Type} (T : Tcp σ) (F : WebFS) (c2 c1 : Conn σ) (e2 e : err_t)
    (ha : c2.arg = true)
    (h : (if e2 = ERR_OK then
            if c2.hs.post_content_len_left = 0 then
              (http_send_data T F c2).map (fun r => (ERR_OK, r.2))
            else some (ERR_OK, c2)
          else if e2 = ERR_ARG then some (ERR_OK, (http_close_conn T c2 true).2)
          else some (ERR_OK, c2)) = some (e, c1)) :
    (c1.arg = true ∧ c1.freed = c2.freed) ∨ (c1.arg = false ∧ c1.freed = c2.freed + 1) := by
  split_ifs at h
  · cases hy : http_send_data T F c2 with
    | none => rw [hy] at h; simp at h
    | some res2 =>
      obtain ⟨r, c3⟩ := res2
      rw [hy] at h
      simp only [Option.map_some', Option.some.injEq, Prod.mk.injEq] at h
      obtain ⟨-, hc⟩ := h
      subst hc
      exact http_send_data_free T F c2 c3 r ha hy
  · simp only [Option.some.injEq, Prod.mk.injEq] at h
    obtain ⟨-, hc⟩ := h
    subst hc
    exact Or.inl ⟨ha, rfl⟩
  · simp only [Option.some.injEq, Prod.mk.injEq] at h
    obtain ⟨-, hc⟩ := h
    subst hc
    exact Or.inr ⟨(http_close_conn_fields T c2).1, (http_close_conn_fields T c2).2.1⟩
  · simp only [Option.some.injEq, Prod.mk.injEq] at h
    obtain ⟨-, hc⟩ := h
    subst hc
    exact Or.inl ⟨ha, rfl⟩

/-- A receive event frees the state at most once, and only if the callback
argument was not `NULL`; then the argument is `NULL` afterwards. -/
theorem http_recv_free {σ : Type} (T : Tcp σ) (F : WebFS) (H : HeaderTables) (c c1 : Conn σ)
    (p : pbuf) (err e : err_t) (h : http_recv T F H c p err = some (e, c1)) :
    (c.arg = false → c1.arg = false ∧ c1.freed = c.freed) ∧
    (c.arg = true →
      (c1.arg = true ∧ c1.freed = c.freed) ∨ (c1.arg = false ∧ c1.freed = c.freed + 1)) := by
  unfold http_recv at h
  by_cases hbad : err ≠ ERR_OK ∨ p = [] ∨ c.arg = false
  · rw [if_pos hbad] at h
    simp only [Option.some.injEq, Prod.mk.injEq] at h
    obtain ⟨-, hc⟩ := h
    subst hc
    constructor
    · intro ha
      rw [ha]
      exact ⟨(http_close_conn_null_fields T c).1, (http_close_conn_null_fields T c).2.1⟩
    · intro ha
      rw [ha]
      exact Or.inr ⟨(http_close_conn_fields T c).1, (http_close_conn_fields T c).2.1⟩
  · rw [if_neg hbad] at h
    have ha : c.arg = true := by
      by_contra hn
      apply hbad
      right; right
      simpa using hn
    refine ⟨fun hf => absurd ha (by simp [hf]), fun _ => ?_⟩
    by_cases hpost : 0 < c.hs.post_content_len_left
    · rw [if_pos hpost] at h
      cases hx : http_post_rxpbuf F H { c with hs := { c.hs with retries := 0 } } p with
      | none => rw [hx] at h; simp at h
      | some res =>
        obtain ⟨e2, c2⟩ := res
        rw [hx] at h
        simp only [] at h
        obtain ⟨-, g⟩ := http_post_rxpbuf_transport F H _ c2 p e2 hx
        obtain ⟨t1, t2, -, -⟩ := Conn.transport_part_fields g
        have t1' : c2.arg = true := t1.trans ha
        have t2' : c2.freed = c.freed := t2
        split_ifs at h
        · cases hy : http_send_data T F c2 with
          | none => rw [hy] at h; simp at h
          | some res2 =>
            obtain ⟨r, c3⟩ := res2
            rw [hy] at h
            simp only [Option.map_some', Option.some.injEq, Prod.mk.injEq] at h
            obtain ⟨-, hc⟩ := h
            subst hc
            rcases http_send_data_free T F c2 c3 r t1' hy with q | q
            · exact Or.inl ⟨q.1, q.2.trans t2'⟩
            · exact Or.inr ⟨q.1, by rw [q.2, t2']⟩
        · simp only [Option.some.injEq, Prod.mk.injEq] at h
          obtain ⟨-, hc⟩ := h
          subst hc
          exact Or.inl ⟨t1', t2'⟩
    · rw [if_neg hpost] at h
      simp only [] at h
      by_cases hh : c.hs.handle = none
      · rw [if_pos hh] at h
        cases hx : http_parse_request F H c p with
        | none => rw [hx] at h; simp at h
        | some res =>
          obtain ⟨e3, p3, c3⟩ := res
          rw [hx] at h
          simp only [Option.map_some'] at h
          obtain ⟨g, -⟩ := http_parse_request_cases F H c c3 p p3 e3 hx
          obtain ⟨t1, t2, -, -⟩ := Conn.transport_part_fields g
          rcases http_recv_tail_free T F c3 c1 e3 e (t1.trans ha) h with q | q
          · exact Or.inl ⟨q.1, q.2.trans t2⟩
          · exact Or.inr ⟨q.1, by rw [q.2, t2]⟩
      · rw [if_neg hh] at h
        simp only [] at h
        exact http_recv_tail_free T F c c1 ERR_ABRT e ha h


theorem http_sent_free {σ : Type} (T : Tcp σ) (F : WebFS) (c c1 : Conn σ) (e : err_t)
    (h : http_sent T F c = some (e, c1)) :
    (c.arg = false → c1.arg = false ∧ c1.freed = c.freed) ∧
    (c.arg = true →
      (c1.arg = true ∧ c1.freed = c.freed) ∨ (c1.arg = false ∧ c1.freed = c.freed + 1)) := by
  unfold http_sent at h
  by_cases ha : c.arg = true
  · rw [if_neg (by simp [ha])] at h
    refine ⟨fun hf => absurd ha (by simp [hf]), fun _ => ?_⟩
    cases hx : http_send_data T F { c with hs := { c.hs with retries := 0 } } with
    | none => rw [hx] at h; simp at h
    | some res =>
      obtain ⟨r, c2⟩ := res
      rw [hx] at h
      simp only [Option.map_some', Option.some.injEq, Prod.mk.injEq] at h
      obtain ⟨-, hc⟩ := h
      subst hc
      have q := http_send_data_free T F { c with hs := { c.hs with retries := 0 } } c2 r ha hx
      exact q
  · have hf : c.arg = false := by simpa using ha
    rw [if_pos (by simp [hf])] at h
    simp only [Option.some.injEq, Prod.mk.injEq] at h
    obtain ⟨-, hc⟩ := h
    subst hc
    exact ⟨fun _ => ⟨hf, rfl⟩, fun ht => absurd ht ha⟩

theorem http_poll_free {σ : Type} (T : Tcp σ) (F : WebFS) (c c1 : Conn σ) (e : err_t)
    (h : http_poll T F c = some (e, c1)) :
    (c.arg = false → c1.arg = false ∧ c1.freed = c.freed) ∧
    (c.arg = true →
      (c1.arg = true ∧ c1.freed = c.freed) ∨ (c1.arg = false ∧ c1.freed = c.freed + 1)) := by
  constructor
  · intro ha
    rw [http_poll_null T F c ha] at h
    simp only [Option.some.injEq, Prod.mk.injEq] at h
    obtain ⟨-, hc⟩ := h
    subst hc
    exact ⟨(http_close_conn_null_fields T c).1, (http_close_conn_null_fields T c).2.1⟩
  · intro ha
    obtain ⟨g1, g2⟩ := http_poll_step T F c c1 e ha h
    by_cases hm : (c.hs.retries + 1) % 256 = HTTPD_MAX_RETRIES
    · obtain ⟨a1, a2, -, -⟩ := Conn.life_part_fields (g1 hm)
      exact Or.inr ⟨a1, a2⟩
    · rcases g2 hm with g | ⟨-, g⟩
      · obtain ⟨a1, a2, -, -⟩ := Conn.life_part_fields g
        exact Or.inl ⟨a1, a2⟩
      · obtain ⟨a1, a2, -, -⟩ := Conn.life_part_fields g
        exact Or.inr ⟨a1, a2⟩

/-- Events on a connection whose callback argument is `NULL` free nothing. -/
theorem http_events_null {σ : Type} (T : Tcp σ) (F : WebFS) (H : HeaderTables) :
    ∀ (evs : List Event) (c c1 : Conn σ), c.arg = false →
      http_events T F H evs c = some c1 → c1.arg = false ∧ c1.freed = c.freed := by
  intro evs
  induction evs with
  | nil =>
    intro c c1 ha h
    unfold http_events at h
    simp only [Option.some.injEq] at h
    subst h
    exact ⟨ha, rfl⟩
  | cons ev rest ih =>
    intro c c1 ha h
    cases ev with
    | err =>
      unfold http_events at h
      simp only [Option.some.injEq] at h
      subst h
      unfold http_err
      rw [if_neg (by simp [ha])]
      exact ⟨ha, rfl⟩
    | recv p e =>
      unfold http_events at h
      cases hx : http_recv T F H c p e with
      | none => rw [hx] at h; simp at h
      | some res =>
        obtain ⟨e2, c2⟩ := res
        rw [hx] at h
        simp only [] at h
        obtain ⟨g, -⟩ := http_recv_free T F H c c2 p e e2 hx
        obtain ⟨i1, i2⟩ := ih c2 c1 (g ha).1 h
        exact ⟨i1, i2.trans (g ha).2⟩
    | sent =>
      unfold http_events at h
      cases hx : http_sent T F c with
      | none => rw [hx] at h; simp at h
      | some res =>
        obtain ⟨e2, c2⟩ := res
        rw [hx] at h
        simp only [] at h
        obtain ⟨g, -⟩ := http_sent_free T F c c2 e2 hx
        obtain ⟨i1, i2⟩ := ih c2 c1 (g ha).1 h
        exact ⟨i1, i2.trans (g ha).2⟩
    | poll =>
      unfold http_events at h
      cases hx : http_poll T F c with
      | none => rw [hx] at h; simp at h
      | some res =>
        obtain ⟨e2, c2⟩ := res
        rw [hx] at h
        simp only [] at h
        obtain ⟨g, -⟩ := http_poll_free T F c c2 e2 hx
        obtain ⟨i1, i2⟩ := ih c2 c1 (g ha).1 h
        exact ⟨i1, i2.trans (g ha).2⟩

/-- Events on a live connection free its state at most once. -/
theorem http_events_live {σ : Type} (T : Tcp σ) (F : WebFS) (H : HeaderTables) :
    ∀ (evs : List Event) (c c1 : Conn σ), c.arg = true →
      http_events T F H evs c = some c1 → c1.freed ≤ c.freed + 1 := by
  intro evs
  induction evs with
  | nil =>
    intro c c1 _ h
    unfold http_events at h
    simp only [Option.some.injEq] at h
    subst h
    omega
  | cons ev rest ih =>
    intro c c1 ha h
    have step : ∀ (c2 : Conn σ),
        ((c2.arg = true ∧ c2.freed = c.freed) ∨ (c2.arg = false ∧ c2.freed = c.freed + 1)) →
        http_events T F H rest c2 = some c1 → c1.freed ≤ c.freed + 1 := by
      intro c2 g hrest
      rcases g with ⟨g1, g2⟩ | ⟨g1, g2⟩
      · have := ih c2 c1 g1 hrest
        omega
      · have := (http_events_null T F H rest c2 c1 g1 hrest).2
        omega
    cases ev with
    | err =>
      unfold http_events at h
      simp only [Option.some.injEq] at h
      subst h
      unfold http_err http_state_free
      simp only [ha, if_true]
      exact le_refl _
    | recv p e =>
      unfold http_events at h
      cases hx : http_recv T F H c p e with
      | none => rw [hx] at h; simp at h
      | some res =>
        obtain ⟨e2, c2⟩ := res
        rw [hx] at h
        simp only [] at h
        exact step c2 ((http_recv_free T F H c c2 p e e2 hx).2 ha) h
    | sent =>
      unfold http_events at h
      cases hx : http_sent T F c with
      | none => rw [hx] at h; simp at h
      | some res =>
        obtain ⟨e2, c2⟩ := res
        rw [hx] at h
        simp only [] at h
        exact step c2 ((http_sent_free T F c c2 e2 hx).2 ha) h
    | poll =>
      unfold http_events at h
      cases hx : http_poll T F c with
      | none => rw [hx] at h; simp at h
      | some res =>
        obtain ⟨e2, c2⟩ := res
        rw [hx] at h
        simp only [] at h
        exact step c2 ((http_poll_free T F c c2 e2 hx).2 ha) h


/-- C19: over every sequence of events on a connection, from its accept on,
`http_state_free` is called on the state at most once.  `http_close_conn`
resets the callback argument (before it frees the state), and once the
argument is `NULL` no event frees anything. -/
theorem http_state_freed_at_most_once {σ : Type} (T : Tcp σ) (F : WebFS) (H : HeaderTables)
    (evs : List Event) (c c1 : Conn σ) (harg : c.arg = true) (hfreed : c.freed = 0)
    (h : http_events T F H evs c = some c1) :
    c1.freed ≤ 1 ∧
    (∀ (c0 : Conn σ), (http_close_conn T c0 true).2.arg = false ∧
      (http_close_conn T c0 true).2.freed = c0.freed + 1 ∧
      (http_close_conn T c0 false).2.freed = c0.freed) ∧
    (∀ (evs2 : List Event) (c2 c3 : Conn σ), c2.arg = false →
      http_events T F H evs2 c2 = some c3 → c3.arg = false ∧ c3.freed = c2.freed) := by
  refine ⟨?_, fun c0 => ?_, fun evs2 c2 c3 ha h2 => http_events_null T F H evs2 c2 c3 ha h2⟩
  · have := http_events_live T F H evs c c1 harg h
    omega
  · exact ⟨(http_close_conn_fields T c0).1, (http_close_conn_fields T c0).2.1,
      (http_close_conn_null_fields T c0).2.1⟩

/-- C19, witness: the run `events_get_then_more` on a fresh connection.  The
state is freed when the answer has been sent, and by no later event. -/
theorem http_state_freed_at_most_once_witness :
    (http_events (tcpScript 2000) demoFS demoTables events_get_then_more
      (conn_accepted [])).map (fun r => (r.freed, r.arg, r.closes)) = some (1, false, 3) ∧
    ∃ c1, http_events (tcpScript 2000) demoFS demoTables events_get_then_more
        (conn_accepted []) = some c1 ∧
      c1.freed ≤ 1 ∧
      (∀ (c0 : Conn (List err_t)), (http_close_conn (tcpScript 2000) c0 true).2.arg = false ∧
        (http_close_conn (tcpScript 2000) c0 true).2.freed = c0.freed + 1 ∧
        (http_close_conn (tcpScript 2000) c0 false).2.freed = c0.freed) ∧
      (∀ (evs2 : List Event) (c2 c3 : Conn (List err_t)), c2.arg = false →
        http_events (tcpScript 2000) demoFS demoTables evs2 c2 = some c3 →
        c3.arg = false ∧ c3.freed = c2.freed) :=
  ⟨by decide!, _, (Option.some_get (by decide!)).symm,
    http_state_freed_at_most_once (tcpScript 2000) demoFS demoTables events_get_then_more
      (conn_accepted []) _ rfl rfl (Option.some_get (by decide!)).symm⟩

theorem cstring_set_zero (l : List Char) : cstring (l.set 0 NUL) = [] := by
  cases l with
  | nil => rfl
  | cons x xs =>
    rw [List.set_cons_zero, cstring_cons]
    rfl

/-- C20: `http_close_conn`, by which a connection is closed on a receive
error, on the peer's close and on the idle timeout, calls
`httpd_post_finished` once, with an empty response name, when a POST body is
still awaited, and not at all otherwise.  `http_err`, the handler of the
transport error event, frees the state without calling it. -/
theorem http_err_skips_post_finished {σ : Type} (T : Tcp σ) (c : Conn σ)
    (harg : c.arg = true) (hleft : c.hs.post_content_len_left ≠ 0) :
    (http_close_conn T c true).2.post_finished = c.post_finished ++ [[]] ∧
    (http_err c).post_finished = c.post_finished ∧ (http_err c).freed = c.freed + 1 ∧
    (∀ (c0 : Conn σ), c0.hs.post_content_len_left = 0 →
      (http_close_conn T c0 true).2.post_finished = c0.post_finished) := by
  refine ⟨?_, ?_, ?_, fun c0 h0 => ?_⟩
  · unfold http_close_conn http_state_free httpd_post_finished
    simp only [Bool.true_and, if_true]
    rw [if_pos (by simpa using hleft)]
    simp only [cstring_set_zero]
  · unfold http_err http_state_free
    rw [if_pos harg]
  · unfold http_err http_state_free
    rw [if_pos harg]
  · unfold http_close_conn http_state_free httpd_post_finished
    simp only [Bool.true_and, if_true]
    rw [if_neg (by simp [h0])]

/-- C20, witness: a POST to `/ssid` of which 4 body bytes are still awaited.
The runs that follow start from a fresh connection with the first pbuf of
that POST: an error event leaves `httpd_post_finished` uncalled; the peer's
close and the idle timeout call it once with the empty name; the completed
POST calls it once, whatever follows. -/
theorem http_err_skips_post_finished_witness :
    ((http_close_conn (tcpScript 2000) (conn_awaiting 4) true).2.post_finished
        = (conn_awaiting 4).post_finished ++ [[]] ∧
      (http_err (conn_awaiting 4)).post_finished = (conn_awaiting 4).post_finished ∧
      (http_err (conn_awaiting 4)).freed = (conn_awaiting 4).freed + 1 ∧
      (∀ (c0 : Conn (List err_t)), c0.hs.post_content_len_left = 0 →
        (http_close_conn (tcpScript 2000) c0 true).2.post_finished = c0.post_finished)) ∧
    (http_events (tcpScript 2000) demoFS demoTables
        [Event.recv post_ssid_9_first ERR_OK, Event.err] (conn_accepted [])).map
        (fun r => (r.post_finished, r.freed)) = some ([], 1) ∧
    (http_events (tcpScript 2000) demoFS demoTables
        [Event.recv post_ssid_9_first ERR_OK, Event.recv [] ERR_OK] (conn_accepted [])).map
        (fun r => (r.post_finished, r.freed)) = some ([[]], 1) ∧
    (http_events (tcpScript 2000) demoFS demoTables
        [Event.recv post_ssid_9_first ERR_OK, Event.poll, Event.poll, Event.poll, Event.poll]
        (conn_accepted [])).map
        (fun r => (r.post_finished, r.freed)) = some ([[]], 1) ∧
    (http_events (tcpScript 2000) demoFS demoTables
        [Event.recv post_ssid_9_first ERR_OK, Event.recv ["worl".toList] ERR_OK, Event.sent,
          Event.poll, Event.recv [] ERR_OK, Event.err] (conn_accepted [])).map
        (fun r => (r.post_finished.length, r.freed)) = some (1, 1) :=
  ⟨http_err_skips_post_finished (tcpScript 2000) (conn_awaiting 4) rfl (by decide),
    by decide!, by decide!, by decide!, by decide!⟩

/-! ## Claims on the write loop and the body phase -/

/-- A retry of `http_write` is for less than the length that failed. -/
theorem http_write_next_lt {σ : Type} (T : Tcp σ) (pcb : σ) (len : Nat)
    (h : 1 < http_write_next T pcb len) : http_write_next T pcb len < len := by
  unfold http_write_next at *
  split_ifs at * <;> omega

/-- What the loop of `http_write` leaves: the first length tried is the one
requested, no length tried is larger, after a result other than `ERR_MEM`
`*length` is the last length tried, and after `ERR_MEM` it is at most 1. -/
theorem http_write_loop_result {σ : Type} (T : Tcp σ) (ptr : List Char) :
    ∀ (fuel : Nat) (pcb : σ) (len : Nat), len ≤ fuel →
      (http_write_loop T fuel pcb ptr len).attempts.head? = some len ∧
      (∀ a ∈ (http_write_loop T fuel pcb ptr len).attempts, a ≤ len) ∧
      ((http_write_loop T fuel pcb ptr len).err ≠ ERR_MEM →
        (http_write_loop T fuel pcb ptr len).attempts.getLast?
          = some (http_write_loop T fuel pcb ptr len).len) ∧
      ((http_write_loop T fuel pcb ptr len).err = ERR_MEM →
        (http_write_loop T fuel pcb ptr len).len ≤ 1) := by
  intro fuel
  induction fuel with
  | zero =>
    intro pcb len hf
    have hl : len = 0 := by omega
    subst hl
    unfold http_write_loop
    simp only
    split_ifs with h1 h2
    · exact absurd (http_write_next_lt T _ 0 h2) (by omega)
    · exact ⟨rfl, by simp, fun hn => absurd h1 hn, fun _ => Nat.le_of_not_lt h2⟩
    · exact ⟨rfl, by simp, fun _ => rfl, fun hm => absurd hm h1⟩
  | succ f ih =>
    intro pcb len hf
    unfold http_write_loop
    simp only
    split_ifs with h1 h2
    · have hlt := http_write_next_lt T (T.tcp_write pcb (ptr.take len) len).2 len h2
      obtain ⟨i1, i2, i3, i4⟩ := ih (T.tcp_write pcb (ptr.take len) len).2
        (http_write_next T (T.tcp_write pcb (ptr.take len) len).2 len) (by omega)
      refine ⟨rfl, ?_, ?_, i4⟩
      · intro a ha
        simp only [List.mem_cons] at ha
        rcases ha with ha | ha
        · omega
        · have := i2 a ha
          omega
      · intro hn
        have i3' := i3 hn
        simp only []
        cases hatt : (http_write_loop T f (T.tcp_write pcb (ptr.take len) len).2 ptr
            (http_write_next T (T.tcp_write pcb (ptr.take len) len).2 len)).attempts with
        | nil => rw [hatt] at i1; simp at i1
        | cons b l =>
          rw [hatt] at i3'
          rw [List.getLast?_cons_cons]
          exact i3'
    · exact ⟨rfl, by simp, fun hn => absurd h1 hn, fun _ => Nat.le_of_not_lt h2⟩
    · exact ⟨rfl, by simp, fun _ => rfl, fun hm => absurd hm h1⟩


/-- The length computed in lines 748-758 is the least of the send buffer,
the bytes left and twice the segment size. -/
theorem http_send_len_eq (sndbuf left mss : Nat) (hs : sndbuf < U16) :
    (if 2 * mss < (if sndbuf < left then sndbuf else left % U16) then (2 * mss) % U16
      else (if sndbuf < left then sndbuf else left % U16))
      = min (min sndbuf left) (2 * mss) := by
  unfold U16 at *
  by_cases h1 : sndbuf < left
  · rw [if_pos h1]
    by_cases h2 : 2 * mss < sndbuf
    · rw [if_pos h2, Nat.mod_eq_of_lt (by omega)]
      omega
    · rw [if_neg h2]
      omega
  · rw [if_neg h1]
    have hl : left % 65536 = left := Nat.mod_eq_of_lt (by omega)
    rw [hl]
    by_cases h2 : 2 * mss < left
    · rw [if_pos h2, Nat.mod_eq_of_lt (by omega)]
      omega
    · rw [if_neg h2]
      omega

theorem tcp_sndbuf_lt {σ : Type} (T : Tcp σ) (pcb : σ) : tcp_sndbuf T pcb < U16 := by
  unfold tcp_sndbuf
  exact Nat.mod_lt _ (by unfold U16; decide)

/-- The body write of `http_send_data`, with its length. -/
theorem http_send_file_eq {σ : Type} (T : Tcp σ) (F : WebFS) (c : Conn σ) (dts : Bool) :
    http_send_file T F c dts
      = http_send_file_done T F c dts
          (http_write T c.pcb (c.hs.file.getD [])
            (min (min (tcp_sndbuf T c.pcb) c.hs.left) (2 * tcp_mss T c.pcb))) := by
  have e := http_send_len_eq (tcp_sndbuf T c.pcb) c.hs.left (tcp_mss T c.pcb)
    (tcp_sndbuf_lt T c.pcb)
  unfold http_send_file
  simp only []
  rw [e]
  rfl

/-- C21: in the body phase of `http_send_data` the length first passed to
`tcp_write` is `min(tcp_sndbuf, hs->left, 2 * tcp_mss)`, and every length
`http_write` tries is at most that: at most the send buffer reported, at most
the bytes left, at most twice the segment size. -/
theorem http_send_data_body_write_length {σ : Type} (T : Tcp σ) (F : WebFS) (c : Conn σ)
    (dts : Bool) :
    http_send_file T F c dts
      = http_send_file_done T F c dts
          (http_write T c.pcb (c.hs.file.getD [])
            (min (min (tcp_sndbuf T c.pcb) c.hs.left) (2 * tcp_mss T c.pcb))) ∧
    (http_write T c.pcb (c.hs.file.getD [])
        (min (min (tcp_sndbuf T c.pcb) c.hs.left) (2 * tcp_mss T c.pcb))).attempts.head?
      = some (min (min (tcp_sndbuf T c.pcb) c.hs.left) (2 * tcp_mss T c.pcb)) ∧
    (∀ a ∈ (http_write T c.pcb (c.hs.file.getD [])
        (min (min (tcp_sndbuf T c.pcb) c.hs.left) (2 * tcp_mss T c.pcb))).attempts,
      a ≤ tcp_sndbuf T c.pcb ∧ a ≤ c.hs.left ∧ a ≤ 2 * tcp_mss T c.pcb) := by
  obtain ⟨i1, i2, -, -⟩ := http_write_loop_result T (c.hs.file.getD [])
    (min (min (tcp_sndbuf T c.pcb) c.hs.left) (2 * tcp_mss T c.pcb)) c.pcb _ (le_refl _)
  refine ⟨http_send_file_eq T F c dts, i1, fun a ha => ?_⟩
  have := i2 a ha
  omega

theorem http_send_file_done_close {σ : Type} (T : Tcp σ) (F : WebFS) (c c1 : Conn σ)
    (d : Bool) (w : WriteResult σ) (r : Nat)
    (h : http_send_file_done T F c d w = some (r, c1)) :
    c1.arg = c.arg ∨ SendClose T F r c1 := by
  unfold http_send_file_done at h
  simp only [] at h
  split_ifs at h with hok hz
  · split at h
    · simp at h
    · rename_i hd hh
      split_ifs at h with hb
      · simp only [Option.some.injEq, Prod.mk.injEq] at h
        obtain ⟨hr, hc⟩ := h
        subst hc
        subst hr
        exact Or.inr ⟨_, rfl, hz, Or.inl ⟨rfl, Or.inr ⟨hd, hh, hb⟩⟩⟩
      · simp only [Option.some.injEq, Prod.mk.injEq] at h
        obtain ⟨-, hc⟩ := h
        subst hc
        exact Or.inl rfl
  · simp only [Option.some.injEq, Prod.mk.injEq] at h
    obtain ⟨-, hc⟩ := h
    subst hc
    exact Or.inl rfl
  · split at h
    · simp at h
    · rename_i hd hh
      split_ifs at h with hb
      · simp only [Option.some.injEq, Prod.mk.injEq] at h
        obtain ⟨hr, hc⟩ := h
        subst hc
        subst hr
        exact Or.inr ⟨_, rfl, ‹_›, Or.inl ⟨rfl, Or.inr ⟨hd, hh, hb⟩⟩⟩
      · simp only [Option.some.injEq, Prod.mk.injEq] at h
        obtain ⟨-, hc⟩ := h
        subst hc
        exact Or.inl rfl
  · simp only [Option.some.injEq, Prod.mk.injEq] at h
    obtain ⟨-, hc⟩ := h
    subst hc
    exact Or.inl rfl

theorem http_send_file_close {σ : Type} (T : Tcp σ) (F : WebFS) (c c1 : Conn σ) (d : Bool)
    (r : Nat) (h : http_send_file T F c d = some (r, c1)) :
    c1.arg = c.arg ∨ SendClose T F r c1 := by
  rw [http_send_file_eq] at h
  exact http_send_file_done_close T F c c1 d _ r h


theorem http_send_read_close {σ : Type} (T : Tcp σ) (F : WebFS) (c c1 : Conn σ)
    (hd : webfs_file) (count : Nat) (d : Bool) (r : Nat) (hz : c.hs.left = 0)
    (hb : 0 < F.webfs_bytes_left hd)
    (h : http_send_read T F c hd count d = some (r, c1)) :
    c1.arg = c.arg ∨ SendClose T F r c1 := by
  unfold http_send_read at h
  cases hr : F.webfs_read hd count with
  | mk res h1 =>
    rw [hr] at h
    cases res with
    | none =>
      simp only [Option.some.injEq, Prod.mk.injEq] at h
      obtain ⟨hr1, hc⟩ := h
      subst hc
      subst hr1
      exact Or.inr ⟨_, rfl, hz, Or.inr ⟨rfl, hd, count, by rw [hr], hb⟩⟩
    | some bytes =>
      simp only [] at h
      have e := http_send_file_close T F _ c1 d r h
      exact e

theorem http_send_body_close {σ : Type} (T : Tcp σ) (F : WebFS) (c c1 : Conn σ) (d : Bool)
    (r : Nat) (h : http_send_body T F c d = some (r, c1)) :
    c1.arg = c.arg ∨ SendClose T F r c1 := by
  unfold http_send_body at h
  split_ifs at h with hz
  · cases hh : c.hs.handle with
    | none =>
      rw [hh] at h
      simp only [Option.some.injEq, Prod.mk.injEq] at h
      obtain ⟨hr, hc⟩ := h
      subst hc
      subst hr
      exact Or.inr ⟨c, rfl, hz, Or.inl ⟨rfl, Or.inl hh⟩⟩
    | some hd =>
      rw [hh] at h
      simp only [] at h
      split_ifs at h with hb
      · simp only [Option.some.injEq, Prod.mk.injEq] at h
        obtain ⟨hr, hc⟩ := h
        subst hc
        subst hr
        exact Or.inr ⟨c, rfl, hz, Or.inl ⟨rfl, Or.inr ⟨hd, hh, hb⟩⟩⟩
      · have hb' : 0 < F.webfs_bytes_left hd := by omega
        cases hbuf : c.hs.buf with
        | some b =>
          rw [hbuf] at h
          simp only [] at h
          exact http_send_read_close T F c c1 hd _ d r hz hb' h
        | none =>
          rw [hbuf] at h
          simp only [] at h
          cases ha : http_send_alloc T (2 * tcp_mss T c.pcb) c.pcb (2 * tcp_mss T c.pcb) with
          | mk res pcb1 =>
            rw [ha] at h
            cases res with
            | none =>
              simp only [Option.some.injEq, Prod.mk.injEq] at h
              obtain ⟨-, hc⟩ := h
              subst hc
              exact Or.inl rfl
            | some n =>
              simp only [] at h
              have e := http_send_read_close T F
                { c with
                  pcb := pcb1
                  hs := { c.hs with buf := some (List.replicate n NUL), buf_len := n } }
                c1 hd n d r hz hb' h
              exact e
  · exact http_send_file_close T F c c1 d r h

/-- Every close made by `http_send_data` is one of those `SendClose`
describes. -/
theorem http_send_data_close {σ : Type} (T : Tcp σ) (F : WebFS) (c c1 : Conn σ) (r : Nat)
    (h : http_send_data T F c = some (r, c1)) :
    c1.arg = c.arg ∨ SendClose T F r c1 := by
  unfold http_send_data at h
  split_ifs at h with ha hi
  · simp only [Option.some.injEq, Prod.mk.injEq] at h
    obtain ⟨-, hc⟩ := h
    subst hc
    exact Or.inl rfl
  · simp only [] at h
    cases hl : http_send_hdr_loop T (tcp_sndbuf T c.pcb) c (tcp_sndbuf T c.pcb)
        (tcp_sndbuf T c.pcb) false with
    | none => rw [hl] at h; simp at h
    | some res =>
      obtain ⟨c2, d2⟩ := res
      rw [hl] at h
      simp only [] at h
      obtain ⟨-, -, f3⟩ := http_send_hdr_loop_frame T _ c c2 _ _ _ d2 hl
      split_ifs at h
      · simp only [Option.some.injEq, Prod.mk.injEq] at h
        obtain ⟨-, hc⟩ := h
        subst hc
        exact Or.inl f3
      · rcases http_send_body_close T F c2 c1 d2 r h with e | e
        · exact Or.inl (e.trans f3)
        · exact Or.inr e
  · exact http_send_body_close T F c c1 false r h


/-! ## The header cursor of http_send_data -/

/-- A call of `http_send_data` that ends with header strings still to be
sent consisted of the header loop alone: it returned 1 before the body
phase. -/
theorem http_send_data_header_only {σ : Type} (T : Tcp σ) (F : WebFS) (c c1 : Conn σ)
    (r : Nat) (hwf : SendWF c.hs) (harg : c.arg = true)
    (h : http_send_data T F c = some (r, c1)) (hidx : c1.hs.hdr_index < NUM_FILE_HDR_STRINGS) :
    c.hs.hdr_index < NUM_FILE_HDR_STRINGS ∧ r = 1 ∧
    ∃ dts, http_send_hdr_loop T (tcp_sndbuf T c.pcb) c (tcp_sndbuf T c.pcb)
      (tcp_sndbuf T c.pcb) false = some (c1, dts) := by
  have hbody : ∀ (c2 : Conn σ) (d : Bool), SendWF c2.hs →
      http_send_body T F c2 d = some (r, c1) → c1.hs.hdr_index = c2.hs.hdr_index := by
    intro c2 d hwf2 hb
    obtain ⟨ret, c3, acc, block, hcall, -, -, hsame, -⟩ := http_send_body_spec T F c2 d hwf2
    rw [hcall] at hb
    simp only [Option.some.injEq, Prod.mk.injEq] at hb
    rw [← hb.2]
    exact hsame.2.2.2.1
  unfold http_send_data at h
  rw [if_neg (by simp [harg])] at h
  by_cases hi : c.hs.hdr_index < NUM_FILE_HDR_STRINGS
  · rw [if_pos hi] at h
    simp only [] at h
    obtain ⟨c2, d2, acc, hloop, -, -, hwf2⟩ := http_send_hdr_loop_spec T (tcp_sndbuf T c.pcb) c
      (tcp_sndbuf T c.pcb) (tcp_sndbuf T c.pcb) false hwf (tcp_sndbuf_lt T c.pcb)
      (fun _ _ => le_refl _)
    rw [hloop] at h
    simp only [] at h
    split_ifs at h with hc
    · simp only [Option.some.injEq, Prod.mk.injEq] at h
      obtain ⟨hr, hc1⟩ := h
      subst hc1
      exact ⟨hi, hr.symm, d2, hloop⟩
    · have := hbody c2 d2 hwf2 h
      rw [this] at hidx
      exact absurd (Or.inl hidx) hc
  · rw [if_neg hi] at h
    have := hbody c false hwf h
    rw [this] at hidx
    exact absurd hidx hi

theorem hdr_pending_length_le (hs : http_state) :
    (hdr_pending hs).length ≤ (hdr_from hs 0).length := by
  unfold hdr_pending
  split_ifs with h
  · unfold NUM_FILE_HDR_STRINGS at h
    have e : hs.hdr_index = 0 ∨ hs.hdr_index = 1 ∨ hs.hdr_index = 2 := by omega
    rcases e with e | e | e <;> rw [e] <;>
      simp only [http_state.hdrs, hdr_from, List.length_append, List.length_drop, List.length_nil] <;> omega
  · simp

/-- C23: the header cursor of `http_send_data` (lines 628-677). For a
well-formed send state, (1) any sequence of `http_send_data` calls returns a
state in which `hdr_pos` is at most the length of `hdrs[hdr_index]` whenever
`hdr_index < NUM_FILE_HDR_STRINGS`, the header bytes accepted so far are
exactly the ones the cursor passed, so they are at most the three strings
long, and no body byte has been accepted while `hdr_index` is below
`NUM_FILE_HDR_STRINGS`; (2) one step of the header loop appends the `k` bytes
the write got accepted (`k` at most the requested length) and moves to the
next string exactly when `hdr_pos + k` is the full length of the current
string, else it only adds `k` to `hdr_pos`; (3) a call that ends with
`hdr_index < NUM_FILE_HDR_STRINGS` ran the header loop only and returned 1
before the body phase. -/
theorem http_send_data_header_cursor {σ : Type} (T : Tcp σ) (F : WebFS) (pcbs : List σ)
    (c : Conn σ) (hwf : SendWF c.hs) :
    (∃ (c1 : Conn σ) (hacc bacc : List Char),
      http_send_data_seq T F pcbs c = some c1 ∧
      c1.wire = c.wire ++ (hacc ++ bacc) ∧
      (c1.hs.hdr_index < NUM_FILE_HDR_STRINGS →
        c1.hs.hdr_pos ≤ ((c1.hs.hdrs c1.hs.hdr_index).getD []).length) ∧
      hacc ++ hdr_pending c1.hs = hdr_pending c.hs ∧
      hacc.length ≤ (hdr_from c.hs 0).length ∧
      (c1.hs.hdr_index < NUM_FILE_HDR_STRINGS → bacc = [])) ∧
    (∀ (len : Nat) (dts : Bool), c.hs.hdr_index < NUM_FILE_HDR_STRINGS → len < U16 →
      ∃ (hdr : List Char) (pcb1 : σ) (k : Nat) (dts1 : Bool),
        c.hs.hdrs c.hs.hdr_index = some hdr ∧ k ≤ len ∧ c.hs.hdr_pos + k ≤ hdr.length ∧
        http_send_hdr_step T c len dts
          = some ({ c with
                    pcb := pcb1
                    wire := c.wire ++ (hdr.drop c.hs.hdr_pos).take k
                    hs := hdr_advance c.hs hdr k }, len - k, k, dts1) ∧
        ((hdr.drop c.hs.hdr_pos).take k).length = k ∧
        (c.hs.hdr_pos + k = hdr.length →
          (hdr_advance c.hs hdr k).hdr_index = c.hs.hdr_index + 1 ∧
          (hdr_advance c.hs hdr k).hdr_pos = 0) ∧
        (c.hs.hdr_pos + k ≠ hdr.length →
          (hdr_advance c.hs hdr k).hdr_index = c.hs.hdr_index ∧
          (hdr_advance c.hs hdr k).hdr_pos = c.hs.hdr_pos + k)) ∧
    (∀ (r : Nat) (c1 : Conn σ), c.arg = true → http_send_data T F c = some (r, c1) →
      c1.hs.hdr_index < NUM_FILE_HDR_STRINGS →
      c.hs.hdr_index < NUM_FILE_HDR_STRINGS ∧ r = 1 ∧
      ∃ dts, http_send_hdr_loop T (tcp_sndbuf T c.pcb) c (tcp_sndbuf T c.pcb)
        (tcp_sndbuf T c.pcb) false = some (c1, dts)) := by
  refine ⟨?_, ?_, ?_⟩
  · obtain ⟨c1, hacc, bacc, blocks, hseq, hw, hh, -, hi, -, -, hwf1⟩ :=
      http_send_data_seq_spec T F pcbs c hwf
    refine ⟨c1, hacc, bacc, hseq, hw, hwf1.2.2.2.1, hh, ?_, fun h => (hi h).1⟩
    have := hdr_pending_length_le c.hs
    rw [← hh, List.length_append] at this
    omega
  · intro len dts hidx hlen
    obtain ⟨hdr, hh, hl, hp⟩ := hwf.hdr hidx
    obtain ⟨pcb1, k, dts1, hk1, hk2, hstep⟩ :=
      http_send_hdr_step_eq T c len dts hdr hh hl hp hidx hlen
    refine ⟨hdr, pcb1, k, dts1, hh, hk1, hk2, hstep, ?_, ?_, ?_⟩
    · rw [List.length_take, List.length_drop]
      omega
    · intro e
      unfold hdr_advance
      rw [if_pos e]
      exact ⟨rfl, rfl⟩
    · intro e
      unfold hdr_advance
      rw [if_neg e]
      exact ⟨rfl, rfl⟩
  · intro r c1 harg h hidx
    exact http_send_data_header_only T F c c1 r hwf harg h hidx

/-- C23, witness: three calls on `conn_sending`. -/
theorem http_send_data_header_cursor_witness :
    SendWF conn_sending.hs ∧
    (∃ (c1 : Conn (List err_t)) (hacc bacc : List Char),
      http_send_data_seq (tcpScript 20) demoFS [[ERR_MEM], [], [ERR_MEM, ERR_MEM]] conn_sending
        = some c1 ∧
      c1.wire = conn_sending.wire ++ (hacc ++ bacc) ∧
      (c1.hs.hdr_index < NUM_FILE_HDR_STRINGS →
        c1.hs.hdr_pos ≤ ((c1.hs.hdrs c1.hs.hdr_index).getD []).length) ∧
      hacc ++ hdr_pending c1.hs = hdr_pending conn_sending.hs ∧
      hacc.length ≤ (hdr_from conn_sending.hs 0).length ∧
      (c1.hs.hdr_index < NUM_FILE_HDR_STRINGS → bacc = [])) :=
  ⟨conn_sending_wf,
    (http_send_data_header_cursor (tcpScript 20) demoFS [[ERR_MEM], [], [ERR_MEM, ERR_MEM]]
      conn_sending conn_sending_wf).1⟩

/-! ## The header slots after get_http_headers -/

/-- C24: the header slots after `get_http_headers` (lines 515-595).
`hdrs[1]` is the server string, `hdr_index = hdr_pos = 0`, `hdrs[0]` is one of
the status lines; for the null URI `hdrs[2]` is the built-in 404 page; for a
path without `'.'` it is the JSON content type; for an extension found in
`g_psHTTPHeaders` it is the string of the first matching entry.  But when the
text after the last `'.'` of the path matches no entry (hypotheses `hext`,
`hnone`), the loop of lines 574-581 ends without a store and there is no
default: `hdrs[2]` keeps the value it had, which is `NULL` on the state
`http_state_alloc` returns, and the header loop of `http_send_data` is then
undefined when it reaches `strlen(hs->hdrs[2])` (line 638). -/
theorem get_http_headers_unknown_extension_unset (H : HeaderTables) (hs : http_state)
    (u ext : List Char) (hext : file_ext (uri_path u) = some ext)
    (hnone : H.g_psHTTPHeaders.find? (fun (e : List Char × Nat) => e.1 == ext) = none) :
    (get_http_headers H hs (some u)).hdrs2 = hs.hdrs2 ∧
    (get_http_headers H http_state_alloc (some u)).hdrs2 = none ∧
    (∀ (p : Option (List Char)),
      (get_http_headers H hs p).hdrs1 = some (H.g_psHTTPHeaderStrings H.HTTP_HDR_SERVER) ∧
      (get_http_headers H hs p).hdr_index = 0 ∧ (get_http_headers H hs p).hdr_pos = 0 ∧
      ∃ i, (get_http_headers H hs p).hdrs0 = some (H.g_psHTTPHeaderStrings i)) ∧
    ((get_http_headers H hs none).hdrs0 = some (H.g_psHTTPHeaderStrings H.HTTP_HDR_NOT_FOUND) ∧
      (get_http_headers H hs none).hdrs2 = some (H.g_psHTTPHeaderStrings H.DEFAULT_404_HTML)) ∧
    (∀ (u2 : List Char), file_ext (uri_path u2) = none →
      (get_http_headers H hs (some u2)).hdrs2 = some (H.g_psHTTPHeaderStrings H.HTTP_HDR_JSON)) ∧
    (∀ (u2 ext2 : List Char) (e : List Char × Nat), file_ext (uri_path u2) = some ext2 →
      H.g_psHTTPHeaders.find? (fun (e : List Char × Nat) => e.1 == ext2) = some e →
      (get_http_headers H hs (some u2)).hdrs2 = some (H.g_psHTTPHeaderStrings e.2)) ∧
    (∀ (σ : Type) (T : Tcp σ) (c : Conn σ) (len : Nat) (dts : Bool),
      c.hs.hdr_index = 2 → c.hs.hdrs2 = none → http_send_hdr_step T c len dts = none) := by
  refine ⟨?_, ?_, ?_, ⟨rfl, rfl⟩, ?_, ?_, ?_⟩
  · unfold get_http_headers
    simp only [hext, hnone]
  · unfold get_http_headers
    simp only [hext, hnone]
    rfl
  · intro p
    cases p with
    | none => exact ⟨rfl, rfl, rfl, _, rfl⟩
    | some v =>
      refine ⟨(get_http_headers_status H hs v).2, ?_, ?_, _, (get_http_headers_status H hs v).1⟩
      · unfold get_http_headers
        rfl
      · unfold get_http_headers
        rfl
  · intro u2 h2
    unfold get_http_headers
    simp only [h2]
  · intro u2 ext2 e h2 hf
    unfold get_http_headers
    simp only [h2, hf]
  · intro σ T c len dts hi h2
    unfold http_send_hdr_step
    have : c.hs.hdrs c.hs.hdr_index = none := by
      rw [hi]
      exact h2
    rw [this]

/-- C24, witness: `/x.foo` with the tables `demoTables`, which hold `html`,
`htm` and `json`; the last part is `GET /x.foo` through `http_recv` on a
provider that serves `/x.foo`. -/
theorem get_http_headers_unknown_extension_unset_witness :
    file_ext (uri_path "/x.foo".toList) = some "foo".toList ∧
    (get_http_headers demoTables http_state_alloc (some "/x.foo".toList)).hdrs2 = none ∧
    (get_http_headers demoTables http_state_alloc (some "/x.foo".toList)).hdrs0
      = some "HTTP/1.0 200 OK\r\n".toList ∧
    (http_recv (tcpScript 2000) unknownExtFS demoTables (conn_accepted [])
      ["GET /x.foo HTTP/1.0\r\n\r\n".toList] ERR_OK).isSome = false :=
  ⟨by decide,
    (get_http_headers_unknown_extension_unset demoTables http_state_alloc "/x.foo".toList
      "foo".toList (by decide) (by decide)).2.1,
    by decide, by decide!⟩

/-! ## The request object handed to the handler -/

/-- The request object `http_find_file` hands to `webfs_open`: `params` is set
by lines 1302-1309, `is_post` and `uri` are what `hs->req_info` held. -/
theorem http_find_file_view {σ : Type} (F : WebFS) (H : HeaderTables) (c c2 : Conn σ)
    (r : Region) (off : Nat) (is_09 : Bool) (e : err_t)
    (h : http_find_file F H c (cptr.mem r off) is_09 = some (e, c2)) :
    ∃ (v : RequestView) (more : List (List Char × Option RequestView)),
      c2.opened = c.opened
        ++ ((cstring ((c.region r).drop off)).takeWhile (fun x => x != '?'), some v) :: more ∧
      v.is_post = c.hs.req_info.is_post ∧
      v.params = (if '?' ∈ cstring ((c.region r).drop off) then
          some (((cstring ((c.region r).drop off)).dropWhile (fun x => x != '?')).drop 1)
        else none) ∧
      (c.hs.req_info.uri = cptr.null → v.uri = none) ∧
      (c.hs.req_info.uri = cptr.mem r off →
        v.uri = some ((cstring ((c.region r).drop off)).takeWhile (fun x => x != '?'))) ∧
      c2.hs.req_info.uri = c.hs.req_info.uri ∧ c2.hs.req_info.is_post = c.hs.req_info.is_post := by
  obtain ⟨c1, k1, k2, k3, -⟩ := http_find_file_params_split c r off
  obtain ⟨g1, g2, -⟩ := http_find_file_first_open F H c c1 c2 _ is_09 e _ k1 k2 h
  obtain ⟨f1, -⟩ := http_find_file_params_frame c c1 _ k1
  have hu : c1.hs.req_info.uri = c.hs.req_info.uri := by rw [f1]
  have hp : c1.hs.req_info.is_post = c.hs.req_info.is_post := by rw [f1]
  obtain ⟨more, hm⟩ := g1
  refine ⟨c1.view, more, hm, hp, k3, ?_, ?_, by rw [g2, hu], by rw [g2, hp]⟩
  · intro hn
    show c1.str c1.hs.req_info.uri = none
    rw [hu, hn]
    rfl
  · intro hn
    show c1.str c1.hs.req_info.uri = _
    rw [hu, hn]
    exact k2

theorem strchr_none_of_not_mem (ch : Char) (s : List Char) (h : ch ∉ s) : strchr s ch = none := by
  cases hx : strchr s ch with
  | none => rfl
  | some k => exact absurd (strchr_some_split ch s k hx).2.2 h

/-- The request object of a lookup whose name holds no `'?'`: the strings of
the request are untouched. -/
theorem http_find_file_view_plain {σ : Type} (F : WebFS) (H : HeaderTables) (c c2 : Conn σ)
    (r : Region) (off : Nat) (is_09 : Bool) (e : err_t)
    (h : http_find_file F H c (cptr.mem r off) is_09 = some (e, c2))
    (hq : '?' ∉ cstring ((c.region r).drop off)) :
    ∃ (v : RequestView) (more : List (List Char × Option RequestView)),
      c2.opened = c.opened ++ (cstring ((c.region r).drop off), some v) :: more ∧
      v.is_post = c.hs.req_info.is_post ∧ v.uri = c.str c.hs.req_info.uri ∧ v.params = none := by
  have hreg : ({ c with hs := { c.hs with req_info :=
      { c.hs.req_info with params := cptr.null } } } : Conn σ).region r = c.region r := by
    cases r <;> rfl
  have k1 : http_find_file_params c (cptr.mem r off)
      = some { c with hs := { c.hs with req_info := { c.hs.req_info with params := cptr.null } } } := by
    unfold http_find_file_params
    simp only [Conn.str]
    rw [hreg, strchr_none_of_not_mem '?' _ hq]
  have k2 : ({ c with hs := { c.hs with req_info :=
      { c.hs.req_info with params := cptr.null } } } : Conn σ).str (cptr.mem r off)
      = some (cstring ((c.region r).drop off)) := by
    simp only [Conn.str]
    rw [hreg]
  obtain ⟨⟨more, hm⟩, -, -⟩ := http_find_file_first_open F H c _ c2 _ is_09 e _ k1 k2 h
  refine ⟨_, more, hm, rfl, ?_, rfl⟩
  exact Conn.str_congr _ c rfl rfl rfl _

theorem httpd_post_receive_data_request {σ : Type} (c : Conn σ) (p : pbuf) :
    (httpd_post_receive_data c p).2.req = c.req ∧
    (httpd_post_receive_data c p).2.hs.req_info.uri = c.hs.req_info.uri ∧
    (httpd_post_receive_data c p).2.hs.req_info.is_post = c.hs.req_info.is_post ∧
    (httpd_post_receive_data c p).2.http_post_response_filename
      = c.http_post_response_filename := by
  unfold httpd_post_receive_data
  split
  simp only []
  split_ifs <;> exact ⟨rfl, rfl, rfl, rfl⟩

/-- `http_post_rxpbuf` on a connection whose `req_info.uri` points into the
request memory: either nothing is looked up, or the lookup of
`http_handle_post_finished` is handed a request object whose `uri` is the
name looked up and whose `is_post` is the flag the state held. -/
theorem http_post_rxpbuf_view {σ : Type} (F : WebFS) (H : HeaderTables) (c c2 : Conn σ)
    (p : pbuf) (e : err_t) (off : Nat) (huri : c.hs.req_info.uri = cptr.mem Region.req off)
    (h : http_post_rxpbuf F H c p = some (e, c2)) :
    c2.opened = c.opened ∨
    ∃ (v : RequestView) (more : List (List Char × Option RequestView)),
      c2.opened = c.opened
        ++ ((cstring (c.req.drop off)).takeWhile (fun x => x != '?'), some v) :: more ∧
      v.is_post = c.hs.req_info.is_post ∧
      v.uri = some ((cstring (c.req.drop off)).takeWhile (fun x => x != '?')) := by
  unfold http_post_rxpbuf at h
  simp only [] at h
  generalize hc0 : ({ c with hs := { c.hs with post_content_len_left :=
    if c.hs.post_content_len_left < pbuf_tot_len p then 0
    else (c.hs.post_content_len_left + U32 - pbuf_tot_len p) % U32 } } : Conn σ) = c0 at h
  have e0 : c0.req = c.req ∧ c0.hs.req_info = c.hs.req_info ∧ c0.opened = c.opened := by
    rw [← hc0]
    exact ⟨rfl, rfl, rfl⟩
  obtain ⟨q1, q2, q3, -⟩ := httpd_post_receive_data_request c0 p
  obtain ⟨-, -, q5, -⟩ := httpd_post_receive_data_transport c0 p
  split_ifs at h with hfin
  · right
    unfold http_handle_post_finished at h
    simp only [] at h
    have hu : (httpd_post_finished (httpd_post_receive_data c0 p).2).hs.req_info.uri
        = cptr.mem Region.req off := by
      show (httpd_post_receive_data c0 p).2.hs.req_info.uri = _
      rw [q2, e0.2.1, huri]
    rw [hu] at h
    obtain ⟨v, more, g1, g2, -, -, g5, -⟩ := http_find_file_view F H _ c2 _ _ _ e h
    have hreq : (httpd_post_finished (httpd_post_receive_data c0 p).2).region Region.req
        = c.req := by
      show (httpd_post_receive_data c0 p).2.req = _
      rw [q1, e0.1]
    have hop : (httpd_post_finished (httpd_post_receive_data c0 p).2).opened = c.opened := by
      show (httpd_post_receive_data c0 p).2.opened = _
      rw [q5, e0.2.2]
    have hip : (httpd_post_finished (httpd_post_receive_data c0 p).2).hs.req_info.is_post
        = c.hs.req_info.is_post := by
      show (httpd_post_receive_data c0 p).2.hs.req_info.is_post = _
      rw [q3, e0.2.1]
    rw [hreq, hop] at g1
    rw [hreq] at g5
    exact ⟨v, more, g1, by rw [g2, hip], g5 hu⟩
  · left
    simp only [Option.some.injEq, Prod.mk.injEq] at h
    rw [← h.2, q5, e0.2.2]

/-- The lookups `http_post_request` makes when it returns `ERR_OK`: none
(the body is awaited), or one whose request object has `is_post` as the
state held it and `uri` equal to the name looked up. -/
theorem http_post_request_view {σ : Type} (F : WebFS) (H : HeaderTables) (c c3 : Conn σ)
    (next inp inp1 : pbuf) (data_len uri uri_end : Nat)
    (h : http_post_request F H c next data_len uri uri_end inp = some (ERR_OK, inp1, c3)) :
    c3.opened = c.opened ∨
    ∃ (name : List Char) (v : RequestView) (more : List (List Char × Option RequestView)),
      c3.opened = c.opened ++ (name, some v) :: more ∧
      v.is_post = c.hs.req_info.is_post ∧ v.uri = some name := by
  unfold http_post_request at h
  simp only [] at h
  split at h
  · simp at h
  · split at h
    · simp at h
    · split at h
      · simp at h
      · split_ifs at h with hpos hbegin
        · split at h
          · simp only [Option.some.injEq, Prod.mk.injEq] at h
            obtain ⟨-, -, hc⟩ := h
            subst hc
            exact Or.inl rfl
          · cases hx : http_post_rxpbuf F H _ (pbuf_header_hide ‹pbuf› ‹Nat›) with
            | none => rw [hx] at h; simp at h
            | some res =>
              obtain ⟨e2, c2⟩ := res
              rw [hx] at h
              simp only [Option.map_some', Option.some.injEq, Prod.mk.injEq] at h
              obtain ⟨-, -, hc⟩ := h
              subst hc
              rcases http_post_rxpbuf_view F H _ c2 _ e2 uri rfl hx with g | ⟨v, more, g1, g2, g3⟩
              · exact Or.inl g
              · exact Or.inr ⟨_, v, more, g1, g2, g3⟩
        · cases hx : http_find_file F H _ (cptr.mem Region.response_filename 0) false with
          | none => rw [hx] at h; simp at h
          | some res =>
            obtain ⟨e2, c2⟩ := res
            rw [hx] at h
            simp only [Option.map_some', Option.some.injEq, Prod.mk.injEq] at h
            obtain ⟨-, -, hc⟩ := h
            subst hc
            right
            obtain ⟨v, more, g1, g2, g3, -⟩ := http_find_file_view_plain F H _ c2 _ _ _ e2 hx
              (by
                simp only [Conn.region, List.drop_zero]
                rw [cstring_set_zero]
                simp)
            refine ⟨_, v, more, g1, g2, ?_⟩
            rw [g3]
            simp only [Conn.region, List.drop_zero, Conn.str]
            rw [cstring_set_zero]
            unfold httpd_post_begin at hbegin
            simp only [Conn.str, Conn.region] at hbegin
            split_ifs at hbegin with hemp
            · rw [List.isEmpty_iff] at hemp
              rw [hemp]
            · exact absurd rfl hbegin
        · simp at h

/-- The lookup of a GET (lines 1257-1263): `uri` of the request object is
what `req_info.uri` held before the request, `is_post` likewise. -/
theorem http_parse_uri_get_view {σ : Type} (F : WebFS) (H : HeaderTables) (c c2 : Conn σ)
    (p p1 : pbuf) (data_len sp1 : Nat)
    (h : http_parse_uri F H c p data_len false sp1 = some (ERR_OK, p1, c2)) :
    ∃ (k : Nat) (v : RequestView) (more : List (List Char × Option RequestView)),
      c2.opened = c.opened
        ++ ((cstring (((c.req.set sp1 NUL).set (sp1 + 1 + k) NUL).drop (sp1 + 1))).takeWhile
              (fun x => x != '?'), some v) :: more ∧
      v.is_post = c.hs.req_info.is_post ∧
      v.params = (if '?' ∈ cstring (((c.req.set sp1 NUL).set (sp1 + 1 + k) NUL).drop (sp1 + 1)) then
          some (((cstring (((c.req.set sp1 NUL).set (sp1 + 1 + k) NUL).drop (sp1 + 1))).dropWhile
            (fun x => x != '?')).drop 1)
        else none) ∧
      (c.hs.req_info.uri = cptr.null → v.uri = none) := by
  unfold http_parse_uri at h
  simp only [Bool.and_false, Bool.false_eq_true, if_false] at h
  split at h
  · unfold http_bad_request http_find_error_file at h
    simp at h
  · rename_i k hk
    cases hx : http_find_file F H _ (cptr.mem Region.req (sp1 + 1)) _ with
    | none => rw [hx] at h; simp at h
    | some res =>
      obtain ⟨e2, c3⟩ := res
      rw [hx] at h
      simp only [Option.map_some', Option.some.injEq, Prod.mk.injEq] at h
      obtain ⟨-, -, hc⟩ := h
      subst hc
      obtain ⟨v, more, g1, g2, g3, g4, -⟩ := http_find_file_view F H _ c3 _ _ _ e2 hx
      exact ⟨k, v, more, g1, g2, g3, g4⟩

/-- The lookups of a POST that `http_parse_request` accepts: none while the
body is awaited, else one whose request object has `is_post = 1` and `uri`
equal to the name looked up. -/
theorem http_parse_uri_post_view {σ : Type} (F : WebFS) (H : HeaderTables) (c c2 : Conn σ)
    (p p1 : pbuf) (data_len sp1 : Nat)
    (h : http_parse_uri F H c p data_len true sp1 = some (ERR_OK, p1, c2)) :
    c2.opened = c.opened ∨
    ∃ (name : List Char) (v : RequestView) (more : List (List Char × Option RequestView)),
      c2.opened = c.opened ++ (name, some v) :: more ∧ v.is_post = 1 ∧ v.uri = some name := by
  unfold http_parse_uri at h
  simp only [Bool.and_true] at h
  split_ifs at h with hbad
  · unfold http_bad_request http_find_error_file at h
    simp at h
  · split at h
    · unfold http_bad_request http_find_error_file at h
      simp at h
    · split at h
      · simp at h
      · rename_i err inp c3 hx
        obtain ⟨-, g2⟩ := http_post_request_cases F H _ c3 _ _ inp _ _ _ err hx
        rcases g2 with g2 | ⟨g2, -, -⟩
        · subst g2
          rw [if_neg (by decide), if_neg (by simp)] at h
          simp only [Option.some.injEq, Prod.mk.injEq] at h
          obtain ⟨-, -, hc⟩ := h
          subst hc
          exact http_post_request_view F H _ c3 _ _ _ _ _ _ hx
        · subst g2
          rw [if_pos rfl, if_pos (by decide)] at h
          unfold http_bad_request http_find_error_file at h
          simp at h

/-! ## POST staging overflow -/

theorem post_copy_loop_fit (seg : List Char) (rest : pbuf) (payload : List Char) (n : Nat)
    (hfit : n + seg_len seg ≤ LWIP_HTTPD_POST_MAX_PAYLOAD_LEN) :
    post_copy_loop (seg :: rest) payload n
      = post_copy_loop rest (memcpy_at payload n (seg.take (seg_len seg)))
          ((n + seg_len seg) % U16) := by
  rw [post_copy_loop, if_pos hfit]

theorem post_copy_loop_over (seg : List Char) (rest : pbuf) (payload : List Char) (n : Nat)
    (hover : ¬ n + seg_len seg ≤ LWIP_HTTPD_POST_MAX_PAYLOAD_LEN) :
    post_copy_loop (seg :: rest) payload n = (payload, n, true) := by
  rw [post_copy_loop, if_neg hover]

/-- The copy loop over a chain `pre ++ rest`: it stops in `pre` when a segment
of `pre` does not fit, and goes on with `rest` otherwise. -/
theorem post_copy_loop_append (pre rest : pbuf) :
    ∀ (payload : List Char) (n : Nat),
      post_copy_loop (pre ++ rest) payload n
        = if (post_copy_loop pre payload n).2.2 then post_copy_loop pre payload n
          else post_copy_loop rest (post_copy_loop pre payload n).1
            (post_copy_loop pre payload n).2.1 := by
  induction pre with
  | nil => intro payload n; simp [post_copy_loop]
  | cons seg pre ih =>
    intro payload n
    rw [List.cons_append]
    by_cases hfit : n + seg_len seg ≤ LWIP_HTTPD_POST_MAX_PAYLOAD_LEN
    · rw [post_copy_loop_fit _ _ _ _ hfit, post_copy_loop_fit _ _ _ _ hfit]
      exact ih _ _
    · rw [post_copy_loop_over _ _ _ _ hfit, post_copy_loop_over _ _ _ _ hfit]
      simp

/-- When the copy loop reports an overflow, the chain splits into segments
that were copied, a segment that did not fit, and the rest. -/
theorem post_copy_loop_full_split :
    ∀ (p : pbuf) (payload : List Char) (n : Nat), (post_copy_loop p payload n).2.2 = true →
      ∃ (pre : pbuf) (seg : List Char) (post : pbuf), p = pre ++ seg :: post ∧
        (post_copy_loop pre payload n).2.2 = false ∧
        LWIP_HTTPD_POST_MAX_PAYLOAD_LEN < (post_copy_loop pre payload n).2.1 + seg_len seg := by
  intro p
  induction p with
  | nil => intro payload n h; simp [post_copy_loop] at h
  | cons seg rest ih =>
    intro payload n h
    by_cases hfit : n + seg_len seg ≤ LWIP_HTTPD_POST_MAX_PAYLOAD_LEN
    · rw [post_copy_loop_fit _ _ _ _ hfit] at h
      obtain ⟨pre, s, post, hp, h1, h2⟩ := ih _ _ h
      refine ⟨seg :: pre, s, post, by rw [hp]; rfl, ?_, ?_⟩
      · rw [post_copy_loop_fit _ _ _ _ hfit]
        exact h1
      · rw [post_copy_loop_fit _ _ _ _ hfit]
        exact h2
    · refine ⟨[], seg, rest, rfl, rfl, ?_⟩
      show LWIP_HTTPD_POST_MAX_PAYLOAD_LEN < n + seg_len seg
      omega

/-- C26: `httpd_post_receive_data` (lines 1024-1058) on a chain in which the
segments `pre` fit the staging buffer and the next segment `seg` would bring
the staged length over `LWIP_HTTPD_POST_MAX_PAYLOAD_LEN`.  The call returns
`ERR_OK`; the staging buffer holds what copying `pre` left (neither `seg` nor
the later segments `post` are copied); the staged length is 0; and `hs`,
with it `req_info.post_data`, is as it was, whatever `post_content_len_left`
is.  Every call whose copy loop sets the overflow flag is of this form. -/
theorem httpd_post_receive_data_overflow_discards {σ : Type} (c : Conn σ) (pre : pbuf)
    (seg : List Char) (post : pbuf)
    (hfit : (post_copy_loop pre c.http_post_payload c.http_post_payload_len).2.2 = false)
    (hover : LWIP_HTTPD_POST_MAX_PAYLOAD_LEN
      < (post_copy_loop pre c.http_post_payload c.http_post_payload_len).2.1 + seg_len seg) :
    httpd_post_receive_data c (pre ++ seg :: post)
      = (ERR_OK,
          { c with
            http_post_payload := (post_copy_loop pre c.http_post_payload c.http_post_payload_len).1
            http_post_payload_len := 0
            post_rx := c.post_rx + pbuf_tot_len (pre ++ seg :: post) }) ∧
    (httpd_post_receive_data c (pre ++ seg :: post)).2.hs.req_info.post_data
      = c.hs.req_info.post_data ∧
    (httpd_post_receive_data c (pre ++ seg :: post)).2.http_post_payload
      = (httpd_post_receive_data c pre).2.http_post_payload ∧
    (∀ (p : pbuf), (post_copy_loop p c.http_post_payload c.http_post_payload_len).2.2 = true →
      ∃ (pre1 : pbuf) (seg1 : List Char) (post1 : pbuf), p = pre1 ++ seg1 :: post1 ∧
        (post_copy_loop pre1 c.http_post_payload c.http_post_payload_len).2.2 = false ∧
        LWIP_HTTPD_POST_MAX_PAYLOAD_LEN
          < (post_copy_loop pre1 c.http_post_payload c.http_post_payload_len).2.1
            + seg_len seg1) := by
  have hloop : post_copy_loop (pre ++ seg :: post) c.http_post_payload c.http_post_payload_len
      = ((post_copy_loop pre c.http_post_payload c.http_post_payload_len).1,
         (post_copy_loop pre c.http_post_payload c.http_post_payload_len).2.1, true) := by
    rw [post_copy_loop_append, hfit]
    simp only [Bool.false_eq_true, if_false]
    rw [post_copy_loop_over _ _ _ _ (by omega)]
  have hres : httpd_post_receive_data c (pre ++ seg :: post)
      = (ERR_OK,
          { c with
            http_post_payload := (post_copy_loop pre c.http_post_payload c.http_post_payload_len).1
            http_post_payload_len := 0
            post_rx := c.post_rx + pbuf_tot_len (pre ++ seg :: post) }) := by
    unfold httpd_post_receive_data
    rw [hloop]
    rfl
  refine ⟨hres, by rw [hres], ?_, fun p hp => post_copy_loop_full_split p _ _ hp⟩
  rw [hres]
  unfold httpd_post_receive_data
  generalize post_copy_loop pre c.http_post_payload c.http_post_payload_len = l at hfit
  obtain ⟨a, b, f⟩ := l
  simp only [] at hfit
  subst hfit
  simp only [Bool.false_eq_true, if_false]
  split_ifs <;> rfl

/-- C26, witness: 510 bytes are staged, the POST is complete with this chunk
(`post_content_len_left = 0`), and the chunk is the segments `ab`, `cde`,
`f`: `ab` is copied, `cde` does not fit. -/
theorem httpd_post_receive_data_overflow_discards_witness :
    (post_copy_loop ["ab".toList] (conn_awaiting 0).http_post_payload 510).2.2 = false ∧
    httpd_post_receive_data { conn_awaiting 0 with http_post_payload_len := 510 }
        (["ab".toList] ++ "cde".toList :: ["f".toList])
      = (ERR_OK,
          { conn_awaiting 0 with
            http_post_payload := (post_copy_loop ["ab".toList]
              (conn_awaiting 0).http_post_payload 510).1
            http_post_payload_len := 0
            post_rx := (conn_awaiting 0).post_rx
              + pbuf_tot_len (["ab".toList] ++ "cde".toList :: ["f".toList]) }) ∧
    (httpd_post_receive_data { conn_awaiting 0 with http_post_payload_len := 510 }
        (["ab".toList] ++ "cde".toList :: ["f".toList])).2.hs.req_info.post_data = cptr.null :=
  ⟨by decide!,
    (httpd_post_receive_data_overflow_discards
      { conn_awaiting 0 with http_post_payload_len := 510 } ["ab".toList] "cde".toList
      ["f".toList] (by decide!) (by decide!)).1,
    (httpd_post_receive_data_overflow_discards
      { conn_awaiting 0 with http_post_payload_len := 510 } ["ab".toList] "cde".toList
      ["f".toList] (by decide!) (by decide!)).2.1⟩

/-! ## extract_params -/

theorem strchr_append_of_not_mem (ch : Char) (b : List Char) :
    ∀ (a : List Char), ch ∉ a → strchr (a ++ ch :: b) ch = some a.length := by
  intro a
  induction a with
  | nil => intro _; simp [strchr]
  | cons x xs ih =>
    intro h
    have hx : x ≠ ch := fun e => h (by rw [e]; exact List.mem_cons_self _ _)
    have hxs : ch ∉ xs := fun e => h (List.mem_cons_of_mem _ e)
    rw [List.cons_append, strchr, if_neg (by simpa using hx), ih hxs]
    rfl

/-- The rest of a parameter string behind its first pair: `none` when the
pair is the last one. -/
theorem join_params_cons (it : Nat × List Char × List Char)
    (rest : List (Nat × List Char × List Char)) :
    ∃ tl : Option (List Char),
      (rest = [] → tl = none) ∧ (rest ≠ [] → tl = some (join_params rest)) ∧
      join_params (it :: rest)
        = List.replicate it.1 '&' ++ (param_pair it.2 ++ amp_tail tl) := by
  cases rest with
  | nil => exact ⟨none, fun _ => rfl, fun h => absurd rfl h, by simp [join_params, amp_tail]⟩
  | cons more rest =>
    exact ⟨some (join_params (more :: rest)), fun h => by simp at h, fun _ => rfl,
      by simp [join_params, amp_tail]⟩

/-- The inner loop on `g` empty tokens followed by a token that is not empty:
it returns that token, and `p` is the text behind the `'&'` that ends the
token, `NULL` when the token ends the string. -/
theorem extract_params_key_skip (tok : List Char) (tl : Option (List Char)) (htok : tok ≠ [])
    (hamp : '&' ∉ tok) :
    ∀ (g fuel : Nat), g + 1 ≤ fuel →
      extract_params_key fuel (some (List.replicate g '&' ++ (tok ++ amp_tail tl)))
        = some (some tok, tl) := by
  intro g
  induction g with
  | zero =>
    intro fuel hf
    obtain ⟨f, rfl⟩ : ∃ f, fuel = f + 1 := ⟨fuel - 1, by omega⟩
    have hne : tok.isEmpty = false := by
      cases tok with
      | nil => exact absurd rfl htok
      | cons _ _ => rfl
    cases tl with
    | none =>
      simp only [List.replicate, List.nil_append, amp_tail, List.append_nil]
      rw [extract_params_key, strsep, strchr_none_of_not_mem '&' tok hamp]
      simp only [hne]
      rfl
    | some r =>
      simp only [List.replicate, List.nil_append, amp_tail]
      have e1 : (tok ++ '&' :: r).take tok.length = tok := by simp
      have e2 : (tok ++ '&' :: r).drop (tok.length + 1) = r := by
        rw [← List.drop_drop]
        simp
      rw [extract_params_key, strsep, strchr_append_of_not_mem '&' r tok hamp]
      simp only []
      rw [e1, e2]
      simp [hne]
  | succ g ih =>
    intro fuel hf
    obtain ⟨f, rfl⟩ : ∃ f, fuel = f + 1 := ⟨fuel - 1, by omega⟩
    have e0 : ∀ l : List Char, strchr ('&' :: l) '&' = some 0 := by
      intro l
      simp [strchr]
    rw [List.replicate_succ, List.cons_append, extract_params_key, strsep, e0]
    simp only [List.take_zero, List.isEmpty_nil, if_true, Nat.zero_add, List.drop_succ_cons,
      List.drop_zero]
    exact ih f (by omega)

theorem param_pair_split (kv : List Char × List Char) (heq : '=' ∉ kv.1) :
    strchr (param_pair kv) '=' = some kv.1.length ∧
    (param_pair kv).take kv.1.length = kv.1 ∧
    (param_pair kv).drop (kv.1.length + 1) = kv.2 := by
  unfold param_pair
  refine ⟨strchr_append_of_not_mem '=' kv.2 kv.1 heq, by simp, ?_⟩
  rw [← List.drop_drop]
  simp

theorem extract_params_loop_null (fuel count : Nat) (para : List (List Char × List Char)) :
    extract_params_loop fuel none count para = some (count, para) := by
  cases fuel <;> rfl

theorem extract_params_loop_full (fuel count : Nat) (s : List Char)
    (para : List (List Char × List Char)) (hc : MAX_PARAM < count) :
    extract_params_loop (fuel + 1) (some s) count para = some (count, para) := by
  rw [extract_params_loop, if_pos hc]

/-- One pass of the loop of `extract_params` over a string that starts with
`g` characters `'&'` and a pair. -/
theorem extract_params_loop_step (fuel count g : Nat) (kv : List Char × List Char)
    (tl : Option (List Char)) (para : List (List Char × List Char))
    (hk1 : '&' ∉ kv.1) (hk2 : '=' ∉ kv.1) (hv : '&' ∉ kv.2)
    (hc : count ≤ MAX_PARAM) :
    extract_params_loop (fuel + 1)
        (some (List.replicate g '&' ++ (param_pair kv ++ amp_tail tl))) count para
      = extract_params_loop fuel tl (count + 1) (para ++ [kv]) := by
  have htok : param_pair kv ≠ [] := by
    unfold param_pair
    simp
  have hamp : '&' ∉ param_pair kv := by
    unfold param_pair
    intro h
    rcases List.mem_append.mp h with h | h
    · exact hk1 h
    · rcases List.mem_cons.mp h with h | h
      · exact absurd h (by decide)
      · exact hv h
  obtain ⟨e1, e2, e3⟩ := param_pair_split kv hk2
  rw [extract_params_loop, if_neg (by omega),
    extract_params_key_skip (param_pair kv) tl htok hamp g _
      (by simp only [List.length_append, List.length_replicate]; omega)]
  simp only [e1]
  rw [e2, e3]
  have : (count + 1) % 256 = count + 1 := by
    apply Nat.mod_eq_of_lt
    unfold MAX_PARAM at hc
    omega
  rw [this]

/-- The loop of `extract_params` over a string of well-formed pairs: it
stores the pairs in order and stops after the pass in which `count` becomes
`MAX_PARAM + 1`. -/
theorem extract_params_loop_join :
    ∀ (items : List (Nat × List Char × List Char)),
      (∀ it ∈ items, '&' ∉ it.2.1 ∧ '=' ∉ it.2.1 ∧ '&' ∉ it.2.2) → items ≠ [] →
      ∀ (fuel count : Nat) (para : List (List Char × List Char)),
        items.length ≤ fuel → count ≤ MAX_PARAM →
        extract_params_loop fuel (some (join_params items)) count para
          = some (count + min items.length (MAX_PARAM + 1 - count),
              para ++ (items.take (MAX_PARAM + 1 - count)).map (fun it => it.2)) := by
  intro items
  induction items with
  | nil => intro _ h; exact absurd rfl h
  | cons it rest ih =>
    intro hwf _ fuel count para hfuel hc
    obtain ⟨f, rfl⟩ : ∃ f, fuel = f + 1 := ⟨fuel - 1, by simp at hfuel; omega⟩
    obtain ⟨hk1, hk2, hv⟩ := hwf it (List.mem_cons_self _ _)
    obtain ⟨tl, h1, h2, hj⟩ := join_params_cons it rest
    rw [hj, extract_params_loop_step f count it.1 it.2 tl para hk1 hk2 hv hc]
    have hsplit : MAX_PARAM + 1 - count = (MAX_PARAM - count) + 1 := by omega
    rw [hsplit, List.take_succ_cons, List.map_cons]
    by_cases hr : rest = []
    · rw [h1 hr, extract_params_loop_null]
      subst hr
      simp
    · rw [h2 hr]
      have hlen : 1 ≤ rest.length := by
        cases rest with
        | nil => exact absurd rfl hr
        | cons _ _ => simp
      simp only [List.length_cons] at hfuel
      by_cases hc1 : count + 1 ≤ MAX_PARAM
      · rw [ih (fun x hx => hwf x (List.mem_cons_of_mem _ hx)) hr f (count + 1) _ (by omega) hc1]
        have e : MAX_PARAM + 1 - (count + 1) = MAX_PARAM - count := by omega
        rw [e]
        simp only [List.length_cons, List.append_assoc, List.singleton_append, Option.some.injEq,
          Prod.mk.injEq, and_true]
        omega
      · obtain ⟨f1, rfl⟩ : ∃ f1, f = f1 + 1 := ⟨f - 1, by omega⟩
        rw [extract_params_loop_full f1 _ _ _ (by omega)]
        have e : MAX_PARAM - count = 0 := by omega
        rw [e]
        simp only [List.take_zero, List.map_nil, List.length_cons, Option.some.injEq,
          Prod.mk.injEq, and_true]
        omega

theorem join_params_length :
    ∀ (items : List (Nat × List Char × List Char)), items.length ≤ (join_params items).length := by
  intro items
  induction items with
  | nil => simp
  | cons it rest ih =>
    obtain ⟨tl, h1, h2, hj⟩ := join_params_cons it rest
    rw [hj]
    simp only [List.length_append, List.length_replicate, param_pair, List.length_cons]
    by_cases hr : rest = []
    · subst hr
      simp
      omega
    · rw [h2 hr]
      simp only [amp_tail, List.length_cons]
      omega

/-- `extract_params` on a string of well-formed pairs. -/
theorem extract_params_join (items : List (Nat × List Char × List Char))
    (hwf : ∀ it ∈ items, '&' ∉ it.2.1 ∧ '=' ∉ it.2.1 ∧ '&' ∉ it.2.2) (hne : items ≠ []) :
    extract_params (some (join_params items))
      = some (min items.length (MAX_PARAM + 1),
          (items.take (MAX_PARAM + 1)).map (fun it => it.2)) := by
  unfold extract_params
  simp only []
  rw [extract_params_loop_join items hwf hne _ 0 [] (by have := join_params_length items; omega)
    (by unfold MAX_PARAM; omega)]
  simp

/-- What the loop of `extract_params` returns is the number of entries
written, at most `MAX_PARAM + 1`. -/
theorem extract_params_loop_bound :
    ∀ (fuel : Nat) (p : Option (List Char)) (count : Nat) (para : List (List Char × List Char))
      (r : Nat × List (List Char × List Char)),
      count = para.length → count ≤ MAX_PARAM + 1 →
      extract_params_loop fuel p count para = some r →
      r.1 = r.2.length ∧ r.1 ≤ MAX_PARAM + 1 := by
  intro fuel
  induction fuel with
  | zero =>
    intro p count para r hc hb h
    cases p with
    | none =>
      rw [extract_params_loop_null] at h
      simp only [Option.some.injEq] at h
      subst h
      exact ⟨hc, hb⟩
    | some s => simp [extract_params_loop] at h
  | succ f ih =>
    intro p count para r hc hb h
    cases p with
    | none =>
      rw [extract_params_loop_null] at h
      simp only [Option.some.injEq] at h
      subst h
      exact ⟨hc, hb⟩
    | some s =>
      rw [extract_params_loop] at h
      by_cases hfull : MAX_PARAM < count
      · rw [if_pos hfull] at h
        simp only [Option.some.injEq] at h
        subst h
        exact ⟨hc, hb⟩
      · rw [if_neg hfull] at h
        have hmod : (count + 1) % 256 = count + 1 := by
          apply Nat.mod_eq_of_lt
          unfold MAX_PARAM at hfull
          omega
        rw [hmod] at h
        cases hk : extract_params_key (s.length + 2) (some s) with
        | none => rw [hk] at h; simp at h
        | some res =>
          obtain ⟨kp, p1⟩ := res
          rw [hk] at h
          cases kp with
          | none => simp at h
          | some key_point =>
            simp only [] at h
            cases hi : strchr key_point '=' with
            | none => rw [hi] at h; simp at h
            | some idx =>
              rw [hi] at h
              exact ih p1 (count + 1) _ r (by simp [hc]) (by omega) h

/-- C28: `extract_params` returns the number of parsed arguments.  It returns
0 for a null input.  On the string made of `k` pairs `key=value` joined by
`'&'`, with `1 ≤ k ≤ MAX_PARAM`, the keys free of `'&'` and `'='` and the
values free of `'&'`, each pair preceded by any number of further `'&'`
(empty segments), it returns `k` and has written `para[i].key = key_i` and
`para[i].value = value_i` for each `i` in order; the value is all that
follows the first `'='` of the pair, further `'='` included. -/
theorem extract_params_parses_pairs (items : List (Nat × List Char × List Char))
    (hwf : ∀ it ∈ items, '&' ∉ it.2.1 ∧ '=' ∉ it.2.1 ∧ '&' ∉ it.2.2) (hne : items ≠ [])
    (hk : items.length ≤ MAX_PARAM) :
    extract_params none = some (0, []) ∧
    extract_params (some (join_params items))
      = some (items.length, items.map (fun it => it.2)) := by
  refine ⟨rfl, ?_⟩
  rw [extract_params_join items hwf hne, List.take_of_length_le (by omega),
    Nat.min_eq_left (by omega)]

/-- C28, witness: the string `ssid=Foo&&password=a=b`. -/
theorem extract_params_parses_pairs_witness :
    join_params [(0, "ssid".toList, "Foo".toList), (1, "password".toList, "a=b".toList)]
      = "ssid=Foo&&password=a=b".toList ∧
    extract_params none = some (0, []) ∧
    extract_params (some (join_params
        [(0, "ssid".toList, "Foo".toList), (1, "password".toList, "a=b".toList)]))
      = some ([(0, "ssid".toList, "Foo".toList), (1, "password".toList, "a=b".toList)].length,
          [(0, "ssid".toList, "Foo".toList), (1, "password".toList, "a=b".toList)].map
            (fun it => it.2)) :=
  ⟨by decide,
    extract_params_parses_pairs
      [(0, "ssid".toList, "Foo".toList), (1, "password".toList, "a=b".toList)]
      (by decide) (by decide) (by decide)⟩

/-- C27: the bound of `extract_params` is off by one.  The test of line 24 is
`count > MAX_PARAM`, so a pass is still made with `count = MAX_PARAM`: on
a string of more than `MAX_PARAM` well-formed pairs the function returns
`MAX_PARAM + 1` and has written `MAX_PARAM + 1` entries, the last of them
`para[MAX_PARAM]`, one past the end of an array of `MAX_PARAM` elements.
Whenever the function returns, the value returned is the number of entries
written and is at most `MAX_PARAM + 1`. -/
theorem extract_params_writes_past_capacity (items : List (Nat × List Char × List Char))
    (hwf : ∀ it ∈ items, '&' ∉ it.2.1 ∧ '=' ∉ it.2.1 ∧ '&' ∉ it.2.2)
    (hk : MAX_PARAM < items.length) :
    extract_params (some (join_params items))
      = some (MAX_PARAM + 1, (items.take (MAX_PARAM + 1)).map (fun it => it.2)) ∧
    ((items.take (MAX_PARAM + 1)).map (fun it => it.2)).length = MAX_PARAM + 1 ∧
    (∀ (args : Option (List Char)) (r : Nat × List (List Char × List Char)),
      extract_params args = some r → r.1 = r.2.length ∧ r.1 ≤ MAX_PARAM + 1) := by
  have hne : items ≠ [] := by
    intro h
    rw [h] at hk
    simp at hk
  refine ⟨?_, ?_, ?_⟩
  · rw [extract_params_join items hwf hne, Nat.min_eq_right (by omega)]
  · rw [List.length_map, List.length_take]
    omega
  · intro args r h
    cases args with
    | none =>
      simp only [extract_params, Option.some.injEq] at h
      subst h
      exact ⟨rfl, by simp⟩
    | some s => exact extract_params_loop_bound _ _ 0 [] r rfl (by omega) h

/-- C27, witness: 41 pairs `a=1` joined by `'&'`. -/
theorem extract_params_writes_past_capacity_witness :
    MAX_PARAM < (List.replicate 41 (0, "a".toList, "1".toList)).length ∧
    extract_params (some (join_params (List.replicate 41 (0, "a".toList, "1".toList))))
      = some (MAX_PARAM + 1,
          ((List.replicate 41 (0, "a".toList, "1".toList)).take (MAX_PARAM + 1)).map
            (fun it => it.2)) ∧
    (((List.replicate 41 (0, "a".toList, "1".toList)).take (MAX_PARAM + 1)).map
      (fun it => it.2)).length = 41 :=
  ⟨by decide,
    (extract_params_writes_past_capacity (List.replicate 41 (0, "a".toList, "1".toList))
      (by decide) (by decide)).1,
    by decide⟩

/-! ## The read buffer of http_send_data -/

/-- The size `http_send_alloc` obtains is `count` halved some number of
times, and above 100 unless it is `count` itself. -/
theorem http_send_alloc_size {σ : Type} (T : Tcp σ) :
    ∀ (fuel : Nat) (pcb : σ) (count n : Nat) (pcb1 : σ),
      http_send_alloc T fuel pcb count = (some n, pcb1) →
      ∃ i, n = count / 2 ^ i ∧ (i = 0 ∨ 100 < n) := by
  intro fuel
  induction fuel with
  | zero =>
    intro pcb count n pcb1 h
    unfold http_send_alloc at h
    simp only [] at h
    split_ifs at h
    · simp only [Prod.mk.injEq, Option.some.injEq] at h
      exact ⟨0, by rw [← h.1]; simp, Or.inl rfl⟩
    · simp at h
    · simp at h
  | succ f ih =>
    intro pcb count n pcb1 h
    unfold http_send_alloc at h
    simp only [] at h
    split_ifs at h with h1 h2
    · simp only [Prod.mk.injEq, Option.some.injEq] at h
      exact ⟨0, by rw [← h.1]; simp, Or.inl rfl⟩
    · obtain ⟨i, hi, hb⟩ := ih _ _ n pcb1 h
      refine ⟨i + 1, ?_, Or.inr ?_⟩
      · rw [hi, Nat.div_div_eq_div_mul, pow_succ, Nat.mul_comm]
      · rcases hb with hb | hb
        · rw [hi, hb]
          simpa using h2
        · exact hb
    · simp at h

theorem http_send_alloc_first {σ : Type} (T : Tcp σ) (fuel : Nat) (pcb : σ) (count : Nat)
    (h : (T.mem_malloc pcb count).1 = true) :
    http_send_alloc T fuel pcb count = (some count, (T.mem_malloc pcb count).2) := by
  cases fuel <;> (unfold http_send_alloc; simp only [h, if_true])

theorem http_send_alloc_halve {σ : Type} (T : Tcp σ) (fuel : Nat) (pcb : σ) (count : Nat)
    (h : (T.mem_malloc pcb count).1 = false) (h2 : 100 < count / 2) :
    http_send_alloc T (fuel + 1) pcb count
      = http_send_alloc T fuel (T.mem_malloc pcb count).2 (count / 2) := by
  rw [http_send_alloc]
  simp only [h, Bool.false_eq_true, if_false, if_pos h2]

theorem http_send_alloc_floor {σ : Type} (T : Tcp σ) (fuel : Nat) (pcb : σ) (count : Nat)
    (h : (T.mem_malloc pcb count).1 = false) (h2 : count / 2 ≤ 100) :
    http_send_alloc T fuel pcb count = (none, (T.mem_malloc pcb count).2) := by
  cases fuel <;>
    (unfold http_send_alloc; simp only [h, Bool.false_eq_true, if_false, if_neg (by omega : ¬ 100 < count / 2)])

theorem http_send_hdr_step_buf {σ : Type} (T : Tcp σ) (c c1 : Conn σ) (len len1 sl1 : Nat)
    (d d1 : Bool) (h : http_send_hdr_step T c len d = some (c1, len1, sl1, d1)) :
    c1.hs.buf_len = c.hs.buf_len ∧ c1.hs.buf = c.hs.buf ∧ c1.arg = c.arg ∧
    c1.closes = c.closes := by
  unfold http_send_hdr_step at h
  cases hh : c.hs.hdrs c.hs.hdr_index with
  | none => rw [hh] at h; simp at h
  | some hdr =>
    rw [hh] at h
    simp only [Option.some.injEq, Prod.mk.injEq] at h
    obtain ⟨hc, -⟩ := h
    subst hc
    refine ⟨?_, ?_, ?_, ?_⟩ <;> (simp only []; try (split_ifs <;> rfl))

theorem http_send_hdr_loop_buf {σ : Type} (T : Tcp σ) :
    ∀ (fuel : Nat) (c c1 : Conn σ) (len sl : Nat) (d d1 : Bool),
      http_send_hdr_loop T fuel c len sl d = some (c1, d1) →
      c1.hs.buf_len = c.hs.buf_len ∧ c1.hs.buf = c.hs.buf ∧ c1.arg = c.arg ∧
      c1.closes = c.closes := by
  intro fuel
  induction fuel with
  | zero =>
    intro c c1 len sl d d1 h
    unfold http_send_hdr_loop at h
    split_ifs at h
    simp only [Option.some.injEq, Prod.mk.injEq] at h
    obtain ⟨hc, -⟩ := h
    subst hc
    exact ⟨rfl, rfl, rfl, rfl⟩
  | succ f ih =>
    intro c c1 len sl d d1 h
    unfold http_send_hdr_loop at h
    split_ifs at h
    · cases hs : http_send_hdr_step T c len d with
      | none => rw [hs] at h; simp at h
      | some r =>
        obtain ⟨c2, len2, sl2, d2⟩ := r
        rw [hs] at h
        simp only [] at h
        obtain ⟨a1, a2, a3, a4⟩ := ih c2 c1 len2 sl2 d2 d1 h
        obtain ⟨b1, b2, b3, b4⟩ := http_send_hdr_step_buf T c c2 len len2 sl2 d d2 hs
        exact ⟨a1.trans b1, a2.trans b2, a3.trans b3, a4.trans b4⟩
    · simp only [Option.some.injEq, Prod.mk.injEq] at h
      obtain ⟨hc, -⟩ := h
      subst hc
      exact ⟨rfl, rfl, rfl, rfl⟩

theorem http_close_conn_buf {σ : Type} (T : Tcp σ) (c : Conn σ) :
    (http_close_conn T c true).2.hs.buf_len = c.hs.buf_len ∧
    (http_close_conn T c true).2.arg = false := by
  obtain ⟨h1, -, h3⟩ := http_close_conn_hs T c
  rw [h1]
  exact ⟨rfl, h3⟩

theorem http_send_file_buf {σ : Type} (T : Tcp σ) (F : WebFS) (c c1 : Conn σ) (d : Bool)
    (r : Nat) (h : http_send_file T F c d = some (r, c1)) :
    c1.hs.buf_len = c.hs.buf_len ∧
    (c1.arg = false ∨ (c1.hs.buf = c.hs.buf ∧ c1.arg = c.arg ∧ c1.closes = c.closes)) := by
  unfold http_send_file at h
  simp only [] at h
  generalize hw : http_write T c.pcb (c.hs.file.getD []) _ = w at h
  by_cases hok : w.err = ERR_OK
  · simp only [hok, if_true] at h
    split_ifs at h
    · split at h
      · simp at h
      · split_ifs at h
        · simp only [Option.some.injEq, Prod.mk.injEq] at h
          obtain ⟨-, hc⟩ := h
          subst hc
          exact ⟨(http_close_conn_buf T _).1, Or.inl (http_close_conn_buf T _).2⟩
        · simp only [Option.some.injEq, Prod.mk.injEq] at h
          obtain ⟨-, hc⟩ := h
          subst hc
          exact ⟨rfl, Or.inr ⟨rfl, rfl, rfl⟩⟩
    · simp only [Option.some.injEq, Prod.mk.injEq] at h
      obtain ⟨-, hc⟩ := h
      subst hc
      exact ⟨rfl, Or.inr ⟨rfl, rfl, rfl⟩⟩
  · simp only [hok, if_false] at h
    split_ifs at h
    · split at h
      · simp at h
      · split_ifs at h
        · simp only [Option.some.injEq, Prod.mk.injEq] at h
          obtain ⟨-, hc⟩ := h
          subst hc
          exact ⟨(http_close_conn_buf T _).1, Or.inl (http_close_conn_buf T _).2⟩
        · simp only [Option.some.injEq, Prod.mk.injEq] at h
          obtain ⟨-, hc⟩ := h
          subst hc
          exact ⟨rfl, Or.inr ⟨rfl, rfl, rfl⟩⟩
    · simp only [Option.some.injEq, Prod.mk.injEq] at h
      obtain ⟨-, hc⟩ := h
      subst hc
      exact ⟨rfl, Or.inr ⟨rfl, rfl, rfl⟩⟩

theorem http_send_read_buf {σ : Type} (T : Tcp σ) (F : WebFS) (c c1 : Conn σ)
    (hd : webfs_file) (count : Nat) (d : Bool) (r : Nat)
    (h : http_send_read T F c hd count d = some (r, c1)) :
    c1.hs.buf_len = c.hs.buf_len ∧
    (c1.arg = false ∨ (c1.hs.buf ≠ none ∧ c1.arg = c.arg ∧ c1.closes = c.closes)) := by
  unfold http_send_read at h
  cases hr : F.webfs_read hd count with
  | mk res h1 =>
    rw [hr] at h
    cases res with
    | none =>
      simp only [Option.some.injEq, Prod.mk.injEq] at h
      obtain ⟨-, hc⟩ := h
      subst hc
      exact ⟨(http_close_conn_buf T _).1, Or.inl (http_close_conn_buf T _).2⟩
    | some bytes =>
      simp only [] at h
      have e := http_send_file_buf T F _ c1 d r h
      refine ⟨e.1, ?_⟩
      rcases e.2 with e2 | ⟨e2, e3, e4⟩
      · exact Or.inl e2
      · exact Or.inr ⟨by rw [e2]; simp, e3, e4⟩

/-- The read buffer through lines 683-775: `buf_len` is assigned only by a
successful allocation, which is made only while `hs->buf` is `NULL`. -/
theorem http_send_body_buf {σ : Type} (T : Tcp σ) (F : WebFS) (c c1 : Conn σ) (d : Bool)
    (r : Nat) (h : http_send_body T F c d = some (r, c1)) :
    (c1.hs.buf_len = c.hs.buf_len ∨
      (c.hs.buf = none ∧ ∃ (n : Nat) (pcb1 : σ),
        http_send_alloc T (2 * tcp_mss T c.pcb) c.pcb (2 * tcp_mss T c.pcb) = (some n, pcb1) ∧
        c1.hs.buf_len = n)) ∧
    (c.hs.buf ≠ none → c1.hs.buf_len = c.hs.buf_len ∧ (c1.arg = false ∨ c1.hs.buf ≠ none)) := by
  unfold http_send_body at h
  split_ifs at h with hz
  · cases hh : c.hs.handle with
    | none =>
      rw [hh] at h
      simp only [Option.some.injEq, Prod.mk.injEq] at h
      obtain ⟨-, hc⟩ := h
      subst hc
      exact ⟨Or.inl (http_close_conn_buf T _).1,
        fun _ => ⟨(http_close_conn_buf T _).1, Or.inl (http_close_conn_buf T _).2⟩⟩
    | some hd =>
      rw [hh] at h
      simp only [] at h
      split_ifs at h
      · simp only [Option.some.injEq, Prod.mk.injEq] at h
        obtain ⟨-, hc⟩ := h
        subst hc
        exact ⟨Or.inl (http_close_conn_buf T _).1,
          fun _ => ⟨(http_close_conn_buf T _).1, Or.inl (http_close_conn_buf T _).2⟩⟩
      · cases hb : c.hs.buf with
        | some b =>
          rw [hb] at h
          simp only [] at h
          have e := http_send_read_buf T F _ c1 hd _ d r h
          refine ⟨Or.inl e.1, fun _ => ⟨e.1, ?_⟩⟩
          rcases e.2 with e2 | ⟨e2, -, -⟩
          · exact Or.inl e2
          · exact Or.inr e2
        | none =>
          rw [hb] at h
          simp only [] at h
          refine ⟨?_, fun hne => absurd rfl hne⟩
          cases ha : http_send_alloc T (2 * tcp_mss T c.pcb) c.pcb (2 * tcp_mss T c.pcb) with
          | mk res pcb1 =>
            rw [ha] at h
            cases res with
            | none =>
              simp only [Option.some.injEq, Prod.mk.injEq] at h
              obtain ⟨-, hc⟩ := h
              subst hc
              exact Or.inl rfl
            | some n =>
              simp only [] at h
              have e := http_send_read_buf T F _ c1 hd _ d r h
              exact Or.inr ⟨rfl, n, pcb1, rfl, e.1⟩
  · have e := http_send_file_buf T F c c1 d r h
    refine ⟨Or.inl e.1, fun hne => ⟨e.1, ?_⟩⟩
    rcases e.2 with e2 | ⟨e2, -, -⟩
    · exact Or.inl e2
    · exact Or.inr (by rw [e2]; exact hne)

/-- Once the read buffer is there (or the state is freed), `http_send_data`
leaves `buf_len` as it is. -/
theorem http_send_data_buf {σ : Type} (T : Tcp σ) (F : WebFS) (c c1 : Conn σ) (r : Nat)
    (hinv : c.arg = false ∨ c.hs.buf ≠ none) (h : http_send_data T F c = some (r, c1)) :
    c1.hs.buf_len = c.hs.buf_len ∧ (c1.arg = false ∨ c1.hs.buf ≠ none) := by
  unfold http_send_data at h
  by_cases ha : c.arg = true
  · have hb : c.hs.buf ≠ none := by
      rcases hinv with h0 | h0
      · rw [ha] at h0
        exact absurd h0 (by decide)
      · exact h0
    rw [if_neg (by simp [ha])] at h
    split_ifs at h with hi
    · simp only [] at h
      cases hl : http_send_hdr_loop T (tcp_sndbuf T c.pcb) c (tcp_sndbuf T c.pcb)
          (tcp_sndbuf T c.pcb) false with
      | none => rw [hl] at h; simp at h
      | some res =>
        obtain ⟨c2, d2⟩ := res
        rw [hl] at h
        simp only [] at h
        obtain ⟨f1, f2, -, -⟩ := http_send_hdr_loop_buf T _ c c2 _ _ _ d2 hl
        split_ifs at h
        · simp only [Option.some.injEq, Prod.mk.injEq] at h
          obtain ⟨-, hc⟩ := h
          subst hc
          exact ⟨f1, Or.inr (by rw [f2]; exact hb)⟩
        · obtain ⟨e1, e2⟩ := (http_send_body_buf T F c2 c1 d2 r h).2 (by rw [f2]; exact hb)
          exact ⟨e1.trans f1, e2⟩
    · exact (http_send_body_buf T F c c1 false r h).2 hb
  · have ha0 : c.arg = false := by
      cases hx : c.arg with
      | true => exact absurd hx ha
      | false => rfl
    rw [if_pos (by simp [ha0])] at h
    simp only [Option.some.injEq, Prod.mk.injEq] at h
    obtain ⟨-, hc⟩ := h
    subst hc
    exact ⟨rfl, Or.inl ha0⟩

theorem http_send_data_seq_buf {σ : Type} (T : Tcp σ) (F : WebFS) :
    ∀ (pcbs : List σ) (c c1 : Conn σ), (c.arg = false ∨ c.hs.buf ≠ none) →
      http_send_data_seq T F pcbs c = some c1 → c1.hs.buf_len = c.hs.buf_len := by
  intro pcbs
  induction pcbs with
  | nil =>
    intro c c1 _ h
    simp only [http_send_data_seq, Option.some.injEq] at h
    rw [h]
  | cons s rest ih =>
    intro c c1 hinv h
    rw [http_send_data_seq] at h
    cases hx : http_send_data T F { c with pcb := s } with
    | none => rw [hx] at h; simp at h
    | some res =>
      obtain ⟨r, c2⟩ := res
      rw [hx] at h
      simp only [] at h
      obtain ⟨e1, e2⟩ := http_send_data_buf T F { c with pcb := s } c2 r hinv hx
      exact (ih c2 c1 e2 h).trans e1

/-! ### The parser and the POST code leave the read buffer alone -/

theorem get_http_headers_buf (H : HeaderTables) (hs : http_state) (u : Option (List Char)) :
    (get_http_headers H hs u).buf = hs.buf ∧ (get_http_headers H hs u).buf_len = hs.buf_len := by
  unfold get_http_headers
  cases u with
  | none => exact ⟨rfl, rfl⟩
  | some uri =>
    simp only []
    split
    · split <;> simp
    · simp

theorem http_init_file_buf {σ : Type} (H : HeaderTables) (c c1 : Conn σ)
    (file : Option webfs_file) (is_09 : Bool) (uri : cptr) (e : err_t)
    (h : http_init_file H c file is_09 uri = some (e, c1)) :
    c1.buf_part = c.buf_part := by
  unfold http_init_file at h
  cases file with
  | none => simp at h
  | some f =>
    simp only [] at h
    split at h
    · simp at h
    · rename_i hs2 heq
      have hfr : hs2.buf = c.hs.buf ∧ hs2.buf_len = c.hs.buf_len := by
        split_ifs at heq with hc
        · split at heq
          · simp at heq
          · split at heq <;>
            · simp only [Option.some.injEq] at heq
              subst heq
              exact ⟨rfl, rfl⟩
        · simp only [Option.some.injEq] at heq
          subst heq
          exact ⟨rfl, rfl⟩
      unfold Conn.buf_part
      split_ifs at h
      · simp only [Option.some.injEq, Prod.mk.injEq] at h
        obtain ⟨-, hc⟩ := h
        subst hc
        obtain ⟨g1, g2⟩ := get_http_headers_buf H hs2 (c.str uri)
        show ((get_http_headers H hs2 (c.str uri)).buf, (get_http_headers H hs2 (c.str uri)).buf_len)
          = _
        rw [g1, g2, hfr.1, hfr.2]
      · simp only [Option.some.injEq, Prod.mk.injEq] at h
        obtain ⟨-, hc⟩ := h
        subst hc
        show (hs2.buf, hs2.buf_len) = _
        rw [hfr.1, hfr.2]

theorem http_find_file_buf {σ : Type} (F : WebFS) (H : HeaderTables) (c c1 : Conn σ)
    (uri : cptr) (is_09 : Bool) (e : err_t)
    (h : http_find_file F H c uri is_09 = some (e, c1)) :
    c1.buf_part = c.buf_part := by
  unfold http_find_file at h
  split at h
  · simp at h
  · rename_i cq hq
    obtain ⟨q1, -⟩ := http_find_file_params_frame c cq uri hq
    have hq2 : cq.buf_part = c.buf_part := by
      unfold Conn.buf_part
      rw [q1]
    simp only [] at h
    split at h
    · have g := http_init_file_buf H _ c1 _ _ _ e h
      exact g.trans hq2
    · have g := http_init_file_buf H _ c1 _ _ _ e h
      rw [g]
      have e4 := http_get_404_file_frame F (opened_log cq ((cq.str uri).getD []) (some cq.view))
      unfold Conn.buf_part
      rw [e4]
      exact hq2

theorem httpd_post_receive_data_buf {σ : Type} (c : Conn σ) (p : pbuf) :
    (httpd_post_receive_data c p).2.buf_part = c.buf_part := by
  unfold httpd_post_receive_data
  split
  simp only []
  split_ifs <;> rfl

theorem http_post_rxpbuf_buf {σ : Type} (F : WebFS) (H : HeaderTables) (c c1 : Conn σ)
    (p : pbuf) (e : err_t) (h : http_post_rxpbuf F H c p = some (e, c1)) :
    c1.buf_part = c.buf_part := by
  unfold http_post_rxpbuf at h
  simp only [] at h
  generalize hleft : (if c.hs.post_content_len_left < pbuf_tot_len p then 0
      else (c.hs.post_content_len_left + U32 - pbuf_tot_len p) % U32) = left at h
  have r1 := httpd_post_receive_data_buf
    { c with hs := { c.hs with post_content_len_left := left } } p
  split_ifs at h with hc
  · unfold http_handle_post_finished httpd_post_finished at h
    simp only [] at h
    have g1 := http_find_file_buf F H _ c1 _ _ e h
    exact g1.trans r1
  · simp only [Option.some.injEq, Prod.mk.injEq] at h
    obtain ⟨-, hc1⟩ := h
    subst hc1
    exact r1

theorem http_post_request_buf {σ : Type} (F : WebFS) (H : HeaderTables) (c c1 : Conn σ)
    (next inp inp1 : pbuf) (data_len uri uri_end : Nat) (e : err_t)
    (h : http_post_request F H c next data_len uri uri_end inp = some (e, inp1, c1)) :
    c1.buf_part = c.buf_part := by
  unfold http_post_request at h
  simp only [] at h
  split at h
  · simp only [Option.some.injEq, Prod.mk.injEq] at h
    obtain ⟨-, -, hc⟩ := h
    subst hc
    rfl
  · split at h
    · simp only [Option.some.injEq, Prod.mk.injEq] at h
      obtain ⟨-, -, hc⟩ := h
      subst hc
      rfl
    · split at h
      · simp only [Option.some.injEq, Prod.mk.injEq] at h
        obtain ⟨-, -, hc⟩ := h
        subst hc
        rfl
      · split_ifs at h with hpos hbegin
        · split at h
          · simp only [Option.some.injEq, Prod.mk.injEq] at h
            obtain ⟨-, -, hc⟩ := h
            subst hc
            rfl
          · cases hx : http_post_rxpbuf F H _ (pbuf_header_hide ‹pbuf› ‹Nat›) with
            | none => rw [hx] at h; simp at h
            | some res =>
              obtain ⟨e2, c2⟩ := res
              rw [hx] at h
              simp only [Option.map_some', Option.some.injEq, Prod.mk.injEq] at h
              obtain ⟨-, -, hc⟩ := h
              subst hc
              have g := http_post_rxpbuf_buf F H _ c2 _ e2 hx
              exact g
        · cases hx : http_find_file F H _ (cptr.mem Region.response_filename 0) false with
          | none => rw [hx] at h; simp at h
          | some res =>
            obtain ⟨e2, c2⟩ := res
            rw [hx] at h
            simp only [Option.map_some', Option.some.injEq, Prod.mk.injEq] at h
            obtain ⟨-, -, hc⟩ := h
            subst hc
            have g := http_find_file_buf F H _ c2 _ _ e2 hx
            exact g
        · simp only [Option.some.injEq, Prod.mk.injEq] at h
          obtain ⟨-, -, hc⟩ := h
          subst hc
          rfl

theorem http_parse_request_buf {σ : Type} (F : WebFS) (H : HeaderTables) (c c1 : Conn σ)
    (p p1 : pbuf) (e : err_t) (h : http_parse_request F H c p = some (e, p1, c1)) :
    c1.buf_part = c.buf_part := by
  obtain ⟨-, g⟩ := http_parse_request_cases F H c c1 p p1 e h
  have huri : ∀ (c0 c2 : Conn σ) (q q1 : pbuf) (dl : Nat) (ip : Bool) (sp1 : Nat) (e0 : err_t),
      http_parse_uri F H c0 q dl ip sp1 = some (e0, q1, c2) → c2.buf_part = c0.buf_part := by
    intro c0 c2 q q1 dl ip sp1 e0 h0
    unfold http_parse_uri at h0
    simp only [] at h0
    split_ifs at h0 with hbad hpost
    · unfold http_bad_request http_find_error_file at h0
      simp only [Option.some.injEq, Prod.mk.injEq] at h0
      obtain ⟨-, -, hc⟩ := h0
      subst hc
      rfl
    · split at h0
      · unfold http_bad_request http_find_error_file at h0
        simp only [Option.some.injEq, Prod.mk.injEq] at h0
        obtain ⟨-, -, hc⟩ := h0
        subst hc
        rfl
      · split at h0
        · simp at h0
        · rename_i err inp c3 hx
          have g1 := http_post_request_buf F H _ c3 _ _ inp _ _ _ err hx
          have g2 : c2.buf_part = c3.buf_part := by
            split_ifs at h0 <;>
            · first
              | (unfold http_bad_request http_find_error_file at h0
                 simp only [Option.some.injEq, Prod.mk.injEq] at h0
                 obtain ⟨-, -, hc⟩ := h0
                 subst hc
                 rfl)
              | (simp only [Option.some.injEq, Prod.mk.injEq] at h0
                 obtain ⟨-, -, hc⟩ := h0
                 subst hc
                 rfl)
          exact g2.trans g1
    · split at h0
      · unfold http_bad_request http_find_error_file at h0
        simp only [Option.some.injEq, Prod.mk.injEq] at h0
        obtain ⟨-, -, hc⟩ := h0
        subst hc
        rfl
      · cases hx : http_find_file F H _ (cptr.mem Region.req (sp1 + 1)) _ with
        | none => rw [hx] at h0; simp at h0
        | some res =>
          obtain ⟨e2, c3⟩ := res
          rw [hx] at h0
          simp only [Option.map_some', Option.some.injEq, Prod.mk.injEq] at h0
          obtain ⟨-, -, hc⟩ := h0
          subst hc
          have g := http_find_file_buf F H _ c3 _ _ e2 hx
          exact g
  unfold http_parse_request at h
  simp only [] at h
  split_ifs at h with huse hmin hget hpost
  · simp only [Option.some.injEq, Prod.mk.injEq] at h
    obtain ⟨-, -, hc⟩ := h
    subst hc
    rfl
  · split at h
    · have g := huri _ _ _ _ _ _ _ _ h
      exact g
    · unfold http_bad_request http_find_error_file at h
      simp only [Option.some.injEq, Prod.mk.injEq] at h
      obtain ⟨-, -, hc⟩ := h
      subst hc
      rfl
  · split at h
    · have g := huri _ _ _ _ _ _ _ _ h
      exact g
    · unfold http_bad_request http_find_error_file at h
      simp only [Option.some.injEq, Prod.mk.injEq] at h
      obtain ⟨-, -, hc⟩ := h
      subst hc
      rfl
  · split at h
    · unfold http_find_error_file at h
      simp only [Option.some.injEq, Prod.mk.injEq] at h
      obtain ⟨-, -, hc⟩ := h
      subst hc
      rfl
    · unfold http_bad_request http_find_error_file at h
      simp only [Option.some.injEq, Prod.mk.injEq] at h
      obtain ⟨-, -, hc⟩ := h
      subst hc
      rfl
  · unfold http_bad_request http_find_error_file at h
    simp only [Option.some.injEq, Prod.mk.injEq] at h
    obtain ⟨-, -, hc⟩ := h
    subst hc
    rfl

theorem http_close_conn_null_buf {σ : Type} (T : Tcp σ) (c : Conn σ) :
    (http_close_conn T c false).2.hs = c.hs ∧ (http_close_conn T c false).2.arg = false := by
  unfold http_close_conn
  simp

theorem Conn.buf_part_fields {σ : Type} {a b : Conn σ} (h : a.buf_part = b.buf_part) :
    a.hs.buf = b.hs.buf ∧ a.hs.buf_len = b.hs.buf_len := by
  unfold Conn.buf_part at h
  simp only [Prod.mk.injEq] at h
  exact h

/-- A receive event leaves `buf_len` as it is once the read buffer is
there. -/
theorem http_recv_buf {σ : Type} (T : Tcp σ) (F : WebFS) (H : HeaderTables) (c c1 : Conn σ)
    (p : pbuf) (err e : err_t) (hinv : c.arg = false ∨ c.hs.buf ≠ none)
    (h : http_recv T F H c p err = some (e, c1)) :
    c1.hs.buf_len = c.hs.buf_len ∧ (c1.arg = false ∨ c1.hs.buf ≠ none) := by
  have hsend : ∀ (c2 : Conn σ), c2.buf_part = c.buf_part → c2.arg = c.arg →
      (http_send_data T F c2).map (fun r => (ERR_OK, r.2)) = some (e, c1) →
      c1.hs.buf_len = c.hs.buf_len ∧ (c1.arg = false ∨ c1.hs.buf ≠ none) := by
    intro c2 hb ha hx
    obtain ⟨b1, b2⟩ := Conn.buf_part_fields hb
    cases hs : http_send_data T F c2 with
    | none => rw [hs] at hx; simp at hx
    | some res =>
      obtain ⟨r, c3⟩ := res
      rw [hs] at hx
      simp only [Option.map_some', Option.some.injEq, Prod.mk.injEq] at hx
      obtain ⟨-, hc⟩ := hx
      subst hc
      obtain ⟨g1, g2⟩ := http_send_data_buf T F c2 c3 r (by rw [ha, b1]; exact hinv) hs
      exact ⟨g1.trans b2, g2⟩
  have hkeep : ∀ (c2 : Conn σ), c2.buf_part = c.buf_part → c2.arg = c.arg →
      c2.hs.buf_len = c.hs.buf_len ∧ (c2.arg = false ∨ c2.hs.buf ≠ none) := by
    intro c2 hb ha
    obtain ⟨b1, b2⟩ := Conn.buf_part_fields hb
    exact ⟨b2, by rw [ha, b1]; exact hinv⟩
  unfold http_recv at h
  by_cases hbad : err ≠ ERR_OK ∨ p = [] ∨ c.arg = false
  · rw [if_pos hbad] at h
    simp only [Option.some.injEq, Prod.mk.injEq] at h
    obtain ⟨-, hc⟩ := h
    subst hc
    by_cases ha : c.arg = true
    · rw [ha]
      exact ⟨(http_close_conn_buf T c).1, Or.inl (http_close_conn_buf T c).2⟩
    · have ha0 : c.arg = false := by
        cases hx : c.arg with
        | true => exact absurd hx ha
        | false => rfl
      rw [ha0]
      obtain ⟨g1, g2⟩ := http_close_conn_null_buf T c
      exact ⟨by rw [g1], Or.inl g2⟩
  · rw [if_neg hbad] at h
    by_cases hpost : 0 < c.hs.post_content_len_left
    · rw [if_pos hpost] at h
      cases hx : http_post_rxpbuf F H { c with hs := { c.hs with retries := 0 } } p with
      | none => rw [hx] at h; simp at h
      | some res =>
        obtain ⟨e2, c2⟩ := res
        rw [hx] at h
        simp only [] at h
        have g1 := http_post_rxpbuf_buf F H _ c2 p e2 hx
        obtain ⟨-, g2⟩ := http_post_rxpbuf_transport F H _ c2 p e2 hx
        have g3 : c2.arg = c.arg := (Conn.transport_part_fields g2).1
        have g4 : c2.buf_part = c.buf_part := g1
        split_ifs at h
        · exact hsend c2 g4 g3 h
        · simp only [Option.some.injEq, Prod.mk.injEq] at h
          obtain ⟨-, hc⟩ := h
          subst hc
          exact hkeep c2 g4 g3
    · rw [if_neg hpost] at h
      simp only [] at h
      by_cases hh : c.hs.handle = none
      · rw [if_pos hh] at h
        cases hx : http_parse_request F H c p with
        | none => rw [hx] at h; simp at h
        | some res =>
          obtain ⟨e2, p2, c2⟩ := res
          rw [hx] at h
          simp only [Option.map_some'] at h
          have g1 := http_parse_request_buf F H c c2 p p2 e2 hx
          obtain ⟨g2, -⟩ := http_parse_request_cases F H c c2 p p2 e2 hx
          have g3 : c2.arg = c.arg := (Conn.transport_part_fields g2).1
          by_cases he : e2 = ERR_OK
          · rw [if_pos he] at h
            split_ifs at h
            · exact hsend c2 g1 g3 h
            · simp only [Option.some.injEq, Prod.mk.injEq] at h
              obtain ⟨-, hc⟩ := h
              subst hc
              exact hkeep c2 g1 g3
          · rw [if_neg he] at h
            split_ifs at h
            · simp only [Option.some.injEq, Prod.mk.injEq] at h
              obtain ⟨-, hc⟩ := h
              subst hc
              exact ⟨(http_close_conn_buf T c2).1.trans (Conn.buf_part_fields g1).2,
                Or.inl (http_close_conn_buf T c2).2⟩
            · simp only [Option.some.injEq, Prod.mk.injEq] at h
              obtain ⟨-, hc⟩ := h
              subst hc
              exact hkeep c2 g1 g3
      · rw [if_neg hh] at h
        simp only [] at h
        rw [if_neg (by decide), if_neg (by decide)] at h
        simp only [Option.some.injEq, Prod.mk.injEq] at h
        obtain ⟨-, hc⟩ := h
        subst hc
        exact hkeep c rfl rfl

theorem http_sent_buf {σ : Type} (T : Tcp σ) (F : WebFS) (c c1 : Conn σ) (e : err_t)
    (hinv : c.arg = false ∨ c.hs.buf ≠ none) (h : http_sent T F c = some (e, c1)) :
    c1.hs.buf_len = c.hs.buf_len ∧ (c1.arg = false ∨ c1.hs.buf ≠ none) := by
  unfold http_sent at h
  split_ifs at h with ha
  · simp only [Option.some.injEq, Prod.mk.injEq] at h
    obtain ⟨-, hc⟩ := h
    subst hc
    exact ⟨rfl, hinv⟩
  · cases hs : http_send_data T F { c with hs := { c.hs with retries := 0 } } with
    | none => rw [hs] at h; simp at h
    | some res =>
      obtain ⟨r, c3⟩ := res
      rw [hs] at h
      simp only [Option.map_some', Option.some.injEq, Prod.mk.injEq] at h
      obtain ⟨-, hc⟩ := h
      subst hc
      have g := http_send_data_buf T F { c with hs := { c.hs with retries := 0 } } c3 r hinv hs
      exact g

theorem http_poll_buf {σ : Type} (T : Tcp σ) (F : WebFS) (c c1 : Conn σ) (e : err_t)
    (hinv : c.arg = false ∨ c.hs.buf ≠ none) (h : http_poll T F c = some (e, c1)) :
    c1.hs.buf_len = c.hs.buf_len ∧ (c1.arg = false ∨ c1.hs.buf ≠ none) := by
  unfold http_poll at h
  by_cases ha : c.arg = true
  · rw [if_neg (by simp [ha])] at h
    simp only [] at h
    by_cases hm : (c.hs.retries + 1) % 256 = HTTPD_MAX_RETRIES
    · rw [if_pos hm] at h
      simp only [Option.some.injEq, Prod.mk.injEq] at h
      obtain ⟨-, hc⟩ := h
      subst hc
      exact ⟨(http_close_conn_buf T _).1, Or.inl (http_close_conn_buf T _).2⟩
    · rw [if_neg hm] at h
      by_cases hh : c.hs.handle ≠ none
      · rw [if_pos hh] at h
        cases hs : http_send_data T F
            { c with hs := { c.hs with retries := (c.hs.retries + 1) % 256 } } with
        | none => rw [hs] at h; simp at h
        | some res =>
          obtain ⟨r, c3⟩ := res
          rw [hs] at h
          simp only [Option.map_some', Option.some.injEq, Prod.mk.injEq] at h
          obtain ⟨-, hc⟩ := h
          subst hc
          have g := http_send_data_buf T F
            { c with hs := { c.hs with retries := (c.hs.retries + 1) % 256 } } c3 r hinv hs
          exact g
      · rw [if_neg hh] at h
        simp only [Option.some.injEq, Prod.mk.injEq] at h
        obtain ⟨-, hc⟩ := h
        subst hc
        exact ⟨rfl, hinv⟩
  · have ha0 : c.arg = false := by
      cases hx : c.arg with
      | true => exact absurd hx ha
      | false => rfl
    rw [if_pos (by simp [ha0])] at h
    simp only [Option.some.injEq, Prod.mk.injEq] at h
    obtain ⟨-, hc⟩ := h
    subst hc
    obtain ⟨g1, g2⟩ := http_close_conn_null_buf T c
    exact ⟨by rw [g1], Or.inl g2⟩

/-- No event changes `buf_len` once the read buffer is there. -/
theorem http_events_buf {σ : Type} (T : Tcp σ) (F : WebFS) (H : HeaderTables) :
    ∀ (evs : List Event) (c c1 : Conn σ), (c.arg = false ∨ c.hs.buf ≠ none) →
      http_events T F H evs c = some c1 → c1.hs.buf_len = c.hs.buf_len := by
  intro evs
  induction evs with
  | nil =>
    intro c c1 _ h
    unfold http_events at h
    simp only [Option.some.injEq] at h
    subst h
    rfl
  | cons ev rest ih =>
    intro c c1 hinv h
    cases ev with
    | err =>
      unfold http_events at h
      simp only [Option.some.injEq] at h
      subst h
      unfold http_err http_state_free
      split_ifs <;> rfl
    | recv p e =>
      unfold http_events at h
      cases hx : http_recv T F H c p e with
      | none => rw [hx] at h; simp at h
      | some res =>
        obtain ⟨e2, c2⟩ := res
        rw [hx] at h
        simp only [] at h
        obtain ⟨g1, g2⟩ := http_recv_buf T F H c c2 p e e2 hinv hx
        exact (ih c2 c1 g2 h).trans g1
    | sent =>
      unfold http_events at h
      cases hx : http_sent T F c with
      | none => rw [hx] at h; simp at h
      | some res =>
        obtain ⟨e2, c2⟩ := res
        rw [hx] at h
        simp only [] at h
        obtain ⟨g1, g2⟩ := http_sent_buf T F c c2 e2 hinv hx
        exact (ih c2 c1 g2 h).trans g1
    | poll =>
      unfold http_events at h
      cases hx : http_poll T F c with
      | none => rw [hx] at h; simp at h
      | some res =>
        obtain ⟨e2, c2⟩ := res
        rw [hx] at h
        simp only [] at h
        obtain ⟨g1, g2⟩ := http_poll_buf T F c c2 e2 hinv hx
        exact (ih c2 c1 g2 h).trans g1

/-- More passes than `count` are never needed by the allocation loop. -/
theorem http_send_alloc_fuel {σ : Type} (T : Tcp σ) :
    ∀ (fuel : Nat) (pcb : σ) (count : Nat), count ≤ fuel →
      http_send_alloc T (fuel + 1) pcb count = http_send_alloc T fuel pcb count := by
  intro fuel
  induction fuel with
  | zero =>
    intro pcb count hc
    have h0 : count = 0 := by omega
    subst h0
    unfold http_send_alloc
    simp
  | succ f ih =>
    intro pcb count hc
    rw [http_send_alloc]
    conv_rhs => rw [http_send_alloc]
    split_ifs with h1 h2
    · rfl
    · exact ih _ _ (by omega)
    · rfl

/-- C30, counterexample: with a segment size of 536 and two failed
allocations the read buffer gets 268 bytes, which is not a multiple of the
segment size; with a segment size of 40 the first size tried, 80, is below
100. -/
theorem http_send_data_buffer_size_not_segment_multiple :
    (http_send_data (tcpMalloc 536) streamFS (conn_streaming 2)).map
        (fun r => (r.1, r.2.hs.buf_len, r.2.arg)) = some (1, 268, true) ∧
    (268 : Int) % 536 ≠ 0 ∧
    (http_send_data (tcpMalloc 40) streamFS (conn_streaming 0)).map
        (fun r => (r.1, r.2.hs.buf_len, r.2.arg)) = some (1, 80, true) := by
  refine ⟨by decide!, by decide, by decide!⟩

/-- C30: the read buffer of `http_send_data` (lines 704-725).  (1) The
allocation loop first asks for `count` bytes and takes them if it gets them;
after a failure it goes on with `count / 2` if that is above 100 and gives up
otherwise; `count` passes are always enough.  (2) `buf_len` is assigned by
lines 683-775 only when `hs->buf` was `NULL`, and the size recorded is
`2 * mss` halved `i` times, at most `2 * mss`, and above 100 unless it is
`2 * mss` itself; it need not be a multiple of `mss`.  (3) When every
allocation fails the call returns 0 and the connection is left as it was,
not closed.  (4) Once the buffer is there no event changes `buf_len`. -/
theorem http_send_data_read_buffer_size {σ : Type} (T : Tcp σ) (F : WebFS) (H : HeaderTables)
    (c : Conn σ) (d : Bool) :
    ((∀ (fuel : Nat) (pcb : σ) (count : Nat), (T.mem_malloc pcb count).1 = true →
        http_send_alloc T fuel pcb count = (some count, (T.mem_malloc pcb count).2)) ∧
      (∀ (fuel : Nat) (pcb : σ) (count : Nat), (T.mem_malloc pcb count).1 = false →
        100 < count / 2 →
        http_send_alloc T (fuel + 1) pcb count
          = http_send_alloc T fuel (T.mem_malloc pcb count).2 (count / 2)) ∧
      (∀ (fuel : Nat) (pcb : σ) (count : Nat), (T.mem_malloc pcb count).1 = false →
        count / 2 ≤ 100 →
        http_send_alloc T fuel pcb count = (none, (T.mem_malloc pcb count).2)) ∧
      (∀ (pcb : σ) (count : Nat),
        http_send_alloc T (count + 1) pcb count = http_send_alloc T count pcb count)) ∧
    (∀ (r : Nat) (c1 : Conn σ), http_send_body T F c d = some (r, c1) →
      c1.hs.buf_len ≠ c.hs.buf_len →
      c.hs.buf = none ∧
      ∃ (n i : Nat), c1.hs.buf_len = (n : Int) ∧ n = 2 * tcp_mss T c.pcb / 2 ^ i ∧
        (i = 0 ∨ 100 < n) ∧ n ≤ 2 * tcp_mss T c.pcb) ∧
    (∀ (hd : webfs_file) (pcb1 : σ), c.hs.left = 0 → c.hs.handle = some hd →
      0 < F.webfs_bytes_left hd → c.hs.buf = none →
      http_send_alloc T (2 * tcp_mss T c.pcb) c.pcb (2 * tcp_mss T c.pcb) = (none, pcb1) →
      http_send_body T F c d = some (0, { c with pcb := pcb1 })) ∧
    (∀ (evs : List Event) (c1 : Conn σ), (c.arg = false ∨ c.hs.buf ≠ none) →
      http_events T F H evs c = some c1 → c1.hs.buf_len = c.hs.buf_len) := by
  refine ⟨⟨fun fuel pcb count h => http_send_alloc_first T fuel pcb count h,
    fun fuel pcb count h h2 => http_send_alloc_halve T fuel pcb count h h2,
    fun fuel pcb count h h2 => http_send_alloc_floor T fuel pcb count h h2,
    fun pcb count => http_send_alloc_fuel T count pcb count (le_refl _)⟩, ?_, ?_,
    fun evs c1 hinv h => http_events_buf T F H evs c c1 hinv h⟩
  · intro r c1 h hne
    rcases (http_send_body_buf T F c c1 d r h).1 with e | ⟨hb, n, pcb1, ha, hn⟩
    · exact absurd e hne
    · obtain ⟨i, hi, hfl⟩ := http_send_alloc_size T _ _ _ n pcb1 ha
      refine ⟨hb, n, i, hn, hi, hfl, ?_⟩
      rw [hi]
      exact Nat.div_le_self _ _
  · intro hd pcb1 hl hh hbl hb ha
    unfold http_send_body
    rw [if_pos hl, hh]
    simp only []
    rw [if_neg (by omega), hb]
    simp only []
    rw [ha]

/-- C30, witness: four failed allocations with a segment size of 536 (the
sizes 1072, 536, 268 and 134 are tried); the call returns 0 and the
connection is not closed. -/
theorem http_send_data_read_buffer_size_witness :
    http_send_alloc (tcpMalloc 536) (2 * tcp_mss (tcpMalloc 536) (conn_streaming 4).pcb)
        (conn_streaming 4).pcb (2 * tcp_mss (tcpMalloc 536) (conn_streaming 4).pcb)
      = (none, 0) ∧
    http_send_body (tcpMalloc 536) streamFS (conn_streaming 4) false
      = some (0, { conn_streaming 4 with pcb := 0 }) ∧
    ({ conn_streaming 4 with pcb := 0 } : Conn Nat).arg = true ∧
    ({ conn_streaming 4 with pcb := 0 } : Conn Nat).closes = 0 :=
  ⟨by decide,
    (http_send_data_read_buffer_size (tcpMalloc 536) streamFS demoTables (conn_streaming 4)
      false).2.2.1 { data := none, len := 0, http_header_included := false, priv := 300 } 0
      (by decide) (by decide) (by decide) (by decide) (by decide),
    by decide, by decide⟩

/-- C21, witness: five bytes are left on `conn_body`, the send buffer holds
2000 bytes and the segment size is 536: the length requested is 5. -/
theorem http_send_data_body_write_length_witness :
    min (min (tcp_sndbuf (tcpScript 2000) conn_body.pcb) conn_body.hs.left)
      (2 * tcp_mss (tcpScript 2000) conn_body.pcb) = 5 ∧
    (http_write (tcpScript 2000) conn_body.pcb (conn_body.hs.file.getD [])
        (min (min (tcp_sndbuf (tcpScript 2000) conn_body.pcb) conn_body.hs.left)
          (2 * tcp_mss (tcpScript 2000) conn_body.pcb))).attempts.head?
      = some (min (min (tcp_sndbuf (tcpScript 2000) conn_body.pcb) conn_body.hs.left)
          (2 * tcp_mss (tcpScript 2000) conn_body.pcb)) ∧
    (∀ a ∈ (http_write (tcpScript 2000) conn_body.pcb (conn_body.hs.file.getD [])
        (min (min (tcp_sndbuf (tcpScript 2000) conn_body.pcb) conn_body.hs.left)
          (2 * tcp_mss (tcpScript 2000) conn_body.pcb))).attempts,
      a ≤ tcp_sndbuf (tcpScript 2000) conn_body.pcb ∧ a ≤ conn_body.hs.left ∧
        a ≤ 2 * tcp_mss (tcpScript 2000) conn_body.pcb) :=
  ⟨by decide, (http_send_data_body_write_length (tcpScript 2000) demoFS conn_body false).2⟩

/-! ## What strnstr finds -/

theorem StrnstrAt_cons_zero (tok : List Char) (c : Char) (rest : List Char) (n : Nat)
    (hp : tok <+: c :: rest) (hn : tok.length ≤ n) : StrnstrAt (c :: rest) tok n 0 :=
  ⟨by simpa using hp, by simpa using hn, fun j hj => absurd hj (by omega), by simp⟩

theorem StrnstrAt_cons_succ (tok : List Char) (c : Char) (rest : List Char) (n i : Nat)
    (hc : c ≠ NUL) (hp : ¬ tok <+: c :: rest) (hn : 1 ≤ n) :
    StrnstrAt (c :: rest) tok n (i + 1) ↔ StrnstrAt rest tok (n - 1) i := by
  unfold StrnstrAt
  simp only [List.drop_succ_cons, List.take_succ_cons, List.mem_cons, forall_eq_or_imp]
  constructor
  · rintro ⟨h1, h2, h3, -, h5⟩
    refine ⟨h1, by omega, fun j hj => ?_, h5⟩
    have := h3 (j + 1) (by omega)
    simpa using this
  · rintro ⟨h1, h2, h3, h4⟩
    refine ⟨h1, by omega, fun j hj => ?_, hc, h4⟩
    cases j with
    | zero => simpa using hp
    | succ k =>
      have := h3 k (by omega)
      simpa using this

/-- The loop of `strnstr` returns `off + i` exactly when the token is found
at offset `i` of what is left of the buffer. -/
theorem strnstr_loop_iff (tok : List Char) (htok : ∀ c ∈ tok, c ≠ NUL) (hne : tok ≠ []) :
    ∀ (buf : List Char) (n off r : Nat),
      strnstr_loop tok buf n off = some r ↔ ∃ i, r = off + i ∧ StrnstrAt buf tok n i := by
  intro buf
  induction buf with
  | nil =>
    intro n off r
    rw [strnstr_loop]
    constructor
    · intro h; simp at h
    · rintro ⟨i, -, h1, -⟩
      simp only [List.drop_nil, List.prefix_nil] at h1
      exact absurd h1 hne
  | cons c rest ih =>
    intro n off r
    rw [strnstr_loop_cons]
    have hlen : 1 ≤ tok.length := by
      cases tok with
      | nil => exact absurd rfl hne
      | cons _ _ => simp
    by_cases hcond : (c != NUL && decide (tok.length ≤ n)) = true
    · rw [if_pos hcond]
      simp only [Bool.and_eq_true, bne_iff_ne, ne_eq, decide_eq_true_eq] at hcond
      obtain ⟨hc, hn⟩ := hcond
      by_cases hp : tok <+: c :: rest
      · have hhead : tok.head? = some c := by
          cases tok with
          | nil => exact absurd rfl hne
          | cons t ts =>
            have := (List.cons_prefix_cons.mp hp).1
            simp [this]
        have hcmp := (strncmp_eq_iff_starts tok htok (c :: rest)).mpr hp
        rw [if_pos (by simp [hhead, hcmp])]
        constructor
        · intro h
          simp only [Option.some.injEq] at h
          exact ⟨0, by omega, StrnstrAt_cons_zero tok c rest n hp hn⟩
        · rintro ⟨i, hr, h1, h2, h3, h4⟩
          cases i with
          | zero => simp [hr]
          | succ k =>
            have := h3 0 (by omega)
            simp only [List.drop_zero] at this
            exact absurd hp this
      · have hcmp : strncmp_eq (c :: rest) tok tok.length = false := by
          have := (strncmp_eq_iff_starts tok htok (c :: rest)).not.mpr hp
          simpa using this
        rw [if_neg (by simp [hcmp]), ih (n - 1) (off + 1) r]
        constructor
        · rintro ⟨i, hr, hi⟩
          exact ⟨i + 1, by omega,
            (StrnstrAt_cons_succ tok c rest n i hc hp (by omega)).mpr hi⟩
        · rintro ⟨i, hr, hi⟩
          cases i with
          | zero =>
            obtain ⟨h1, -⟩ := hi
            simp only [List.drop_zero] at h1
            exact absurd h1 hp
          | succ k =>
            exact ⟨k, by omega, (StrnstrAt_cons_succ tok c rest n k hc hp (by omega)).mp hi⟩
    · rw [if_neg hcond]
      constructor
      · intro h; simp at h
      · rintro ⟨i, -, h1, h2, h3, h4⟩
        exfalso
        apply hcond
        simp only [Bool.and_eq_true, bne_iff_ne, ne_eq, decide_eq_true_eq]
        constructor
        · cases i with
          | zero =>
            simp only [List.drop_zero] at h1
            cases tok with
            | nil => exact absurd rfl hne
            | cons t ts =>
              have := (List.cons_prefix_cons.mp h1).1
              rw [← this]
              exact htok t (List.mem_cons_self _ _)
          | succ k => exact h4 c (by simp)
        · omega

theorem strnstr_iff (buffer tok : List Char) (n : Nat) (htok : ∀ c ∈ tok, c ≠ NUL)
    (hne : tok ≠ []) (i : Nat) :
    strnstr buffer tok n = some i ↔ StrnstrAt buffer tok n i := by
  unfold strnstr
  rw [if_neg (by simpa using hne), strnstr_loop_iff tok htok hne buffer n 0 i]
  constructor
  · rintro ⟨k, hk, h⟩
    have : i = k := by omega
    rw [this]
    exact h
  · intro h
    exact ⟨i, by omega, h⟩

theorem strnstr_none_iff (buffer tok : List Char) (n : Nat) (htok : ∀ c ∈ tok, c ≠ NUL)
    (hne : tok ≠ []) :
    strnstr buffer tok n = none ↔ ∀ i, ¬ StrnstrAt buffer tok n i := by
  constructor
  · intro h i hi
    rw [(strnstr_iff buffer tok n htok hne i).mpr hi] at h
    simp at h
  · intro h
    cases hx : strnstr buffer tok n with
    | none => rfl
    | some i => exact absurd ((strnstr_iff buffer tok n htok hne i).mp hx) (h i)

/-- C33, counterexample: the token `bc` stands at offset 2 of the four bytes
`a`, NUL, `b`, `c`, yet `strnstr` returns `NULL`: the loop of line 358 ends at
the NUL byte. -/
theorem strnstr_stops_at_NUL :
    strnstr ['a', NUL, 'b', 'c'] "bc".toList 4 = none ∧
    "bc".toList <+: (['a', NUL, 'b', 'c'] : List Char).drop 2 ∧ 2 + "bc".toList.length ≤ 4 := by
  decide

/-- C33 (amended): `strnstr(buffer, token, n)` for a token that is not empty
returns the offset `i` exactly when the token stands at `i` with
`i + len(token) <= n`, stands at no smaller offset, and no NUL byte precedes
it; it returns `NULL` exactly when there is no such offset.  So on a buffer
whose first `n` bytes hold no NUL it returns the smallest offset at which the
token stands within the first `n` bytes, and `NULL` exactly when it stands
nowhere there; a NUL byte before the first occurrence ends the search.  For
the empty token it returns `buffer`. -/
theorem strnstr_first_match_before_NUL (buffer token : List Char) (n : Nat)
    (htok : ∀ c ∈ token, c ≠ NUL) (hne : token ≠ []) :
    (∀ i, strnstr buffer token n = some i ↔
      (token <+: buffer.drop i ∧ i + token.length ≤ n ∧
        (∀ j, j < i → ¬ token <+: buffer.drop j) ∧ ∀ c ∈ buffer.take i, c ≠ NUL)) ∧
    (strnstr buffer token n = none ↔
      ∀ i, ¬ (token <+: buffer.drop i ∧ i + token.length ≤ n ∧
        (∀ j, j < i → ¬ token <+: buffer.drop j) ∧ ∀ c ∈ buffer.take i, c ≠ NUL)) ∧
    ((∀ c ∈ buffer.take n, c ≠ NUL) →
      (strnstr buffer token n = none ↔
        ∀ i, i + token.length ≤ n → ¬ token <+: buffer.drop i)) ∧
    (∀ m, strnstr buffer [] m = some 0) := by
  refine ⟨fun i => strnstr_iff buffer token n htok hne i,
    strnstr_none_iff buffer token n htok hne, fun hnul => ?_, fun m => rfl⟩
  rw [strnstr_none_iff buffer token n htok hne]
  constructor
  · intro h i hi hp
    have hex : ∃ k, token <+: buffer.drop k ∧ k + token.length ≤ n := ⟨i, hp, hi⟩
    classical
    have hmin := Nat.find_spec hex
    apply h (Nat.find hex)
    refine ⟨hmin.1, hmin.2, fun j hj hpj => ?_, fun c hc => ?_⟩
    · exact Nat.find_min hex hj ⟨hpj, by omega⟩
    · apply hnul c
      have hle : Nat.find hex ≤ n := by omega
      exact (List.take_subset_take_left buffer hle) hc
  · intro h i hi
    exact h i hi.2.1 hi.1

/-- C33, witness: the CRLF of `GET / HTTP/1.0` stands at offset 14. -/
theorem strnstr_first_match_before_NUL_witness :
    strnstr "GET / HTTP/1.0\r\n".toList CRLF 16 = some 14 ∧
    (strnstr "GET / HTTP/1.0\r\n".toList CRLF 16 = some 14 ↔
      (CRLF <+: "GET / HTTP/1.0\r\n".toList.drop 14 ∧ 14 + CRLF.length ≤ 16 ∧
        (∀ j, j < 14 → ¬ CRLF <+: "GET / HTTP/1.0\r\n".toList.drop j) ∧
        ∀ c ∈ "GET / HTTP/1.0\r\n".toList.take 14, c ≠ NUL)) :=
  ⟨by decide,
    (strnstr_first_match_before_NUL "GET / HTTP/1.0\r\n".toList CRLF 16 (by decide)
      (by decide)).1 14⟩

/-! ## The end of the URI -/

/-- The method test of `http_parse_request` on a buffer in which `strnstr`
finds a CRLF. -/
theorem http_parse_request_method_of_crlf {σ : Type} (F : WebFS) (H : HeaderTables) (c : Conn σ)
    (data : List Char) (next : pbuf) (i : Nat) (hh : c.hs.handle = none) (hf : c.hs.file = none)
    (hlen7 : 7 ≤ data.length) (hlen : data.length < U16)
    (hi : strnstr data CRLF data.length = some i) :
    http_parse_request F H c (data :: next) =
      if "GET ".toList <+: data then
        http_parse_uri F H (parse_start c data) (data :: next) data.length false 3
      else if "POST ".toList <+: data then
        http_parse_uri F H (parse_start c data) (data :: next) data.length true 4
      else
        some (ERR_ARG, data :: next,
          { parse_start c (data.set 4 NUL) with error_file := c.error_file ++ [501] }) := by
  have hidle : ¬ (c.hs.handle ≠ none ∨ c.hs.file ≠ none) := by simp [hh, hf]
  unfold http_parse_request
  simp only [List.headD_cons]
  rw [if_neg hidle, pbuf_len_cons data next hlen, if_pos (by unfold MIN_REQ_LEN; exact hlen7), hi]
  simp only []
  by_cases hg : "GET ".toList <+: data
  · rw [if_pos hg, if_pos ((strncmp_GET data).mpr hg)]
    rfl
  · rw [if_neg hg, if_neg (by rw [strncmp_GET]; exact hg)]
    by_cases hp : "POST ".toList <+: data
    · rw [if_pos hp, if_pos ((strncmp_POST data).mpr hp)]
      rfl
    · rw [if_neg hp, if_neg (by rw [strncmp_POST]; exact hp)]
      rfl

/-- A CRLF that `strnstr` finds in a buffer starting with `GET ` is also found
by the search that starts behind the method. -/
theorem strnstr_CRLF_behind_GET (rest : List Char) (n i : Nat)
    (hi : strnstr ("GET ".toList ++ rest) CRLF n = some i) :
    4 ≤ i ∧ ∃ k, k ≤ i - 4 ∧ strnstr rest CRLF (n - 4) = some k := by
  obtain ⟨h1, h2, h3, h4⟩ := (strnstr_iff _ CRLF n CRLF_ne_NUL (by decide) i).mp hi
  have h4i : 4 ≤ i := by
    by_contra hlt
    have hc : i = 0 ∨ i = 1 ∨ i = 2 ∨ i = 3 := by omega
    rcases hc with e | e | e | e <;> subst e <;> simp [CRLF] at h1
  refine ⟨h4i, ?_⟩
  obtain ⟨j, rfl⟩ : ∃ j, i = 4 + j := ⟨i - 4, by omega⟩
  have hd : ("GET ".toList ++ rest).drop (4 + j) = rest.drop j := by
    rw [← List.drop_drop]
    simp
  rw [hd] at h1
  have hpre : ∀ c ∈ rest.take j, c ≠ NUL := by
    intro c hc
    apply h4 c
    have : ("GET ".toList ++ rest).take (4 + j) = "GET ".toList ++ rest.take j := by
      rw [Nat.add_comm]
      rfl
    rw [this]
    exact List.mem_append_right _ hc
  have hjl : j + 2 ≤ rest.length := by
    have := h1.length_le
    simp only [List.length_drop, CRLF, List.length_cons, List.length_nil] at this
    omega
  have hlen : (rest.take j).length = j := by
    rw [List.length_take]
    omega
  obtain ⟨k, hk⟩ := strnstr_loop_some CRLF CRLF_ne_NUL (by decide) (rest.take j) (rest.drop j)
    (n - 4) 0 hpre h1 (by
      rw [hlen]
      simp only [CRLF, List.length_cons, List.length_nil] at h2 ⊢
      omega)
  rw [List.take_append_drop] at hk
  have hk' : strnstr rest CRLF (n - 4) = some k := by
    unfold strnstr
    rw [if_neg (by decide)]
    exact hk
  refine ⟨k, ?_, hk'⟩
  obtain ⟨g1, -, g3, -⟩ := (strnstr_iff rest CRLF (n - 4) CRLF_ne_NUL (by decide) k).mp hk'
  by_contra hgt
  have : j < k := by omega
  exact g3 j this h1

theorem http_find_file_error_file {σ : Type} (F : WebFS) (H : HeaderTables) (c c1 : Conn σ)
    (uri : cptr) (is_09 : Bool) (e : err_t)
    (h : http_find_file F H c uri is_09 = some (e, c1)) :
    c1.error_file = c.error_file := by
  unfold http_find_file at h
  split at h
  · simp at h
  · rename_i cq hq
    obtain ⟨-, -, -, -, -, -, q7⟩ := http_find_file_params_frame c cq uri hq
    simp only [] at h
    split at h
    · have g := http_init_file_transport H _ c1 _ _ _ e h
      rw [g]
      exact q7
    · have g := http_init_file_transport H _ c1 _ _ _ e h
      rw [g, http_get_404_file_frame]
      exact q7

/-- C36: on a buffer of at least 7 bytes that starts with `GET ` and in which
`strnstr` finds a CRLF, the search for the end of the URI succeeds: a space
is found behind the method, or else (HTTP/0.9) the CRLF is found again by the
search that starts behind the method.  So `http_parse_request` goes on to
`http_find_file` with the URI at offset 4, ended at offset `4 + k`; it never
takes the `invalid URI` branch, and whenever it returns it returns `ERR_OK`
with no error status recorded.  For `POST ` the end of the URI is the space
found, unless none is found and the request is a bad request. -/
theorem http_parse_request_get_uri_delimiter_found {σ : Type} (F : WebFS) (H : HeaderTables)
    (c : Conn σ) (data : List Char) (next : pbuf) (i : Nat)
    (hh : c.hs.handle = none) (hf : c.hs.file = none)
    (hlen7 : 7 ≤ data.length) (hlen : data.length < U16) (hget : "GET ".toList <+: data)
    (hi : strnstr data CRLF data.length = some i) :
    (∃ (k : Nat) (is_09 : Bool),
      ((strnstr (data.drop 4) [' '] (data.length - 4) = some k ∧ is_09 = false) ∨
        (strnstr (data.drop 4) [' '] (data.length - 4) = none ∧
          strnstr (data.drop 4) CRLF (data.length - 4) = some k ∧ is_09 = true)) ∧
      http_parse_request F H c (data :: next)
        = (http_find_file F H
            { parse_start c data with req := (data.set 3 NUL).set (4 + k) NUL }
            (cptr.mem Region.req 4) is_09).map (fun r => (r.1, data :: next, r.2))) ∧
    (∀ (e : err_t) (p1 : pbuf) (c1 : Conn σ),
      http_parse_request F H c (data :: next) = some (e, p1, c1) →
      e = ERR_OK ∧ c1.error_file = c.error_file) ∧
    (∀ (c0 : Conn σ) (p : pbuf) (data_len sp1 : Nat),
      (strnstr (c0.req.drop (sp1 + 1)) [' '] ((data_len + U16 - (sp1 + 1)) % U16) = none →
        http_parse_uri F H c0 p data_len true sp1 = http_bad_request c0 p) ∧
      (∀ k, strnstr (c0.req.drop (sp1 + 1)) [' '] ((data_len + U16 - (sp1 + 1)) % U16) = some k →
        http_parse_uri F H c0 p data_len true sp1
          = match http_post_request F H
              { c0 with
                req := (c0.req.set sp1 NUL).set (sp1 + 1 + k) NUL
                hs := { c0.hs with req_info := { c0.hs.req_info with is_post := 1 } } }
              (p.drop 1) data_len (sp1 + 1) (sp1 + 1 + k) p with
            | none => none
            | some (err, inp, c3) =>
              if err = ERR_ARG then
                http_bad_request
                  (if err ≠ ERR_OK then
                    { c3 with
                      req := ((c3.req.set sp1 ' ').set (sp1 + 1 + k) ' ').set (sp1 + 1 + k) ' ' }
                  else c3) inp
              else
                some (err, inp,
                  if err ≠ ERR_OK then
                    { c3 with
                      req := ((c3.req.set sp1 ' ').set (sp1 + 1 + k) ' ').set (sp1 + 1 + k) ' ' }
                  else c3))) := by
  have hll : (data.length + U16 - (3 + 1)) % U16 = data.length - 4 := by
    have : data.length + U16 - (3 + 1) = (data.length - 4) + U16 := by omega
    rw [this, Nat.add_mod_right, Nat.mod_eq_of_lt (by omega)]
  obtain ⟨rest, hrest⟩ := hget
  have hdrop : data.drop 4 = rest := by
    rw [← hrest]
    rfl
  have hcr : ∃ k, strnstr (data.drop 4) CRLF (data.length - 4) = some k := by
    have hi2 : strnstr ("GET ".toList ++ rest) CRLF data.length = some i := by
      rw [hrest]
      exact hi
    obtain ⟨-, k, -, hk⟩ := strnstr_CRLF_behind_GET rest data.length i hi2
    exact ⟨k, by rw [hdrop]; exact hk⟩
  have hpr := http_parse_request_method_of_crlf F H c data next i hh hf hlen7 hlen hi
  rw [if_pos ⟨rest, hrest⟩] at hpr
  have hmain : ∃ (k : Nat) (is_09 : Bool),
      ((strnstr (data.drop 4) [' '] (data.length - 4) = some k ∧ is_09 = false) ∨
        (strnstr (data.drop 4) [' '] (data.length - 4) = none ∧
          strnstr (data.drop 4) CRLF (data.length - 4) = some k ∧ is_09 = true)) ∧
      http_parse_request F H c (data :: next)
        = (http_find_file F H
            { parse_start c data with req := (data.set 3 NUL).set (4 + k) NUL }
            (cptr.mem Region.req 4) is_09).map (fun r => (r.1, data :: next, r.2)) := by
    have hreq : (parse_start c data).req = data := rfl
    cases hsp : strnstr (data.drop 4) [' '] (data.length - 4) with
    | some k =>
      refine ⟨k, false, Or.inl ⟨rfl, rfl⟩, ?_⟩
      rw [hpr]
      unfold http_parse_uri
      simp only [hreq, hll, hsp]
      rfl
    | none =>
      obtain ⟨k, hk⟩ := hcr
      refine ⟨k, true, Or.inr ⟨rfl, hk, rfl⟩, ?_⟩
      rw [hpr]
      unfold http_parse_uri
      simp only [hreq, hll, hsp, hk]
      rfl
  refine ⟨hmain, ?_, ?_⟩
  · intro e p1 c1 h
    obtain ⟨k, is_09, -, heq⟩ := hmain
    rw [heq] at h
    cases hx : http_find_file F H
        { parse_start c data with req := (data.set 3 NUL).set (4 + k) NUL }
        (cptr.mem Region.req 4) is_09 with
    | none => rw [hx] at h; simp at h
    | some res =>
      obtain ⟨e2, c2⟩ := res
      rw [hx] at h
      simp only [Option.map_some', Option.some.injEq, Prod.mk.injEq] at h
      obtain ⟨he, -, hc⟩ := h
      subst hc
      subst he
      have g1 := (http_find_file_frame F H _ c2 _ _ e2 hx).1
      have g2 := http_find_file_error_file F H _ c2 _ _ e2 hx
      exact ⟨g1, g2⟩
  · intro c0 p data_len sp1
    constructor
    · intro hn
      unfold http_parse_uri
      simp only [hn]
      rfl
    · intro k hk
      unfold http_parse_uri
      simp only [hk]
      rfl

/-- C36, witness: `GET /index` CRLF, without a space behind the URI. -/
theorem http_parse_request_get_uri_delimiter_found_witness :
    strnstr "GET /index\r\n".toList CRLF "GET /index\r\n".toList.length = some 10 ∧
    ∃ (k : Nat) (is_09 : Bool),
      ((strnstr ("GET /index\r\n".toList.drop 4) [' '] ("GET /index\r\n".toList.length - 4)
          = some k ∧ is_09 = false) ∨
        (strnstr ("GET /index\r\n".toList.drop 4) [' '] ("GET /index\r\n".toList.length - 4)
          = none ∧
          strnstr ("GET /index\r\n".toList.drop 4) CRLF ("GET /index\r\n".toList.length - 4)
            = some k ∧ is_09 = true)) ∧
      http_parse_request demoFS demoTables (conn_accepted ([] : List err_t))
          ("GET /index\r\n".toList :: [])
        = (http_find_file demoFS demoTables
            { parse_start (conn_accepted ([] : List err_t)) "GET /index\r\n".toList with
              req := ("GET /index\r\n".toList.set 3 NUL).set (4 + k) NUL }
            (cptr.mem Region.req 4) is_09).map
            (fun r => (r.1, "GET /index\r\n".toList :: [], r.2)) :=
  ⟨by decide,
    (http_parse_request_get_uri_delimiter_found demoFS demoTables
      (conn_accepted ([] : List err_t)) "GET /index\r\n".toList [] 10 rfl rfl (by decide)
      (by decide) (by decide) (by decide)).1⟩

/-! ## The first pbuf of a POST -/

/-- The chain `pbuf_skip` and `pbuf_header` leave holds the bytes of the
chain behind the first `off`; it is `NULL` exactly when there are none. -/
theorem pbuf_skip_spec :
    ∀ (p : pbuf) (off : Nat), (∀ seg ∈ p, seg.length < U16) →
      (pbuf_header_hide (pbuf_skip p off).1 (pbuf_skip p off).2).flatten = p.flatten.drop off ∧
      ((pbuf_skip p off).1 = [] ↔ p.flatten.drop off = []) := by
  intro p
  induction p with
  | nil =>
    intro off _
    simp [pbuf_skip, pbuf_header_hide]
  | cons seg rest ih =>
    intro off hlen
    have hs : seg.length < U16 := hlen seg (List.mem_cons_self _ _)
    have hsl : seg_len seg = seg.length := by
      unfold seg_len
      exact Nat.mod_eq_of_lt hs
    have hrest : ∀ s ∈ rest, s.length < U16 := fun s h => hlen s (List.mem_cons_of_mem _ h)
    rw [pbuf_skip, hsl]
    by_cases hle : seg.length ≤ off
    · rw [if_pos hle]
      obtain ⟨i1, i2⟩ := ih (off - seg.length) hrest
      have hd : (seg :: rest).flatten.drop off = rest.flatten.drop (off - seg.length) := by
        rw [List.flatten_cons, List.drop_append_eq_append_drop, List.drop_eq_nil_of_le hle]
        rfl
      rw [hd]
      exact ⟨i1, i2⟩
    · rw [if_neg hle]
      have hd : (seg :: rest).flatten.drop off = seg.drop off ++ rest.flatten := by
        rw [List.flatten_cons, List.drop_append_of_le_length (by omega)]
      rw [hd]
      refine ⟨by simp [pbuf_header_hide], ?_⟩
      constructor
      · intro h; simp at h
      · intro h
        exfalso
        have := congrArg List.length h
        simp only [List.length_append, List.length_drop, List.length_nil] at this
        omega

/-- The end of the `Content-Length` line lies before the end of the blank-line
marker. -/
theorem content_length_end_lt_marker (mem : List Char) (n cc sl se : Nat)
    (hmarker : strnstr mem (CRLF ++ CRLF) n = some cc)
    (hcl : strnstr mem "Content-Length: ".toList cc = some sl)
    (hend : strnstr (mem.drop (sl + 16)) CRLF 10 = some se) :
    sl + 16 + se ≤ cc ∧ cc + 4 ≤ n ∧ (CRLF ++ CRLF) <+: mem.drop cc := by
  obtain ⟨m1, m2, -, -⟩ := (strnstr_iff mem (CRLF ++ CRLF) n (by decide) (by decide) cc).mp hmarker
  obtain ⟨-, c2, -, -⟩ :=
    (strnstr_iff mem "Content-Length: ".toList cc (by decide) (by decide) sl).mp hcl
  obtain ⟨-, -, e3, -⟩ := (strnstr_iff _ CRLF 10 CRLF_ne_NUL (by decide) se).mp hend
  have c2' : sl + 16 ≤ cc := by simpa using c2
  refine ⟨?_, by simpa [CRLF] using m2, m1⟩
  by_contra hgt
  have hj : cc - (sl + 16) < se := by omega
  apply e3 (cc - (sl + 16)) hj
  rw [List.drop_drop]
  have : sl + 16 + (cc - (sl + 16)) = cc := by omega
  rw [this]
  exact (List.prefix_append CRLF CRLF).trans m1

/-- `http_post_request` on a request with a blank-line marker and a positive
`Content-Length`, for a URI that is not empty (lines 944-986). -/
theorem http_post_request_accept_eq {σ : Type} (F : WebFS) (H : HeaderTables) (c : Conn σ)
    (next inp : pbuf) (data_len uri uri_end cc sl se : Nat)
    (hmarker : strnstr (c.req.drop (uri_end + 1)) (CRLF ++ CRLF) (data_len - (uri_end + 1))
      = some cc)
    (hcl : strnstr (c.req.drop (uri_end + 1)) "Content-Length: ".toList cc = some sl)
    (hend : strnstr (c.req.drop (uri_end + 1 + sl + 16)) CRLF 10 = some se)
    (hpos : 0 < atoi (cstring ((c.req.set (uri_end + 1 + sl + 16 + se) NUL).drop
      (uri_end + 1 + sl + 16))))
    (huri : cstring ((c.req.set (uri_end + 1 + sl + 16 + se) NUL).drop uri) ≠ [])
    (hlen : data_len < U16) :
    http_post_request F H c next data_len uri uri_end inp
      = match pbuf_skip ((c.req.set (uri_end + 1 + sl + 16 + se) NUL) :: next)
          (uri_end + 1 + cc + 4) with
        | ([], _) =>
          some (ERR_OK, [],
            { c with
              req := c.req.set (uri_end + 1 + sl + 16 + se) NUL
              http_post_response_filename := c.http_post_response_filename.set 0 NUL
              hs := { c.hs with
                      req_info := { c.hs.req_info with uri := cptr.mem Region.req uri }
                      post_content_len_left :=
                        ((atoi (cstring ((c.req.set (uri_end + 1 + sl + 16 + se) NUL).drop
                          (uri_end + 1 + sl + 16)))) % (U32 : Int)).toNat } })
        | (q, start_offset) =>
          (http_post_rxpbuf F H
            { c with
              req := c.req.set (uri_end + 1 + sl + 16 + se) NUL
              http_post_response_filename := c.http_post_response_filename.set 0 NUL
              hs := { c.hs with
                      req_info := { c.hs.req_info with uri := cptr.mem Region.req uri }
                      post_content_len_left :=
                        ((atoi (cstring ((c.req.set (uri_end + 1 + sl + 16 + se) NUL).drop
                          (uri_end + 1 + sl + 16)))) % (U32 : Int)).toNat } }
            (pbuf_header_hide q start_offset)).map (fun r => (r.1, [], r.2)) := by
  have hdd : (c.req.drop (uri_end + 1)).drop (sl + 16) = c.req.drop (uri_end + 1 + sl + 16) := by
    rw [List.drop_drop, Nat.add_assoc (uri_end + 1) sl 16]
  obtain ⟨-, k2, -⟩ := content_length_end_lt_marker (c.req.drop (uri_end + 1))
    (data_len - (uri_end + 1)) cc sl se hmarker hcl (by rw [hdd]; exact hend)
  have hmin : (min data_len (uri_end + 1 + cc + 4)) % U16 = uri_end + 1 + cc + 4 := by
    rw [Nat.min_eq_right (by omega), Nat.mod_eq_of_lt (by omega)]
  unfold http_post_request
  simp only [hmarker, hcl, hend, hmin]
  rw [if_pos hpos]
  have hb : ∀ (x : Conn σ), x.req = c.req.set (uri_end + 1 + sl + 16 + se) NUL →
      httpd_post_begin x (cptr.mem Region.req uri) = ERR_OK := by
    intro x hx
    unfold httpd_post_begin
    simp only [Conn.str, Conn.region, hx]
    rw [if_neg]
    simpa using huri
  rw [if_pos (hb _ rfl)]

theorem pbuf_tot_len_flatten (p : pbuf) (h : p.flatten.length < U16) :
    pbuf_tot_len p = p.flatten.length := by
  unfold pbuf_tot_len
  rw [List.length_flatten] at h ⊢
  exact Nat.mod_eq_of_lt h

/-- C31: `http_post_request` on the first pbuf chain of an accepted POST
(blank-line marker found `cc` bytes behind the URI, `Content-Length` value
`CL > 0`, URI not empty).  The marker ends at offset `uri_end + 1 + cc + 4` of
the first segment; `body` is all that follows it in the chain.  If `body` is
empty nothing is forwarded and `post_content_len_left` is `CL`.  Otherwise
the chain handed to `http_post_rxpbuf`, and by it to
`httpd_post_receive_data`, in this same call holds exactly the bytes of
`body`; whenever the call returns, the bytes forwarded are `body.length` more
and `post_content_len_left` is `CL - min(body.length, CL)`.  The call does
return when fewer than `CL` bytes are there. -/
theorem http_post_request_forwards_body {σ : Type} (F : WebFS) (H : HeaderTables) (c c3 : Conn σ)
    (next inp : pbuf) (data_len uri uri_end cc sl se : Nat) (CL : Int) (body : List Char)
    (hmarker : strnstr (c.req.drop (uri_end + 1)) (CRLF ++ CRLF) (data_len - (uri_end + 1))
      = some cc)
    (hcl : strnstr (c.req.drop (uri_end + 1)) "Content-Length: ".toList cc = some sl)
    (hend : strnstr (c.req.drop (uri_end + 1 + sl + 16)) CRLF 10 = some se)
    (hCL : CL = atoi (cstring ((c.req.set (uri_end + 1 + sl + 16 + se) NUL).drop
      (uri_end + 1 + sl + 16))))
    (hpos : 0 < CL) (hfit : CL < U32)
    (huri : cstring ((c.req.set (uri_end + 1 + sl + 16 + se) NUL).drop uri) ≠ [])
    (hdl : data_len = c.req.length) (htot : (c.req ++ next.flatten).length < U16)
    (hbody : body = (c.req ++ next.flatten).drop (uri_end + 1 + cc + 4))
    (hc3 : c3 = { c with
        req := c.req.set (uri_end + 1 + sl + 16 + se) NUL
        http_post_response_filename := c.http_post_response_filename.set 0 NUL
        hs := { c.hs with
                req_info := { c.hs.req_info with uri := cptr.mem Region.req uri }
                post_content_len_left := CL.toNat } }) :
    ((CRLF ++ CRLF) <+: c.req.drop (uri_end + 1 + cc) ∧
      uri_end + 1 + cc + 4 ≤ c.req.length) ∧
    (body = [] →
      http_post_request F H c next data_len uri uri_end inp = some (ERR_OK, [], c3)) ∧
    (body ≠ [] →
      ∃ q : pbuf, q.flatten = body ∧
        http_post_request F H c next data_len uri uri_end inp
          = (http_post_rxpbuf F H c3 q).map (fun r => (r.1, [], r.2)) ∧
        ∀ (e : err_t) (inp1 : pbuf) (c4 : Conn σ),
          http_post_request F H c next data_len uri uri_end inp = some (e, inp1, c4) →
          inp1 = [] ∧ c4.post_rx = c.post_rx + body.length ∧
          c4.hs.post_content_len_left = CL.toNat - min body.length CL.toNat) ∧
    (body.length < CL.toNat →
      ∃ c4, http_post_request F H c next data_len uri uri_end inp = some (ERR_OK, [], c4)) := by
  have hdd : (c.req.drop (uri_end + 1)).drop (sl + 16) = c.req.drop (uri_end + 1 + sl + 16) := by
    rw [List.drop_drop, Nat.add_assoc (uri_end + 1) sl 16]
  obtain ⟨k1, k2, k3⟩ := content_length_end_lt_marker (c.req.drop (uri_end + 1))
    (data_len - (uri_end + 1)) cc sl se hmarker hcl (by rw [hdd]; exact hend)
  have hlenreq : c.req.length < U16 := by
    simp only [List.length_append] at htot
    omega
  have hh : uri_end + 1 + cc + 4 ≤ c.req.length := by omega
  have hmod : ((atoi (cstring ((c.req.set (uri_end + 1 + sl + 16 + se) NUL).drop
      (uri_end + 1 + sl + 16)))) % (U32 : Int)).toNat = CL.toNat := by
    rw [← hCL, Int.emod_eq_of_lt (by omega) hfit]
  have heq := http_post_request_accept_eq F H c next inp data_len uri uri_end cc sl se hmarker
    hcl hend (by rw [← hCL]; exact hpos) huri (by omega)
  rw [hmod, ← hc3] at heq
  have hsegs : ∀ seg ∈ (c.req.set (uri_end + 1 + sl + 16 + se) NUL) :: next,
      seg.length < U16 := by
    intro seg hseg
    rcases List.mem_cons.mp hseg with h | h
    · rw [h, List.length_set]
      exact hlenreq
    · have := (List.sublist_flatten_of_mem h).length_le
      rw [List.length_append] at htot
      omega
  obtain ⟨s1, s2⟩ := pbuf_skip_spec _ (uri_end + 1 + cc + 4) hsegs
  have hfl : ((c.req.set (uri_end + 1 + sl + 16 + se) NUL) :: next).flatten.drop
      (uri_end + 1 + cc + 4) = body := by
    rw [hbody, List.flatten_cons]
    have hk : uri_end + 1 + sl + 16 + se < c.req.length := by omega
    have : c.req.set (uri_end + 1 + sl + 16 + se) NUL ++ next.flatten
        = (c.req ++ next.flatten).set (uri_end + 1 + sl + 16 + se) NUL := by
      rw [List.set_append, if_pos hk]
    rw [this, List.drop_set_of_lt _ _ (by omega)]
  rw [hfl] at s1 s2
  have hr3 : c3.hs.post_content_len_left = CL.toNat := by rw [hc3]
  have hr3lt : c3.hs.post_content_len_left < U32 := by
    rw [hr3]
    omega
  have hrx3 : c3.post_rx = c.post_rx := by rw [hc3]
  have hbl : body.length < U16 := by
    rw [hbody, List.length_drop]
    omega
  have hdone : body ≠ [] →
      ∃ q : pbuf, q.flatten = body ∧
        http_post_request F H c next data_len uri uri_end inp
          = (http_post_rxpbuf F H c3 q).map (fun r => (r.1, [], r.2)) := by
    intro hne
    refine ⟨_, s1, ?_⟩
    rw [heq]
    cases hps : pbuf_skip ((c.req.set (uri_end + 1 + sl + 16 + se) NUL) :: next)
        (uri_end + 1 + cc + 4) with
    | mk q so =>
      rw [hps] at s2
      cases q with
      | nil => exact absurd (s2.mp rfl) hne
      | cons a b => rfl
  refine ⟨⟨?_, hh⟩, ?_, ?_, ?_⟩
  · rw [List.drop_drop] at k3
    exact k3
  · intro hnil
    rw [heq]
    cases hps : pbuf_skip ((c.req.set (uri_end + 1 + sl + 16 + se) NUL) :: next)
        (uri_end + 1 + cc + 4) with
    | mk q so =>
      rw [hps] at s2
      have : q = [] := s2.mpr hnil
      subst this
      rfl
  · intro hne
    obtain ⟨q, hq, hcall⟩ := hdone hne
    refine ⟨q, hq, hcall, ?_⟩
    intro e inp1 c4 h
    rw [hcall] at h
    cases hx : http_post_rxpbuf F H c3 q with
    | none => rw [hx] at h; simp at h
    | some res =>
      obtain ⟨e2, c5⟩ := res
      rw [hx] at h
      simp only [Option.map_some', Option.some.injEq, Prod.mk.injEq] at h
      obtain ⟨-, hi, hc⟩ := h
      subst hc
      obtain ⟨g1, g2, -, -⟩ := http_post_rxpbuf_spec F H c3 c5 q e2 hr3lt hx
      have ht : pbuf_tot_len q = body.length := by
        rw [pbuf_tot_len_flatten q (by rw [hq]; exact hbl), hq]
      rw [ht, hr3] at g1
      rw [ht, hrx3] at g2
      exact ⟨hi.symm, g2, g1⟩
  · intro hlt
    by_cases hne : body = []
    · refine ⟨c3, ?_⟩
      rw [heq]
      cases hps : pbuf_skip ((c.req.set (uri_end + 1 + sl + 16 + se) NUL) :: next)
          (uri_end + 1 + cc + 4) with
      | mk q so =>
        rw [hps] at s2
        have : q = [] := s2.mpr hne
        subst this
        rfl
    · obtain ⟨q, hq, hcall⟩ := hdone hne
      have ht : pbuf_tot_len q = body.length := by
        rw [pbuf_tot_len_flatten q (by rw [hq]; exact hbl), hq]
      obtain ⟨c5, hx⟩ := http_post_rxpbuf_defined F H c3 q hr3lt (by rw [ht, hr3]; exact hlt)
      exact ⟨c5, by rw [hcall, hx]; rfl⟩

/-- C31, witness: `POST /ssid HTTP/1.0` with `Content-Length: 9` and the five
body bytes `hello` in the same pbuf: the marker ends at offset 42, the five
bytes are forwarded and four are awaited. -/
theorem http_post_request_forwards_body_witness :
    strnstr ((conn_post_ssid "Content-Length: 9\r\n\r\nhello".toList).req.drop (10 + 1))
      (CRLF ++ CRLF) (47 - (10 + 1)) = some 27 ∧
    (9 : Int) = atoi (cstring (((conn_post_ssid "Content-Length: 9\r\n\r\nhello".toList).req.set
      (10 + 1 + 10 + 16 + 1) NUL).drop (10 + 1 + 10 + 16))) ∧
    "hello".toList = ((conn_post_ssid "Content-Length: 9\r\n\r\nhello".toList).req
      ++ ([] : pbuf).flatten).drop (10 + 1 + 27 + 4) ∧
    (∃ q : pbuf, q.flatten = "hello".toList ∧
      http_post_request demoFS demoTables
          (conn_post_ssid "Content-Length: 9\r\n\r\nhello".toList) [] 47 5 10
          [(conn_post_ssid "Content-Length: 9\r\n\r\nhello".toList).req]
        = (http_post_rxpbuf demoFS demoTables
            { conn_post_ssid "Content-Length: 9\r\n\r\nhello".toList with
              req := (conn_post_ssid "Content-Length: 9\r\n\r\nhello".toList).req.set
                (10 + 1 + 10 + 16 + 1) NUL
              http_post_response_filename :=
                (conn_post_ssid "Content-Length: 9\r\n\r\nhello".toList).http_post_response_filename.set
                  0 NUL
              hs := { (conn_post_ssid "Content-Length: 9\r\n\r\nhello".toList).hs with
                      req_info :=
                        { (conn_post_ssid "Content-Length: 9\r\n\r\nhello".toList).hs.req_info with
                          uri := cptr.mem Region.req 5 }
                      post_content_len_left := (9 : Int).toNat } } q).map
            (fun r => (r.1, [], r.2)) ∧
      ∀ (e : err_t) (inp1 : pbuf) (c4 : Conn (List err_t)),
        http_post_request demoFS demoTables
            (conn_post_ssid "Content-Length: 9\r\n\r\nhello".toList) [] 47 5 10
            [(conn_post_ssid "Content-Length: 9\r\n\r\nhello".toList).req] = some (e, inp1, c4) →
        inp1 = [] ∧
        c4.post_rx = (conn_post_ssid "Content-Length: 9\r\n\r\nhello".toList).post_rx
          + "hello".toList.length ∧
        c4.hs.post_content_len_left
          = (9 : Int).toNat - min "hello".toList.length (9 : Int).toNat) ∧
    (http_post_request demoFS demoTables
        (conn_post_ssid "Content-Length: 9\r\n\r\nhello".toList) [] 47 5 10
        [(conn_post_ssid "Content-Length: 9\r\n\r\nhello".toList).req]).map
        (fun r => (r.1, r.2.2.post_rx, r.2.2.hs.post_content_len_left))
      = some (ERR_OK, 5, 4) :=
  ⟨by decide!, by decide!, by decide!,
    (http_post_request_forwards_body demoFS demoTables
      (conn_post_ssid "Content-Length: 9\r\n\r\nhello".toList) _ []
      [(conn_post_ssid "Content-Length: 9\r\n\r\nhello".toList).req] 47 5 10 27 10 1 9
      "hello".toList (by decide!) (by decide!) (by decide!) (by decide!) (by decide)
      (by decide) (by decide!) (by decide!) (by decide!) (by decide!) rfl).2.2.1 (by decide),
    by decide!⟩

/-! ## The status line -/

/-- `strstr` finds a token exactly when it occurs in the string. -/
theorem strstr_iff_infix (tok : List Char) :
    ∀ (s : List Char), strstr s tok = true ↔ tok <:+: s := by
  intro s
  induction s with
  | nil =>
    rw [strstr]
    simp [List.isEmpty_iff]
  | cons x xs ih =>
    rw [strstr, Bool.or_eq_true, ih, List.infix_cons_iff, List.isPrefixOf_iff_prefix]

/-- C32: the status line `get_http_headers` selects (lines 530-553).  For a
string `uri` it is the 404 line if `404` occurs in `uri`, else the 400 line if
`400` occurs, else the 501 line if `501` occurs, else the 200 line (`strstr`
finds a token exactly where it occurs); for the null URI it is the 404 line.
So `hdrs[0]` is always set, to one of these four lines.  The test reads the
whole string passed; at every call made through `http_find_file` that string
is the URI up to its first `'?'`. -/
theorem get_http_headers_status_line {σ : Type} (H : HeaderTables) (hs : http_state) :
    (∀ (uri : List Char),
      (get_http_headers H hs (some uri)).hdrs0
        = some (H.g_psHTTPHeaderStrings
            (if strstr uri "404".toList then H.HTTP_HDR_NOT_FOUND
             else if strstr uri "400".toList then H.HTTP_HDR_BAD_REQUEST
             else if strstr uri "501".toList then H.HTTP_HDR_NOT_IMPL
             else H.HTTP_HDR_OK))) ∧
    (∀ (s tok : List Char), strstr s tok = true ↔ tok <:+: s) ∧
    (get_http_headers H hs none).hdrs0 = some (H.g_psHTTPHeaderStrings H.HTTP_HDR_NOT_FOUND) ∧
    (∀ (p : Option (List Char)),
      ∃ i ∈ [H.HTTP_HDR_OK, H.HTTP_HDR_NOT_FOUND, H.HTTP_HDR_BAD_REQUEST, H.HTTP_HDR_NOT_IMPL],
        (get_http_headers H hs p).hdrs0 = some (H.g_psHTTPHeaderStrings i)) ∧
    (∀ (c c1 : Conn σ) (r : Region) (off : Nat) (s : List Char),
      http_find_file_params c (cptr.mem r off) = some c1 → c1.str (cptr.mem r off) = some s →
      '?' ∉ s) := by
  refine ⟨fun uri => (get_http_headers_status H hs uri).1, fun s tok => strstr_iff_infix tok s,
    rfl, ?_, ?_⟩
  · intro p
    cases p with
    | none => exact ⟨_, by simp, rfl⟩
    | some uri =>
      refine ⟨_, ?_, (get_http_headers_status H hs uri).1⟩
      split_ifs <;> simp
  · intro c c1 r off s hp hs1
    obtain ⟨c2, k1, k2, -⟩ := http_find_file_params_split c r off
    rw [hp] at k1
    simp only [Option.some.injEq] at k1
    subst k1
    rw [hs1] at k2
    simp only [Option.some.injEq] at k2
    rw [k2]
    intro hmem
    have := List.mem_takeWhile_imp hmem
    simp at this

/-- C32, witness: `/404.html`, `/400.html`, `/501.html` and `/index.html` with
the tables `demoTables`, and a string with a query that holds `404`. -/
theorem get_http_headers_status_line_witness :
    "404".toList <:+: "/404.html".toList ∧
    ((get_http_headers demoTables http_state_alloc (some "/404.html".toList)).hdrs0,
      (get_http_headers demoTables http_state_alloc (some "/400.html".toList)).hdrs0)
      = (some "HTTP/1.0 404 File not found\r\n".toList,
          some "HTTP/1.0 400 Bad Request\r\n".toList) ∧
    ((get_http_headers demoTables http_state_alloc (some "/501.html".toList)).hdrs0,
      (get_http_headers demoTables http_state_alloc (some "/index.html".toList)).hdrs0)
      = (some "HTTP/1.0 501 Not Implemented\r\n".toList, some "HTTP/1.0 200 OK\r\n".toList) ∧
    (get_http_headers demoTables http_state_alloc (some "/a?x=404".toList)).hdrs0
      = some "HTTP/1.0 404 File not found\r\n".toList ∧
    strstr "/404.html".toList "404".toList = true :=
  ⟨by decide, by decide, by decide, by decide,
    ((get_http_headers_status_line demoTables http_state_alloc
      : _ ∧ _ ∧ _ ∧ _ ∧ (∀ (c c1 : Conn Unit) (r : Region) (off : Nat) (s : List Char),
          http_find_file_params c (cptr.mem r off) = some c1 →
          c1.str (cptr.mem r off) = some s → '?' ∉ s)).2.1 "/404.html".toList
        "404".toList).mpr (by decide)⟩

/-! ## The u16_t cast of hs->left -/

/-- C35: the assertion `hs->left did not fit into u16_t!` of line 751 holds.
On the branch where `len = (u16_t)hs->left` the send buffer is not smaller
than `hs->left`, so `hs->left <= tcp_sndbuf(pcb) < 2^16` and the cast keeps
the value, for every `u32_t` value of `hs->left`.  The length then passed to
`http_write` is at most `hs->left`, an accepted write is at most that length,
and so `hs->left -= len` of line 762 does not wrap. -/
theorem http_send_data_left_fits_u16 {σ : Type} (T : Tcp σ) (F : WebFS) (c : Conn σ)
    (dts : Bool) (w : WriteResult σ) (hleft : c.hs.left < U32)
    (hw : w = http_write T c.pcb (c.hs.file.getD [])
      (if 2 * tcp_mss T c.pcb
          < (if tcp_sndbuf T c.pcb < c.hs.left then tcp_sndbuf T c.pcb else c.hs.left % U16)
        then (2 * tcp_mss T c.pcb) % U16
        else (if tcp_sndbuf T c.pcb < c.hs.left then tcp_sndbuf T c.pcb else c.hs.left % U16))) :
    (¬ tcp_sndbuf T c.pcb < c.hs.left →
      c.hs.left % U16 = c.hs.left ∧ c.hs.left ≤ tcp_sndbuf T c.pcb ∧
      tcp_sndbuf T c.pcb < U16) ∧
    (if 2 * tcp_mss T c.pcb
          < (if tcp_sndbuf T c.pcb < c.hs.left then tcp_sndbuf T c.pcb else c.hs.left % U16)
        then (2 * tcp_mss T c.pcb) % U16
        else (if tcp_sndbuf T c.pcb < c.hs.left then tcp_sndbuf T c.pcb else c.hs.left % U16))
      ≤ c.hs.left ∧
    (w.err = ERR_OK →
      w.len ≤ c.hs.left ∧ (c.hs.left + U32 - w.len) % U32 = c.hs.left - w.len) ∧
    http_send_file T F c dts = http_send_file_done T F c dts w := by
  have hsb := tcp_sndbuf_lt T c.pcb
  have hlen := http_send_len_eq (tcp_sndbuf T c.pcb) c.hs.left (tcp_mss T c.pcb) hsb
  have hle : min (min (tcp_sndbuf T c.pcb) c.hs.left) (2 * tcp_mss T c.pcb) ≤ c.hs.left := by
    omega
  rw [hlen] at hw ⊢
  refine ⟨fun hn => ⟨Nat.mod_eq_of_lt (by omega), by omega, hsb⟩, hle, fun hok => ?_, ?_⟩
  · have h1 : w.len ≤ min (min (tcp_sndbuf T c.pcb) c.hs.left) (2 * tcp_mss T c.pcb) := by
      rw [hw] at hok ⊢
      exact http_write_ok_le T _ _ _ hok
    have h2 : w.len ≤ c.hs.left := le_trans h1 hle
    refine ⟨h2, ?_⟩
    have : c.hs.left + U32 - w.len = (c.hs.left - w.len) + U32 := by omega
    rw [this, Nat.add_mod_right, Nat.mod_eq_of_lt (by omega)]
  · rw [hw]
    exact http_send_file_eq T F c dts

/-- C35, witness: five bytes are left on `conn_body` and the send buffer
holds 2000. -/
theorem http_send_data_left_fits_u16_witness :
    conn_body.hs.left < U32 ∧
    (¬ tcp_sndbuf (tcpScript 2000) conn_body.pcb < conn_body.hs.left →
      conn_body.hs.left % U16 = conn_body.hs.left ∧
      conn_body.hs.left ≤ tcp_sndbuf (tcpScript 2000) conn_body.pcb ∧
      tcp_sndbuf (tcpScript 2000) conn_body.pcb < U16) ∧
    ¬ tcp_sndbuf (tcpScript 2000) conn_body.pcb < conn_body.hs.left :=
  ⟨by decide,
    (http_send_data_left_fits_u16 (tcpScript 2000) demoFS conn_body false _ (by decide) rfl).1,
    by decide⟩

/-! ## Termination of http_write -/

/-- The loop of `http_write` does not use up `len` passes: more change
nothing. -/
theorem http_write_loop_fuel {σ : Type} (T : Tcp σ) (ptr : List Char) :
    ∀ (fuel : Nat) (pcb : σ) (len : Nat), len ≤ fuel →
      http_write_loop T (fuel + 1) pcb ptr len = http_write_loop T fuel pcb ptr len := by
  intro fuel
  induction fuel with
  | zero =>
    intro pcb len hl
    have h0 : len = 0 := by omega
    subst h0
    have hn : ∀ s, ¬ 1 < http_write_next T s 0 := by
      intro s
      unfold http_write_next
      split_ifs <;> omega
    unfold http_write_loop
    simp only [hn, if_false]
  | succ f ih =>
    intro pcb len hl
    unfold http_write_loop
    simp only []
    split_ifs with h1 h2
    · have hlt := http_write_next_lt T (T.tcp_write pcb (ptr.take len) len).2 len h2
      rw [ih _ _ (by omega)]
    · rfl
    · rfl

theorem http_write_loop_fuel_add {σ : Type} (T : Tcp σ) (ptr : List Char) (pcb : σ)
    (len : Nat) : ∀ (k : Nat),
      http_write_loop T (len + k) pcb ptr len = http_write_loop T len pcb ptr len := by
  intro k
  induction k with
  | zero => rfl
  | succ k ih =>
    rw [← Nat.add_assoc, http_write_loop_fuel T ptr (len + k) pcb len (by omega), ih]

/-- The lengths `http_write` tries: each one after the first is half the one
before and above 1; there are at most `log2 len` of them, one when
`len <= 1`. -/
theorem http_write_loop_attempts {σ : Type} (T : Tcp σ) (ptr : List Char) :
    ∀ (fuel : Nat) (pcb : σ) (len : Nat),
      (http_write_loop T fuel pcb ptr len).attempts.head? = some len ∧
      List.Chain' (fun a b => b = a / 2 ∧ 1 < b) (http_write_loop T fuel pcb ptr len).attempts ∧
      (http_write_loop T fuel pcb ptr len).attempts.length ≤ max 1 (Nat.log 2 len) := by
  intro fuel
  induction fuel with
  | zero =>
    intro pcb len
    unfold http_write_loop
    simp only []
    split_ifs <;> simp
  | succ f ih =>
    intro pcb len
    unfold http_write_loop
    simp only []
    split_ifs with h1 h2
    · obtain ⟨i1, i2, i3⟩ := ih (T.tcp_write pcb (ptr.take len) len).2
        (http_write_next T (T.tcp_write pcb (ptr.take len) len).2 len)
      have hnext : http_write_next T (T.tcp_write pcb (ptr.take len) len).2 len = len / 2 := by
        unfold http_write_next at h2 ⊢
        split_ifs at h2 ⊢
        · omega
        · rfl
      rw [hnext] at i1 i2 i3 h2
      rw [hnext]
      refine ⟨rfl, ?_, ?_⟩
      · simp only []
        cases hatt : (http_write_loop T f (T.tcp_write pcb (ptr.take len) len).2 ptr
            (len / 2)).attempts with
        | nil => simp
        | cons a l =>
          rw [hatt] at i1 i2
          simp only [List.head?_cons, Option.some.injEq] at i1
          rw [List.chain'_cons]
          exact ⟨⟨i1, by rw [i1]; exact h2⟩, i2⟩
      · simp only [List.length_cons]
        have hlog : Nat.log 2 (len / 2) = Nat.log 2 len - 1 := Nat.log_div_base 2 len
        have hpos : 1 ≤ Nat.log 2 (len / 2) := Nat.log_pos (by norm_num) (by omega)
        rw [max_eq_right hpos] at i3
        have : 1 ≤ Nat.log 2 len := by omega
        rw [max_eq_right this]
        omega
    · simp
    · simp

/-- C39: `http_write` terminates for every requested length `L` and every
behaviour of the transport.  The lengths passed to `tcp_write` start with `L`;
each later one is half the one before and above 1, so they strictly decrease;
the number of `tcp_write` calls is 1 for `L <= 1` and at most `log2 L`, hence
at most `floor(log2 L) + 1`, otherwise.  The loop ends with a result other
than `ERR_MEM` or with a length of at most 1, and the `L` passes given to the
loop are never used up: with more passes the result is the same. -/
theorem http_write_terminates {σ : Type} (T : Tcp σ) (pcb : σ) (ptr : List Char) (L : Nat) :
    (http_write T pcb ptr L).attempts.head? = some L ∧
    List.Chain' (fun a b => b = a / 2 ∧ 1 < b) (http_write T pcb ptr L).attempts ∧
    List.Chain' (fun a b => b < a) (http_write T pcb ptr L).attempts ∧
    (http_write T pcb ptr L).attempts.length ≤ max 1 (Nat.log 2 L) ∧
    (http_write T pcb ptr L).attempts.length ≤ Nat.log 2 L + 1 ∧
    (L ≤ 1 → (http_write T pcb ptr L).attempts.length = 1) ∧
    ((http_write T pcb ptr L).err ≠ ERR_MEM ∨ (http_write T pcb ptr L).len ≤ 1) ∧
    (∀ k, http_write_loop T (L + k) pcb ptr L = http_write T pcb ptr L) := by
  obtain ⟨a1, a2, a3⟩ := http_write_loop_attempts T ptr L pcb L
  obtain ⟨-, -, -, r4⟩ := http_write_loop_result T ptr L pcb L (le_refl L)
  unfold http_write
  refine ⟨a1, a2, ?_, a3, ?_, ?_, ?_, fun k => http_write_loop_fuel_add T ptr pcb L k⟩
  · refine List.Chain'.imp ?_ a2
    intro a b hab
    omega
  · have : max 1 (Nat.log 2 L) ≤ Nat.log 2 L + 1 := by omega
    omega
  · intro hL
    have hlog : Nat.log 2 L = 0 := Nat.log_of_lt (by omega)
    rw [hlog] at a3
    have hpos : 0 < (http_write_loop T L pcb ptr L).attempts.length := by
      cases hatt : (http_write_loop T L pcb ptr L).attempts with
      | nil => rw [hatt] at a1; simp at a1
      | cons a l => simp
    simp at a3
    omega
  · by_cases hm : (http_write_loop T L pcb ptr L).err = ERR_MEM
    · exact Or.inr (r4 hm)
    · exact Or.inl hm

/-- C39, witness: one `tcp_write` for a length of 1, and three (8, 4 and 2
bytes) for a length of 8, on a transport on which every `tcp_write` fails
with `ERR_MEM`. -/
theorem http_write_terminates_witness :
    (1 : Nat) ≤ 1 ∧
    (http_write tcpAlwaysMem () "a".toList 1).attempts.length = 1 ∧
    (http_write tcpAlwaysMem () "abcdefgh".toList 8).attempts = [8, 4, 2] ∧
    (http_write tcpAlwaysMem () "abcdefgh".toList 8).attempts.length ≤ Nat.log 2 8 + 1 :=
  ⟨by decide,
    (http_write_terminates tcpAlwaysMem () "a".toList 1).2.2.2.2.2.1 (by decide),
    by decide,
    (http_write_terminates tcpAlwaysMem () "abcdefgh".toList 8).2.2.2.2.1⟩

/-! ## The staging buffer of the POST body -/

theorem memcpy_at_length (dst src : List Char) (off : Nat) (h : off + src.length ≤ dst.length) :
    (memcpy_at dst off src).length = dst.length := by
  unfold memcpy_at
  simp only [List.length_append, List.length_take, List.length_drop]
  omega

/-- The copy loop keeps the staging buffer at its size and the staged length
within it. -/
theorem post_copy_loop_bounds :
    ∀ (p : pbuf) (payload : List Char) (n : Nat),
      payload.length = LWIP_HTTPD_POST_MAX_PAYLOAD_LEN → n ≤ LWIP_HTTPD_POST_MAX_PAYLOAD_LEN →
      (post_copy_loop p payload n).1.length = LWIP_HTTPD_POST_MAX_PAYLOAD_LEN ∧
      (post_copy_loop p payload n).2.1 ≤ LWIP_HTTPD_POST_MAX_PAYLOAD_LEN := by
  intro p
  induction p with
  | nil => intro payload n hl hn; exact ⟨hl, hn⟩
  | cons seg rest ih =>
    intro payload n hl hn
    by_cases hfit : n + seg_len seg ≤ LWIP_HTTPD_POST_MAX_PAYLOAD_LEN
    · rw [post_copy_loop_fit _ _ _ _ hfit]
      have hsrc : (seg.take (seg_len seg)).length ≤ seg_len seg := by
        rw [List.length_take]
        omega
      apply ih
      · rw [memcpy_at_length _ _ _ (by omega), hl]
      · have : n + seg_len seg < U16 := by
          unfold LWIP_HTTPD_POST_MAX_PAYLOAD_LEN at hfit
          unfold U16
          omega
        rw [Nat.mod_eq_of_lt this]
        exact hfit
    · rw [post_copy_loop_over _ _ _ _ hfit]
      exact ⟨hl, hn⟩

/-- One call of `httpd_post_receive_data`. -/
theorem httpd_post_receive_data_bounds {σ : Type} (c : Conn σ) (p : pbuf)
    (hl : c.http_post_payload.length = LWIP_HTTPD_POST_MAX_PAYLOAD_LEN)
    (hn : c.http_post_payload_len ≤ LWIP_HTTPD_POST_MAX_PAYLOAD_LEN) :
    (httpd_post_receive_data c p).2.http_post_payload.length = LWIP_HTTPD_POST_MAX_PAYLOAD_LEN ∧
    (httpd_post_receive_data c p).2.http_post_payload_len ≤ LWIP_HTTPD_POST_MAX_PAYLOAD_LEN ∧
    (c.hs.post_content_len_left = 0 ∨
        (post_copy_loop p c.http_post_payload c.http_post_payload_len).2.2 = true →
      (httpd_post_receive_data c p).2.http_post_payload_len = 0) := by
  obtain ⟨b1, b2⟩ := post_copy_loop_bounds p c.http_post_payload c.http_post_payload_len hl hn
  unfold httpd_post_receive_data
  generalize post_copy_loop p c.http_post_payload c.http_post_payload_len = l at b1 b2
  obtain ⟨payload, n, full⟩ := l
  simp only [] at b1 b2 ⊢
  cases full with
  | true =>
    simp only [if_true]
    refine ⟨b1, by simp, ?_⟩
    intro _
    trivial
  | false =>
    simp only [Bool.false_eq_true, if_false]
    by_cases hz : c.hs.post_content_len_left = 0
    · rw [if_pos hz]
      refine ⟨b1, by simp, ?_⟩
      intro _
      rfl
    · rw [if_neg hz]
      refine ⟨b1, b2, fun h => ?_⟩
      rcases h with h | h
      · exact absurd h hz
      · exact absurd h (by simp)

/-! ### Nothing else changes the size of the staging buffer or the staged length -/

theorem Conn.staging_part_fields {σ : Type} {a b : Conn σ} (h : a.staging_part = b.staging_part) :
    a.http_post_payload.length = b.http_post_payload.length ∧
    a.http_post_payload_len = b.http_post_payload_len := by
  unfold Conn.staging_part at h
  simp only [Prod.mk.injEq] at h
  exact h

theorem Conn.staging_part_of_post_part {σ : Type} {a b : Conn σ} (h : a.post_part = b.post_part) :
    a.staging_part = b.staging_part := by
  unfold Conn.post_part at h
  simp only [Prod.mk.injEq] at h
  unfold Conn.staging_part
  rw [h.2.2.1, h.2.2.2.1]

theorem http_find_file_params_staging {σ : Type} (c c1 : Conn σ) (uri : cptr)
    (h : http_find_file_params c uri = some c1) : c1.staging_part = c.staging_part := by
  unfold http_find_file_params at h
  simp only [] at h
  split at h
  · simp at h
  · split at h
    · simp only [Option.some.injEq] at h
      subst h
      rfl
    · split at h
      · simp only [Option.some.injEq] at h
        subst h
        cases ‹Region› <;> simp [Conn.staging_part, Conn.setRegion, Conn.region]
      · simp at h

theorem http_find_file_staging {σ : Type} (F : WebFS) (H : HeaderTables) (c c1 : Conn σ)
    (uri : cptr) (is_09 : Bool) (e : err_t)
    (h : http_find_file F H c uri is_09 = some (e, c1)) : c1.staging_part = c.staging_part := by
  unfold http_find_file at h
  split at h
  · simp at h
  · rename_i cq hq
    have q1 := http_find_file_params_staging c cq uri hq
    simp only [] at h
    split at h
    · have g := http_init_file_transport H _ c1 _ _ _ e h
      rw [g]
      exact q1
    · have g := http_init_file_transport H _ c1 _ _ _ e h
      rw [g, http_get_404_file_frame]
      exact q1

theorem StagingOK.of_staging_part {σ : Type} {a b : Conn σ} (h : a.staging_part = b.staging_part)
    (hb : StagingOK b) : StagingOK a := by
  obtain ⟨h1, h2⟩ := Conn.staging_part_fields h
  unfold StagingOK at *
  rw [h1, h2]
  exact hb

theorem http_post_rxpbuf_staging {σ : Type} (F : WebFS) (H : HeaderTables) (c c1 : Conn σ)
    (p : pbuf) (e : err_t) (hok : StagingOK c) (h : http_post_rxpbuf F H c p = some (e, c1)) :
    StagingOK c1 := by
  unfold http_post_rxpbuf at h
  simp only [] at h
  generalize hleft : (if c.hs.post_content_len_left < pbuf_tot_len p then 0
      else (c.hs.post_content_len_left + U32 - pbuf_tot_len p) % U32) = left at h
  obtain ⟨r1, r2, -⟩ := httpd_post_receive_data_bounds
    { c with hs := { c.hs with post_content_len_left := left } } p hok.1 hok.2
  have r : StagingOK (httpd_post_receive_data
      { c with hs := { c.hs with post_content_len_left := left } } p).2 := ⟨r1, r2⟩
  split_ifs at h with hc
  · unfold http_handle_post_finished httpd_post_finished at h
    simp only [] at h
    have g1 := http_find_file_staging F H _ c1 _ _ e h
    exact StagingOK.of_staging_part g1 r
  · simp only [Option.some.injEq, Prod.mk.injEq] at h
    obtain ⟨-, hc1⟩ := h
    subst hc1
    exact r

theorem http_post_request_staging {σ : Type} (F : WebFS) (H : HeaderTables) (c c1 : Conn σ)
    (next inp inp1 : pbuf) (data_len uri uri_end : Nat) (e : err_t) (hok : StagingOK c)
    (h : http_post_request F H c next data_len uri uri_end inp = some (e, inp1, c1)) :
    StagingOK c1 := by
  unfold http_post_request at h
  simp only [] at h
  split at h
  · simp only [Option.some.injEq, Prod.mk.injEq] at h
    obtain ⟨-, -, hc⟩ := h
    subst hc
    exact hok
  · split at h
    · simp only [Option.some.injEq, Prod.mk.injEq] at h
      obtain ⟨-, -, hc⟩ := h
      subst hc
      exact hok
    · split at h
      · simp only [Option.some.injEq, Prod.mk.injEq] at h
        obtain ⟨-, -, hc⟩ := h
        subst hc
        exact hok
      · split_ifs at h with hpos hbegin
        · split at h
          · simp only [Option.some.injEq, Prod.mk.injEq] at h
            obtain ⟨-, -, hc⟩ := h
            subst hc
            exact hok
          · cases hx : http_post_rxpbuf F H _ (pbuf_header_hide ‹pbuf› ‹Nat›) with
            | none => rw [hx] at h; simp at h
            | some res =>
              obtain ⟨e2, c2⟩ := res
              rw [hx] at h
              simp only [Option.map_some', Option.some.injEq, Prod.mk.injEq] at h
              obtain ⟨-, -, hc⟩ := h
              subst hc
              refine http_post_rxpbuf_staging F H _ c2 _ e2 ?_ hx
              exact hok
        · cases hx : http_find_file F H _ (cptr.mem Region.response_filename 0) false with
          | none => rw [hx] at h; simp at h
          | some res =>
            obtain ⟨e2, c2⟩ := res
            rw [hx] at h
            simp only [Option.map_some', Option.some.injEq, Prod.mk.injEq] at h
            obtain ⟨-, -, hc⟩ := h
            subst hc
            have g := http_find_file_staging F H _ c2 _ _ e2 hx
            exact StagingOK.of_staging_part g hok
        · simp only [Option.some.injEq, Prod.mk.injEq] at h
          obtain ⟨-, -, hc⟩ := h
          subst hc
          exact hok

theorem http_parse_request_staging {σ : Type} (F : WebFS) (H : HeaderTables) (c c1 : Conn σ)
    (p p1 : pbuf) (e : err_t) (hok : StagingOK c)
    (h : http_parse_request F H c p = some (e, p1, c1)) : StagingOK c1 := by
  have huri : ∀ (c0 c2 : Conn σ) (q q1 : pbuf) (dl : Nat) (ip : Bool) (sp1 : Nat) (e0 : err_t),
      StagingOK c0 → http_parse_uri F H c0 q dl ip sp1 = some (e0, q1, c2) → StagingOK c2 := by
    intro c0 c2 q q1 dl ip sp1 e0 hok0 h0
    unfold http_parse_uri at h0
    simp only [] at h0
    split_ifs at h0 with hbad hpost
    · unfold http_bad_request http_find_error_file at h0
      simp only [Option.some.injEq, Prod.mk.injEq] at h0
      obtain ⟨-, -, hc⟩ := h0
      subst hc
      exact hok0
    · split at h0
      · unfold http_bad_request http_find_error_file at h0
        simp only [Option.some.injEq, Prod.mk.injEq] at h0
        obtain ⟨-, -, hc⟩ := h0
        subst hc
        exact hok0
      · split at h0
        · simp at h0
        · rename_i err inp c3 hx
          have g1 : StagingOK c3 := by
            refine http_post_request_staging F H _ c3 _ _ inp _ _ _ err ?_ hx
            exact hok0
          split_ifs at h0 <;>
          · first
            | (unfold http_bad_request http_find_error_file at h0
               simp only [Option.some.injEq, Prod.mk.injEq] at h0
               obtain ⟨-, -, hc⟩ := h0
               subst hc
               exact g1)
            | (simp only [Option.some.injEq, Prod.mk.injEq] at h0
               obtain ⟨-, -, hc⟩ := h0
               subst hc
               exact g1)
    · split at h0
      · unfold http_bad_request http_find_error_file at h0
        simp only [Option.some.injEq, Prod.mk.injEq] at h0
        obtain ⟨-, -, hc⟩ := h0
        subst hc
        exact hok0
      · cases hx : http_find_file F H _ (cptr.mem Region.req (sp1 + 1)) _ with
        | none => rw [hx] at h0; simp at h0
        | some res =>
          obtain ⟨e2, c3⟩ := res
          rw [hx] at h0
          simp only [Option.map_some', Option.some.injEq, Prod.mk.injEq] at h0
          obtain ⟨-, -, hc⟩ := h0
          subst hc
          have g := http_find_file_staging F H _ c3 _ _ e2 hx
          exact StagingOK.of_staging_part g hok0
  unfold http_parse_request at h
  simp only [] at h
  split_ifs at h with huse hmin hget hpost
  · simp only [Option.some.injEq, Prod.mk.injEq] at h
    obtain ⟨-, -, hc⟩ := h
    subst hc
    exact hok
  · split at h
    · refine huri _ _ _ _ _ _ _ _ ?_ h
      exact hok
    · unfold http_bad_request http_find_error_file at h
      simp only [Option.some.injEq, Prod.mk.injEq] at h
      obtain ⟨-, -, hc⟩ := h
      subst hc
      exact hok
  · split at h
    · refine huri _ _ _ _ _ _ _ _ ?_ h
      exact hok
    · unfold http_bad_request http_find_error_file at h
      simp only [Option.some.injEq, Prod.mk.injEq] at h
      obtain ⟨-, -, hc⟩ := h
      subst hc
      exact hok
  · split at h
    · unfold http_find_error_file at h
      simp only [Option.some.injEq, Prod.mk.injEq] at h
      obtain ⟨-, -, hc⟩ := h
      subst hc
      exact hok
    · unfold http_bad_request http_find_error_file at h
      simp only [Option.some.injEq, Prod.mk.injEq] at h
      obtain ⟨-, -, hc⟩ := h
      subst hc
      exact hok
  · unfold http_bad_request http_find_error_file at h
    simp only [Option.some.injEq, Prod.mk.injEq] at h
    obtain ⟨-, -, hc⟩ := h
    subst hc
    exact hok

theorem http_close_conn_staging {σ : Type} (T : Tcp σ) (c : Conn σ) (b : Bool)
    (hok : StagingOK c) : StagingOK (http_close_conn T c b).2 :=
  StagingOK.of_staging_part
    (Conn.staging_part_of_post_part (http_close_conn_post_part T c b).1) hok

theorem http_send_data_staging {σ : Type} (T : Tcp σ) (F : WebFS) (c c1 : Conn σ) (r : Nat)
    (hok : StagingOK c) (h : http_send_data T F c = some (r, c1)) : StagingOK c1 :=
  StagingOK.of_staging_part
    (Conn.staging_part_of_post_part (http_send_data_frame T F c c1 r h).1) hok

theorem http_recv_staging {σ : Type} (T : Tcp σ) (F : WebFS) (H : HeaderTables) (c c1 : Conn σ)
    (p : pbuf) (err e : err_t) (hok : StagingOK c)
    (h : http_recv T F H c p err = some (e, c1)) : StagingOK c1 := by
  have hsend : ∀ (c2 : Conn σ), StagingOK c2 →
      (http_send_data T F c2).map (fun r => (ERR_OK, r.2)) = some (e, c1) → StagingOK c1 := by
    intro c2 hb hx
    cases hs : http_send_data T F c2 with
    | none => rw [hs] at hx; simp at hx
    | some res =>
      obtain ⟨r, c3⟩ := res
      rw [hs] at hx
      simp only [Option.map_some', Option.some.injEq, Prod.mk.injEq] at hx
      obtain ⟨-, hc⟩ := hx
      subst hc
      exact http_send_data_staging T F c2 c3 r hb hs
  unfold http_recv at h
  by_cases hbad : err ≠ ERR_OK ∨ p = [] ∨ c.arg = false
  · rw [if_pos hbad] at h
    simp only [Option.some.injEq, Prod.mk.injEq] at h
    obtain ⟨-, hc⟩ := h
    subst hc
    exact http_close_conn_staging T c c.arg hok
  · rw [if_neg hbad] at h
    by_cases hpost : 0 < c.hs.post_content_len_left
    · rw [if_pos hpost] at h
      cases hx : http_post_rxpbuf F H { c with hs := { c.hs with retries := 0 } } p with
      | none => rw [hx] at h; simp at h
      | some res =>
        obtain ⟨e2, c2⟩ := res
        rw [hx] at h
        simp only [] at h
        have g1 : StagingOK c2 := by
          refine http_post_rxpbuf_staging F H _ c2 p e2 ?_ hx
          exact hok
        split_ifs at h
        · exact hsend c2 g1 h
        · simp only [Option.some.injEq, Prod.mk.injEq] at h
          obtain ⟨-, hc⟩ := h
          subst hc
          exact g1
    · rw [if_neg hpost] at h
      simp only [] at h
      by_cases hh : c.hs.handle = none
      · rw [if_pos hh] at h
        cases hx : http_parse_request F H c p with
        | none => rw [hx] at h; simp at h
        | some res =>
          obtain ⟨e2, p2, c2⟩ := res
          rw [hx] at h
          simp only [Option.map_some'] at h
          have g1 := http_parse_request_staging F H c c2 p p2 e2 hok hx
          by_cases he : e2 = ERR_OK
          · rw [if_pos he] at h
            split_ifs at h
            · exact hsend c2 g1 h
            · simp only [Option.some.injEq, Prod.mk.injEq] at h
              obtain ⟨-, hc⟩ := h
              subst hc
              exact g1
          · rw [if_neg he] at h
            split_ifs at h
            · simp only [Option.some.injEq, Prod.mk.injEq] at h
              obtain ⟨-, hc⟩ := h
              subst hc
              exact http_close_conn_staging T c2 true g1
            · simp only [Option.some.injEq, Prod.mk.injEq] at h
              obtain ⟨-, hc⟩ := h
              subst hc
              exact g1
      · rw [if_neg hh] at h
        simp only [] at h
        rw [if_neg (by decide), if_neg (by decide)] at h
        simp only [Option.some.injEq, Prod.mk.injEq] at h
        obtain ⟨-, hc⟩ := h
        subst hc
        exact hok

theorem http_sent_staging {σ : Type} (T : Tcp σ) (F : WebFS) (c c1 : Conn σ) (e : err_t)
    (hok : StagingOK c) (h : http_sent T F c = some (e, c1)) : StagingOK c1 := by
  unfold http_sent at h
  split_ifs at h with ha
  · simp only [Option.some.injEq, Prod.mk.injEq] at h
    obtain ⟨-, hc⟩ := h
    subst hc
    exact hok
  · cases hs : http_send_data T F { c with hs := { c.hs with retries := 0 } } with
    | none => rw [hs] at h; simp at h
    | some res =>
      obtain ⟨r, c3⟩ := res
      rw [hs] at h
      simp only [Option.map_some', Option.some.injEq, Prod.mk.injEq] at h
      obtain ⟨-, hc⟩ := h
      subst hc
      exact http_send_data_staging T F { c with hs := { c.hs with retries := 0 } } c3 r hok hs

theorem http_poll_staging {σ : Type} (T : Tcp σ) (F : WebFS) (c c1 : Conn σ) (e : err_t)
    (hok : StagingOK c) (h : http_poll T F c = some (e, c1)) : StagingOK c1 := by
  unfold http_poll at h
  by_cases ha : (!c.arg) = true
  · rw [if_pos ha] at h
    simp only [Option.some.injEq, Prod.mk.injEq] at h
    obtain ⟨-, hc⟩ := h
    subst hc
    exact http_close_conn_staging T c false hok
  · rw [if_neg ha] at h
    simp only [] at h
    by_cases hm : (c.hs.retries + 1) % 256 = HTTPD_MAX_RETRIES
    · rw [if_pos hm] at h
      simp only [Option.some.injEq, Prod.mk.injEq] at h
      obtain ⟨-, hc⟩ := h
      subst hc
      exact http_close_conn_staging T
        { c with hs := { c.hs with retries := (c.hs.retries + 1) % 256 } } true hok
    · rw [if_neg hm] at h
      by_cases hh : c.hs.handle ≠ none
      · rw [if_pos hh] at h
        cases hs : http_send_data T F
            { c with hs := { c.hs with retries := (c.hs.retries + 1) % 256 } } with
        | none => rw [hs] at h; simp at h
        | some res =>
          obtain ⟨r, c3⟩ := res
          rw [hs] at h
          simp only [Option.map_some', Option.some.injEq, Prod.mk.injEq] at h
          obtain ⟨-, hc⟩ := h
          subst hc
          exact http_send_data_staging T F
            { c with hs := { c.hs with retries := (c.hs.retries + 1) % 256 } } c3 r hok hs
      · rw [if_neg hh] at h
        simp only [Option.some.injEq, Prod.mk.injEq] at h
        obtain ⟨-, hc⟩ := h
        subst hc
        exact hok

/-- No event breaks the bounds of the staging buffer. -/
theorem http_events_staging {σ : Type} (T : Tcp σ) (F : WebFS) (H : HeaderTables) :
    ∀ (evs : List Event) (c c1 : Conn σ), StagingOK c →
      http_events T F H evs c = some c1 → StagingOK c1 := by
  intro evs
  induction evs with
  | nil =>
    intro c c1 hok h
    unfold http_events at h
    simp only [Option.some.injEq] at h
    subst h
    exact hok
  | cons ev rest ih =>
    intro c c1 hok h
    cases ev with
    | err =>
      unfold http_events at h
      simp only [Option.some.injEq] at h
      subst h
      unfold http_err http_state_free
      split_ifs
      · exact hok
      · exact hok
    | recv p e =>
      unfold http_events at h
      cases hx : http_recv T F H c p e with
      | none => rw [hx] at h; simp at h
      | some res =>
        obtain ⟨e2, c2⟩ := res
        rw [hx] at h
        simp only [] at h
        exact ih c2 c1 (http_recv_staging T F H c c2 p e e2 hok hx) h
    | sent =>
      unfold http_events at h
      cases hx : http_sent T F c with
      | none => rw [hx] at h; simp at h
      | some res =>
        obtain ⟨e2, c2⟩ := res
        rw [hx] at h
        simp only [] at h
        exact ih c2 c1 (http_sent_staging T F c c2 e2 hok hx) h
    | poll =>
      unfold http_events at h
      cases hx : http_poll T F c with
      | none => rw [hx] at h; simp at h
      | some res =>
        obtain ⟨e2, c2⟩ := res
        rw [hx] at h
        simp only [] at h
        exact ih c2 c1 (http_poll_staging T F c c2 e2 hok hx) h

theorem httpd_post_receive_data_seq_bounds {σ : Type} :
    ∀ (calls : List (pbuf × Nat)) (c : Conn σ), StagingOK c →
      StagingOK (httpd_post_receive_data_seq calls c) := by
  intro calls
  induction calls with
  | nil => intro c hok; exact hok
  | cons x rest ih =>
    intro c hok
    obtain ⟨p, left⟩ := x
    rw [httpd_post_receive_data_seq]
    apply ih
    obtain ⟨r1, r2, -⟩ := httpd_post_receive_data_bounds
      { c with hs := { c.hs with post_content_len_left := left } } p hok.1 hok.2
    exact ⟨r1, r2⟩

/-- C38: the staging buffer of `httpd_post_receive_data`.  When the static
buffer has its `LWIP_HTTPD_POST_MAX_PAYLOAD_LEN` bytes and the staged length
is within them, then after any sequence of calls, with arbitrary pbuf chains
and arbitrary values of `post_content_len_left`, and after any sequence of
events of the server, the same holds; the loop copies a segment only when
`http_post_payload_len + q->len` is at most the size, at that offset, and
stops otherwise; and the staged length is 0 after a call that finds
`post_content_len_left == 0` or sets the overflow flag. -/
theorem httpd_post_receive_data_staging_bounds {σ : Type} (T : Tcp σ) (F : WebFS)
    (H : HeaderTables) (c : Conn σ)
    (hl : c.http_post_payload.length = LWIP_HTTPD_POST_MAX_PAYLOAD_LEN)
    (hn : c.http_post_payload_len ≤ LWIP_HTTPD_POST_MAX_PAYLOAD_LEN) :
    (∀ (calls : List (pbuf × Nat)),
      (httpd_post_receive_data_seq calls c).http_post_payload.length
        = LWIP_HTTPD_POST_MAX_PAYLOAD_LEN ∧
      (httpd_post_receive_data_seq calls c).http_post_payload_len
        ≤ LWIP_HTTPD_POST_MAX_PAYLOAD_LEN) ∧
    (∀ (p : pbuf),
      (c.hs.post_content_len_left = 0 ∨
          (post_copy_loop p c.http_post_payload c.http_post_payload_len).2.2 = true →
        (httpd_post_receive_data c p).2.http_post_payload_len = 0)) ∧
    (∀ (seg : List Char) (rest : pbuf) (payload : List Char) (n : Nat),
      (n + seg_len seg ≤ LWIP_HTTPD_POST_MAX_PAYLOAD_LEN →
        post_copy_loop (seg :: rest) payload n
          = post_copy_loop rest (memcpy_at payload n (seg.take (seg_len seg)))
              ((n + seg_len seg) % U16)) ∧
      (¬ n + seg_len seg ≤ LWIP_HTTPD_POST_MAX_PAYLOAD_LEN →
        post_copy_loop (seg :: rest) payload n = (payload, n, true)) ∧
      (n + seg_len seg ≤ payload.length →
        (memcpy_at payload n (seg.take (seg_len seg))).length = payload.length)) ∧
    (∀ (evs : List Event) (c1 : Conn σ), http_events T F H evs c = some c1 →
      c1.http_post_payload.length = LWIP_HTTPD_POST_MAX_PAYLOAD_LEN ∧
      c1.http_post_payload_len ≤ LWIP_HTTPD_POST_MAX_PAYLOAD_LEN) := by
  refine ⟨fun calls => httpd_post_receive_data_seq_bounds calls c ⟨hl, hn⟩,
    fun p => (httpd_post_receive_data_bounds c p hl hn).2.2, ?_,
    fun evs c1 h => http_events_staging T F H evs c c1 ⟨hl, hn⟩ h⟩
  intro seg rest payload n
  refine ⟨fun h => post_copy_loop_fit seg rest payload n h,
    fun h => post_copy_loop_over seg rest payload n h, fun h => ?_⟩
  apply memcpy_at_length
  rw [List.length_take]
  omega

/-- C38, witness: on a fresh connection, the chunks `ab` (2 bytes awaited
after it), then 600 bytes in one segment (overflow), then `cd` completing a
POST. -/
theorem httpd_post_receive_data_staging_bounds_witness :
    (conn_accepted ()).http_post_payload.length = LWIP_HTTPD_POST_MAX_PAYLOAD_LEN ∧
    (conn_accepted ()).http_post_payload_len ≤ LWIP_HTTPD_POST_MAX_PAYLOAD_LEN ∧
    ((httpd_post_receive_data_seq
        [(["ab".toList], 2), ([List.replicate 600 'x'], 5), (["cd".toList], 0)]
        (conn_accepted ())).http_post_payload.length = LWIP_HTTPD_POST_MAX_PAYLOAD_LEN ∧
      (httpd_post_receive_data_seq
        [(["ab".toList], 2), ([List.replicate 600 'x'], 5), (["cd".toList], 0)]
        (conn_accepted ())).http_post_payload_len ≤ LWIP_HTTPD_POST_MAX_PAYLOAD_LEN) ∧
    (httpd_post_receive_data_seq [(["ab".toList], 2)] (conn_accepted ())).http_post_payload_len
      = 2 :=
  ⟨List.length_replicate _ _, Nat.zero_le _,
    (httpd_post_receive_data_staging_bounds tcpAlwaysMem demoFS demoTables (conn_accepted ())
      (List.length_replicate _ _) (Nat.zero_le _)).1
      [(["ab".toList], 2), ([List.replicate 600 'x'], 5), (["cd".toList], 0)],
    by decide!⟩

/-! ## The idle counter stays below its limit -/

theorem get_http_headers_retries (H : HeaderTables) (hs : http_state) (u : Option (List Char)) :
    (get_http_headers H hs u).retries = hs.retries := by
  unfold get_http_headers
  cases u with
  | none => rfl
  | some uri =>
    simp only []
    split
    · split <;> simp
    · simp

theorem http_init_file_retries {σ : Type} (H : HeaderTables) (c c1 : Conn σ)
    (file : Option webfs_file) (is_09 : Bool) (uri : cptr) (e : err_t)
    (h : http_init_file H c file is_09 uri = some (e, c1)) : c1.hs.retries = 0 := by
  unfold http_init_file at h
  cases file with
  | none => simp at h
  | some f =>
    simp only [] at h
    split at h
    · simp at h
    · rename_i hs2 heq
      have hfr : hs2.retries = 0 := by
        split_ifs at heq with hc
        · split at heq
          · simp at heq
          · split at heq <;>
            · simp only [Option.some.injEq] at heq
              subst heq
              rfl
        · simp only [Option.some.injEq] at heq
          subst heq
          rfl
      split_ifs at h
      · simp only [Option.some.injEq, Prod.mk.injEq] at h
        obtain ⟨-, hc⟩ := h
        subst hc
        show (get_http_headers H hs2 (c.str uri)).retries = 0
        rw [get_http_headers_retries]
        exact hfr
      · simp only [Option.some.injEq, Prod.mk.injEq] at h
        obtain ⟨-, hc⟩ := h
        subst hc
        exact hfr

theorem http_find_file_retries {σ : Type} (F : WebFS) (H : HeaderTables) (c c1 : Conn σ)
    (uri : cptr) (is_09 : Bool) (e : err_t)
    (h : http_find_file F H c uri is_09 = some (e, c1)) : c1.hs.retries = 0 := by
  unfold http_find_file at h
  split at h
  · simp at h
  · simp only [] at h
    split at h
    · exact http_init_file_retries H _ c1 _ _ _ e h
    · exact http_init_file_retries H _ c1 _ _ _ e h

theorem httpd_post_receive_data_retries {σ : Type} (c : Conn σ) (p : pbuf) :
    (httpd_post_receive_data c p).2.hs.retries = c.hs.retries := by
  unfold httpd_post_receive_data
  split
  simp only []
  split_ifs <;> rfl

theorem http_post_rxpbuf_retries {σ : Type} (F : WebFS) (H : HeaderTables) (c c1 : Conn σ)
    (p : pbuf) (e : err_t) (h : http_post_rxpbuf F H c p = some (e, c1)) :
    c1.hs.retries ≤ c.hs.retries := by
  unfold http_post_rxpbuf at h
  simp only [] at h
  generalize hleft : (if c.hs.post_content_len_left < pbuf_tot_len p then 0
      else (c.hs.post_content_len_left + U32 - pbuf_tot_len p) % U32) = left at h
  have r := httpd_post_receive_data_retries
    { c with hs := { c.hs with post_content_len_left := left } } p
  split_ifs at h with hc
  · unfold http_handle_post_finished httpd_post_finished at h
    simp only [] at h
    rw [http_find_file_retries F H _ c1 _ _ e h]
    exact Nat.zero_le _
  · simp only [Option.some.injEq, Prod.mk.injEq] at h
    obtain ⟨-, hc1⟩ := h
    subst hc1
    rw [r]

theorem http_post_request_retries {σ : Type} (F : WebFS) (H : HeaderTables) (c c1 : Conn σ)
    (next inp inp1 : pbuf) (data_len uri uri_end : Nat) (e : err_t)
    (h : http_post_request F H c next data_len uri uri_end inp = some (e, inp1, c1)) :
    c1.hs.retries ≤ c.hs.retries := by
  unfold http_post_request at h
  simp only [] at h
  split at h
  · simp only [Option.some.injEq, Prod.mk.injEq] at h
    obtain ⟨-, -, hc⟩ := h
    subst hc
    exact Nat.le_refl _
  · split at h
    · simp only [Option.some.injEq, Prod.mk.injEq] at h
      obtain ⟨-, -, hc⟩ := h
      subst hc
      exact Nat.le_refl _
    · split at h
      · simp only [Option.some.injEq, Prod.mk.injEq] at h
        obtain ⟨-, -, hc⟩ := h
        subst hc
        exact Nat.le_refl _
      · split_ifs at h with hpos hbegin
        · split at h
          · simp only [Option.some.injEq, Prod.mk.injEq] at h
            obtain ⟨-, -, hc⟩ := h
            subst hc
            exact Nat.le_refl _
          · cases hx : http_post_rxpbuf F H _ (pbuf_header_hide ‹pbuf› ‹Nat›) with
            | none => rw [hx] at h; simp at h
            | some res =>
              obtain ⟨e2, c2⟩ := res
              rw [hx] at h
              simp only [Option.map_some', Option.some.injEq, Prod.mk.injEq] at h
              obtain ⟨-, -, hc⟩ := h
              subst hc
              have g := http_post_rxpbuf_retries F H _ c2 _ e2 hx
              exact g
        · cases hx : http_find_file F H _ (cptr.mem Region.response_filename 0) false with
          | none => rw [hx] at h; simp at h
          | some res =>
            obtain ⟨e2, c2⟩ := res
            rw [hx] at h
            simp only [Option.map_some', Option.some.injEq, Prod.mk.injEq] at h
            obtain ⟨-, -, hc⟩ := h
            subst hc
            rw [http_find_file_retries F H _ c2 _ _ e2 hx]
            exact Nat.zero_le _
        · simp only [Option.some.injEq, Prod.mk.injEq] at h
          obtain ⟨-, -, hc⟩ := h
          subst hc
          exact Nat.le_refl _

theorem http_parse_request_retries {σ : Type} (F : WebFS) (H : HeaderTables) (c c1 : Conn σ)
    (p p1 : pbuf) (e : err_t)
    (h : http_parse_request F H c p = some (e, p1, c1)) : c1.hs.retries ≤ c.hs.retries := by
  have huri : ∀ (c0 c2 : Conn σ) (q q1 : pbuf) (dl : Nat) (ip : Bool) (sp1 : Nat) (e0 : err_t),
      http_parse_uri F H c0 q dl ip sp1 = some (e0, q1, c2) →
        c2.hs.retries ≤ c0.hs.retries := by
    intro c0 c2 q q1 dl ip sp1 e0 h0
    unfold http_parse_uri at h0
    simp only [] at h0
    split_ifs at h0 with hbad hpost
    · unfold http_bad_request http_find_error_file at h0
      simp only [Option.some.injEq, Prod.mk.injEq] at h0
      obtain ⟨-, -, hc⟩ := h0
      subst hc
      exact Nat.le_refl _
    · split at h0
      · unfold http_bad_request http_find_error_file at h0
        simp only [Option.some.injEq, Prod.mk.injEq] at h0
        obtain ⟨-, -, hc⟩ := h0
        subst hc
        exact Nat.le_refl _
      · split at h0
        · simp at h0
        · rename_i err inp c3 hx
          have g0 := http_post_request_retries F H _ c3 _ _ inp _ _ _ err hx
          have g1 : c3.hs.retries ≤ c0.hs.retries := g0
          split_ifs at h0 <;>
          · first
            | (unfold http_bad_request http_find_error_file at h0
               simp only [Option.some.injEq, Prod.mk.injEq] at h0
               obtain ⟨-, -, hc⟩ := h0
               subst hc
               exact g1)
            | (simp only [Option.some.injEq, Prod.mk.injEq] at h0
               obtain ⟨-, -, hc⟩ := h0
               subst hc
               exact g1)
    · split at h0
      · unfold http_bad_request http_find_error_file at h0
        simp only [Option.some.injEq, Prod.mk.injEq] at h0
        obtain ⟨-, -, hc⟩ := h0
        subst hc
        exact Nat.le_refl _
      · cases hx : http_find_file F H _ (cptr.mem Region.req (sp1 + 1)) _ with
        | none => rw [hx] at h0; simp at h0
        | some res =>
          obtain ⟨e2, c3⟩ := res
          rw [hx] at h0
          simp only [Option.map_some', Option.some.injEq, Prod.mk.injEq] at h0
          obtain ⟨-, -, hc⟩ := h0
          subst hc
          rw [http_find_file_retries F H _ c3 _ _ e2 hx]
          exact Nat.zero_le _
  have hstart : ∀ d, (parse_start c d).hs.retries = c.hs.retries := fun _ => rfl
  unfold http_parse_request at h
  simp only [] at h
  split_ifs at h with huse hmin hget hpost
  · simp only [Option.some.injEq, Prod.mk.injEq] at h
    obtain ⟨-, -, hc⟩ := h
    subst hc
    exact Nat.le_refl _
  · split at h
    · have g := huri _ _ _ _ _ _ _ _ h
      exact g
    · unfold http_bad_request http_find_error_file at h
      simp only [Option.some.injEq, Prod.mk.injEq] at h
      obtain ⟨-, -, hc⟩ := h
      subst hc
      exact Nat.le_refl _
  · split at h
    · have g := huri _ _ _ _ _ _ _ _ h
      exact g
    · unfold http_bad_request http_find_error_file at h
      simp only [Option.some.injEq, Prod.mk.injEq] at h
      obtain ⟨-, -, hc⟩ := h
      subst hc
      exact Nat.le_refl _
  · split at h
    · unfold http_find_error_file at h
      simp only [Option.some.injEq, Prod.mk.injEq] at h
      obtain ⟨-, -, hc⟩ := h
      subst hc
      exact Nat.le_refl _
    · unfold http_bad_request http_find_error_file at h
      simp only [Option.some.injEq, Prod.mk.injEq] at h
      obtain ⟨-, -, hc⟩ := h
      subst hc
      exact Nat.le_refl _
  · unfold http_bad_request http_find_error_file at h
    simp only [Option.some.injEq, Prod.mk.injEq] at h
    obtain ⟨-, -, hc⟩ := h
    subst hc
    exact Nat.le_refl _

theorem http_send_data_retries {σ : Type} (T : Tcp σ) (F : WebFS) (c c1 : Conn σ) (r : Nat)
    (h : http_send_data T F c = some (r, c1)) : c1.hs.retries = c.hs.retries := by
  rcases http_send_data_life T F c c1 r h with e | e
  · have g := congrArg (fun x => x.2.2.2) e
    exact g
  · exact (Conn.life_part_fields e).2.2.2

theorem http_close_conn_arg {σ : Type} (T : Tcp σ) (c : Conn σ) (b : Bool) :
    (http_close_conn T c b).2.arg = false := by
  cases b
  · exact (http_close_conn_null_fields T c).1
  · exact (http_close_conn_fields T c).1

theorem http_recv_retries {σ : Type} (T : Tcp σ) (F : WebFS) (H : HeaderTables) (c c1 : Conn σ)
    (p : pbuf) (err e : err_t) (hinv : c.arg = true → c.hs.retries < HTTPD_MAX_RETRIES)
    (h : http_recv T F H c p err = some (e, c1)) (h1 : c1.arg = true) :
    c1.hs.retries < HTTPD_MAX_RETRIES := by
  have hsend : ∀ (c2 : Conn σ), c2.hs.retries < HTTPD_MAX_RETRIES →
      (http_send_data T F c2).map (fun r => (ERR_OK, r.2)) = some (e, c1) →
        c1.hs.retries < HTTPD_MAX_RETRIES := by
    intro c2 hb hx
    cases hs : http_send_data T F c2 with
    | none => rw [hs] at hx; simp at hx
    | some res =>
      obtain ⟨r, c3⟩ := res
      rw [hs] at hx
      simp only [Option.map_some', Option.some.injEq, Prod.mk.injEq] at hx
      obtain ⟨-, hc⟩ := hx
      subst hc
      rw [http_send_data_retries T F c2 c3 r hs]
      exact hb
  unfold http_recv at h
  by_cases hbad : err ≠ ERR_OK ∨ p = [] ∨ c.arg = false
  · rw [if_pos hbad] at h
    simp only [Option.some.injEq, Prod.mk.injEq] at h
    obtain ⟨-, hc⟩ := h
    subst hc
    rw [http_close_conn_arg] at h1
    exact absurd h1 (by decide)
  · rw [if_neg hbad] at h
    have harg : c.arg = true := by
      cases ha : c.arg
      · exact absurd (Or.inr (Or.inr ha)) hbad
      · rfl
    have hlt := hinv harg
    by_cases hpost : 0 < c.hs.post_content_len_left
    · rw [if_pos hpost] at h
      cases hx : http_post_rxpbuf F H { c with hs := { c.hs with retries := 0 } } p with
      | none => rw [hx] at h; simp at h
      | some res =>
        obtain ⟨e2, c2⟩ := res
        rw [hx] at h
        simp only [] at h
        have g0 := http_post_rxpbuf_retries F H _ c2 p e2 hx
        have g1 : c2.hs.retries < HTTPD_MAX_RETRIES := by
          have g2 : c2.hs.retries ≤ 0 := g0
          unfold HTTPD_MAX_RETRIES
          omega
        split_ifs at h
        · exact hsend c2 g1 h
        · simp only [Option.some.injEq, Prod.mk.injEq] at h
          obtain ⟨-, hc⟩ := h
          subst hc
          exact g1
    · rw [if_neg hpost] at h
      simp only [] at h
      by_cases hh : c.hs.handle = none
      · rw [if_pos hh] at h
        cases hx : http_parse_request F H c p with
        | none => rw [hx] at h; simp at h
        | some res =>
          obtain ⟨e2, p2, c2⟩ := res
          rw [hx] at h
          simp only [Option.map_some'] at h
          have g1 : c2.hs.retries < HTTPD_MAX_RETRIES :=
            Nat.lt_of_le_of_lt (http_parse_request_retries F H c c2 p p2 e2 hx) hlt
          by_cases he : e2 = ERR_OK
          · rw [if_pos he] at h
            split_ifs at h
            · exact hsend c2 g1 h
            · simp only [Option.some.injEq, Prod.mk.injEq] at h
              obtain ⟨-, hc⟩ := h
              subst hc
              exact g1
          · rw [if_neg he] at h
            split_ifs at h
            · simp only [Option.some.injEq, Prod.mk.injEq] at h
              obtain ⟨-, hc⟩ := h
              subst hc
              rw [http_close_conn_arg] at h1
              exact absurd h1 (by decide)
            · simp only [Option.some.injEq, Prod.mk.injEq] at h
              obtain ⟨-, hc⟩ := h
              subst hc
              exact g1
      · rw [if_neg hh] at h
        simp only [] at h
        rw [if_neg (by decide), if_neg (by decide)] at h
        simp only [Option.some.injEq, Prod.mk.injEq] at h
        obtain ⟨-, hc⟩ := h
        subst hc
        exact hlt

theorem http_sent_retries_lt {σ : Type} (T : Tcp σ) (F : WebFS) (c c1 : Conn σ) (e : err_t)
    (h : http_sent T F c = some (e, c1)) (h1 : c1.arg = true) :
    c1.hs.retries < HTTPD_MAX_RETRIES := by
  cases ha : c.arg
  · unfold http_sent at h
    rw [if_pos (by simp [ha])] at h
    simp only [Option.some.injEq, Prod.mk.injEq] at h
    obtain ⟨-, hc⟩ := h
    subst hc
    rw [ha] at h1
    exact absurd h1 (by decide)
  · rw [http_sent_retries T F c c1 e ha h]
    decide

theorem http_poll_retries_lt {σ : Type} (T : Tcp σ) (F : WebFS) (c c1 : Conn σ) (e : err_t)
    (hinv : c.arg = true → c.hs.retries < HTTPD_MAX_RETRIES)
    (h : http_poll T F c = some (e, c1)) (h1 : c1.arg = true) :
    c1.hs.retries < HTTPD_MAX_RETRIES := by
  cases ha : c.arg
  · rw [http_poll_null T F c ha] at h
    simp only [Option.some.injEq, Prod.mk.injEq] at h
    obtain ⟨-, hc⟩ := h
    subst hc
    rw [http_close_conn_arg] at h1
    exact absurd h1 (by decide)
  · have hlt := hinv ha
    have hmod : (c.hs.retries + 1) % 256 = c.hs.retries + 1 :=
      Nat.mod_eq_of_lt (by unfold HTTPD_MAX_RETRIES at hlt; omega)
    obtain ⟨s1, s2⟩ := http_poll_step T F c c1 e ha h
    by_cases hm : (c.hs.retries + 1) % 256 = HTTPD_MAX_RETRIES
    · have g := (Conn.life_part_fields (s1 hm)).1
      rw [g] at h1
      exact absurd h1 (by decide)
    · rcases s2 hm with g | ⟨-, g⟩
      · rw [(Conn.life_part_fields g).2.2.2, hmod]
        rw [hmod] at hm
        unfold HTTPD_MAX_RETRIES at hlt hm ⊢
        omega
      · have g2 := (Conn.life_part_fields g).1
        rw [g2] at h1
        exact absurd h1 (by decide)

theorem http_err_retries_lt {σ : Type} (c : Conn σ)
    (hinv : c.arg = true → c.hs.retries < HTTPD_MAX_RETRIES) (h1 : (http_err c).arg = true) :
    (http_err c).hs.retries < HTTPD_MAX_RETRIES := by
  unfold http_err http_state_free at h1 ⊢
  split_ifs at h1 ⊢ with ha
  · exact hinv ha
  · exact hinv h1

/-- After any sequence of events, a connection that still has its state has
an idle counter below `HTTPD_MAX_RETRIES`. -/
theorem http_events_retries_lt {σ : Type} (T : Tcp σ) (F : WebFS) (H : HeaderTables) :
    ∀ (evs : List Event) (c c1 : Conn σ),
      (c.arg = true → c.hs.retries < HTTPD_MAX_RETRIES) →
      http_events T F H evs c = some c1 → c1.arg = true →
        c1.hs.retries < HTTPD_MAX_RETRIES := by
  intro evs
  induction evs with
  | nil =>
    intro c c1 hinv h h1
    unfold http_events at h
    simp only [Option.some.injEq] at h
    subst h
    exact hinv h1
  | cons ev rest ih =>
    intro c c1 hinv h h1
    cases ev with
    | err =>
      unfold http_events at h
      simp only [Option.some.injEq] at h
      subst h
      exact http_err_retries_lt c hinv h1
    | recv p e =>
      unfold http_events at h
      cases hx : http_recv T F H c p e with
      | none => rw [hx] at h; simp at h
      | some res =>
        obtain ⟨e2, c2⟩ := res
        rw [hx] at h
        simp only [] at h
        exact ih c2 c1 (http_recv_retries T F H c c2 p e e2 hinv hx) h h1
    | sent =>
      unfold http_events at h
      cases hx : http_sent T F c with
      | none => rw [hx] at h; simp at h
      | some res =>
        obtain ⟨e2, c2⟩ := res
        rw [hx] at h
        simp only [] at h
        exact ih c2 c1 (fun h2 => http_sent_retries_lt T F c c2 e2 hx h2) h h1
    | poll =>
      unfold http_events at h
      cases hx : http_poll T F c with
      | none => rw [hx] at h; simp at h
      | some res =>
        obtain ⟨e2, c2⟩ := res
        rw [hx] at h
        simp only [] at h
        exact ih c2 c1 (http_poll_retries_lt T F c c2 e2 hinv hx) h h1

/-- C34: the idle counter `hs->retries` on connections that still have their
state (`arg` non-null).  A connection as set up by `http_accept` has the
counter at 0.  From a state in which the counter is below
`HTTPD_MAX_RETRIES` (4), after any sequence of receive, sent, poll and error
events the connection either has lost its state or has the counter below
`HTTPD_MAX_RETRIES`, so that the next increment of the `u8_t` does not wrap
and reaches at most `HTTPD_MAX_RETRIES`; the same after each single handler;
and a poll event on a live connection stores the counter plus one and closes
the connection when that is `HTTPD_MAX_RETRIES`. -/
theorem http_events_retries_below_max {σ : Type} (T : Tcp σ) (F : WebFS) (H : HeaderTables)
    (c : Conn σ) (hinv : c.arg = true → c.hs.retries < HTTPD_MAX_RETRIES) :
    (∀ (pcb : σ), (conn_accepted pcb).arg = true ∧ (conn_accepted pcb).hs.retries = 0) ∧
    (∀ (evs : List Event) (c1 : Conn σ), http_events T F H evs c = some c1 → c1.arg = true →
      c1.hs.retries < HTTPD_MAX_RETRIES ∧
      (c1.hs.retries + 1) % 256 = c1.hs.retries + 1 ∧
      (c1.hs.retries + 1) % 256 ≤ HTTPD_MAX_RETRIES) ∧
    (∀ (pcb : σ) (evs : List Event) (c1 : Conn σ),
      http_events T F H evs (conn_accepted pcb) = some c1 → c1.arg = true →
        c1.hs.retries < HTTPD_MAX_RETRIES) ∧
    (∀ (p : pbuf) (err e : err_t) (c1 : Conn σ), http_recv T F H c p err = some (e, c1) →
      c1.arg = true → c1.hs.retries < HTTPD_MAX_RETRIES) ∧
    (∀ (e : err_t) (c1 : Conn σ), http_sent T F c = some (e, c1) →
      c1.arg = true → c1.hs.retries = 0) ∧
    (∀ (e : err_t) (c1 : Conn σ), http_poll T F c = some (e, c1) →
      (c1.arg = true → c1.hs.retries < HTTPD_MAX_RETRIES) ∧
      (c.arg = true → c1.hs.retries = c.hs.retries + 1 ∧
        (c.hs.retries + 1 = HTTPD_MAX_RETRIES → c1.arg = false))) := by
  refine ⟨fun pcb => ⟨rfl, rfl⟩, fun evs c1 h h1 => ?_,
    fun pcb evs c1 h h1 =>
      http_events_retries_lt T F H evs (conn_accepted pcb) c1
        (fun _ => Nat.zero_lt_succ 3) h h1,
    fun p err e c1 h h1 => http_recv_retries T F H c c1 p err e hinv h h1,
    fun e c1 h h1 => ?_, fun e c1 h => ⟨fun h1 => http_poll_retries_lt T F c c1 e hinv h h1,
      fun ha => ?_⟩⟩
  · have g := http_events_retries_lt T F H evs c c1 hinv h h1
    unfold HTTPD_MAX_RETRIES at g ⊢
    have hmod : (c1.hs.retries + 1) % 256 = c1.hs.retries + 1 := Nat.mod_eq_of_lt (by omega)
    rw [hmod]
    omega
  · cases ha : c.arg
    · unfold http_sent at h
      rw [if_pos (by simp [ha])] at h
      simp only [Option.some.injEq, Prod.mk.injEq] at h
      obtain ⟨-, hc⟩ := h
      subst hc
      rw [ha] at h1
      exact absurd h1 (by decide)
    · exact http_sent_retries T F c c1 e ha h
  · have hlt := hinv ha
    have hmod : (c.hs.retries + 1) % 256 = c.hs.retries + 1 :=
      Nat.mod_eq_of_lt (by unfold HTTPD_MAX_RETRIES at hlt; omega)
    obtain ⟨s1, s2⟩ := http_poll_step T F c c1 e ha h
    rw [hmod] at s1 s2
    by_cases hm : c.hs.retries + 1 = HTTPD_MAX_RETRIES
    · have g := Conn.life_part_fields (s1 hm)
      exact ⟨g.2.2.2, fun _ => g.1⟩
    · rcases s2 hm with g | ⟨-, g⟩
      · exact ⟨(Conn.life_part_fields g).2.2.2, fun hx => absurd hx hm⟩
      · exact ⟨(Conn.life_part_fields g).2.2.2, fun hx => absurd hx hm⟩

/-- C34, witness: a fresh connection on the demo site; after three poll
events it is live with the counter at 3, after the fourth it is closed. -/
theorem http_events_retries_below_max_witness :
    ((conn_accepted ()).arg = true → (conn_accepted ()).hs.retries < HTTPD_MAX_RETRIES) ∧
    (∀ (evs : List Event) (c1 : Conn Unit),
      http_events tcpAlwaysMem demoFS demoTables evs (conn_accepted ()) = some c1 →
        c1.arg = true →
        c1.hs.retries < HTTPD_MAX_RETRIES ∧
        (c1.hs.retries + 1) % 256 = c1.hs.retries + 1 ∧
        (c1.hs.retries + 1) % 256 ≤ HTTPD_MAX_RETRIES) ∧
    (http_events tcpAlwaysMem demoFS demoTables [Event.poll, Event.poll, Event.poll]
        (conn_accepted ())).map (fun r => (r.arg, r.hs.retries)) = some (true, 3) ∧
    (http_events tcpAlwaysMem demoFS demoTables
        [Event.poll, Event.poll, Event.poll, Event.poll]
        (conn_accepted ())).map (fun r => (r.arg, r.hs.retries)) = some (false, 4) :=
  ⟨fun _ => by decide,
    (http_events_retries_below_max tcpAlwaysMem demoFS demoTables (conn_accepted ())
      (fun _ => by decide)).2.1,
    by decide!, by decide!⟩

/-! ## The value returned by http_send_data when it closes -/


/-- A failed `webfs_read` (lines 731-738): the connection is closed and the
call returns 1. -/
theorem http_send_read_failure_closes {σ : Type} (T : Tcp σ) (F : WebFS) (c : Conn σ)
    (hd : webfs_file) (b : List Char) (harg : c.arg = true)
    (hidx : ¬ c.hs.hdr_index < NUM_FILE_HDR_STRINGS) (hleft : c.hs.left = 0)
    (hh : c.hs.handle = some hd) (hbl : 0 < F.webfs_bytes_left hd) (hbuf : c.hs.buf = some b)
    (hread : (F.webfs_read hd c.hs.buf_len.toNat).1 = none) :
    http_send_data T F c = some (1, (http_close_conn T
      { c with hs := { c.hs with handle := some (F.webfs_read hd c.hs.buf_len.toNat).2 } }
      true).2) := by
  unfold http_send_data
  rw [if_neg (by simp [harg]), if_neg hidx]
  unfold http_send_body
  rw [if_pos hleft, hh]
  simp only []
  rw [if_neg (by omega)]
  split
  · unfold http_send_read
    cases hr : F.webfs_read hd c.hs.buf_len.toNat with
    | mk res h1 =>
      rw [hr] at hread
      simp only [] at hread
      subst hread
      rfl
  · rename_i hn
    rw [hbuf] at hn
    simp at hn

/-- C37: the value `http_send_data` returns when it closes the connection.
On a live connection past its header block with `hs->left == 0`, an open
file that reports bytes left and a read buffer, a `webfs_read` that returns
a negative count makes `http_send_data` call `http_close_conn` and return 1
(lines 731-738), not 0: the state is freed, `tcp_close` is called, nothing
is written.  On a poll event below the idle limit `http_poll` then reaches
its `tcp_output` on the pcb just closed.  This is the only such path: every
other close made by `http_send_data` returns 0. -/
theorem http_send_data_failed_read_returns_one {σ : Type} (T : Tcp σ) (F : WebFS) (c : Conn σ)
    (hd : webfs_file) (b : List Char) (harg : c.arg = true)
    (hidx : ¬ c.hs.hdr_index < NUM_FILE_HDR_STRINGS) (hleft : c.hs.left = 0)
    (hh : c.hs.handle = some hd) (hbl : 0 < F.webfs_bytes_left hd) (hbuf : c.hs.buf = some b)
    (hread : (F.webfs_read hd c.hs.buf_len.toNat).1 = none) :
    (∃ c1, http_send_data T F c = some (1, c1) ∧ c1.arg = false ∧
      c1.closes = c.closes + 1 ∧ c1.freed = c.freed + 1 ∧ c1.wire = c.wire) ∧
    (c.hs.retries + 1 < HTTPD_MAX_RETRIES →
      http_poll_tcp_output T F c = some true ∧
      ∃ c1, http_poll T F c = some (ERR_OK, c1) ∧ c1.arg = false ∧
        c1.closes = c.closes + 1 ∧ c1.freed = c.freed + 1) ∧
    (∀ (c2 c1 : Conn σ) (r : Nat), c2.arg = true → http_send_data T F c2 = some (r, c1) →
      c1.arg = false →
      r = 0 ∨ (r = 1 ∧ ∃ hd2 count, (F.webfs_read hd2 count).1 = none ∧
        0 < F.webfs_bytes_left hd2)) := by
  refine ⟨⟨_, http_send_read_failure_closes T F c hd b harg hidx hleft hh hbl hbuf hread,
      (http_close_conn_fields T _).1, (http_close_conn_fields T _).2.2.1,
      (http_close_conn_fields T _).2.1, (http_close_conn_fields T _).2.2.2.2.1⟩,
    fun hlt => ?_, fun c2 c1 r h2 hs hclosed => ?_⟩
  · have hmod : (c.hs.retries + 1) % 256 = c.hs.retries + 1 :=
      Nat.mod_eq_of_lt (by unfold HTTPD_MAX_RETRIES at hlt; omega)
    have hne : ¬ (c.hs.retries + 1) % 256 = HTTPD_MAX_RETRIES := by
      rw [hmod]
      omega
    have hs1 := http_send_read_failure_closes T F
      { c with hs := { c.hs with retries := (c.hs.retries + 1) % 256 } } hd b harg hidx hleft hh
      hbl hbuf hread
    have hhn : c.hs.handle ≠ none := by
      rw [hh]
      simp
    constructor
    · unfold http_poll_tcp_output
      rw [if_neg (by simp [harg])]
      simp only []
      rw [if_neg hne, if_pos hhn, hs1]
      rfl
    · unfold http_poll
      rw [if_neg (by simp [harg])]
      simp only []
      rw [if_neg hne, if_pos hhn, hs1]
      exact ⟨_, rfl, (http_close_conn_fields T _).1, (http_close_conn_fields T _).2.2.1,
        (http_close_conn_fields T _).2.1⟩
  · rcases http_send_data_close T F c2 c1 r hs with e | e
    · rw [e, h2] at hclosed
      exact absurd hclosed (by decide)
    · obtain ⟨cpre, -, -, hr | hr⟩ := e
      · exact Or.inl hr.1
      · exact Or.inr hr

/-- C37, witness: a resource with 300 bytes left whose read fails; the call
returns 1 with the connection closed, and a poll event calls `tcp_output`
after the close. -/
theorem http_send_data_failed_read_returns_one_witness :
    (http_send_data (tcpMalloc 536) failedReadFS conn_reading).map
        (fun r => (r.1, r.2.arg, r.2.closes, r.2.freed, r.2.wire))
      = some (1, false, 1, 1, []) ∧
    http_poll_tcp_output (tcpMalloc 536) failedReadFS conn_reading = some true ∧
    (http_poll (tcpMalloc 536) failedReadFS conn_reading).map
        (fun r => (r.2.arg, r.2.closes, r.2.freed)) = some (false, 1, 1) ∧
    (∃ c1, http_send_data (tcpMalloc 536) failedReadFS conn_reading = some (1, c1) ∧
      c1.arg = false ∧ c1.closes = conn_reading.closes + 1 ∧
      c1.freed = conn_reading.freed + 1 ∧ c1.wire = conn_reading.wire) :=
  ⟨by decide!, by decide!, by decide!,
    (http_send_data_failed_read_returns_one (tcpMalloc 536) failedReadFS conn_reading
      { data := none, len := 0, http_header_included := false, priv := 300 }
      (List.replicate 268 NUL) rfl (by decide) rfl rfl (by decide) rfl rfl).1⟩

/-! ## Where extract_params is undefined -/


theorem extract_params_key_null : ∀ (fuel : Nat),
    extract_params_key (fuel + 1) none = some (none, none) := by
  intro fuel
  rfl

/-- The token the inner loop of `extract_params` stops at is made of bytes
of the string. -/
theorem extract_params_key_mem :
    ∀ (fuel : Nat) (s kp : List Char) (p1 : Option (List Char)),
      extract_params_key fuel (some s) = some (some kp, p1) → ∀ ch ∈ kp, ch ∈ s := by
  intro fuel
  induction fuel with
  | zero =>
    intro s kp p1 h
    simp [extract_params_key] at h
  | succ f ih =>
    intro s kp p1 h ch hch
    unfold extract_params_key strsep at h
    simp only [] at h
    cases hk : strchr s '&' with
    | none =>
      rw [hk] at h
      simp only [] at h
      split_ifs at h with he
      · cases f with
        | zero => simp [extract_params_key] at h
        | succ f2 =>
          rw [extract_params_key_null] at h
          simp at h
      · simp only [Option.some.injEq, Prod.mk.injEq] at h
        obtain ⟨h1, -⟩ := h
        subst h1
        exact hch
    | some k =>
      rw [hk] at h
      simp only [] at h
      split_ifs at h with he
      · exact List.mem_of_mem_drop (ih _ kp p1 h ch hch)
      · simp only [Option.some.injEq, Prod.mk.injEq] at h
        obtain ⟨h1, -⟩ := h
        subst h1
        exact List.mem_of_mem_take hch

theorem strchr_lt_length (ch : Char) :
    ∀ (s : List Char) (k : Nat), strchr s ch = some k → k < s.length := by
  intro s
  induction s with
  | nil => intro k h; simp [strchr] at h
  | cons x xs ih =>
    intro k h
    unfold strchr at h
    split_ifs at h
    · simp only [Option.some.injEq] at h
      subst h
      simp
    · cases hx : strchr xs ch with
      | none => rw [hx] at h; simp at h
      | some j =>
        rw [hx] at h
        simp only [Option.map_some', Option.some.injEq] at h
        subst h
        have := ih j hx
        simp
        omega

/-- The inner loop of `extract_params` ends within `strlen + 2` calls of
`strsep`. -/
theorem extract_params_key_defined :
    ∀ (fuel : Nat) (s : List Char), s.length + 2 ≤ fuel →
      ∃ r, extract_params_key fuel (some s) = some r := by
  intro fuel
  induction fuel with
  | zero => intro s h; omega
  | succ f ih =>
    intro s hf
    unfold extract_params_key strsep
    simp only []
    cases hk : strchr s '&' with
    | none =>
      simp only []
      split_ifs with he
      · obtain ⟨f2, rfl⟩ : ∃ f2, f = f2 + 1 := ⟨f - 1, by omega⟩
        exact ⟨_, extract_params_key_null f2⟩
      · exact ⟨_, rfl⟩
    | some k =>
      simp only []
      have hlt := strchr_lt_length '&' s k hk
      split_ifs with he
      · apply ih
        rw [List.length_drop]
        omega
      · exact ⟨_, rfl⟩

/-- On a string without `'='` the function is undefined: the inner loop ends
with `key_point == NULL`, read by `strchr` (line 34), or with a token in
which `strchr` finds no `'='`, so that line 35 writes through `NULL`. -/
theorem extract_params_no_equals (s : List Char) (hs : '=' ∉ s) :
    extract_params (some s) = none ∧
    (extract_params_key (s.length + 2) (some s) = some (none, none) ∨
      ∃ kp p1, extract_params_key (s.length + 2) (some s) = some (some kp, p1) ∧
        strchr kp '=' = none) := by
  obtain ⟨r, hr⟩ := extract_params_key_defined (s.length + 2) s (Nat.le_refl _)
  obtain ⟨kp, p1⟩ := r
  cases kp with
  | none =>
    have hp : p1 = none := by
      have : ∀ (fuel : Nat) (t : List Char) (q : Option (List Char)),
          extract_params_key fuel (some t) = some (none, q) → q = none := by
        intro fuel
        induction fuel with
        | zero => intro t q h; simp [extract_params_key] at h
        | succ f ih =>
          intro t q h
          unfold extract_params_key strsep at h
          simp only [] at h
          cases hk : strchr t '&' with
          | none =>
            rw [hk] at h
            simp only [] at h
            split_ifs at h with he
            · cases f with
              | zero => simp [extract_params_key] at h
              | succ f2 =>
                rw [extract_params_key_null] at h
                simp only [Option.some.injEq, Prod.mk.injEq] at h
                exact h.2.symm
            · simp at h
          | some k =>
            rw [hk] at h
            simp only [] at h
            split_ifs at h with he
            · exact ih _ q h
            · simp at h
      exact this _ s p1 hr
    subst hp
    refine ⟨?_, Or.inl hr⟩
    unfold extract_params
    simp only []
    rw [extract_params_loop, if_neg (by decide), hr]
  | some kp =>
    have hno : strchr kp '=' = none :=
      strchr_none_of_not_mem '=' kp
        (fun hm => hs (extract_params_key_mem _ s kp p1 hr '=' hm))
    refine ⟨?_, Or.inr ⟨kp, p1, hr, hno⟩⟩
    unfold extract_params
    simp only []
    rw [extract_params_loop, if_neg (by decide), hr]
    simp only []
    rw [hno]

/-- The loop of `extract_params` on well-formed pairs followed by a trailing
`'&'`: after the last pair `p` points to the empty string, the inner loop
ends with `key_point == NULL`. -/
theorem extract_params_loop_trailing :
    ∀ (items : List (Nat × List Char × List Char)),
      (∀ it ∈ items, '&' ∉ it.2.1 ∧ '=' ∉ it.2.1 ∧ '&' ∉ it.2.2) →
      ∀ (fuel count : Nat) (para : List (List Char × List Char)),
        items.length + 1 ≤ fuel → count + items.length ≤ MAX_PARAM →
        extract_params_loop fuel (some (join_params items ++ ['&'])) count para = none := by
  intro items
  induction items with
  | nil =>
    intro _ fuel count para hf hc
    obtain ⟨f, rfl⟩ : ∃ f, fuel = f + 1 := ⟨fuel - 1, by omega⟩
    rw [extract_params_loop, if_neg (by simp at hc; omega)]
    rfl
  | cons it rest ih =>
    intro hwf fuel count para hf hc
    obtain ⟨f, rfl⟩ : ∃ f, fuel = f + 1 := ⟨fuel - 1, by omega⟩
    obtain ⟨hk1, hk2, hv⟩ := hwf it (List.mem_cons_self _ _)
    simp only [List.length_cons] at hf hc
    cases rest with
    | nil =>
      have hj : join_params [it] ++ ['&']
          = List.replicate it.1 '&' ++ (param_pair it.2 ++ amp_tail (some [])) := by
        simp [join_params, amp_tail]
      rw [hj, extract_params_loop_step f count it.1 it.2 (some []) para hk1 hk2 hv (by omega)]
      obtain ⟨f2, rfl⟩ : ∃ f2, f = f2 + 1 := ⟨f - 1, by simp at hf; omega⟩
      rw [extract_params_loop, if_neg (by simp at hc; omega)]
      rfl
    | cons more rest2 =>
      have hj : join_params (it :: more :: rest2) ++ ['&']
          = List.replicate it.1 '&' ++
              (param_pair it.2 ++ amp_tail (some (join_params (more :: rest2) ++ ['&']))) := by
        simp [join_params, amp_tail]
      rw [hj, extract_params_loop_step f count it.1 it.2 _ para hk1 hk2 hv (by omega)]
      exact ih (fun x hx => hwf x (List.mem_cons_of_mem _ hx)) f (count + 1) _
        (by omega) (by omega)

/-- C40: `extract_params` is not well defined on every non-null string.  On
a string without `'='` (the empty string and `abc` among them) the inner
loop ends either with `key_point == NULL`, which line 34 hands to `strchr`,
or with a token in which `strchr` finds no `'='`, so that line 35 writes
through `idx == NULL`.  On at most `MAX_PARAM` well-formed pairs followed by
a trailing `'&'` (`a=1&` among them) the pass after the last pair finds
only the empty string and ends with `key_point == NULL`.  The model has no
result in these cases. -/
theorem extract_params_undefined_on_malformed (s : List Char)
    (items : List (Nat × List Char × List Char)) (hs : '=' ∉ s)
    (hwf : ∀ it ∈ items, '&' ∉ it.2.1 ∧ '=' ∉ it.2.1 ∧ '&' ∉ it.2.2)
    (hlen : items.length ≤ MAX_PARAM) :
    extract_params (some s) = none ∧
    (extract_params_key (s.length + 2) (some s) = some (none, none) ∨
      ∃ kp p1, extract_params_key (s.length + 2) (some s) = some (some kp, p1) ∧
        strchr kp '=' = none) ∧
    extract_params (some (join_params items ++ ['&'])) = none ∧
    (extract_params (some []) = none ∧
      extract_params_key 2 (some []) = some (none, none)) ∧
    (extract_params (some "abc".toList) = none ∧
      extract_params_key 5 (some "abc".toList) = some (some "abc".toList, none) ∧
      strchr "abc".toList '=' = none) ∧
    (extract_params (some "a=1&".toList) = none ∧
      extract_params_key 6 (some "a=1&".toList) = some (some "a=1".toList, some []) ∧
      extract_params_key 2 (some []) = some (none, none)) := by
  refine ⟨(extract_params_no_equals s hs).1, (extract_params_no_equals s hs).2, ?_,
    ⟨by decide, by decide⟩, ⟨by decide, by decide, by decide⟩,
    ⟨by decide, by decide, by decide⟩⟩
  unfold extract_params
  simp only []
  apply extract_params_loop_trailing items hwf
  · have := join_params_length items
    rw [List.length_append, List.length_singleton]
    omega
  · omega

/-- C40, witness: the string `abc` and the pair `a=1` with a trailing
`'&'`. -/
theorem extract_params_undefined_on_malformed_witness :
    '=' ∉ "abc".toList ∧
    extract_params (some "abc".toList) = none ∧
    join_params [(0, "a".toList, "1".toList)] ++ ['&'] = "a=1&".toList ∧
    extract_params (some (join_params [(0, "a".toList, "1".toList)] ++ ['&'])) = none :=
  ⟨by decide,
    (extract_params_undefined_on_malformed "abc".toList [(0, "a".toList, "1".toList)]
      (by decide) (by decide) (by decide)).1,
    by decide,
    (extract_params_undefined_on_malformed "abc".toList [(0, "a".toList, "1".toList)]
      (by decide) (by decide) (by decide)).2.2.1⟩

/-! ## The closes of http_send_data -/

theorem http_close_conn_left {σ : Type} (T : Tcp σ) (c : Conn σ) :
    (http_close_conn T c true).2.hs.left = c.hs.left := by
  rw [(http_close_conn_hs T c).1]

theorem http_send_file_done_close_at {σ : Type} (T : Tcp σ) (F : WebFS) (c c1 : Conn σ)
    (d : Bool) (w : WriteResult σ) (r : Nat) (harg : c.arg = true)
    (h : http_send_file_done T F c d w = some (r, c1)) (hclosed : c1.arg = false) :
    ∃ hd, c.hs.handle = some hd ∧ r = 0 ∧ F.webfs_bytes_left hd ≤ 0 ∧ c1.hs.left = 0 := by
  unfold http_send_file_done at h
  simp only [] at h
  split_ifs at h with hok hz
  · split at h
    · simp at h
    · rename_i hd hh
      split_ifs at h with hb
      · simp only [Option.some.injEq, Prod.mk.injEq] at h
        obtain ⟨hr, hc⟩ := h
        subst hc
        subst hr
        refine ⟨hd, hh, rfl, hb, ?_⟩
        rw [http_close_conn_left]
        exact hz
      · simp only [Option.some.injEq, Prod.mk.injEq] at h
        obtain ⟨-, hc⟩ := h
        subst hc
        exact absurd ((show c.arg = false from hclosed).symm.trans harg) (by decide)
  · simp only [Option.some.injEq, Prod.mk.injEq] at h
    obtain ⟨-, hc⟩ := h
    subst hc
    exact absurd ((show c.arg = false from hclosed).symm.trans harg) (by decide)
  · split at h
    · simp at h
    · rename_i hd hh
      split_ifs at h with hb
      · simp only [Option.some.injEq, Prod.mk.injEq] at h
        obtain ⟨hr, hc⟩ := h
        subst hc
        subst hr
        refine ⟨hd, hh, rfl, hb, ?_⟩
        rw [http_close_conn_left]
        assumption
      · simp only [Option.some.injEq, Prod.mk.injEq] at h
        obtain ⟨-, hc⟩ := h
        subst hc
        exact absurd ((show c.arg = false from hclosed).symm.trans harg) (by decide)
  · simp only [Option.some.injEq, Prod.mk.injEq] at h
    obtain ⟨-, hc⟩ := h
    subst hc
    exact absurd ((show c.arg = false from hclosed).symm.trans harg) (by decide)

theorem http_send_file_close_at {σ : Type} (T : Tcp σ) (F : WebFS) (c c1 : Conn σ) (d : Bool)
    (r : Nat) (harg : c.arg = true) (h : http_send_file T F c d = some (r, c1))
    (hclosed : c1.arg = false) :
    ∃ hd, c.hs.handle = some hd ∧ r = 0 ∧ F.webfs_bytes_left hd ≤ 0 ∧ c1.hs.left = 0 := by
  rw [http_send_file_eq] at h
  exact http_send_file_done_close_at T F c c1 d _ r harg h hclosed

theorem http_send_read_close_at {σ : Type} (T : Tcp σ) (F : WebFS) (c c1 : Conn σ)
    (hd : webfs_file) (count : Nat) (d : Bool) (r : Nat) (harg : c.arg = true)
    (hz : c.hs.left = 0)
    (h : http_send_read T F c hd count d = some (r, c1)) (hclosed : c1.arg = false) :
    c1.hs.left = 0 ∧
    (((F.webfs_read hd count).1 = none ∧ r = 1) ∨
      (∃ bytes, (F.webfs_read hd count).1 = some bytes ∧ r = 0 ∧
        F.webfs_bytes_left (F.webfs_read hd count).2 ≤ 0)) := by
  unfold http_send_read at h
  cases hr : F.webfs_read hd count with
  | mk res h1 =>
    rw [hr] at h
    cases res with
    | none =>
      simp only [Option.some.injEq, Prod.mk.injEq] at h
      obtain ⟨hr1, hc⟩ := h
      subst hc
      subst hr1
      refine ⟨?_, Or.inl ⟨rfl, rfl⟩⟩
      rw [http_close_conn_left]
      exact hz
    | some bytes =>
      simp only [] at h
      have e := http_send_file_close_at T F _ c1 d r ?_ h hclosed
      · obtain ⟨hd2, e1, e2, e3, e4⟩ := e
        have e1' : h1 = hd2 := Option.some.inj e1
        subst e1'
        exact ⟨e4, Or.inr ⟨bytes, rfl, e2, e3⟩⟩
      · exact harg

theorem http_send_body_close_at {σ : Type} (T : Tcp σ) (F : WebFS) (c c1 : Conn σ) (d : Bool)
    (r : Nat) (harg : c.arg = true) (h : http_send_body T F c d = some (r, c1))
    (hclosed : c1.arg = false) : SendCloseAt T F c r ∧ c1.hs.left = 0 := by
  unfold http_send_body at h
  split_ifs at h with hz
  · cases hh : c.hs.handle with
    | none =>
      rw [hh] at h
      simp only [Option.some.injEq, Prod.mk.injEq] at h
      obtain ⟨hr, hc⟩ := h
      subst hc
      subst hr
      refine ⟨Or.inl ⟨hh, rfl, hz⟩, ?_⟩
      rw [http_close_conn_left]
      exact hz
    | some hd =>
      rw [hh] at h
      simp only [] at h
      split_ifs at h with hb
      · simp only [Option.some.injEq, Prod.mk.injEq] at h
        obtain ⟨hr, hc⟩ := h
        subst hc
        subst hr
        refine ⟨Or.inr ⟨hd, hh, Or.inl ⟨rfl, hb⟩⟩, ?_⟩
        rw [http_close_conn_left]
        exact hz
      · have hb' : 0 < F.webfs_bytes_left hd := by omega
        cases hbuf : c.hs.buf with
        | some b =>
          rw [hbuf] at h
          simp only [] at h
          obtain ⟨e1, e2⟩ := http_send_read_close_at T F c c1 hd _ d r harg hz h hclosed
          exact ⟨Or.inr ⟨hd, hh, Or.inr ⟨hz, hb', c.hs.buf_len.toNat, fun _ => rfl,
            fun hn => absurd (hbuf.symm.trans hn) (by simp), e2⟩⟩, e1⟩
        | none =>
          rw [hbuf] at h
          simp only [] at h
          cases ha : http_send_alloc T (2 * tcp_mss T c.pcb) c.pcb (2 * tcp_mss T c.pcb) with
          | mk res pcb1 =>
            rw [ha] at h
            cases res with
            | none =>
              simp only [Option.some.injEq, Prod.mk.injEq] at h
              obtain ⟨-, hc⟩ := h
              subst hc
              exact absurd ((show c.arg = false from hclosed).symm.trans harg) (by decide)
            | some n =>
              simp only [] at h
              have e := http_send_read_close_at T F
                { c with
                  pcb := pcb1
                  hs := { c.hs with buf := some (List.replicate n NUL), buf_len := n } }
                c1 hd n d r harg hz h hclosed
              obtain ⟨e1, e2⟩ := e
              exact ⟨Or.inr ⟨hd, hh, Or.inr ⟨hz, hb', n, fun hn => absurd hbuf hn,
                fun _ => ⟨c.pcb, by rw [ha]⟩, e2⟩⟩, e1⟩
  · obtain ⟨hd, e1, e2, e3, e4⟩ := http_send_file_close_at T F c c1 d r harg h hclosed
    exact ⟨Or.inr ⟨hd, e1, Or.inl ⟨e2, e3⟩⟩, e4⟩

theorem http_send_hdr_step_left {σ : Type} (T : Tcp σ) (c c1 : Conn σ) (len len1 sl1 : Nat)
    (d d1 : Bool) (h : http_send_hdr_step T c len d = some (c1, len1, sl1, d1)) :
    c1.hs.left = c.hs.left := by
  unfold http_send_hdr_step at h
  cases hh : c.hs.hdrs c.hs.hdr_index with
  | none => rw [hh] at h; simp at h
  | some hdr =>
    rw [hh] at h
    simp only [Option.some.injEq, Prod.mk.injEq] at h
    obtain ⟨hc, -⟩ := h
    subst hc
    simp only []
    split_ifs <;> rfl

theorem http_send_hdr_loop_left {σ : Type} (T : Tcp σ) :
    ∀ (fuel : Nat) (c c1 : Conn σ) (len sl : Nat) (d d1 : Bool),
      http_send_hdr_loop T fuel c len sl d = some (c1, d1) → c1.hs.left = c.hs.left := by
  intro fuel
  induction fuel with
  | zero =>
    intro c c1 len sl d d1 h
    unfold http_send_hdr_loop at h
    split_ifs at h
    simp only [Option.some.injEq, Prod.mk.injEq] at h
    obtain ⟨hc, -⟩ := h
    subst hc
    rfl
  | succ f ih =>
    intro c c1 len sl d d1 h
    unfold http_send_hdr_loop at h
    split_ifs at h
    · cases hs : http_send_hdr_step T c len d with
      | none => rw [hs] at h; simp at h
      | some res =>
        obtain ⟨c2, len2, sl2, d2⟩ := res
        rw [hs] at h
        simp only [] at h
        exact (ih c2 c1 len2 sl2 d2 d1 h).trans (http_send_hdr_step_left T c c2 len len2 sl2 d d2 hs)
    · simp only [Option.some.injEq, Prod.mk.injEq] at h
      obtain ⟨hc, -⟩ := h
      subst hc
      rfl

theorem SendCloseAt.of_fields {σ : Type} (T : Tcp σ) (F : WebFS) (a b : Conn σ) (r : Nat)
    (h1 : a.hs.handle = b.hs.handle) (h2 : a.hs.left = b.hs.left) (h3 : a.hs.buf = b.hs.buf)
    (h4 : a.hs.buf_len = b.hs.buf_len) (h : SendCloseAt T F a r) : SendCloseAt T F b r := by
  unfold SendCloseAt at *
  rw [h1, h2, h3, h4] at h
  exact h

/-- Every close made by a call of `http_send_data` is one of those
`SendCloseAt` describes, and is made with `hs->left == 0`. -/
theorem http_send_data_close_at {σ : Type} (T : Tcp σ) (F : WebFS) (c c1 : Conn σ) (r : Nat)
    (harg : c.arg = true) (h : http_send_data T F c = some (r, c1)) (hclosed : c1.arg = false) :
    SendCloseAt T F c r ∧ c1.hs.left = 0 := by
  unfold http_send_data at h
  split_ifs at h with ha hi
  · rw [harg] at ha
    exact absurd ha (by decide)
  · simp only [] at h
    cases hl : http_send_hdr_loop T (tcp_sndbuf T c.pcb) c (tcp_sndbuf T c.pcb)
        (tcp_sndbuf T c.pcb) false with
    | none => rw [hl] at h; simp at h
    | some res =>
      obtain ⟨c2, d2⟩ := res
      rw [hl] at h
      simp only [] at h
      obtain ⟨-, f1, f2⟩ := http_send_hdr_loop_frame T _ c c2 _ _ _ d2 hl
      obtain ⟨f3, f4, -, -⟩ := http_send_hdr_loop_buf T _ c c2 _ _ _ d2 hl
      have f5 := http_send_hdr_loop_left T _ c c2 _ _ _ d2 hl
      split_ifs at h
      · simp only [Option.some.injEq, Prod.mk.injEq] at h
        obtain ⟨-, hc⟩ := h
        subst hc
        rw [f2, harg] at hclosed
        exact absurd hclosed (by decide)
      · obtain ⟨e1, e2⟩ := http_send_body_close_at T F c2 c1 d2 r (f2.trans harg) h hclosed
        exact ⟨SendCloseAt.of_fields T F c2 c r f1 f5 f4 f3 e1, e2⟩
  · exact http_send_body_close_at T F c c1 false r harg h hclosed

/-- C22: when the body write of `http_send_data` is accepted and brings
`hs->left` to 0 while the provider reports no bytes left, the connection is
closed in that same call, which returns 0.  Conversely, every close made by
a call of `http_send_data` on a live connection is made with `hs->left == 0`
and is one of those `SendCloseAt` describes.  A close that returns 0 is made
with no file open or with the provider reporting no bytes left for the open
file, as it stands at the call or as the `webfs_read` of this same call
leaves it; and when the file reports bytes left at the call, nothing is
closed unless `hs->left` is 0 at the call and the file is read.  The only
close that does not return 0 is that of a failed `webfs_read`, which
returns 1. -/
theorem http_send_data_closes_at_end_of_file {σ : Type} (T : Tcp σ) (F : WebFS) (c : Conn σ)
    (w : WriteResult σ)
    (hw : w = http_write T c.pcb (c.hs.file.getD [])
      (min (min (tcp_sndbuf T c.pcb) c.hs.left) (2 * tcp_mss T c.pcb))) :
    (∀ (dts : Bool) (hd : webfs_file), c.hs.handle = some hd → F.webfs_bytes_left hd ≤ 0 →
      w.err = ERR_OK → (c.hs.left + U32 - w.len) % U32 = 0 →
      ∃ c1, http_send_file T F c dts = some (0, c1) ∧ c1.arg = false ∧
        c1.closes = c.closes + 1 ∧ c1.freed = c.freed + 1 ∧
        c1.wire = c.wire ++ (c.hs.file.getD []).take w.len) ∧
    (c.arg = true → ∀ (r : Nat) (c1 : Conn σ), http_send_data T F c = some (r, c1) →
      c1.arg = false → SendCloseAt T F c r ∧ c1.hs.left = 0) ∧
    (c.arg = true → ∀ (c1 : Conn σ), http_send_data T F c = some (0, c1) → c1.arg = false →
      c1.hs.left = 0 ∧
      (c.hs.handle = none ∨
        ∃ hd, c.hs.handle = some hd ∧
          (F.webfs_bytes_left hd ≤ 0 ∨
            (c.hs.left = 0 ∧ ∃ (count : Nat) (bytes : List Char),
              (F.webfs_read hd count).1 = some bytes ∧
              F.webfs_bytes_left (F.webfs_read hd count).2 ≤ 0)))) ∧
    (c.arg = true → ∀ (r : Nat) (c1 : Conn σ), http_send_data T F c = some (r, c1) →
      c1.arg = false → r ≠ 0 →
      r = 1 ∧ c.hs.left = 0 ∧ ∃ hd count, c.hs.handle = some hd ∧
        0 < F.webfs_bytes_left hd ∧ (F.webfs_read hd count).1 = none) := by
  refine ⟨?_, fun harg r c1 h hclosed => http_send_data_close_at T F c c1 r harg h hclosed,
    fun harg c1 h hclosed => ?_, fun harg r c1 h hclosed hr => ?_⟩
  · intro dts hd hh hb hok hz
    rw [http_send_file_eq, ← hw]
    unfold http_send_file_done
    simp only [hok, if_true, hz, hh, hb]
    refine ⟨_, rfl, (http_close_conn_fields T _).1, ?_, ?_, ?_⟩
    · rw [(http_close_conn_fields T _).2.2.1]
    · rw [(http_close_conn_fields T _).2.1]
    · rw [(http_close_conn_fields T _).2.2.2.2.1]
  · obtain ⟨e, hl⟩ := http_send_data_close_at T F c c1 0 harg h hclosed
    refine ⟨hl, ?_⟩
    rcases e with ⟨hn, -, -⟩ | ⟨hd, hh, e⟩
    · exact Or.inl hn
    · refine Or.inr ⟨hd, hh, ?_⟩
      rcases e with ⟨-, hb⟩ | ⟨hz, -, count, -, -, e⟩
      · exact Or.inl hb
      · rcases e with ⟨-, h1⟩ | ⟨bytes, hb1, -, hb2⟩
        · exact absurd h1 (by decide)
        · exact Or.inr ⟨hz, count, bytes, hb1, hb2⟩
  · obtain ⟨e, -⟩ := http_send_data_close_at T F c c1 r harg h hclosed
    rcases e with ⟨-, h0, -⟩ | ⟨hd, hh, e⟩
    · exact absurd h0 hr
    · rcases e with ⟨h0, -⟩ | ⟨hz, hb, count, -, -, e⟩
      · exact absurd h0 hr
      · rcases e with ⟨hn, h1⟩ | ⟨bytes, -, h0, -⟩
        · exact ⟨h1, hz, hd, count, hh, hb, hn⟩
        · exact absurd h0 hr

/-- C22, witness: the 5 bytes of `index` are accepted in one write and the
provider has nothing more; the call returns 0 with the connection closed.
On the streaming provider the 300 bytes left are read and accepted in one
call, which closes as well. -/
theorem http_send_data_closes_at_end_of_file_witness :
    ((http_send_data (tcpScript 2000) demoFS conn_body).map
        (fun r => (r.1, r.2.arg, r.2.closes, r.2.wire, r.2.hs.left))
      = some (0, false, 1, "index".toList, 0)) ∧
    ((http_send_data (tcpMalloc 536) streamFS (conn_streaming 0)).map
        (fun r => (r.1, r.2.arg, r.2.closes, r.2.wire.length, r.2.hs.left))
      = some (0, false, 1, 300, 0)) ∧
    (∀ (dts : Bool) (hd : webfs_file), conn_body.hs.handle = some hd →
      demoFS.webfs_bytes_left hd ≤ 0 →
      (http_write (tcpScript 2000) conn_body.pcb (conn_body.hs.file.getD [])
        (min (min (tcp_sndbuf (tcpScript 2000) conn_body.pcb) conn_body.hs.left)
          (2 * tcp_mss (tcpScript 2000) conn_body.pcb))).err = ERR_OK →
      (conn_body.hs.left + U32 -
        (http_write (tcpScript 2000) conn_body.pcb (conn_body.hs.file.getD [])
          (min (min (tcp_sndbuf (tcpScript 2000) conn_body.pcb) conn_body.hs.left)
            (2 * tcp_mss (tcpScript 2000) conn_body.pcb))).len) % U32 = 0 →
      ∃ c1, http_send_file (tcpScript 2000) demoFS conn_body dts = some (0, c1) ∧
        c1.arg = false ∧ c1.closes = conn_body.closes + 1 ∧
        c1.freed = conn_body.freed + 1 ∧
        c1.wire = conn_body.wire ++ (conn_body.hs.file.getD []).take
          (http_write (tcpScript 2000) conn_body.pcb (conn_body.hs.file.getD [])
            (min (min (tcp_sndbuf (tcpScript 2000) conn_body.pcb) conn_body.hs.left)
              (2 * tcp_mss (tcpScript 2000) conn_body.pcb))).len) ∧
    (conn_body.arg = true → ∀ (r : Nat) (c1 : Conn (List err_t)),
      http_send_data (tcpScript 2000) demoFS conn_body = some (r, c1) →
      c1.arg = false → SendCloseAt (tcpScript 2000) demoFS conn_body r ∧ c1.hs.left = 0) :=
  ⟨by decide!, by decide!,
    (http_send_data_closes_at_end_of_file (tcpScript 2000) demoFS conn_body _ rfl).1,
    (http_send_data_closes_at_end_of_file (tcpScript 2000) demoFS conn_body _ rfl).2.1⟩

/-! ## What http_write leaves in its length argument -/

/-- The bytes accepted by the loop of `http_write`: the value of `*length`
after `ERR_OK`, none after any other result. -/
theorem http_write_sent_eq {σ : Type} (T : Tcp σ) (ptr : List Char) :
    ∀ (fuel : Nat) (pcb : σ) (len : Nat),
      http_write_sent T fuel pcb ptr len
        = if (http_write_loop T fuel pcb ptr len).err = ERR_OK
          then (http_write_loop T fuel pcb ptr len).len else 0 := by
  intro fuel
  induction fuel with
  | zero =>
    intro pcb len
    unfold http_write_sent http_write_loop
    simp only []
    split_ifs <;> first | rfl | (exfalso; simp_all)
  | succ f ih =>
    intro pcb len
    unfold http_write_sent http_write_loop
    simp only []
    split_ifs <;>
      first
      | rfl
      | exact ih _ _
      | (rw [ih]; simp_all)
      | (exfalso; simp_all)

/-- After a failure of `http_write` on a request of at least 2 bytes
`*length` is at least 1. -/
theorem http_write_loop_fail_len {σ : Type} (T : Tcp σ) (ptr : List Char) :
    ∀ (fuel : Nat) (pcb : σ) (len : Nat), len ≤ fuel → 2 ≤ len →
      (http_write_loop T fuel pcb ptr len).err ≠ ERR_OK →
      1 ≤ (http_write_loop T fuel pcb ptr len).len := by
  intro fuel
  induction fuel with
  | zero => intro pcb len hf h2; omega
  | succ f ih =>
    intro pcb len hf h2
    unfold http_write_loop
    simp only []
    split_ifs with h1 h3
    · intro hne
      have hlt := http_write_next_lt T (T.tcp_write pcb (ptr.take len) len).2 len h3
      exact ih _ _ (by omega) (by omega) hne
    · intro _
      show 1 ≤ http_write_next T (T.tcp_write pcb (ptr.take len) len).2 len
      unfold http_write_next
      split_ifs
      · exact Nat.le_refl 1
      · omega
    · intro _
      show 1 ≤ len
      omega

/-- C29: what `http_write` leaves in `*length`.  The first length passed to
`tcp_write` is the requested one and no later one is larger.  If the result
is `ERR_OK`, `*length` is the length of the accepted, last `tcp_write`, at
most the requested length, and it is the amount of data sent.  If the
result is not `ERR_OK` no `tcp_write` was accepted, so the amount of data
sent is 0, but line 461 stores `len` all the same: after `ERR_MEM` what the
halving left (at most 1), after any other error the length of the failed
`tcp_write`; for a request of at least 2 bytes `*length` is then at least
1 and differs from the amount of data sent. -/
theorem http_write_length_on_return {σ : Type} (T : Tcp σ) (pcb : σ) (ptr : List Char)
    (L : Nat) :
    (http_write T pcb ptr L).attempts.head? = some L ∧
    (∀ a ∈ (http_write T pcb ptr L).attempts, a ≤ L) ∧
    ((http_write T pcb ptr L).err = ERR_OK →
      (http_write T pcb ptr L).attempts.getLast? = some (http_write T pcb ptr L).len ∧
      (http_write T pcb ptr L).len ≤ L ∧
      http_write_sent T L pcb ptr L = (http_write T pcb ptr L).len) ∧
    ((http_write T pcb ptr L).err ≠ ERR_OK → http_write_sent T L pcb ptr L = 0) ∧
    ((http_write T pcb ptr L).err = ERR_MEM → (http_write T pcb ptr L).len ≤ 1) ∧
    ((http_write T pcb ptr L).err ≠ ERR_OK → (http_write T pcb ptr L).err ≠ ERR_MEM →
      (http_write T pcb ptr L).attempts.getLast? = some (http_write T pcb ptr L).len) ∧
    (2 ≤ L → (http_write T pcb ptr L).err ≠ ERR_OK →
      1 ≤ (http_write T pcb ptr L).len ∧
      (http_write T pcb ptr L).len ≠ http_write_sent T L pcb ptr L) := by
  obtain ⟨i1, i2, i3, i4⟩ := http_write_loop_result T ptr L pcb L (le_refl L)
  have hs := http_write_sent_eq T ptr L pcb L
  unfold http_write
  refine ⟨i1, i2, fun hok => ⟨i3 (by rw [hok]; decide), ?_, ?_⟩, fun hne => ?_, i4,
    fun _ hm => i3 hm, fun h2 hne => ?_⟩
  · exact http_write_loop_ok_le T ptr L pcb L hok
  · rw [hs, if_pos hok]
  · rw [hs, if_neg hne]
  · have h1 := http_write_loop_fail_len T ptr L pcb L (le_refl L) h2 hne
    refine ⟨h1, ?_⟩
    rw [hs, if_neg hne]
    omega

/-- C29, witness: a `tcp_write` of 5 bytes that fails with `ERR_CONN` leaves
`*length` at 5 with nothing sent, and 8 bytes under constant `ERR_MEM`
leave it at 1 with nothing sent; 8 bytes of which the second attempt, of 4
bytes, is accepted leave it at 4, the amount sent. -/
theorem http_write_length_on_return_witness :
    ((http_write (tcpScript 2000) [ERR_CONN] "hello".toList 5).err,
      (http_write (tcpScript 2000) [ERR_CONN] "hello".toList 5).len,
      (http_write (tcpScript 2000) [ERR_CONN] "hello".toList 5).attempts,
      http_write_sent (tcpScript 2000) 5 [ERR_CONN] "hello".toList 5)
      = (ERR_CONN, 5, [5], 0) ∧
    ((http_write tcpAlwaysMem () "abcdefgh".toList 8).err,
      (http_write tcpAlwaysMem () "abcdefgh".toList 8).len,
      (http_write tcpAlwaysMem () "abcdefgh".toList 8).attempts,
      http_write_sent tcpAlwaysMem 8 () "abcdefgh".toList 8)
      = (ERR_MEM, 1, [8, 4, 2], 0) ∧
    ((http_write (tcpScript 2000) [ERR_MEM] "abcdefgh".toList 8).err,
      (http_write (tcpScript 2000) [ERR_MEM] "abcdefgh".toList 8).len,
      (http_write (tcpScript 2000) [ERR_MEM] "abcdefgh".toList 8).attempts,
      http_write_sent (tcpScript 2000) 8 [ERR_MEM] "abcdefgh".toList 8)
      = (ERR_OK, 4, [8, 4], 4) ∧
    (2 ≤ 5 → (http_write (tcpScript 2000) [ERR_CONN] "hello".toList 5).err ≠ ERR_OK →
      1 ≤ (http_write (tcpScript 2000) [ERR_CONN] "hello".toList 5).len ∧
      (http_write (tcpScript 2000) [ERR_CONN] "hello".toList 5).len
        ≠ http_write_sent (tcpScript 2000) 5 [ERR_CONN] "hello".toList 5) :=
  ⟨by decide, by decide, by decide,
    (http_write_length_on_return (tcpScript 2000) [ERR_CONN] "hello".toList 5).2.2.2.2.2.2⟩

/-! ## The uri field of the request object -/

/-- The lookup of a GET (lines 1214-1263), with the end of the URI as the
searches of lines 1216-1221 find it: the request object handed to
`webfs_open` has the `uri` that `req_info.uri` held before the request, and
the field is not assigned. -/
theorem http_parse_uri_get_view_at {σ : Type} (F : WebFS) (H : HeaderTables) (c c2 : Conn σ)
    (p p1 : pbuf) (data_len sp1 : Nat)
    (h : http_parse_uri F H c p data_len false sp1 = some (ERR_OK, p1, c2)) :
    ∃ (k : Nat) (v : RequestView) (more : List (List Char × Option RequestView)),
      (strnstr (c.req.drop (sp1 + 1)) [' '] ((data_len + U16 - (sp1 + 1)) % U16) = some k ∨
        (strnstr (c.req.drop (sp1 + 1)) [' '] ((data_len + U16 - (sp1 + 1)) % U16) = none ∧
          strnstr (c.req.drop (sp1 + 1)) CRLF ((data_len + U16 - (sp1 + 1)) % U16) = some k)) ∧
      c2.opened = c.opened
        ++ ((cstring (((c.req.set sp1 NUL).set (sp1 + 1 + k) NUL).drop (sp1 + 1))).takeWhile
              (fun x => x != '?'), some v) :: more ∧
      v.is_post = c.hs.req_info.is_post ∧
      v.params = (if '?' ∈ cstring (((c.req.set sp1 NUL).set (sp1 + 1 + k) NUL).drop (sp1 + 1)) then
          some (((cstring (((c.req.set sp1 NUL).set (sp1 + 1 + k) NUL).drop (sp1 + 1))).dropWhile
            (fun x => x != '?')).drop 1)
        else none) ∧
      (c.hs.req_info.uri = cptr.null → v.uri = none) ∧
      c2.hs.req_info.uri = c.hs.req_info.uri := by
  unfold http_parse_uri at h
  simp only [Bool.and_false, Bool.false_eq_true, if_false] at h
  split at h
  · unfold http_bad_request http_find_error_file at h
    simp at h
  · rename_i k hk
    cases hx : http_find_file F H _ (cptr.mem Region.req (sp1 + 1)) _ with
    | none => rw [hx] at h; simp at h
    | some res =>
      obtain ⟨e2, c3⟩ := res
      rw [hx] at h
      simp only [Option.map_some', Option.some.injEq, Prod.mk.injEq] at h
      obtain ⟨-, -, hc⟩ := h
      subst hc
      obtain ⟨v, more, g1, g2, g3, g4, -, g6, -⟩ := http_find_file_view F H _ c3 _ _ _ e2 hx
      refine ⟨k, v, more, ?_, g1, g2, g3, g4, g6⟩
      cases hsp : strnstr (c.req.drop (sp1 + 1)) [' '] ((data_len + U16 - (sp1 + 1)) % U16) with
      | some k2 =>
        rw [hsp] at hk
        simp only [Option.some.injEq] at hk
        exact Or.inl (congrArg some hk)
      | none =>
        rw [hsp] at hk
        exact Or.inr ⟨rfl, hk⟩

/-- C25: the request object handed to the lookup for a GET.  When
`http_parse_request` accepts a request that starts with `GET ` on a
connection whose `req_info.uri` is `NULL` (as `http_state_alloc` leaves it),
the first `webfs_open` gets as name the request path (the URI, ended where
the searches of lines 1216-1221 find the space or else the CRLF, up to its
first `'?'`) and a request object with `is_post = 0` and `params` the text
behind the first `'?'` (`NULL` when there is none), but with `uri = NULL`:
no line assigns `req_info.uri` for a GET, and it is still `NULL` after the
request.  A connection set up by `http_accept` is such a connection. -/
theorem http_parse_request_get_uri_unassigned {σ : Type} (F : WebFS) (H : HeaderTables)
    (c c2 : Conn σ) (p p1 : pbuf) (h : http_parse_request F H c p = some (ERR_OK, p1, c2))
    (hget : strncmp_eq (p.headD []) "GET ".toList 4 = true)
    (hnull : c.hs.req_info.uri = cptr.null) :
    (∃ (k : Nat) (v : RequestView) (more : List (List Char × Option RequestView)),
      (strnstr ((p.headD []).drop 4) [' '] ((pbuf_len p + U16 - 4) % U16) = some k ∨
        (strnstr ((p.headD []).drop 4) [' '] ((pbuf_len p + U16 - 4) % U16) = none ∧
          strnstr ((p.headD []).drop 4) CRLF ((pbuf_len p + U16 - 4) % U16) = some k)) ∧
      c2.opened = c.opened
        ++ ((cstring ((((p.headD []).set 3 NUL).set (4 + k) NUL).drop 4)).takeWhile
              (fun x => x != '?'), some v) :: more ∧
      v.uri = none ∧
      v.is_post = 0 ∧
      v.params = (if '?' ∈ cstring ((((p.headD []).set 3 NUL).set (4 + k) NUL).drop 4) then
          some (((cstring ((((p.headD []).set 3 NUL).set (4 + k) NUL).drop 4)).dropWhile
            (fun x => x != '?')).drop 1)
        else none)) ∧
    c2.hs.req_info.uri = cptr.null ∧
    (∀ (pcb : σ), (conn_accepted pcb).hs.req_info.uri = cptr.null) := by
  unfold http_parse_request at h
  simp only [] at h
  split_ifs at h with huse hmin
  · simp at h
  · split at h
    · obtain ⟨k, v, more, g0, g1, g2, g3, g4, g5⟩ :=
        http_parse_uri_get_view_at F H _ c2 p p1 _ _ h
      exact ⟨⟨k, v, more, g0, g1, g4 hnull, g2, g3⟩, g5.trans hnull, fun _ => rfl⟩
    · unfold http_bad_request http_find_error_file at h
      simp at h
  · unfold http_bad_request http_find_error_file at h
    simp at h

/-- C25, witness: `GET /ssid?a=1` on a fresh connection: the lookup gets the
name `/ssid` and the request object with `uri = NULL`, `is_post = 0` and
`params` the text `a=1`. -/
theorem http_parse_request_get_uri_unassigned_witness :
    strncmp_eq "GET /ssid?a=1 HTTP/1.0\r\n\r\n".toList "GET ".toList 4 = true ∧
    (conn_accepted ([] : List err_t)).hs.req_info.uri = cptr.null ∧
    (http_parse_request demoFS demoTables (conn_accepted ([] : List err_t))
        ["GET /ssid?a=1 HTTP/1.0\r\n\r\n".toList]).map (fun r => (r.1, r.2.2.opened))
      = some (ERR_OK, [("/ssid".toList,
          some { uri := none, post_data := none, is_post := 0, params := some "a=1".toList })]) ∧
    ∃ (p1 : pbuf) (c2 : Conn (List err_t)),
      http_parse_request demoFS demoTables (conn_accepted ([] : List err_t))
        ["GET /ssid?a=1 HTTP/1.0\r\n\r\n".toList] = some (ERR_OK, p1, c2) ∧
      c2.hs.req_info.uri = cptr.null :=
  ⟨by decide, rfl, by decide!, _, _, (Option.some_get (by decide!)).symm,
    (http_parse_request_get_uri_unassigned demoFS demoTables (conn_accepted ([] : List err_t)) _
      ["GET /ssid?a=1 HTTP/1.0\r\n\r\n".toList] _ (Option.some_get (by decide!)).symm
      (by decide) rfl).2.1⟩

end Httpd
